import Mathlib

/-!
# Intersplice session engine (`server.js`): shallow embedding

The engine of `server.js` is embedded as pure functions on an explicit `Game` state.

Modelling conventions

* Socket ids, reconnect tokens and pins are strings; the roster `players` (a JS object keyed by
  socket id) is an association list kept in insertion order, one entry per key, and every entry
  satisfies `key = p.id` as in the source.  A loop `for (const p of Object.values(this.players))`
  is a fold over the ids present when the loop starts; an object reference is its id.
* A tile key `"x,y"` is the pair `Pos`; `key`/`fromKey` are mutually inverse on integers.
  `Set<key>` is a duplicate-free list in insertion order, `Map<key,item>` an association list in
  insertion order.
* JS numbers that the engine manipulates are integers here (`Int`); command payloads arrive already
  coerced with `Number(v)||0`.
* `Date.now()` and `Math.random()` are parameters (`now`, an `Oracle`); so is the collation used
  by `localeCompare`.
* Socket ids are not canonical array indices, so `Object.values(players)` enumerates in insertion
  order.
* A display name is a JS string value, kept as its sequence of UTF-16 code units (`JSString`):
  `length`, `slice` and `+` act on that sequence as in the source.  `toLowerCase` is a parameter
  of the join command, like the collation; the concrete sessions use `asciiLower`, which agrees
  with it on ASCII names.
* A command is a `step` on the state; `step` is `none` exactly when the name loop of a join does
  not come back with a free name within its bound.
* Socket emissions and the text appended to the event log are not part of the state.
-/

namespace Intersplice

/-! ## Config -/

def DEFAULT_BOARD_SIZE : Int := 10
def MAX_NUMBER : Int := 6
def REFRESH_INTERVAL : Int := 6

/-- Loot / consumable codes that occur as strings in the source. `OTHER` is any other string. -/
inductive Item where
  | SWORD | SHIELD | WARP | RENOWN_CHIP | SPEED | SPACETIME_SEAL | COIN | LIGHTNING | OTHER
  deriving DecidableEq, Repr

def REFRESH_SPAWN_TYPES : List Item := [Item.SWORD, Item.SHIELD, Item.RENOWN_CHIP, Item.SPEED]
def PAINTABLE_TYPES : List Item := [Item.SWORD, Item.SHIELD, Item.RENOWN_CHIP, Item.SPEED]

/-! ## Helpers -/

structure Pos where
  x : Int
  y : Int
  deriving DecidableEq, Repr

/-- `clamp = (n,min,max) => Math.max(min, Math.min(max, n))`. -/
def clamp (n lo hi : Int) : Int := max lo (min hi n)

def manhattan (a b : Pos) : Int := (a.x - b.x).natAbs + (a.y - b.y).natAbs

/-- Integers `lo, lo+1, ..., lo+n-1` (the values of a JS counting loop). -/
def intRange (lo : Int) (n : Nat) : List Int := (List.range n).map (fun (i : Nat) => lo + (i : Int))

/-- Values of `for (let v = lo; v <= hi; v++)`. -/
def intsFromTo (lo hi : Int) : List Int := intRange lo (hi + 1 - lo).toNat

/-- `edgeTilesOfBoard(size)`. -/
def edgeTilesOfBoard (size : Int) : List Pos :=
  let last := max 0 (size - 1)
  (intsFromTo 0 last).flatMap (fun x => [Pos.mk x 0, Pos.mk x last]) ++
  (intsFromTo 1 (last - 1)).flatMap (fun y => [Pos.mk 0 y, Pos.mk last y])

structure Cornucore where
  center : Pos
  minX : Int
  maxX : Int
  minY : Int
  maxY : Int
  deriving DecidableEq, Repr

/-- `makeCornucore(size)`; `Math.floor(size/2)` is floor division on integers. -/
def makeCornucore (size : Int) : Cornucore :=
  let center : Pos := { x := size / 2, y := size / 2 }
  let half : Int := 2
  { center := center, minX := center.x - half, maxX := center.x + half,
    minY := center.y - half, maxY := center.y + half }

def inCornucore (x y : Int) (cc : Cornucore) : Bool :=
  decide (x ≥ cc.minX) && decide (x ≤ cc.maxX) && decide (y ≥ cc.minY) && decide (y ≤ cc.maxY)

def isCenter (x y : Int) (cc : Cornucore) : Bool :=
  decide (x = cc.center.x) && decide (y = cc.center.y)

/-- `isInnerSanctum(x, y, cc)` (the `cc` of a game is never null). -/
def isInnerSanctum (x y : Int) (cc : Cornucore) : Bool :=
  let cx := cc.center.x
  let cy := cc.center.y
  let r : Int := 1
  decide (x ≥ cx - r) && decide (x ≤ cx + r) && decide (y ≥ cy - r) && decide (y ≤ cy + r)

/-- `ring16TilesCornucore(cc)`. -/
def ring16TilesCornucore (cc : Cornucore) : List Pos :=
  let cx := cc.center.x
  let cy := cc.center.y
  let r : Int := 2
  (intsFromTo (cx - r) (cx + r)).flatMap (fun x => [Pos.mk x (cy - r), Pos.mk x (cy + r)]) ++
  (intsFromTo (cy - r + 1) (cy + r - 1)).flatMap (fun y => [Pos.mk (cx - r) y, Pos.mk (cx + r) y])

/-! ## Data structures -/

abbrev SocketId := String

/-- A JS string value as its sequence of UTF-16 code units. -/
abbrev JSString := List Nat

/-- The UTF-16 code units of a string: one unit for a code point below `0x10000`, a surrogate
pair above. -/
def utf16 (s : String) : JSString :=
  s.data.flatMap (fun c =>
    if c.toNat < 65536 then [c.toNat]
    else [55296 + (c.toNat - 65536) / 1024, 56320 + (c.toNat - 65536) % 1024])

/-- The dynamic `state` tag written on respawn / elimination. -/
inductive LifeTag where
  | exalted | ascended
  deriving DecidableEq, Repr

structure Player where
  id : SocketId
  name : JSString
  color : String
  isAlive : Bool
  isSponsor : Bool
  pos : Option Pos
  vp : Int
  vpDelta : Int
  kills : Int
  usedNumbers : List Int
  selectedNumber : Option Int
  lastRevealedNumber : Option Int
  movementTarget : Option Pos
  buff : Option Item
  cornucopia : Bool
  hasShield : Bool
  pendingBounty : Bool
  speedSteps : Int
  sponsorTargetId : Option SocketId
  clientId : Option String
  pin : String
  connected : Bool
  hadWarpThisRound : Bool
  justRespawned : Bool
  state : Option LifeTag
  ascendedReturnRound : Option Nat
  deriving DecidableEq, Repr

inductive Phase where
  | pregame | number | movement | resolution | refresh | gameover
  deriving DecidableEq, Repr

structure Durations where
  number : Int
  movement : Int
  resolution : Int
  refresh : Int
  deriving DecidableEq, Repr

structure PhaseSeconds where
  number : Int
  movement : Int
  resolution : Int
  deriving DecidableEq, Repr

structure Settings where
  firesPerRefresh : Int
  buffsPerRefresh : Int
  showPhaseTimer : Bool
  phaseDurations : PhaseSeconds
  centerTileVP : Int
  refreshEvery : Int
  eliminationVP : Int
  renownChipVP : Int
  survivalPerRoundEnabled : Bool
  survivalPerRoundVP : Int
  innerSanctumEnabled : Bool
  innerSanctumVP : Int
  deriving DecidableEq, Repr

structure Board where
  fire : List Pos
  buffs : List (Pos × Item)
  deriving DecidableEq, Repr

inductive EndReason where
  | fire_exhausted
  deriving DecidableEq, Repr

structure Game where
  room : String
  hostId : Option SocketId
  players : List Player
  joinOrder : List SocketId
  size : Int
  cc : Cornucore
  board : Board
  phase : Phase
  round : Nat
  timerEnd : Int
  durations : Durations
  interval : Bool
  gameLog : List String
  paused : Bool
  pauseLeft : Int
  endReason : Option EndReason
  settings : Settings
  refreshIndex : Nat
  deriving DecidableEq, Repr

/-- The settings object of the constructor. -/
def defaultSettings : Settings :=
  { firesPerRefresh := 5, buffsPerRefresh := 5, showPhaseTimer := true,
    phaseDurations := { number := 5, movement := 5, resolution := 10 },
    centerTileVP := 0, refreshEvery := REFRESH_INTERVAL,
    eliminationVP := 10, renownChipVP := 5,
    survivalPerRoundEnabled := true, survivalPerRoundVP := 1,
    innerSanctumEnabled := true, innerSanctumVP := 2 }

/-- `recomputeDurations`. -/
def recomputeDurations (s : Settings) : Durations :=
  { number := max 0 s.phaseDurations.number * 1000,
    movement := max 0 s.phaseDurations.movement * 1000,
    resolution := max 0 s.phaseDurations.resolution * 1000,
    refresh := 3000 }

/-- `new Game(room)`: the loot map starts empty. -/
def Game.new (room : String) : Game :=
  { room := room, hostId := none, players := [], joinOrder := [],
    size := DEFAULT_BOARD_SIZE, cc := makeCornucore DEFAULT_BOARD_SIZE,
    board := { fire := [], buffs := [] },
    phase := Phase.pregame, round := 0, timerEnd := 0,
    durations := recomputeDurations defaultSettings,
    interval := false, gameLog := [], paused := false, pauseLeft := 0, endReason := none,
    settings := defaultSettings, refreshIndex := 0 }

/-! ## Roster, set and map primitives -/

/-- `this.players[id]`. -/
def findP (ps : List Player) (id : SocketId) : Option Player := ps.find? (fun p => p.id == id)

/-- In-place mutation of the object stored under `id`. -/
def modP (ps : List Player) (id : SocketId) (f : Player → Player) : List Player :=
  ps.map (fun p => if p.id = id then f p else p)

def Game.modPlayer (g : Game) (id : SocketId) (f : Player → Player) : Game :=
  { g with players := modP g.players id f }

/-- `Set.prototype.add`. -/
def setAdd (s : List Pos) (k : Pos) : List Pos := if k ∈ s then s else s ++ [k]

/-- `Set.prototype.delete`. -/
def setDelete (s : List Pos) (k : Pos) : List Pos := s.filter (fun q => q ≠ k)

/-- `Map.prototype.get`. -/
def mapGet (m : List (Pos × Item)) (k : Pos) : Option Item :=
  (m.find? (fun e => e.1 == k)).map (fun e => e.2)

def mapHas (m : List (Pos × Item)) (k : Pos) : Bool := m.any (fun e => e.1 == k)

/-- `Map.prototype.set`: an existing key keeps its place. -/
def mapSet (m : List (Pos × Item)) (k : Pos) (v : Item) : List (Pos × Item) :=
  if mapHas m k then m.map (fun e => if e.1 = k then (k, v) else e) else m ++ [(k, v)]

/-- `Map.prototype.delete`. -/
def mapDelete (m : List (Pos × Item)) (k : Pos) : List (Pos × Item) := m.filter (fun e => e.1 ≠ k)

def Game.setBuff (g : Game) (k : Pos) (v : Item) : Game :=
  { g with board := { g.board with buffs := mapSet g.board.buffs k v } }

/-! ## Scoring ledger -/

def addVP (amount : Int) (p : Player) : Player :=
  { p with vp := p.vp + amount, vpDelta := p.vpDelta + amount }

/-- `awardVP(p, amount, opts)`; `mirror` is the value the source derives from `opts`
(`false` when `opts === false`, `true` for `true` and for `{mirror:true, ...}`). -/
def awardVP (g : Game) (pid : SocketId) (amount : Int) (mirror : Bool) : Game :=
  let g1 := g.modPlayer pid (addVP amount)
  if mirror then
    { g1 with players := g1.players.map (fun s =>
        if s.isSponsor && s.sponsorTargetId == some pid then addVP amount s else s) }
  else g1

/-- `awardEliminationRenownFlat(winnerIds, victimIds)`. -/
def awardEliminationRenownFlat (g : Game) (winnerIds victimIds : List SocketId) : Game :=
  let perVictim : Int := max 0 g.settings.eliminationVP
  if perVictim = 0 || victimIds.isEmpty || winnerIds.isEmpty then g
  else
    winnerIds.foldl (fun g wid =>
      match findP g.players wid with
      | none => g
      | some _ => awardVP g wid (perVictim * (victimIds.length : Int)) true) g

/-- Loop body of `awardEndOfRoundVPs` for the participant stored under `pid`. -/
def endOfRoundStep (g : Game) (pid : SocketId) : Game :=
  let survOn := g.settings.survivalPerRoundEnabled
  let sVP : Int := max 0 g.settings.survivalPerRoundVP
  let sanctumOn := g.settings.innerSanctumEnabled
  let sanctumVP : Int := max 0 g.settings.innerSanctumVP
  match findP g.players pid with
  | none => g
  | some p =>
    if p.isAlive && !p.isSponsor then
      let g1 := if survOn && decide (sVP > 0) then awardVP g pid sVP false else g
      let g2 :=
        match p.pos with
        | some q => if sanctumOn && isInnerSanctum q.x q.y g.cc then awardVP g1 pid sanctumVP true else g1
        | none => g1
      let ctvp : Int := max 0 g.settings.centerTileVP
      match p.pos with
      | some q => if decide (ctvp > 0) && isCenter q.x q.y g.cc then awardVP g2 pid ctvp true else g2
      | none => g2
    else g

/-- `awardEndOfRoundVPs()`. -/
def awardEndOfRoundVPs (g : Game) : Game :=
  (g.players.map (fun p => p.id)).foldl endOfRoundStep g

/-! ## Combat resolver -/

/-- `p.selectedNumber||1`: `null` and `0` are falsy. -/
def numOr1 (n : Option Int) : Int :=
  match n with
  | none => 1
  | some v => if v = 0 then 1 else v

def combatBase (p : Player) : Int := max 1 (min 6 (numOr1 p.selectedNumber))
def combatSword (p : Player) : Int := if p.buff = some Item.SWORD then 1 else 0
def combatSeal (p : Player) : Int := if p.cornucopia then 2 else 0
def combatTotal (p : Player) : Int := combatBase p + combatSword p + combatSeal p

/-- `Math.max(...xs)` for a non-empty argument list. -/
def maxOf : List Int → Int
  | [] => 0
  | a :: t => t.foldl max a

/-- The field writes shared by the three elimination paths. -/
def ascend (round : Nat) (p : Player) : Player :=
  { p with isAlive := false, isSponsor := true, pos := none, state := some LifeTag.ascended,
           ascendedReturnRound := some (round + 2), justRespawned := false,
           hadWarpThisRound := false }

/-- `L.cornucopia = false`. -/
def clearSeal (p : Player) : Player := { p with cornucopia := false }

/-- `if (L.cornucopia){ L.cornucopia = false; this.board.buffs.set(key(c.x,c.y), "SPACETIME_SEAL") }`. -/
def returnSeal (g : Game) (id : SocketId) : Game :=
  match findP g.players id with
  | none => g
  | some L =>
    if L.cornucopia then (g.modPlayer id clearSeal).setBuff g.cc.center Item.SPACETIME_SEAL
    else g

/-- Elimination of a combat loser or of a participant standing on fire. -/
def eliminate (g : Game) (id : SocketId) : Game :=
  returnSeal (g.modPlayer id (ascend g.round)) id

/-- `L.hasShield = false; if (L.buff === "SHIELD") L.buff = null;`. -/
def consumeShield (p : Player) : Player :=
  { p with hasShield := false, buff := if p.buff = some Item.SHIELD then none else p.buff }

structure LoserAcc where
  g : Game
  victimsForVP : List SocketId
  defeated : List SocketId

/-- Body of `for (const L of losers)`. -/
def loserStep (swordInPlay : Bool) (acc : LoserAcc) (lid : SocketId) : LoserAcc :=
  match findP acc.g.players lid with
  | none => acc
  | some L =>
    let pierced := swordInPlay && L.hasShield
    if !pierced && L.hasShield then
      { g := acc.g.modPlayer lid consumeShield,
        victimsForVP := acc.victimsForVP ++ [lid], defeated := acc.defeated }
    else
      { g := eliminate acc.g lid,
        victimsForVP := acc.victimsForVP, defeated := acc.defeated ++ [lid] }

/-- The pairs `(p, total)` of `vals`. -/
def combatVals (g : Game) (ids : List SocketId) : List (SocketId × Int) :=
  ids.filterMap (fun id => (findP g.players id).map (fun p => (id, combatTotal p)))

def combatMax (g : Game) (ids : List SocketId) : Int := maxOf ((combatVals g ids).map (fun v => v.2))

def combatWinners (g : Game) (ids : List SocketId) : List SocketId :=
  ((combatVals g ids).filter (fun v => v.2 = combatMax g ids)).map (fun v => v.1)

def combatLosers (g : Game) (ids : List SocketId) : List SocketId :=
  ((combatVals g ids).filter (fun v => v.2 < combatMax g ids)).map (fun v => v.1)

/-- `winners.some(w => w.buff === "SWORD")`. -/
def swordInPlay (g : Game) (winners : List SocketId) : Bool :=
  winners.any (fun w =>
    match findP g.players w with
    | some p => p.buff == some Item.SWORD
    | none => false)

/-- `ww.kills = (ww.kills||0) + defeated.length`. -/
def addKills (n : Int) (p : Player) : Player := { p with kills := p.kills + n }

/-- The loser loop, the elimination award and the kill count of one combat branch
(the alliance branch and the single-winner branch perform the same state updates). -/
def combatBranch (g : Game) (winners losers : List SocketId) : Game :=
  let acc := losers.foldl (loserStep (swordInPlay g winners)) { g := g, victimsForVP := [], defeated := [] }
  let g2 := awardEliminationRenownFlat acc.g winners
    (if acc.victimsForVP.isEmpty then acc.defeated else acc.victimsForVP)
  if acc.defeated.isEmpty then g2
  else winners.foldl (fun g w => g.modPlayer w (addKills (acc.defeated.length : Int))) g2

/-- `if (p.buff === "SWORD" || p.buff === "WARP" || p.buff === "SPEED") p.buff = null;`. -/
def consumeEncounterBuff (p : Player) : Player :=
  if p.buff = some Item.SWORD ∨ p.buff = some Item.WARP ∨ p.buff = some Item.SPEED then
    { p with buff := none }
  else p

/-- One iteration of `for (const [k, players] of byPos)`. -/
def combatTile (g : Game) (ids : List SocketId) : Game :=
  if ids.length ≤ 1 then g
  else
    let vals := combatVals g ids
    let winners := combatWinners g ids
    let losers := combatLosers g ids
    let g1 :=
      if winners.length > 1 then combatBranch g winners losers
      else if winners.length = 1 then combatBranch g winners losers
      else g
    vals.foldl (fun g v => g.modPlayer v.1 consumeEncounterBuff) g1

/-- `resolveCombatsDetailed(byPos)`. -/
def resolveCombatsDetailed (g : Game) (byPos : List (Pos × List SocketId)) : Game :=
  byPos.foldl (fun g e => combatTile g e.2) g

/-! ## Generic list helpers -/

/-- Insertion of `a`, which preceded every element of the list: before the first `b` with
`cmp a b ≤ 0`. -/
def insertStable {α : Type} (cmp : α → α → Int) (a : α) : List α → List α
  | [] => [a]
  | b :: t => if cmp a b ≤ 0 then a :: b :: t else b :: insertStable cmp a t

/-- `Array.prototype.sort(cmp)` (stable) for a comparator that is a total preorder. -/
def sortStable {α : Type} (cmp : α → α → Int) (l : List α) : List α :=
  l.foldr (fun a acc => insertStable cmp a acc) []

/-- `arr.indexOf(v)`, `-1` when absent. -/
def indexOfJS (l : List SocketId) (v : SocketId) : Int :=
  if v ∈ l then (l.indexOf v : Int) else -1

def swapAt {α : Type} (a : List α) (i j : Nat) : List α :=
  match a.get? i, a.get? j with
  | some x, some y => (a.set i y).set j x
  | _, _ => a

/-- `for (let i = n; i > 0; i--){ j = floor(random*(i+1)); swap }` with `r i` the raw draw. -/
def shuffleLoop {α : Type} (r : Nat → Nat) : Nat → List α → List α
  | 0, a => a
  | i + 1, a => shuffleLoop r i (swapAt a (i + 1) (r (i + 1) % (i + 2)))

/-- `shuffle(arr)` (Fisher-Yates). -/
def shuffle {α : Type} (r : Nat → Nat) (a : List α) : List α := shuffleLoop r (a.length - 1) a

/-- What the runtime supplies to one handler: the raw `Math.random()` draws, per call site, and
the collation `String.prototype.localeCompare`. -/
structure Oracle where
  move : SocketId → Nat
  num : SocketId → Nat
  shuffleA : Nat → Nat
  shuffleB : Nat → Nat
  spawnType : Nat → Nat
  localeCompare : JSString → JSString → Int

/-! ## Config and spawns -/

/-- Keys of tiles occupied by positioned Alive participants. -/
def occupiedTiles (ps : List Player) : List Pos :=
  (ps.filter (fun p => p.isAlive && !p.isSponsor && p.pos.isSome)).filterMap (fun p => p.pos)

def inBoard (size : Int) (k : Pos) : Bool :=
  decide (k.x ≥ 0) && decide (k.y ≥ 0) && decide (k.x < size) && decide (k.y < size)

/-- `setSize(n)`; `n` is `Number(n)`. -/
def setSize (g : Game) (n : Int) : Game :=
  let s := clamp (if n = 0 then DEFAULT_BOARD_SIZE else n) 8 64
  let cc := makeCornucore s
  let fire := g.board.fire.filter (fun k => inBoard s k)
  let buffs := g.board.buffs.filter (fun e => inBoard s e.1)
  let buffs1 := if !(g.players.any (fun p => p.cornucopia)) then mapSet buffs cc.center Item.SPACETIME_SEAL else buffs
  { g with size := s, cc := cc, board := { fire := fire, buffs := buffs1 } }

/-- `Math.min(...assigned.map(a => manhattan(a,c)))` for non-empty `assigned`. -/
def minOf : List Int → Int
  | [] => 0
  | a :: t => t.foldl min a

/-- `spawnPosition()`. -/
def spawnPosition (g : Game) : Pos :=
  let candidates :=
    (intsFromTo 0 (g.size - 1)).flatMap (fun x => [Pos.mk x 0, Pos.mk x (g.size - 1)]) ++
    (intsFromTo 1 (g.size - 2)).flatMap (fun y => [Pos.mk 0 y, Pos.mk (g.size - 1) y])
  let occupied := occupiedTiles g.players
  let open_ := candidates.filter (fun p =>
    !inCornucore p.x p.y g.cc && !decide (p ∈ g.board.fire) && !decide (p ∈ occupied))
  match open_ with
  | [] => Pos.mk 0 0
  | _ :: _ =>
    let assigned := (g.joinOrder.filterMap (fun id => findP g.players id)).filterMap (fun p => p.pos)
    let scored := open_.map (fun c =>
      (c, if assigned.isEmpty then (9999 : Int) else minOf (assigned.map (fun a => manhattan a c))))
    match sortStable (fun a b => b.2 - a.2) scored with
    | [] => Pos.mk 0 0
    | top :: _ => top.1

/-! ## Lifecycle -/

/-- `startGame({size})`; a falsy `size` is `none` or `0`. -/
def startGame (g : Game) (size : Option Int) (now : Int) : Game :=
  let g1 := match size with
    | none => g
    | some n => if n = 0 then g else setSize g n
  { g1 with phase := Phase.number, round := 1, timerEnd := now + g1.durations.number, interval := true }

/-- `endGame(reason)`. -/
def endGame (g : Game) (reason : Option EndReason) (now : Int) : Game :=
  { g with phase := Phase.gameover, timerEnd := now, interval := false,
           endReason := match reason with
             | some r => some r
             | none => g.endReason }

/-- The per-participant writes of `reset()`. -/
def resetPlayer (spawn : Pos) (p : Player) : Player :=
  { p with isAlive := true, isSponsor := false, pos := some spawn, vp := 0, vpDelta := 0,
           usedNumbers := [], selectedNumber := none, movementTarget := none,
           buff := none, hasShield := false, pendingBounty := false,
           speedSteps := 2, cornucopia := false, sponsorTargetId := none }

/-- `reset()`. -/
def reset (g : Game) : Game :=
  let g1 := (g.players.map (fun p => p.id)).foldl
    (fun g id => g.modPlayer id (resetPlayer (spawnPosition g))) { g with interval := false }
  { g1 with board := { fire := [], buffs := mapSet [] g1.cc.center Item.SPACETIME_SEAL },
            phase := Phase.pregame, round := 0, timerEnd := 0, paused := false, pauseLeft := 0,
            endReason := none }

/-! ## Respawns -/

structure RespawnAcc where
  g : Game
  shuffled : List Pos

def respawnPlayer (spot : Pos) (p : Player) : Player :=
  { p with isAlive := true, isSponsor := false, state := some LifeTag.exalted, pos := some spot,
           buff := some Item.WARP, justRespawned := true, hadWarpThisRound := false }

/-- Loop body of `tryRespawnsForRound`; `shuffled.pop()` removes the last element. -/
def respawnStep (roundNo : Nat) (acc : RespawnAcc) (id : SocketId) : RespawnAcc :=
  match findP acc.g.players id with
  | none => acc
  | some p =>
    if !p.isSponsor then acc
    else if p.ascendedReturnRound = some roundNo then
      match acc.shuffled.getLast? with
      | some spot => { g := acc.g.modPlayer id (respawnPlayer spot), shuffled := acc.shuffled.dropLast }
      | none => acc
    else acc

/-- `tryRespawnsForRound(roundNo)`. -/
def tryRespawnsForRound (g : Game) (roundNo : Nat) (o : Oracle) : Game :=
  let occupied := occupiedTiles g.players
  let edges := (edgeTilesOfBoard g.size).filter (fun t =>
    !decide (t ∈ g.board.fire) && !decide (t ∈ occupied))
  let shuffled := shuffle o.shuffleA edges
  ((g.players.map (fun p => p.id)).foldl (respawnStep roundNo) { g := g, shuffled := shuffled }).g

def clearRoundFlags (p : Player) : Player :=
  { p with vpDelta := 0, selectedNumber := none, movementTarget := none,
           hadWarpThisRound := false, justRespawned := false, speedSteps := 2 }

/-- `advanceToNumber()`. -/
def advanceToNumber (g : Game) (now : Int) (o : Oracle) : Game :=
  let g1 : Game :=
    { g with phase := Phase.number, round := g.round + 1, players := g.players.map clearRoundFlags }
  let g2 := tryRespawnsForRound g1 g1.round o
  { g2 with timerEnd := now + g2.durations.number }

/-! ## Player management -/

/-- `findPlayerByClientOrPin(clientId, pin, allowClientId)`; the empty string is falsy. -/
def findPlayerByClientOrPin (g : Game) (clientId pin : String) (allowClientId : Bool) : Option Player :=
  let byCid :=
    if allowClientId && clientId != "" then
      g.players.find? (fun p => match p.clientId with
        | some c => c != "" && c == clientId
        | none => false)
    else none
  match byCid with
  | some p => some p
  | none =>
    if pin != "" then g.players.find? (fun p => p.pin != "" && p.pin == pin) else none

/-- `s.slice(0, n)`: the first `n` code units. -/
def strSlice (s : JSString) (n : Nat) : JSString := s.take n

/-- Lower-casing of the letters `A`..`Z`, every other code unit kept: what `toLowerCase` does
on ASCII strings. -/
def asciiLower (s : JSString) : JSString :=
  s.map (fun u => if 65 ≤ u ∧ u ≤ 90 then u + 32 else u)

/-- `new Player(id, name, color)` followed by `p.clientId = clientId || null`; `pin` is the
string drawn by the constructor. -/
def Player.new (id : SocketId) (name : JSString) (color clientId pin : String) : Player :=
  { id := id,
    name := strSlice (if name = [] then utf16 "P" ++ strSlice (utf16 id) 4 else name) 24,
    color := if color = "" then "#00aaff" else color,
    isAlive := true, isSponsor := false, pos := none, vp := 0, vpDelta := 0, kills := 0,
    usedNumbers := [], selectedNumber := none, lastRevealedNumber := none, movementTarget := none,
    buff := none, cornucopia := false, hasShield := false, pendingBounty := false, speedSteps := 2,
    sponsorTargetId := none, clientId := if clientId = "" then none else some clientId,
    pin := pin, connected := true, hadWarpThisRound := false, justRespawned := false,
    state := none, ascendedReturnRound := none }

/-- The de-duplication loop `while (taken.has(tryName.toLowerCase())) ...`; `none` when the
fuel runs out. `toLowerCase` is the runtime's `String.prototype.toLowerCase`. -/
def dedupeName (toLowerCase : JSString → JSString) (taken : List JSString) (base : JSString) :
    Nat → JSString → Nat → Option JSString
  | 0, _, _ => none
  | fuel + 1, tryName, idx =>
    if toLowerCase tryName ∈ taken then
      let t := base ++ utf16 " " ++ utf16 (toString idx)
      dedupeName toLowerCase taken base fuel (if t.length > 24 then strSlice t 24 else t) (idx + 1)
    else some tryName

/-- `this.players[p.id] = p`: an existing key keeps its place in the iteration order. -/
def rosterSet (ps : List Player) (p : Player) : List Player :=
  if ps.any (fun q => q.id == p.id) then ps.map (fun q => if q.id = p.id then p else q)
  else ps ++ [p]

/-- `joinOrReconnect(socket, {name,color,clientId,pin}, {allowClientId})`; returns the new state
and the participant, `none` when the name loop does not return. `toLowerCase` is the runtime's
`String.prototype.toLowerCase`. -/
def joinOrReconnect (g : Game) (socketId : SocketId) (name : JSString)
    (color clientId pin : String) (allowClientId : Bool) (newPin : String)
    (toLowerCase : JSString → JSString) : Option (Game × Player) :=
  match findPlayerByClientOrPin g clientId pin allowClientId with
  | none =>
    let p0 := Player.new socketId name color clientId newPin
    let taken := g.players.map (fun pp => if pp.name = [] then [] else toLowerCase pp.name)
    let base := strSlice (if p0.name = [] then utf16 "Player" else p0.name) 24
    match dedupeName toLowerCase taken base (taken.length + 12) base 2 with
    | none => none
    | some nm =>
      let p1 := { p0 with name := nm }
      let p2 := { p1 with pos := some (spawnPosition g), connected := true }
      some ({ g with players := rosterSet g.players p2, joinOrder := g.joinOrder ++ [p2.id] }, p2)
  | some p =>
    let ps := g.players.filter (fun q => q.id ≠ p.id)
    let p1 := { p with id := socketId, clientId := if clientId = "" then p.clientId else some clientId,
                       connected := true }
    some ({ g with players := rosterSet ps p1 }, p1)

/-- `disconnect(socketId)`. -/
def disconnect (g : Game) (socketId : SocketId) : Game :=
  g.modPlayer socketId (fun p => { p with connected := false })

/-- `clearGhosts()`. -/
def clearGhosts (g : Game) : Game :=
  { g with players := g.players.filter (fun p => p.connected) }

/-- The kick handlers. -/
def kick (g : Game) (playerId : SocketId) : Game :=
  match findP g.players playerId with
  | none => g
  | some _ =>
    { g with players := g.players.filter (fun p => p.id ≠ playerId),
             joinOrder := g.joinOrder.filter (fun id => id ≠ playerId) }

/-! ## Phase transitions -/

/-- `!p.selectedNumber`. -/
def noNumber (n : Option Int) : Bool :=
  match n with
  | none => true
  | some v => decide (v = 0)

/-- Loop body of `startMovement`. -/
def startMovementPlayer (o : Oracle) (p : Player) : Player :=
  if p.isSponsor then
    let sel :=
      if noNumber p.selectedNumber then
        let s1 := ([6, 5, 4, 3, 2, 1] : List Int).find? (fun n => !decide (n ∈ p.usedNumbers))
        match s1 with
        | some n => some n
        | none => some MAX_NUMBER
      else p.selectedNumber
    { p with selectedNumber := sel, speedSteps := 0 }
  else if !p.isAlive then p
  else
    let sel :=
      if noNumber p.selectedNumber then
        let s1 := ([1, 2, 3, 4, 5, 6] : List Int).find? (fun n => !decide (n ∈ p.usedNumbers))
        match s1 with
        | some n => some n
        | none => some (1 + ((o.num p.id % 6 : Nat) : Int))
      else p.selectedNumber
    { p with selectedNumber := sel,
             speedSteps := if p.buff = some Item.WARP ∧ p.justRespawned then 0
                           else if p.buff = some Item.SPEED then 3 else 2 }

/-- `startMovement()`. -/
def startMovement (g : Game) (now : Int) (o : Oracle) : Game :=
  { g with players := g.players.map (startMovementPlayer o), phase := Phase.movement,
           timerEnd := now + g.durations.movement }

/-- `validMovesFor(p)` for a participant object `p`. -/
def validMovesFor (g : Game) (p : Player) : List Pos :=
  match p.pos with
  | none =>
    if p.buff = some Item.WARP ∧ p.justRespawned ∧ ¬ p.hadWarpThisRound then ring16TilesCornucore g.cc
    else []
  | some pos =>
    if p.buff = some Item.WARP ∧ p.justRespawned then
      if ¬ p.hadWarpThisRound then ring16TilesCornucore g.cc
      else match p.movementTarget with
        | some t => [Pos.mk t.x t.y]
        | none => ring16TilesCornucore g.cc
    else
      let maxStep : Int := if p.speedSteps = 0 then 2 else p.speedSteps
      (intsFromTo (-maxStep) maxStep).flatMap (fun dx =>
        (intsFromTo (-maxStep) maxStep).filterMap (fun dy =>
          let man : Int := (dx.natAbs : Int) + (dy.natAbs : Int)
          if man ≤ 0 ∨ man > maxStep then none
          else
            let x := pos.x + dx
            let y := pos.y + dy
            if x < 0 ∨ y < 0 ∨ x ≥ g.size ∨ y ≥ g.size then none
            else if Pos.mk x y ∈ g.board.fire then none
            else some (Pos.mk x y)))

/-- Reveal: `lastRevealedNumber = selectedNumber; usedNumbers.add(selectedNumber)`. -/
def revealNumber (p : Player) : Player :=
  match p.selectedNumber with
  | some n => { p with lastRevealedNumber := some n,
                       usedNumbers := if n ∈ p.usedNumbers then p.usedNumbers else p.usedNumbers ++ [n] }
  | none => p

/-- Elimination for lack of a legal move: as `eliminate`, then `p.vpDelta = 0`. -/
def eliminateNoMoves (g : Game) (id : SocketId) : Game :=
  (returnSeal (g.modPlayer id (ascend g.round)) id).modPlayer id (fun p => { p with vpDelta := 0 })

/-- Body of the "Apply movement" loop of `startResolution`. -/
def moveStep (o : Oracle) (g : Game) (id : SocketId) : Game :=
  match findP g.players id with
  | none => g
  | some p =>
    if !p.isAlive || p.isSponsor || p.pos.isNone then g
    else
      let legal := validMovesFor g p
      if legal.isEmpty then eliminateNoMoves g id
      else
        let ok := match p.movementTarget with
          | some dst => legal.any (fun m => decide (m.x = dst.x) && decide (m.y = dst.y))
          | none => false
        let dst := if ok then p.movementTarget else legal.get? (o.move id % legal.length)
        match dst with
        | some d => g.modPlayer id (fun q => { q with pos := some (Pos.mk d.x d.y) })
        | none => g

def byPosGet (m : List (Pos × List SocketId)) (k : Pos) : List SocketId :=
  match m.find? (fun e => e.1 == k) with
  | some e => e.2
  | none => []

/-- `if (!byPos.has(k)) byPos.set(k, []); byPos.get(k).push(p)`. -/
def byPosPush (m : List (Pos × List SocketId)) (k : Pos) (id : SocketId) : List (Pos × List SocketId) :=
  if m.any (fun e => e.1 == k) then m.map (fun e => if e.1 = k then (e.1, e.2 ++ [id]) else e)
  else m ++ [(k, [id])]

/-- The `byPos` map of `startResolution`. -/
def buildByPos (ps : List Player) : List (Pos × List SocketId) :=
  ps.foldl (fun m p =>
    if !p.isAlive || p.isSponsor then m
    else match p.pos with
      | none => m
      | some k => byPosPush m k p.id) []

def normalizeLoot (code : Item) : Item := if code = Item.COIN then Item.RENOWN_CHIP else code

/-- The "Apply loot" chain for the winner `wid`. -/
def applyLoot (g : Game) (wid : SocketId) (code : Item) : Game :=
  match code with
  | Item.RENOWN_CHIP => awardVP g wid (max 0 g.settings.renownChipVP) false
  | Item.SWORD => g.modPlayer wid (fun p => { p with buff := some Item.SWORD, hasShield := false })
  | Item.SHIELD => g.modPlayer wid (fun p => { p with buff := some Item.SHIELD, hasShield := true })
  | Item.SPEED => g.modPlayer wid (fun p => { p with buff := some Item.SPEED, speedSteps := 3 })
  | Item.WARP => g.modPlayer wid (fun p => { p with buff := some Item.WARP, hasShield := false, speedSteps := 2 })
  | Item.SPACETIME_SEAL => g.modPlayer wid (fun p => { p with hasShield := false, buff := none, cornucopia := true })
  | _ => g

def isCombatBuff (code : Item) : Bool :=
  code = Item.SWORD || code = Item.SHIELD || code = Item.SPEED || code = Item.WARP

structure LootAcc where
  g : Game
  byPos : List (Pos × List SocketId)

/-- Seal lockout, loot effect and tile clearing for the selected `winner`. -/
def lootPickup (g : Game) (k2 : Pos) (code : Item) (winner : SocketId) : Game :=
  match findP g.players winner with
  | none => g
  | some w =>
    if w.cornucopia && isCombatBuff code then g
    else
      let g1 := applyLoot g winner code
      { g1 with board := { g1.board with buffs := mapDelete g1.board.buffs k2 } }

/-- Body of `for (const [k2, raw] of Array.from(this.board.buffs.entries()))`; with several
contenders the array stored in `byPos` is sorted in place by join order. -/
def lootStep (acc : LootAcc) (e : Pos × Item) : LootAcc :=
  let code := normalizeLoot e.2
  match byPosGet acc.byPos e.1 with
  | [] => acc
  | [w] => { g := lootPickup acc.g e.1 code w, byPos := acc.byPos }
  | c :: cs =>
    let sorted := sortStable (fun a b => indexOfJS acc.g.joinOrder a - indexOfJS acc.g.joinOrder b) (c :: cs)
    let byPos1 := acc.byPos.map (fun en => if en.1 = e.1 then (en.1, sorted) else en)
    match sorted with
    | [] => { g := acc.g, byPos := byPos1 }
    | w :: _ => { g := lootPickup acc.g e.1 code w, byPos := byPos1 }

/-- Body of the "Fire elimination" loop. -/
def fireStep (g : Game) (id : SocketId) : Game :=
  match findP g.players id with
  | none => g
  | some p =>
    if !p.isAlive || p.isSponsor then g
    else match p.pos with
      | none => g
      | some k => if k ∈ g.board.fire then eliminate g id else g

/-- `!p.sponsorTargetId`. -/
def noTarget (t : Option SocketId) : Bool :=
  match t with
  | none => true
  | some s => s == ""

/-- The auto-sponsor block. -/
def autoSponsor (o : Oracle) (g : Game) : Game :=
  let ascenders := g.players.filter (fun p => p.isSponsor && noTarget p.sponsorTargetId)
  if ascenders.isEmpty then g
  else
    let elig := sortStable
      (fun (a b : Player) => if a.vp - b.vp ≠ 0 then a.vp - b.vp else o.localeCompare a.name b.name)
      (g.players.filter (fun p => p.isAlive && !p.isSponsor))
    ascenders.foldl (fun g s =>
      match elig.find? (fun p => p.id != s.id) with
      | some t => g.modPlayer s.id (fun p => { p with sponsorTargetId := some t.id })
      | none => g) g

def consumeRespawnWarp (p : Player) : Player :=
  if p.justRespawned ∧ p.buff = some Item.WARP then { p with buff := none } else p

/-- State of `startResolution` when `resolveCombatsDetailed` is called, with its `byPos`. -/
def resolutionUpToLoot (g : Game) (now : Int) (o : Oracle) : LootAcc :=
  let g0 : Game :=
    { g with timerEnd := now + g.durations.resolution, phase := Phase.resolution,
             players := g.players.map revealNumber }
  let g1 := (g0.players.map (fun p => p.id)).foldl (moveStep o) g0
  g1.board.buffs.foldl lootStep { g := g1, byPos := buildByPos g1.players }

/-- `startResolution()`. -/
def startResolution (g : Game) (now : Int) (o : Oracle) : Game :=
  let acc := resolutionUpToLoot g now o
  let g3 := resolveCombatsDetailed acc.g acc.byPos
  let g4 := (g3.players.map (fun p => p.id)).foldl fireStep g3
  let g5 := autoSponsor o g4
  let g6 : Game := { g5 with players := g5.players.map consumeRespawnWarp }
  let g7 := awardEndOfRoundVPs g6
  { g7 with timerEnd := now + g7.durations.resolution }

/-! ## Hazard engine and refresh -/

/-- `fireFrontier(considerOccupied)`. -/
def fireFrontier (g : Game) (considerOccupied : Bool) : List Pos :=
  let occ := if considerOccupied then occupiedTiles g.players else []
  g.board.fire.foldl (fun cand f =>
    ([Pos.mk (f.x + 1) f.y, Pos.mk (f.x - 1) f.y, Pos.mk f.x (f.y + 1), Pos.mk f.x (f.y - 1)]).foldl
      (fun cand n =>
        if !inBoard g.size n then cand
        else if inCornucore n.x n.y g.cc then cand
        else if !decide (n ∈ g.board.fire) && !decide (n ∈ occ) then setAdd cand n
        else cand) cand) []

def isAdj (a b : Pos) : Bool := decide (((a.x - b.x).natAbs + (a.y - b.y).natAbs : Nat) = 1)

/-- The seed selection loop of the first refresh. -/
def pickSeeds (fireN : Int) (rnd : List Pos) : List Pos :=
  rnd.foldl (fun seeds kk =>
    if (seeds.length : Int) ≥ fireN then seeds
    else if !(seeds.any (fun s => isAdj s kk)) then seeds ++ [kk]
    else seeds) []

/-- The "Buff drops" block and the end of `startRefresh`. -/
def refreshBuffs (g : Game) (occupied : List Pos) (now : Int) (o : Oracle) : Game :=
  let ring := ring16TilesCornucore g.cc
  let ringClean := shuffle o.shuffleB
    (ring.filter (fun kk => !decide (kk ∈ g.board.fire) && !decide (kk ∈ occupied)))
  let desiredBuffs : Int := max 5 (max 0 (min 10 g.settings.buffsPerRefresh))
  let baseOrder : List Item :=
    [Item.SWORD, Item.SHIELD, Item.SPEED, Item.RENOWN_CHIP, Item.RENOWN_CHIP] ++
    (List.range (desiredBuffs - 5).toNat).map (fun i =>
      (REFRESH_SPAWN_TYPES.get? (o.spawnType i % 4)).getD Item.SWORD)
  let buffs := (List.zip ringClean baseOrder).foldl (fun m e => mapSet m e.1 e.2) g.board.buffs
  { g with board := { g.board with buffs := buffs }, timerEnd := now + g.durations.refresh }

/-- `startRefresh()`. -/
def startRefresh (g : Game) (now : Int) (o : Oracle) : Game :=
  let FIRE_N : Int := max 0 (min 100 g.settings.firesPerRefresh)
  let g0 : Game :=
    { g with phase := Phase.refresh,
             players := g.players.map (fun p =>
               if p.isAlive && !p.isSponsor then { p with usedNumbers := [] } else p) }
  let occupied := occupiedTiles g0.players
  if g0.board.fire.length = 0 then
    let candidates := (intsFromTo 0 (g0.size - 1)).flatMap (fun y =>
      (intsFromTo 0 (g0.size - 1)).filterMap (fun x =>
        if inCornucore x y g0.cc then none
        else if !decide (Pos.mk x y ∈ occupied) then some (Pos.mk x y) else none))
    let seeds := pickSeeds FIRE_N (shuffle o.shuffleA candidates)
    let g1 : Game := { g0 with board := { g0.board with fire := seeds.foldl setAdd g0.board.fire } }
    if seeds.length = 0 then endGame { g1 with endReason := some EndReason.fire_exhausted } (some EndReason.fire_exhausted) now
    else refreshBuffs g1 occupied now o
  else
    let frontier := shuffle o.shuffleA (fireFrontier g0 true)
    let toAdd := frontier.take FIRE_N.toNat
    let g1 : Game := { g0 with board := { g0.board with fire := toAdd.foldl setAdd g0.board.fire } }
    if toAdd.length = 0 ∧ (fireFrontier g1 false).length = 0 then
      endGame { g1 with endReason := some EndReason.fire_exhausted } (some EndReason.fire_exhausted) now
    else refreshBuffs g1 occupied now o

/-- `tick()` and the `host-end-round` handler share this dispatch on the phase. -/
def advancePhase (g : Game) (now : Int) (o : Oracle) : Game :=
  match g.phase with
  | Phase.number => startMovement g now o
  | Phase.movement => startResolution g now o
  | Phase.resolution =>
    if (g.round : Int) % g.settings.refreshEvery = 0 then startRefresh g now o
    else advanceToNumber g now o
  | Phase.refresh => advanceToNumber g now o
  | _ => g

/-- `tick()`. -/
def tick (g : Game) (now : Int) (o : Oracle) : Game :=
  if g.paused then g
  else if now ≥ g.timerEnd then advancePhase g now o
  else g

/-! ## Actions -/

/-- `pickNumber(socketId, n)`. -/
def pickNumber (g : Game) (socketId : SocketId) (n : Int) : Game :=
  match findP g.players socketId with
  | none => g
  | some p =>
    if !p.isAlive || p.isSponsor then g
    else if g.phase ≠ Phase.number then g
    else
      let num := clamp n 1 MAX_NUMBER
      if num ∈ p.usedNumbers then g
      else g.modPlayer socketId (fun q => { q with selectedNumber := some num })

/-- `moveTo(socketId, x, y)`. -/
def moveTo (g : Game) (socketId : SocketId) (x y : Int) : Game :=
  match findP g.players socketId with
  | none => g
  | some p =>
    if !p.isAlive || p.isSponsor then g
    else if g.phase ≠ Phase.movement then g
    else
      let nx := clamp x 0 (g.size - 1)
      let ny := clamp y 0 (g.size - 1)
      if p.buff = some Item.WARP ∧ p.justRespawned ∧ ¬ p.hadWarpThisRound then
        if (ring16TilesCornucore g.cc).any (fun t => decide (t.x = nx) && decide (t.y = ny)) then
          g.modPlayer socketId (fun q => { q with movementTarget := some (Pos.mk nx ny), hadWarpThisRound := true })
        else g
      else g.modPlayer socketId (fun q => { q with movementTarget := some (Pos.mk nx ny) })

/-- `sponsorPick(socketId, targetId)`; a falsy `targetId` is `none`. -/
def sponsorPick (g : Game) (socketId : SocketId) (targetId : Option SocketId) : Game :=
  match findP g.players socketId with
  | none => g
  | some s =>
    if !s.isSponsor then g
    else g.modPlayer socketId (fun q => { q with sponsorTargetId := if noTarget targetId then none else targetId })

inductive PaintMode where
  | FIRE | BUFF | CLEAR | OTHER
  deriving DecidableEq, Repr

/-- `hostPaint({x,y,mode,value})`; a falsy `value` is `none`. -/
def hostPaint (g : Game) (x y : Int) (mode : PaintMode) (value : Option Item) : Game :=
  let nx := clamp x 0 (g.size - 1)
  let ny := clamp y 0 (g.size - 1)
  let kk := Pos.mk nx ny
  let isCenterTile := isCenter nx ny g.cc
  match mode with
  | PaintMode.FIRE =>
    if !inCornucore nx ny g.cc then
      if kk ∈ g.board.fire then { g with board := { g.board with fire := setDelete g.board.fire kk } }
      else { g with board := { g.board with fire := setAdd g.board.fire kk } }
    else g
  | PaintMode.BUFF =>
    if isCenterTile then g.setBuff kk Item.SPACETIME_SEAL
    else if mapHas g.board.buffs kk then
      { g with board := { g.board with buffs := mapDelete g.board.buffs kk } }
    else
      let t0 := value.getD Item.RENOWN_CHIP
      let t1 := if t0 = Item.LIGHTNING then Item.SPEED else t0
      let t2 := if t1 = Item.WARP ∨ t1 = Item.SPACETIME_SEAL then Item.RENOWN_CHIP else t1
      let t3 := if t2 ∈ PAINTABLE_TYPES then t2 else Item.RENOWN_CHIP
      g.setBuff kk t3
  | PaintMode.CLEAR =>
    if isCenterTile then g.setBuff kk Item.SPACETIME_SEAL
    else { g with board := { fire := setDelete g.board.fire kk, buffs := mapDelete g.board.buffs kk } }
  | PaintMode.OTHER => g

/-! ## State snapshots -/

/-- The `buffs: [...]` array built from a participant in several places. -/
def buffList (p : Player) : List Item :=
  (match p.buff with
    | some b => [b]
    | none => []) ++
  (if p.hasShield then [Item.SHIELD] else []) ++
  (if p.cornucopia then [Item.SPACETIME_SEAL] else [])

/-- An entry of `playersPub`. -/
structure PlayerPub where
  id : SocketId
  name : JSString
  color : String
  isAlive : Bool
  isSponsor : Bool
  pos : Option Pos
  vp : Int
  vpDelta : Int
  kills : Int
  buff : Option Item
  hasShield : Bool
  cornucopia : Bool
  sponsorTargetId : Option SocketId
  usedNumbers : List Int
  selectedNumber : Option Int
  lastRevealedNumber : Option Int
  speedSteps : Int
  pin : String
  connected : Bool
  buffs : List Item
  deriving DecidableEq, Repr

/-- The result of `computeFireStats()`; `none` stands for `Infinity`. -/
structure FireStats where
  burnableTotal : Int
  burned : Int
  remaining : Int
  frontier : Nat
  frontierIgnoreOccupied : Nat
  firesPerRefresh : Int
  refreshesLeft : Option Int
  refreshesLeftFrontier : Option Int
  refreshEvery : Int
  roundsUntilRefresh : Int
  deriving DecidableEq, Repr

/-- `Math.ceil(a / b)` for integers with `b > 0`. -/
def ceilDiv (a b : Int) : Int := (a + b - 1) / b

/-- `computeFireStats()`. -/
def computeFireStats (g : Game) : FireStats :=
  let total := g.size * g.size
  let cc := g.cc
  let cornW := cc.maxX - cc.minX + 1
  let cornH := cc.maxY - cc.minY + 1
  let cornArea : Int := if cornW > 0 ∧ cornH > 0 then cornW * cornH else 0
  let burnableTotal : Int := max 0 (total - cornArea)
  let burned : Int := ((g.board.fire.filter (fun k => !inCornucore k.x k.y cc)).length : Int)
  let remaining : Int := max 0 (burnableTotal - burned)
  let frontier := g.board.fire.foldl (fun acc k =>
    ([((1 : Int), (0 : Int)), (-1, 0), (0, 1), (0, -1)]).foldl (fun acc d =>
      let n := Pos.mk (k.x + d.1) (k.y + d.2)
      if n.x < 0 ∨ n.y < 0 ∨ n.x ≥ g.size ∨ n.y ≥ g.size then acc
      else if n ∈ g.board.fire then acc
      else if inCornucore n.x n.y cc then acc
      else setAdd acc n) acc) []
  let occupied := occupiedTiles g.players
  let frontierIgnoreOccupied := frontier.filter (fun k => !decide (k ∈ occupied))
  let FIRE_N : Int := max 0 g.settings.firesPerRefresh
  let nextAdd : Int := min FIRE_N (frontierIgnoreOccupied.length : Int)
  let refreshEvery : Int := max 1 g.settings.refreshEvery
  let r0 : Int := (refreshEvery - ((g.round : Int) % refreshEvery)) % refreshEvery
  { burnableTotal := burnableTotal, burned := burned, remaining := remaining,
    frontier := frontier.length, frontierIgnoreOccupied := frontierIgnoreOccupied.length,
    firesPerRefresh := FIRE_N,
    refreshesLeft := if FIRE_N > 0 then some (ceilDiv remaining FIRE_N) else none,
    refreshesLeftFrontier := if nextAdd > 0 then some (ceilDiv remaining nextAdd) else none,
    refreshEvery := refreshEvery,
    roundsUntilRefresh := if r0 = 0 then refreshEvery else r0 }

/-- The `you` overlay of `serializeFor`. -/
structure You where
  id : SocketId
  name : JSString
  color : String
  currentNumber : Option Int
  lastNumber : Option Int
  buffs : List Item
  sponsorBonus : Int
  isAlive : Bool
  isSponsor : Bool
  eliminated : Bool
  deriving DecidableEq, Repr

/-- The object returned by `serialize()` / `serializeFor()`. The source repeats some values
under other names (`timers`, `fire`, `buffsOnBoard`, `buffsOnBoardCompat`, `cornBox`, `log`,
`logs`): they are the fields `timerEnd`/`paused`, `boardFire`, `boardBuffs`, `cc` and `gameLog`
here. `encounters` is always the empty array. -/
structure Snapshot where
  fireStats : FireStats
  settings : Settings
  room : String
  msLeft : Int
  hostId : Option SocketId
  phase : Phase
  round : Nat
  timerEnd : Int
  durations : Durations
  refreshIn : Int
  paused : Bool
  boardSize : Int
  boardFire : List Pos
  boardBuffs : List (Pos × Item)
  cc : Cornucore
  endReason : Option EndReason
  players : List PlayerPub
  gameLog : List String
  you : Option You
  availableNumbers : List Int
  deriving DecidableEq, Repr

/-- `a ?? b`. -/
def orElseNull (a b : Option Int) : Option Int :=
  match a with
  | some v => some v
  | none => b

/-- The `playersPub` entry of `p`. -/
def playerPub (phase : Phase) (p : Player) : PlayerPub :=
  { id := p.id, name := p.name, color := p.color, isAlive := p.isAlive, isSponsor := p.isSponsor,
    pos := p.pos, vp := p.vp, vpDelta := p.vpDelta, kills := p.kills, buff := p.buff,
    hasShield := p.hasShield, cornucopia := p.cornucopia, sponsorTargetId := p.sponsorTargetId,
    usedNumbers := p.usedNumbers,
    selectedNumber := if phase = Phase.number then p.selectedNumber else none,
    lastRevealedNumber :=
      if phase = Phase.resolution ∨ phase = Phase.refresh ∨ phase = Phase.gameover then
        orElseNull p.selectedNumber p.lastRevealedNumber
      else none,
    speedSteps := p.speedSteps, pin := p.pin, connected := p.connected, buffs := buffList p }

/-- `x || y` on numbers. -/
def numOr (x y : Int) : Int := if x = 0 then y else x

/-- `serialize()`; the fields `you` and `availableNumbers` are absent from its result. -/
def serialize (g : Game) (now : Int) : Snapshot :=
  let msLeft : Int :=
    if g.paused then max 0 (numOr g.pauseLeft (numOr g.timerEnd 0 - now))
    else max 0 (numOr g.timerEnd 0 - now)
  let re := g.settings.refreshEvery
  { fireStats := computeFireStats g, settings := g.settings, room := g.room, msLeft := msLeft,
    hostId := g.hostId, phase := g.phase, round := g.round, timerEnd := g.timerEnd,
    durations := g.durations,
    refreshIn := if g.round > 0 then re - (((g.round : Int) - 1) % re) else re,
    paused := g.paused, boardSize := g.size, boardFire := g.board.fire,
    boardBuffs := g.board.buffs, cc := g.cc, endReason := g.endReason,
    players := g.players.map (playerPub g.phase),
    gameLog := g.gameLog.drop (g.gameLog.length - 200),
    you := none, availableNumbers := [] }

/-- `serializeFor(socketId)`. -/
def serializeFor (g : Game) (socketId : SocketId) (now : Int) : Snapshot :=
  let base := serialize g now
  match findP g.players socketId with
  | some p =>
    { base with
      you := some
        { id := p.id, name := p.name, color := p.color,
          currentNumber := if g.phase = Phase.number then p.selectedNumber else none,
          lastNumber := if g.phase ≠ Phase.number then orElseNull p.selectedNumber p.lastRevealedNumber else none,
          buffs := buffList p, sponsorBonus := 0, isAlive := p.isAlive, isSponsor := p.isSponsor,
          eliminated := !p.isAlive || p.isSponsor },
      availableNumbers := ([1, 2, 3, 4, 5, 6] : List Int).filter (fun n => !decide (n ∈ p.usedNumbers)) }
  | none => { base with you := none, availableNumbers := [1, 2, 3, 4, 5, 6] }

/-! ## Command surface -/

/-- Payload of `host:update-settings`; a field is `some v` when it passes the handler's
`Number.isInteger` / `typeof === "boolean"` test. -/
structure SettingsPayload where
  firesPerRefresh : Option Int
  buffsPerRefresh : Option Int
  showPhaseTimer : Option Bool
  numberSec : Option Int
  movementSec : Option Int
  resolutionSec : Option Int
  refreshEvery : Option Int
  eliminationVP : Option Int
  renownChipVP : Option Int
  survivalPerRoundEnabled : Option Bool
  survivalPerRoundVP : Option Int
  innerSanctumEnabled : Option Bool
  innerSanctumVP : Option Int
  centerTileVP : Option Int

/-- `if (Number.isInteger(v)) field = Math.max(lo, Math.min(hi, v))`. -/
def setClamped (old : Int) (v : Option Int) (lo hi : Int) : Int :=
  match v with
  | some n => max lo (min hi n)
  | none => old

/-- The `host:update-settings` handler. -/
def updateSettings (g : Game) (d : SettingsPayload) : Game :=
  let s := g.settings
  let s1 : Settings :=
    { firesPerRefresh := setClamped s.firesPerRefresh d.firesPerRefresh 0 100,
      buffsPerRefresh := setClamped s.buffsPerRefresh d.buffsPerRefresh 0 10,
      showPhaseTimer := d.showPhaseTimer.getD s.showPhaseTimer,
      phaseDurations :=
        { number := setClamped s.phaseDurations.number d.numberSec 0 120,
          movement := setClamped s.phaseDurations.movement d.movementSec 0 120,
          resolution := setClamped s.phaseDurations.resolution d.resolutionSec 0 120 },
      centerTileVP := setClamped s.centerTileVP d.centerTileVP 0 10,
      refreshEvery := setClamped s.refreshEvery d.refreshEvery 1 10,
      eliminationVP := setClamped s.eliminationVP d.eliminationVP 0 100,
      renownChipVP := setClamped s.renownChipVP d.renownChipVP 0 20,
      survivalPerRoundEnabled := d.survivalPerRoundEnabled.getD s.survivalPerRoundEnabled,
      survivalPerRoundVP := setClamped s.survivalPerRoundVP d.survivalPerRoundVP 0 10,
      innerSanctumEnabled := d.innerSanctumEnabled.getD s.innerSanctumEnabled,
      innerSanctumVP := setClamped s.innerSanctumVP d.innerSanctumVP 0 10 }
  { g with settings := s1, durations := recomputeDurations s1 }

/-- Payload of `setDurations`; a field is `some n` when `Number(v)` is finite. -/
structure DurationsPayload where
  number : Option Int
  movement : Option Int
  resolution : Option Int
  refresh : Option Int

/-- `norm(v, fallback)` of `setDurations`. -/
def normDuration (v : Option Int) (fallback : Int) : Int :=
  match v with
  | none => fallback
  | some n => clamp (if n ≤ 60 then n * 1000 else n) 500 600000

/-- `setDurations(d)`. -/
def setDurations (g : Game) (d : DurationsPayload) : Game :=
  { g with durations :=
      { number := normDuration d.number g.durations.number,
        movement := normDuration d.movement g.durations.movement,
        resolution := normDuration d.resolution g.durations.resolution,
        refresh := normDuration d.refresh g.durations.refresh } }

/-- The `host-toggle-pause` handler. -/
def togglePause (g : Game) (now : Int) : Game :=
  if !g.paused then { g with pauseLeft := max 0 (numOr g.timerEnd 0 - now), paused := true }
  else { g with timerEnd := now + max 0 (numOr g.pauseLeft 0), pauseLeft := 0, paused := false }

/-- The `host-set-color` handler; the empty string is falsy. -/
def setColor (g : Game) (playerId : SocketId) (color : String) : Game :=
  g.modPlayer playerId (fun p => { p with color := if color = "" then p.color else color })

/-- The commands a room receives from the transport, and the timer tick. -/
inductive Cmd where
  | hostJoin (socketId : SocketId)
  | hostConfig (size : Option Int) (durations : Option DurationsPayload)
  | hostStart (size : Option Int) (now : Int)
  | hostReset
  | hostEndPhase (now : Int)
  | hostEndRound (now : Int) (o : Oracle)
  | hostEndGame (now : Int)
  | hostPaint (x y : Int) (mode : PaintMode) (value : Option Item)
  | hostClearGhosts
  | hostTogglePause (now : Int)
  | hostSetColor (playerId : SocketId) (color : String)
  | hostKick (playerId : SocketId)
  | hostUpdateSettings (d : SettingsPayload)
  | hostBoardSize (size : Int)
  | join (socketId : SocketId) (name : JSString) (color clientId pin : String)
      (allowClientId : Bool) (newPin : String) (toLowerCase : JSString → JSString)
  | pickNumber (socketId : SocketId) (n : Int)
  | moveTo (socketId : SocketId) (x y : Int)
  | sponsorPick (socketId : SocketId) (targetId : Option SocketId)
  | disconnect (socketId : SocketId)
  | tick (now : Int) (o : Oracle)

/-- One handler invocation; `none` when the handler does not return. The timer only ticks
while the interval is installed. -/
def step (g : Game) : Cmd → Option Game
  | Cmd.hostJoin sid => some { g with hostId := some sid }
  | Cmd.hostConfig size durations =>
    let g1 := match size with
      | some n => if n = 0 then g else setSize g n
      | none => g
    some (match durations with
      | some d => setDurations g1 d
      | none => g1)
  | Cmd.hostStart size now => some (startGame g size now)
  | Cmd.hostReset => some (reset g)
  | Cmd.hostEndPhase now => some { g with timerEnd := now }
  | Cmd.hostEndRound now o => some (advancePhase g now o)
  | Cmd.hostEndGame now => some (endGame g none now)
  | Cmd.hostPaint x y mode value => some (hostPaint g x y mode value)
  | Cmd.hostClearGhosts => some (clearGhosts g)
  | Cmd.hostTogglePause now => some (togglePause g now)
  | Cmd.hostSetColor playerId color => some (setColor g playerId color)
  | Cmd.hostKick playerId => some (kick g playerId)
  | Cmd.hostUpdateSettings d => some (updateSettings g d)
  | Cmd.hostBoardSize size => some (if size ≥ 6 ∧ size ≤ 24 then setSize g size else g)
  | Cmd.join sid name color clientId pin allowClientId newPin toLowerCase =>
    (joinOrReconnect g sid name color clientId pin allowClientId newPin toLowerCase).map
      (fun r => r.1)
  | Cmd.pickNumber sid n => some (pickNumber g sid n)
  | Cmd.moveTo sid x y => some (moveTo g sid x y)
  | Cmd.sponsorPick sid targetId => some (sponsorPick g sid targetId)
  | Cmd.disconnect sid => some (disconnect g sid)
  | Cmd.tick now o => some (if g.interval then tick g now o else g)

/-- `run g cmds`: the state after handling `cmds` in order. -/
def run (g : Game) : List Cmd → Option Game
  | [] => some g
  | c :: cs =>
    match step g c with
    | some g1 => run g1 cs
    | none => none

/-- States reachable from `new Game(room)`. -/
def Reachable (g : Game) : Prop := ∃ room cmds, run (Game.new room) cmds = some g


/-! ## Auxiliary definitions for statements and proofs -/

/-- The update `awardVP` applies to each roster entry. -/
def awardFun (pid : SocketId) (amount : Int) (mirror : Bool) (x : Player) : Player :=
  let x1 := if x.id = pid then addVP amount x else x
  if mirror then (if x1.isSponsor && x1.sponsorTargetId == some pid then addVP amount x1 else x1)
  else x1

/-- The update `endOfRoundStep g pid` applies to each roster entry. -/
def eorFun (g : Game) (pid : SocketId) (x : Player) : Player :=
  match findP g.players pid with
  | none => x
  | some p =>
    if p.isAlive && !p.isSponsor then
      let x1 := if g.settings.survivalPerRoundEnabled && decide (max 0 g.settings.survivalPerRoundVP > 0)
        then awardFun pid (max 0 g.settings.survivalPerRoundVP) false x else x
      let x2 :=
        match p.pos with
        | some q => if g.settings.innerSanctumEnabled && isInnerSanctum q.x q.y g.cc
            then awardFun pid (max 0 g.settings.innerSanctumVP) true x1 else x1
        | none => x1
      match p.pos with
      | some q => if decide (max 0 g.settings.centerTileVP > 0) && isCenter q.x q.y g.cc
          then awardFun pid (max 0 g.settings.centerTileVP) true x2 else x2
      | none => x2
    else x

/-- Hypotheses of the sanctum scoring scenario: `p` is an Alive participant standing in the
inner sanctum, `s` an Ascended participant sponsoring `p`, survival VP 1, sanctum VP 2, both
enabled, center VP 0. -/
structure SanctumScenario (g : Game) (s p : Player) (q : Pos) : Prop where
  hs : findP g.players s.id = some s
  hp : findP g.players p.id = some p
  hsurv : g.settings.survivalPerRoundEnabled = true
  hsv : g.settings.survivalPerRoundVP = 1
  hsan : g.settings.innerSanctumEnabled = true
  hsanv : g.settings.innerSanctumVP = 2
  hc : g.settings.centerTileVP = 0
  hpa : p.isAlive = true
  hps : p.isSponsor = false
  hpos : p.pos = some q
  hin : isInnerSanctum q.x q.y g.cc = true
  hss : s.isSponsor = true
  hst : s.sponsorTargetId = some p.id

/-! ## Concrete sessions used as witnesses and counterexamples -/

/-- A participant standing in the inner sanctum of the default board. -/
def exampleTarget : Player :=
  { Player.new "p" (utf16 "Ann") "" "" "1111" with pos := some (Pos.mk 5 5) }

/-- An Ascended participant sponsoring `exampleTarget`. -/
def exampleSponsor : Player :=
  { Player.new "s" (utf16 "Bob") "" "" "2222" with
    isAlive := false, isSponsor := true, sponsorTargetId := some "p" }

/-- A session on the default board and settings with the two participants above. -/
def exampleSanctumGame : Game :=
  { Game.new "room" with players := [exampleTarget, exampleSponsor], joinOrder := ["p", "s"],
                         phase := Phase.resolution, round := 1 }

/-- The state that differs from `g` only in the in-progress number of the participant stored
under `q`. -/
def withSelectedNumber (g : Game) (q : SocketId) (n : Option Int) : Game :=
  g.modPlayer q (fun p => { p with selectedNumber := n })

/-- A snapshot with the `selectedNumber` entries of its public participant list blanked. -/
def blankSelected (s : Snapshot) : Snapshot :=
  { s with players := s.players.map (fun e => { e with selectedNumber := none }) }

/-- Two participants in the number phase; `b` has picked 4. -/
def exampleNumberGame : Game :=
  { Game.new "room" with
    players := [{ Player.new "a" (utf16 "Ann") "" "" "1111" with pos := some (Pos.mk 0 0) },
                { Player.new "b" (utf16 "Bob") "" "" "2222" with pos := some (Pos.mk 9 9),
                                                                 selectedNumber := some 4 }],
    joinOrder := ["a", "b"], phase := Phase.number, round := 1 }

/-- A participant about to step on a Renown tile, and an Ascended participant sponsoring them. -/
def exampleChipGame : Game :=
  { Game.new "room" with
    players := [{ Player.new "w" (utf16 "Ann") "" "" "1111" with
                    pos := some (Pos.mk 1 1), movementTarget := some (Pos.mk 1 2),
                    selectedNumber := some 3 },
                { Player.new "s" (utf16 "Bob") "" "" "2222" with
                    isAlive := false, isSponsor := true, sponsorTargetId := some "w" }],
    joinOrder := ["w", "s"],
    board := { fire := [], buffs := [(Pos.mk 5 5, Item.SPACETIME_SEAL), (Pos.mk 1 2, Item.RENOWN_CHIP)] },
    phase := Phase.movement, round := 1 }

/-- An oracle whose draws are all zero, with code-point comparison as collation. -/
def zeroOracle : Oracle :=
  { move := fun _ => 0, num := fun _ => 0, shuffleA := fun _ => 0, shuffleB := fun _ => 0,
    spawnType := fun _ => 0,
    localeCompare := fun a b => if a < b then -1 else if a = b then 0 else 1 }

/-- The combat total of the participant stored under `id`. -/
def totalOf (g : Game) (id : SocketId) : Int :=
  match findP g.players id with
  | some p => combatTotal p
  | none => 0

/-- The test `!pierced && L.hasShield` of the loser loop, for the participant stored under `id`
and the value `sw` of `swordInPlay`. -/
def shieldSaved (g : Game) (sw : Bool) (id : SocketId) : Bool :=
  match findP g.players id with
  | some L => !(sw && L.hasShield) && L.hasShield
  | none => false

/-- The record left by an elimination: `ascend`, and the seal flag cleared. -/
def elimFun (round : Nat) (p : Player) : Player :=
  { ascend round p with cornucopia := false }

/-- Losers of the combat on `ids` that the loser loop saves by shield. -/
def savedLosers (g : Game) (ids : List SocketId) : List SocketId :=
  (combatLosers g ids).filter (shieldSaved g (swordInPlay g (combatWinners g ids)))

/-- Losers of the combat on `ids` that the loser loop eliminates. -/
def defeatedLosers (g : Game) (ids : List SocketId) : List SocketId :=
  (combatLosers g ids).filter (fun l => !shieldSaved g (swordInPlay g (combatWinners g ids)) l)

/-- The number of victims passed to `awardEliminationRenownFlat`:
`victimsForVP.length ? victimsForVP : defeated`. -/
def creditedVictims (g : Game) (ids : List SocketId) : Int :=
  if (savedLosers g ids).isEmpty then ((defeatedLosers g ids).length : Int)
  else ((savedLosers g ids).length : Int)

/-- Occupant lists handed to the combat resolver: distinct ids, each stored in the roster. -/
structure CombatSetup (g : Game) (ids : List SocketId) : Prop where
  nodup : ids.Nodup
  found : ∀ id ∈ ids, ∃ p, findP g.players id = some p

/-- The record of the participant stored under `j` when the loser loop of the combat on `ids`
has run, from their record `p` before the combat. -/
def loserEffect (g : Game) (ids : List SocketId) (j : SocketId) (p : Player) : Player :=
  if j ∈ combatLosers g ids then
    (if shieldSaved g (swordInPlay g (combatWinners g ids)) j then consumeShield p
     else elimFun g.round p)
  else p

/-- The record of the participant stored under `j` after the combat on `ids`, from their record
`p` before it and the VP `c` they receive from the elimination award. -/
def combatEffect (g : Game) (ids : List SocketId) (j : SocketId) (c : Int) (p : Player) : Player :=
  let p1 := addVP c (loserEffect g ids j p)
  let p2 := if j ∈ combatWinners g ids then addKills ((defeatedLosers g ids).length : Int) p1 else p1
  if j ∈ ids then consumeEncounterBuff p2 else p2

/-- The accumulator of the loser loop of the combat on `ids`. -/
def loserLoop (g : Game) (ids : List SocketId) : LoserAcc :=
  (combatLosers g ids).foldl (loserStep (swordInPlay g (combatWinners g ids)))
    { g := g, victimsForVP := [], defeated := [] }

/-- Every id of `ids` is stored in the roster as a positioned Alive participant, as in the lists
of `byPos`. -/
def occupantsOK (g : Game) (ids : List SocketId) : Bool :=
  ids.all (fun id =>
    match findP g.players id with
    | some p => p.isAlive && !p.isSponsor && p.pos.isSome
    | none => false)

/-- A positioned Alive participant on tile (1,1) with the given in-progress number. -/
def fighter (id : SocketId) (n : Int) : Player :=
  { Player.new id (utf16 id) "" "" "1111" with pos := some (Pos.mk 1 1), selectedNumber := some n }

/-- Three occupants of one tile with values `4 + Sword`, `5` and `3 + Seal`. -/
def exampleTieGame : Game :=
  { Game.new "room" with
    players := [{ fighter "a" 4 with buff := some Item.SWORD }, fighter "b" 5,
                { fighter "c" 3 with cornucopia := true }],
    joinOrder := ["a", "b", "c"], phase := Phase.resolution, round := 1 }

/-- Occupants `4 + Sword`, `5` and a shielded `3` without the Seal. -/
def exampleShieldGame : Game :=
  { Game.new "room" with
    players := [{ fighter "a" 4 with buff := some Item.SWORD }, fighter "b" 5,
                { fighter "d" 3 with buff := some Item.SHIELD, hasShield := true }],
    joinOrder := ["a", "b", "d"], phase := Phase.resolution, round := 1 }

/-- A winner at 6 against three losers, one of them shielded; `eliminationVP` is 10. -/
def exampleMixedGame : Game :=
  { Game.new "room" with
    players := [fighter "w" 6,
                { fighter "l1" 1 with buff := some Item.SHIELD, hasShield := true },
                fighter "l2" 1, fighter "l3" 2],
    joinOrder := ["w", "l1", "l2", "l3"], phase := Phase.resolution, round := 1 }

/-- What the combat of a tile reads of an occupant: number, consumable, shield-save, seal. -/
structure CombatAttrs where
  selectedNumber : Option Int
  buff : Option Item
  hasShield : Bool
  cornucopia : Bool
  deriving DecidableEq, Repr

def attrsOfPlayer (p : Player) : CombatAttrs :=
  { selectedNumber := p.selectedNumber, buff := p.buff, hasShield := p.hasShield,
    cornucopia := p.cornucopia }

/-- The attributes of the participant stored under `id` (arbitrary when there is none). -/
def attrOf (g : Game) (id : SocketId) : CombatAttrs :=
  match findP g.players id with
  | some p => attrsOfPlayer p
  | none => { selectedNumber := none, buff := none, hasShield := false, cornucopia := false }

/-- The attributes of the occupants `ids`, in order. -/
def combatAttrs (g : Game) (ids : List SocketId) : List CombatAttrs := ids.map (attrOf g)

/-- Outcome of a combat for one occupant. -/
inductive Verdict where
  | winner | saved | eliminated
  deriving DecidableEq, Repr

/-- The outcome the resolver assigns to occupant `id` of the combat on `ids`. -/
def verdictOf (g : Game) (ids : List SocketId) (id : SocketId) : Verdict :=
  if id ∈ combatWinners g ids then Verdict.winner
  else if shieldSaved g (swordInPlay g (combatWinners g ids)) id then Verdict.saved
  else Verdict.eliminated

/-- Combat value as a function of the attributes. -/
def attrTotal (a : CombatAttrs) : Int :=
  max 1 (min 6 (numOr1 a.selectedNumber)) + (if a.buff = some Item.SWORD then 1 else 0) +
    (if a.cornucopia then 2 else 0)

/-- Whether a maximal-value occupant holds Sword, as a function of the attribute list. -/
def attrSword (as : List CombatAttrs) : Bool :=
  as.any (fun a => decide (attrTotal a = maxOf (as.map attrTotal)) && (a.buff == some Item.SWORD))

/-- The shield test of the loser loop on attributes. -/
def attrSaved (sw : Bool) (a : CombatAttrs) : Bool := !(sw && a.hasShield) && a.hasShield

/-- The outcomes as a function of the attribute list alone. -/
def attrVerdicts (as : List CombatAttrs) : List Verdict :=
  as.map (fun a =>
    if attrTotal a = maxOf (as.map attrTotal) then Verdict.winner
    else if attrSaved (attrSword as) a then Verdict.saved
    else Verdict.eliminated)

/-- The number of credited victims as a function of the attribute list alone. -/
def attrCredited (as : List CombatAttrs) : Int :=
  let losers := as.filter (fun a => decide (attrTotal a < maxOf (as.map attrTotal)))
  let saved := losers.filter (attrSaved (attrSword as))
  let defeated := losers.filter (fun a => !attrSaved (attrSword as) a)
  if saved.isEmpty then (defeated.length : Int) else (saved.length : Int)

/-- Tiles whose loot item is the Seal. -/
def sealTiles (g : Game) : List Pos :=
  (g.board.buffs.filter (fun e => e.2 = Item.SPACETIME_SEAL)).map (fun e => e.1)

/-- Participants with the seal flag set. -/
def sealHolders (g : Game) : List SocketId :=
  (g.players.filter (fun p => p.cornucopia)).map (fun p => p.id)

/-- Hazard tiles lying inside the current safe zone. -/
def hazardsInSafeZone (g : Game) : List Pos :=
  g.board.fire.filter (fun k => inCornucore k.x k.y g.cc)

/-- The life-cycle condition on one participant: Alive XOR Ascended, and Ascended participants
have no position and are not flagged as just respawned. -/
def LifeOK (p : Player) : Prop :=
  p.isAlive = (!p.isSponsor) ∧ (p.isSponsor = true → p.pos = none) ∧
    (p.isSponsor = true → p.justRespawned = false)

/-- The roster has one entry per id and every entry satisfies `LifeOK`. -/
def RosterOK (ps : List Player) : Prop :=
  (ps.map (fun p => p.id)).Nodup ∧ ∀ p ∈ ps, LifeOK p

/-- A record update that keeps the id and preserves `LifeOK`. -/
def Safe (f : Player → Player) : Prop :=
  (∀ p, (f p).id = p.id) ∧ (∀ p, LifeOK p → LifeOK (f p))

/-- Two joins, a start on the 10x10 board and two expired ticks (number, movement, resolution). -/
def exampleCommands : List Cmd :=
  [Cmd.join "s1" (utf16 "Ann") "" "" "" false "1111" asciiLower, Cmd.join "s2" (utf16 "Bob") "" "" "" false "2222" asciiLower,
   Cmd.hostStart (some 10) 0, Cmd.tick 5000 zeroOracle, Cmd.tick 10000 zeroOracle]

/-- The state reached from a new Game by `exampleCommands`. -/
def exampleReachedGame : Game :=
  (run (Game.new "room") exampleCommands).getD (Game.new "room")

/-- Whether the command is the host's start-game. -/
def Cmd.isStart : Cmd → Bool
  | Cmd.hostStart _ _ => true
  | _ => false

/-- Whether the command is the host's reset. -/
def Cmd.isReset : Cmd → Bool
  | Cmd.hostReset => true
  | _ => false

/-- The tiles `(x, y)` with `x0 ≤ x ≤ x1` and `y0 ≤ y ≤ y1`, column by column. -/
def boxTiles (x0 x1 y0 y1 : Int) : List Pos :=
  (intsFromTo x0 x1).flatMap (fun x => (intsFromTo y0 y1).map (fun y => Pos.mk x y))

/-- Loot entries lying on a safe-zone tile other than the center. -/
def lootInSafeZone (g : Game) : List (Pos × Item) :=
  g.board.buffs.filter (fun e => inCornucore e.1.x e.1.y g.cc && !isCenter e.1.x e.1.y g.cc)

/-- A start followed by `n` forced phase advances with the zero oracle, on an empty room. -/
def forcedAdvances (n : Nat) : List Cmd :=
  Cmd.hostStart none 0 :: List.replicate n (Cmd.hostEndRound 0 zeroOracle)

/-- The four neighbours visited by `fireFrontier` for the hazard tile `f`. -/
def fireNbrs (f : Pos) : List Pos :=
  [Pos.mk (f.x + 1) f.y, Pos.mk (f.x - 1) f.y, Pos.mk f.x (f.y + 1), Pos.mk f.x (f.y - 1)]

/-- The test a neighbour passes to enter the frontier: in bounds, outside the safe zone, not a
hazard tile and not in `occ`. -/
def frontierOK (g : Game) (occ : List Pos) (n : Pos) : Bool :=
  inBoard g.size n && !inCornucore n.x n.y g.cc && !decide (n ∈ g.board.fire) && !decide (n ∈ occ)

/-- The default board at the end of round 6 with one hazard tile in the corner and nobody on
the board. -/
def exampleHazardGame : Game :=
  { Game.new "room" with board := { fire := [Pos.mk 0 0], buffs := [] },
                         phase := Phase.resolution, round := 6 }

/-- The state of `startRefresh` once the number histories are cleared. -/
def refreshStart (g : Game) : Game :=
  { g with phase := Phase.refresh,
           players := g.players.map (fun p =>
             if p.isAlive && !p.isSponsor then { p with usedNumbers := [] } else p) }

/-- The tiles `toAdd` of the expansion branch of `startRefresh`. -/
def refreshToAdd (g : Game) (o : Oracle) : List Pos :=
  (shuffle o.shuffleA (fireFrontier (refreshStart g) true)).take
    (max 0 (min 100 g.settings.firesPerRefresh)).toNat

/-- The state of the expansion branch of `startRefresh` once `toAdd` is added. -/
def refreshExpanded (g : Game) (o : Oracle) : Game :=
  { refreshStart g with
    board := { (refreshStart g).board with fire := (refreshToAdd g o).foldl setAdd g.board.fire } }

/-- The budget `maxStep = p.speedSteps || 2` of `validMovesFor`. -/
def moveBudget (p : Player) : Int := if p.speedSteps = 0 then 2 else p.speedSteps

/-- The body of the double loop of `validMovesFor` for the offset `(dx, dy)`. -/
def stepTo (g : Game) (pos : Pos) (maxStep dx dy : Int) : Option Pos :=
  let man : Int := (dx.natAbs : Int) + (dy.natAbs : Int)
  if man ≤ 0 ∨ man > maxStep then none
  else
    let x := pos.x + dx
    let y := pos.y + dy
    if x < 0 ∨ y < 0 ∨ x ≥ g.size ∨ y ≥ g.size then none
    else if Pos.mk x y ∈ g.board.fire then none
    else some (Pos.mk x y)

/-- Two joins, a start on the 10x10 board, hazard tiles painted on every tile within two steps
of the first participant's corner, and the expired ticks up to the movement phase of round 3,
in which that participant, eliminated in round 1 for lack of a legal move, is back with the
respawn Warp. -/
def warpCommands : List Cmd :=
  [Cmd.join "a" (utf16 "Ann") "" "" "" false "1111" asciiLower, Cmd.join "b" (utf16 "Bob") "" "" "" false "2222" asciiLower,
   Cmd.hostStart (some 10) 0,
   Cmd.hostPaint 1 0 PaintMode.FIRE none, Cmd.hostPaint 2 0 PaintMode.FIRE none,
   Cmd.hostPaint 0 1 PaintMode.FIRE none, Cmd.hostPaint 0 2 PaintMode.FIRE none,
   Cmd.hostPaint 1 1 PaintMode.FIRE none,
   Cmd.tick 5000 zeroOracle, Cmd.tick 10000 zeroOracle, Cmd.tick 20000 zeroOracle,
   Cmd.tick 25000 zeroOracle, Cmd.tick 30000 zeroOracle, Cmd.tick 40000 zeroOracle,
   Cmd.tick 45000 zeroOracle]

/-- What a run leaves of the participant stored under `id`: position, declared destination and
legal moves. -/
def observe (cmds : List Cmd) (id : SocketId) : Option (Option Pos × Option Pos × List Pos) :=
  match run (Game.new "room") cmds with
  | none => none
  | some g => (findP g.players id).map (fun p => (p.pos, p.movementTarget, validMovesFor g p))

/-- The record `joinOrReconnect` leaves of a participant `p` found by token or pin. -/
def rebound (p : Player) (socketId : SocketId) (clientId : String) : Player :=
  { p with id := socketId, clientId := if clientId = "" then p.clientId else some clientId,
           connected := true }

/-- The lookup of `findPlayerByClientOrPin` can only find `p`: either the token is allowed, not
empty, held by `p` and by no other participant, or the pin is not empty, held by `p` and by no
other participant, while the token is not allowed, empty or held by nobody. -/
def IdentifiedBy (g : Game) (p : Player) (clientId pin : String) (allowClientId : Bool) : Prop :=
  (allowClientId = true ∧ clientId ≠ "" ∧ p.clientId = some clientId ∧
    ∀ q ∈ g.players, q.clientId = some clientId → q = p) ∨
  ((allowClientId = false ∨ clientId = "" ∨ ∀ q ∈ g.players, q.clientId ≠ some clientId) ∧
    pin ≠ "" ∧ p.pin = pin ∧ ∀ q ∈ g.players, q.pin = pin → q = p)

/-- A participant with a score, a kill, a Sword, the Seal and a number history. -/
def annPlayer : Player :=
  { Player.new "a" (utf16 "Ann") "" "tokA" "1111" with
    pos := some (Pos.mk 0 0), vp := 7, vpDelta := 2, kills := 1, buff := some Item.SWORD,
    cornucopia := true, usedNumbers := [3, 5], connected := false }

def bobPlayer : Player :=
  { Player.new "b" (utf16 "Bob") "" "tokB" "2222" with pos := some (Pos.mk 9 9) }

/-- A session with the two participants above. -/
def exampleLobby : Game :=
  { Game.new "room" with players := [annPlayer, bobPlayer], joinOrder := ["a", "b"],
                         phase := Phase.number, round := 2 }

/-- An entry of `leaderboard()`. -/
structure LbEntry where
  name : JSString
  vp : Int
  isSponsor : Bool
  isAlive : Bool
  deriving DecidableEq, Repr

/-- `p => ({ name:p.name, vp:p.vp, isSponsor:p.isSponsor, isAlive:p.isAlive })`. -/
def lbEntry (p : Player) : LbEntry :=
  { name := p.name, vp := p.vp, isSponsor := p.isSponsor, isAlive := p.isAlive }

/-- `(b.vp - a.vp) || ((a.isSponsor?1:0) - (b.isSponsor?1:0)) || a.name.localeCompare(b.name)`. -/
def lbCmp (o : Oracle) (a b : LbEntry) : Int :=
  if b.vp - a.vp ≠ 0 then b.vp - a.vp
  else if (if a.isSponsor then (1 : Int) else 0) - (if b.isSponsor then 1 else 0) ≠ 0 then
    (if a.isSponsor then (1 : Int) else 0) - (if b.isSponsor then 1 else 0)
  else o.localeCompare a.name b.name

/-- `leaderboard()`. -/
def leaderboard (g : Game) (o : Oracle) : List LbEntry :=
  sortStable (lbCmp o) (g.players.map lbEntry)

/-- The `winner` that `endGame` reports: `lb[0] || null`. -/
def endGameWinner (g : Game) (o : Oracle) : Option LbEntry := (leaderboard g o).head?

/-- What `localeCompare` is relied on for: any two names are comparable, and the comparison is
transitive. -/
structure Collation (lc : JSString → JSString → Int) : Prop where
  total : ∀ a b, lc a b ≤ 0 ∨ lc b a ≤ 0
  trans : ∀ a b c, lc a b ≤ 0 → lc b c ≤ 0 → lc a c ≤ 0

/-- The ranking order: more VP first, then (at equal VP) not Ascended before Ascended, then
(at equal VP and life-cycle state) the name not after the other's name. -/
def rankedBefore (o : Oracle) (a b : LbEntry) : Prop :=
  a.vp > b.vp ∨
  (a.vp = b.vp ∧ ((a.isSponsor = false ∧ b.isSponsor = true) ∨
    (a.isSponsor = b.isSponsor ∧ o.localeCompare a.name b.name ≤ 0)))

/-- A roster of three at the end of a game: an Alive and an Ascended participant at 7 VP, and
an Alive participant at 3 VP. -/
def exampleFinalGame : Game :=
  { Game.new "room" with
    players := [{ Player.new "c" (utf16 "Cy") "" "" "3333" with vp := 3, pos := some (Pos.mk 1 1) },
                { Player.new "b" (utf16 "Bob") "" "" "2222" with
                    vp := 7, isAlive := false, isSponsor := true },
                { Player.new "a" (utf16 "Ann") "" "" "1111" with vp := 7, pos := some (Pos.mk 0 0) }],
    joinOrder := ["c", "b", "a"], phase := Phase.gameover, round := 6 }

/-- The state `g` with another roster and another loot map. -/
def frameOf (g : Game) (ps : List Player) (bs : List (Pos × Item)) : Game :=
  { g with players := ps, board := { g.board with buffs := bs } }

/-- The state `g'` differs from `g` at most in its roster entries, which keep their ids and
their order, and in its loot map. -/
def SameRound (g g' : Game) : Prop :=
  g' = frameOf g g'.players g'.board.buffs ∧
  g'.players.map (fun p => p.id) = g.players.map (fun p => p.id)

/-- The state of `startResolution` after `awardEndOfRoundVPs`, before the deadline is set. -/
def resolutionCore (g : Game) (now : Int) (o : Oracle) : Game :=
  let acc := resolutionUpToLoot g now o
  let g3 := resolveCombatsDetailed acc.g acc.byPos
  let g4 := (g3.players.map (fun p => p.id)).foldl fireStep g3
  let g5 := autoSponsor o g4
  let g6 : Game := { g5 with players := g5.players.map consumeRespawnWarp }
  awardEndOfRoundVPs g6

/-- The tiles `candidates` of the seeding branch of `startRefresh`. -/
def seedCandidates (g : Game) : List Pos :=
  (intsFromTo 0 (g.size - 1)).flatMap (fun y =>
    (intsFromTo 0 (g.size - 1)).filterMap (fun x =>
      if inCornucore x y g.cc then none
      else if !decide (Pos.mk x y ∈ occupiedTiles (refreshStart g).players) then some (Pos.mk x y)
      else none))

/-- The tiles `seeds` of the seeding branch of `startRefresh`. -/
def refreshSeeds (g : Game) (o : Oracle) : List Pos :=
  pickSeeds (max 0 (min 100 g.settings.firesPerRefresh)) (shuffle o.shuffleA (seedCandidates g))

/-- The state of the seeding branch of `startRefresh` once the seeds are added. -/
def refreshSeeded (g : Game) (o : Oracle) : Game :=
  { refreshStart g with
    board := { (refreshStart g).board with fire := (refreshSeeds g o).foldl setAdd g.board.fire } }

/-- The states after each of a series of ticks, the clock of each tick being the deadline of
the state it finds plus a delay. -/
def ticksAtDeadline (g : Game) : List (Nat × Oracle) → List Game
  | [] => []
  | t :: ts =>
    tick g (g.timerEnd + (t.1 : Int)) t.2 ::
      ticksAtDeadline (tick g (g.timerEnd + (t.1 : Int)) t.2) ts

/-- A 10x10 session with three participants, a refresh every 6 rounds, at least one hazard tile
per refresh, no hazard tile yet, and not paused. -/
structure FreshBoard (g : Game) : Prop where
  players : g.players.length = 3
  size : g.size = 10
  cc : g.cc = makeCornucore 10
  every : g.settings.refreshEvery = 6
  fires : 1 ≤ g.settings.firesPerRefresh
  fire : g.board.fire = []
  paused : g.paused = false

/-- Three participants in the lobby of a new 10x10 session. -/
def exampleTrioLobby : Game :=
  { Game.new "room" with
    players := [{ Player.new "a" (utf16 "Ann") "" "" "1111" with pos := some (Pos.mk 0 0) },
                { Player.new "b" (utf16 "Bob") "" "" "2222" with pos := some (Pos.mk 9 9) },
                { Player.new "c" (utf16 "Cy") "" "" "3333" with pos := some (Pos.mk 0 9) }],
    joinOrder := ["a", "b", "c"] }

/-- The center tile of the safe zone holds the Seal. -/
def SealAtCenter (g : Game) : Prop :=
  mapGet g.board.buffs g.cc.center = some Item.SPACETIME_SEAL

/-- The step from `g` to `g'` keeps the safe zone, and the Seal on the center tile if it is
there. -/
def KeepsSeal (g g' : Game) : Prop :=
  g'.cc = g.cc ∧ (SealAtCenter g → SealAtCenter g')

/-- The record left by the hazard check of `startResolution`. -/
def fireFun (g : Game) (p : Player) : Player :=
  if (p.isAlive && !p.isSponsor) = true ∧ (∃ k, p.pos = some k ∧ k ∈ g.board.fire) then
    elimFun g.round p
  else p

/-- An Alive participant of `g` stands on a hazard tile. -/
def AliveOnHazard (g : Game) (p : Player) : Prop :=
  p.isAlive = true ∧ p.isSponsor = false ∧ ∃ k, p.pos = some k ∧ k ∈ g.board.fire

/-- The step from `g` to `g'` keeps the hazard set and the life-cycle flags and position of every
roster entry. -/
def SameLife (g g' : Game) : Prop :=
  g'.board.fire = g.board.fire ∧
  ∀ p' ∈ g'.players, ∃ p ∈ g.players,
    p'.isAlive = p.isAlive ∧ p'.isSponsor = p.isSponsor ∧ p'.pos = p.pos

/-- A record update that keeps the life-cycle flags and the position. -/
def KeepsLife (f : Player → Player) : Prop :=
  ∀ p, (f p).isAlive = p.isAlive ∧ (f p).isSponsor = p.isSponsor ∧ (f p).pos = p.pos

/-- A shielded participant standing on the hazard tile (2,2), holding the Seal, in the
resolution of round 4. -/
def exampleBurningGame : Game :=
  { Game.new "room" with
    players := [{ Player.new "a" (utf16 "Ann") "" "" "1111" with
                    pos := some (Pos.mk 2 2), buff := some Item.SHIELD, hasShield := true,
                    cornucopia := true }],
    joinOrder := ["a"], board := { fire := [Pos.mk 2 2], buffs := [] },
    phase := Phase.resolution, round := 4 }

/-- A concrete run that leaves participant `a` Ascended: two participants join, the game starts,
the host paints hazards around the corner of `a`, and the expired ticks run round 1 up to its
resolution, in which `a` is eliminated for lack of a legal move. -/
def ascendedCommands : List Cmd := warpCommands.take 10

/-- What a run leaves of the sponsoring state of the participant stored under `id`: the
Ascended flag and the sponsor target. -/
def sponsorView (cmds : List Cmd) (id : SocketId) : Option (Bool × Option SocketId) :=
  match run (Game.new "room") cmds with
  | none => none
  | some g => (findP g.players id).map (fun p => (p.isSponsor, p.sponsorTargetId))

/-- The handler `request-legal-moves` (and its aliases `player:request-legal`, `request-legal`,
`moves:legal:request`): `p = g.players[socket.id]; if (!p) return; tiles = g.validMovesFor(p)`
followed by the emission of `tiles`. The handler and `validMovesFor` contain no assignment, so
the state left is the state found; the second component is the list emitted, `none` when
nothing is emitted. -/
def requestLegalMoves (g : Game) (socketId : SocketId) : Game × Option (List Pos) :=
  match findP g.players socketId with
  | none => (g, none)
  | some p => (g, some (validMovesFor g p))

/-- The lists emitted by `n` consecutive legal-move queries of one socket, and the state left. -/
def requestLegalMovesTimes (socketId : SocketId) :
    Nat → Game → Game × List (Option (List Pos))
  | 0, g => (g, [])
  | n + 1, g =>
    let r := requestLegalMoves g socketId
    let rest := requestLegalMovesTimes socketId n r.1
    (rest.1, r.2 :: rest.2)

/-- The per-round amount in the words of the scoring rule: the survival VP if survival is
enabled, plus the sanctum VP if the sanctum is enabled and the participant is positioned inside
the inner sanctum, plus the center-tile VP if it is positive and the participant is positioned
exactly on the center tile. -/
def perRoundVP (g : Game) (p : Player) : Int :=
  (if g.settings.survivalPerRoundEnabled then g.settings.survivalPerRoundVP else 0) +
  (match p.pos with
   | some q =>
     (if g.settings.innerSanctumEnabled ∧ isInnerSanctum q.x q.y g.cc = true
      then g.settings.innerSanctumVP else 0) +
     (if 0 < g.settings.centerTileVP ∧ isCenter q.x q.y g.cc = true
      then g.settings.centerTileVP else 0)
   | none => 0)

/-- Whether the command is a call of `joinOrReconnect` (the join and reconnect handlers). -/
def Cmd.isJoin : Cmd → Bool
  | Cmd.join _ _ _ _ _ _ _ _ => true
  | _ => false

/-- The display name as compared by the de-duplication: lower-cased by `lower`. -/
def lowerName (lower : JSString → JSString) (p : Player) : JSString := lower p.name

/-- Every display name is non-empty and has at most 24 code units, and no two entries have
names equal ignoring case (equal after `lower`). -/
def NamesOK (lower : JSString → JSString) (ps : List Player) : Prop :=
  (∀ p ∈ ps, p.name ≠ [] ∧ p.name.length ≤ 24) ∧ (ps.map (lowerName lower)).Nodup

/-- The command, if a join, is handled with `lower` as `toLowerCase`. -/
def Cmd.lowersWith (lower : JSString → JSString) : Cmd → Prop
  | Cmd.join _ _ _ _ _ _ _ l => l = lower
  | _ => True

/-- Lower-casing of `A`..`Z` and of the Latin-1 capitals `À`..`Þ` (except `×`), every other code
unit kept: what `toLowerCase` does on strings of Latin-1 letters and emoji. -/
def latin1Lower (s : JSString) : JSString :=
  s.map (fun u =>
    if 65 ≤ u ∧ u ≤ 90 then u + 32
    else if 192 ≤ u ∧ u ≤ 222 ∧ u ≠ 215 then u + 32 else u)

/-- Three calls of `joinOrReconnect`: Ann joins, a second participant asks for the name `ann`,
and Ann reconnects with her pin on a new connection. -/
def exampleNameCommands : List Cmd :=
  [Cmd.join "s1" (utf16 "Ann") "" "" "" false "1111" asciiLower,
   Cmd.join "s2" (utf16 "ann") "" "" "" false "2222" asciiLower,
   Cmd.join "s3" (utf16 "") "" "" "1111" true "3333" asciiLower]

/-- The state reached from a new Game by `exampleNameCommands`. -/
def exampleNamedGame : Game :=
  (run (Game.new "room") exampleNameCommands).getD (Game.new "room")

/-- Joins with names outside ASCII: `Émile`, then `émile`, then a name of 13 emoji (26 code
units), then `a` followed by 12 emoji (25 code units). -/
def unicodeNameCommands : List Cmd :=
  [Cmd.join "s1" (utf16 "Émile") "" "" "" false "1111" latin1Lower,
   Cmd.join "s2" (utf16 "émile") "" "" "" false "2222" latin1Lower,
   Cmd.join "s3" (utf16 "😀😀😀😀😀😀😀😀😀😀😀😀😀") "" "" "" false "3333" latin1Lower,
   Cmd.join "s4" (utf16 "a😀😀😀😀😀😀😀😀😀😀😀😀") "" "" "" false "4444" latin1Lower]

/-- The state reached from a new Game by `unicodeNameCommands`. -/
def unicodeNamedGame : Game :=
  (run (Game.new "room") unicodeNameCommands).getD (Game.new "room")

/-- One round driven by the host: the forced advance into the movement phase, a declared
destination for each of the two participants, and the forced advance into resolution. -/
def roundCommands (a b : SocketId) (ta tb : Pos) : List Cmd :=
  [Cmd.hostEndRound 0 zeroOracle, Cmd.moveTo a ta.x ta.y, Cmd.moveTo b tb.x tb.y,
   Cmd.hostEndRound 0 zeroOracle]

/-- Ann joins on connection `s1` and Bob on `s2`. -/
def twoJoins : List Cmd :=
  [Cmd.join "s1" (utf16 "Ann") "" "" "" false "1111" asciiLower, Cmd.join "s2" (utf16 "Bob") "" "" "" false "2222" asciiLower]

/-- Bob reconnects with his pin on connection `s3`. -/
def bobReconnects : Cmd := Cmd.join "s3" (utf16 "") "" "" "2222" true "3333" asciiLower

/-- After `joins` the game starts on the 10x10 board and the host paints a Renown Chip on
(5,4). Over four rounds Ann (on `s1`) and Bob (on `b`) walk towards each other from their
corners, up to the number phase of round 5 with Ann on (4,4) and Bob on (6,5). -/
def approachCommands (joins : List Cmd) (b : SocketId) : List Cmd :=
  joins ++
  [Cmd.hostStart (some 10) 0, Cmd.hostPaint 5 4 PaintMode.BUFF (some Item.RENOWN_CHIP)] ++
  roundCommands "s1" b (Pos.mk 1 1) (Pos.mk 8 8) ++ [Cmd.hostEndRound 0 zeroOracle] ++
  roundCommands "s1" b (Pos.mk 2 2) (Pos.mk 7 7) ++ [Cmd.hostEndRound 0 zeroOracle] ++
  roundCommands "s1" b (Pos.mk 3 3) (Pos.mk 6 6) ++ [Cmd.hostEndRound 0 zeroOracle] ++
  roundCommands "s1" b (Pos.mk 4 4) (Pos.mk 6 5) ++ [Cmd.hostEndRound 0 zeroOracle]

/-- The approach followed by round 5, in which both participants move onto the painted tile
(5,4), up to its resolution. -/
def meetCommands (joins : List Cmd) (b : SocketId) : List Cmd :=
  approachCommands joins b ++ roundCommands "s1" b (Pos.mk 5 4) (Pos.mk 5 4)

/-- The approach followed by a round 5 in which Ann picks the number 6 and both participants
move onto (5,4): Ann defeats Bob in the encounter. -/
def killCommands : List Cmd :=
  approachCommands twoJoins "s2" ++ [Cmd.pickNumber "s1" 6] ++
  roundCommands "s1" "s2" (Pos.mk 5 4) (Pos.mk 5 4)

/-- What a run leaves of the scores: id, VP and kill count of every participant. -/
def killView (cmds : List Cmd) : Option (List (SocketId × Int × Int)) :=
  match run (Game.new "room") cmds with
  | none => none
  | some g => some (g.players.map (fun p => (p.id, p.vp, p.kills)))

/-- What a run leaves of the roster ids and of the join sequence. -/
def joinView (cmds : List Cmd) : Option (List SocketId × List SocketId) :=
  match run (Game.new "room") cmds with
  | none => none
  | some g => some (g.players.map (fun p => p.id), g.joinOrder)

/-- What a run leaves of the roster, the join sequence and the loot on tile `k`: for each
participant the id, the name, the position and the VP gained in the round. -/
def lootView (cmds : List Cmd) (k : Pos) :
    Option (List (SocketId × JSString × Option Pos × Int) × List SocketId × Option Item) :=
  match run (Game.new "room") cmds with
  | none => none
  | some g =>
    some (g.players.map (fun p => (p.id, p.name, p.pos, p.vpDelta)), g.joinOrder,
      mapGet g.board.buffs k)

/-- The outcome of `tryRespawnsForRound(r)` for the record `p` found under `id` before the call:
the record is untouched, or `p` was Ascended with due-round `r` and has been placed. -/
def RespawnOutcome (r : Nat) (g0 g : Game) : Prop :=
  ∀ id p, findP g0.players id = some p →
    findP g.players id = some p ∨
    (p.isSponsor = true ∧ p.ascendedReturnRound = some r ∧
      ∃ spot, findP g.players id = some (respawnPlayer spot p))

/-- A record update that keeps the id, the Ascended flag and the due-round. -/
def KeepsDue (f : Player → Player) : Prop :=
  ∀ p, (f p).id = p.id ∧ (f p).isSponsor = p.isSponsor ∧
    (f p).ascendedReturnRound = p.ascendedReturnRound

/-- The roster stores under `i` an Ascended participant with due-round `r`. -/
def AscendedDue (i : SocketId) (r : Nat) (ps : List Player) : Prop :=
  ∃ p, findP ps i = some p ∧ p.isSponsor = true ∧ p.ascendedReturnRound = some r

/-- The commands that neither restart the round counter nor add, remove or re-key roster
entries: every command but start-game, reset, kick, clear-disconnected and join. -/
def Cmd.inRound : Cmd → Bool
  | Cmd.hostStart _ _ => false
  | Cmd.hostReset => false
  | Cmd.hostKick _ => false
  | Cmd.hostClearGhosts => false
  | Cmd.join _ _ _ _ _ _ _ _ => false
  | _ => true

/-- The participant stored under `i` is Ascended with a due-round `r` that the round counter
has reached. -/
def Starved (i : SocketId) (r : Nat) (g : Game) : Prop :=
  AscendedDue i r g.players ∧ r ≤ g.round

/-- A run that starves participant `a`: after `ascendedCommands` (`a` is eliminated in round 1,
due back in round 3) the host paints a hazard on every edge tile of the 10x10 board that has
none yet, and the expired ticks run up to the number phase of round 3, whose respawn attempt
finds no free edge tile. -/
def starvationCommands : List Cmd :=
  ascendedCommands ++
  ((edgeTilesOfBoard 10).filter
    (fun t => !decide (t ∈ [Pos.mk 1 0, Pos.mk 2 0, Pos.mk 0 1, Pos.mk 0 2]))).map
    (fun t => Cmd.hostPaint t.x t.y PaintMode.FIRE none) ++
  [Cmd.tick 20000 zeroOracle, Cmd.tick 25000 zeroOracle, Cmd.tick 30000 zeroOracle,
   Cmd.tick 40000 zeroOracle]

/-- The state reached from a new Game by `starvationCommands`. -/
def exampleStarvedRun : Game :=
  (run (Game.new "room") starvationCommands).getD (Game.new "room")

/-- Two further rounds of expired ticks after `starvationCommands`. -/
def laterTicks : List Cmd :=
  [Cmd.tick 45000 zeroOracle, Cmd.tick 50000 zeroOracle, Cmd.tick 60000 zeroOracle,
   Cmd.tick 65000 zeroOracle, Cmd.tick 70000 zeroOracle, Cmd.tick 80000 zeroOracle]

/-- The state reached from `exampleStarvedRun` by `laterTicks`. -/
def exampleLaterGame : Game :=
  (run exampleStarvedRun laterTicks).getD (Game.new "room")

/-- The record of participant `a` in `exampleStarvedRun`: Ascended, due back in round 3. -/
def starvedRecord : Player :=
  { Player.new "a" (utf16 "Ann") "" "" "1111" with
    isAlive := false, isSponsor := true, usedNumbers := [1, 6], lastRevealedNumber := some 6,
    sponsorTargetId := some "b", state := some LifeTag.ascended,
    ascendedReturnRound := some 3 }

/-- The participant selected for the pickup on the loot tile `k2`: the sole contender, or with
several contenders the first of the contenders sorted by join order; `none` on a tile without
contender. -/
def lootWinner (acc : LootAcc) (k2 : Pos) : Option SocketId :=
  match byPosGet acc.byPos k2 with
  | [] => none
  | [w] => some w
  | c :: cs =>
    (sortStable (fun a b => indexOfJS acc.g.joinOrder a - indexOfJS acc.g.joinOrder b)
      (c :: cs)).head?

/-- A display name of 24 characters. -/
def name24 : JSString := utf16 "abcdefghijklmnopqrstuvwx"

/-- Two joins asking for the same 24-character display name. -/
def longNameJoins : List Cmd :=
  [Cmd.join "s1" name24 "" "" "" false "1111" asciiLower, Cmd.join "s2" name24 "" "" "" false "2222" asciiLower]

/-- What a run leaves of the board size and of the positions: id and position of every
participant. -/
def posView (cmds : List Cmd) : Option (Int × List (SocketId × Option Pos)) :=
  match run (Game.new "room") cmds with
  | none => none
  | some g => some (g.size, g.players.map (fun p => (p.id, p.pos)))

/-- The `candidates` of `spawnPosition`: the board-edge tiles. -/
def spawnCandidates (g : Game) : List Pos :=
  (intsFromTo 0 (g.size - 1)).flatMap (fun x => [Pos.mk x 0, Pos.mk x (g.size - 1)]) ++
  (intsFromTo 1 (g.size - 2)).flatMap (fun y => [Pos.mk 0 y, Pos.mk (g.size - 1) y])

/-- The `open` tiles of `spawnPosition`: candidates outside the safe zone that are neither a
hazard tile nor occupied by a positioned Alive participant. -/
def spawnOpen (g : Game) : List Pos :=
  (spawnCandidates g).filter (fun p =>
    !inCornucore p.x p.y g.cc && !decide (p ∈ g.board.fire) &&
      !decide (p ∈ occupiedTiles g.players))

/-- The `assigned` positions of `spawnPosition`: the positions of the participants stored under
the ids of the join sequence. -/
def spawnAssigned (g : Game) : List Pos :=
  (g.joinOrder.filterMap (fun id => findP g.players id)).filterMap (fun p => p.pos)

/-- The `score` of a candidate in `spawnPosition`. -/
def spawnScore (g : Game) (c : Pos) : Int :=
  if (spawnAssigned g).isEmpty then (9999 : Int)
  else minOf ((spawnAssigned g).map (fun a => manhattan a c))

/-- The host paints a hazard on every edge tile of the 10x10 board of a new Game. -/
def edgeHazardCommands : List Cmd :=
  (edgeTilesOfBoard 10).map (fun t => Cmd.hostPaint t.x t.y PaintMode.FIRE none)

/-- The state reached from a new Game by `edgeHazardCommands`. -/
def exampleEdgeHazardGame : Game :=
  (run (Game.new "room") edgeHazardCommands).getD (Game.new "room")

/-- Ann and Bob join, Bob reconnects on a new connection, and a third participant joins. -/
def thirdJoinCommands : List Cmd :=
  twoJoins ++ [bobReconnects, Cmd.join "s4" (utf16 "Cy") "" "" "" false "4444" asciiLower]

/-- The state reached from a new Game when Ann and Bob have joined and Bob has reconnected. -/
def exampleReconnectedGame : Game :=
  (run (Game.new "room") (twoJoins ++ [bobReconnects])).getD (Game.new "room")

/-- The settings update that sets `firesPerRefresh` to 0 and leaves every other setting. -/
def noFiresPayload : SettingsPayload :=
  { firesPerRefresh := some 0, buffsPerRefresh := none, showPhaseTimer := none,
    numberSec := none, movementSec := none, resolutionSec := none, refreshEvery := none,
    eliminationVP := none, renownChipVP := none, survivalPerRoundEnabled := none,
    survivalPerRoundVP := none, innerSanctumEnabled := none, innerSanctumVP := none,
    centerTileVP := none }

/-- What a run leaves of the phase, the round, the end reason and the hazard set. -/
def hazardView (cmds : List Cmd) : Option (Phase × Nat × Option EndReason × List Pos) :=
  match run (Game.new "room") cmds with
  | none => none
  | some g => some (g.phase, g.round, g.endReason, g.board.fire)

/-- The state of the respawn loop relative to its start: the tiles popped so far, each with the
id that received it, are the end of the shuffled list, and every record found at the start is
untouched or was Ascended with due-round `r` and has been placed on the tile popped for it. -/
def RespawnTrace (r : Nat) (g0 : Game) (shuffled0 : List Pos) (acc : RespawnAcc) : Prop :=
  ∃ used : List (SocketId × Pos),
    shuffled0 = acc.shuffled ++ used.map (fun u => u.2) ∧
    ∀ id p, findP g0.players id = some p →
      findP acc.g.players id = some p ∨
      (p.isSponsor = true ∧ p.ascendedReturnRound = some r ∧
        ∃ spot, (id, spot) ∈ used ∧ findP acc.g.players id = some (respawnPlayer spot p))

/-- The sanctum session in round 2 with its Ascended participant due back in round 2. -/
def exampleDueGame : Game :=
  { exampleSanctumGame with
    players := [exampleTarget, { exampleSponsor with ascendedReturnRound := some 2 }],
    round := 2 }

/-- The state of `startResolution` after the "Apply movement" loop: numbers revealed and every
move committed. -/
def afterMovement (g : Game) (now : Int) (o : Oracle) : Game :=
  let g0 : Game :=
    { g with timerEnd := now + g.durations.resolution, phase := Phase.resolution,
             players := g.players.map revealNumber }
  (g0.players.map (fun p => p.id)).foldl (moveStep o) g0

/-- The number history holds all six numbers. -/
def allSix (used : List Int) : Prop := ∀ m : Int, 1 ≤ m → m ≤ 6 → m ∈ used

/-- The in-progress number of `p`, if any, lies in [1,6] and is not in the number history of
`p`, unless that history already holds all six numbers. -/
def NumOK (p : Player) : Prop :=
  ∀ n, p.selectedNumber = some n →
    (1 ≤ n ∧ n ≤ 6) ∧ (n ∉ p.usedNumbers ∨ allSix p.usedNumbers)

/-- In the phases pregame, number and movement every roster entry satisfies `NumOK`. -/
def NumbersOK (g : Game) : Prop :=
  (g.phase = Phase.pregame ∨ g.phase = Phase.number ∨ g.phase = Phase.movement) →
    ∀ p ∈ g.players, NumOK p

/-- Every start-game of the command list is issued in phase pregame, number or movement. -/
def startsInPlay : Game → List Cmd → Bool
  | _, [] => true
  | g, c :: cs =>
    (!c.isStart || decide (g.phase = Phase.pregame ∨ g.phase = Phase.number ∨
      g.phase = Phase.movement)) &&
    (match step g c with
     | some g1 => startsInPlay g1 cs
     | none => true)

/-- The `host:update-settings` payload that only sets `refreshEvery` to 7. -/
def refreshEverySeven : SettingsPayload :=
  { firesPerRefresh := none, buffsPerRefresh := none, showPhaseTimer := none,
    numberSec := none, movementSec := none, resolutionSec := none, refreshEvery := some 7,
    eliminationVP := none, renownChipVP := none, survivalPerRoundEnabled := none,
    survivalPerRoundVP := none, innerSanctumEnabled := none, innerSanctumVP := none,
    centerTileVP := none }

/-- The host sets `refreshEvery` to 7, Ann joins, the game starts and the phase is forced
forward `n` times; Ann never picks a number. -/
def sevenRoundCommands (n : Nat) : List Cmd :=
  [Cmd.hostUpdateSettings refreshEverySeven, Cmd.join "s1" (utf16 "Ann") "" "" "" false "1111" asciiLower] ++
    forcedAdvances n

/-- Ann joins, the game starts and runs to the resolution of round 1; there the host issues
start-game again and the phase is forced forward `n` times. -/
def restartCommands (n : Nat) : List Cmd :=
  [Cmd.join "s1" (utf16 "Ann") "" "" "" false "1111" asciiLower, Cmd.hostStart none 0,
   Cmd.hostEndRound 0 zeroOracle, Cmd.hostEndRound 0 zeroOracle, Cmd.hostStart none 0] ++
    List.replicate n (Cmd.hostEndRound 0 zeroOracle)

/-- Ann joins, the game starts, Ann picks 4 and the phase is forced to movement. -/
def pickedCommands : List Cmd :=
  [Cmd.join "s1" (utf16 "Ann") "" "" "" false "1111" asciiLower, Cmd.hostStart none 0, Cmd.pickNumber "s1" 4,
   Cmd.hostEndRound 0 zeroOracle]

/-- The state reached by `pickedCommands`. -/
def pickedGame : Game := (run (Game.new "room") pickedCommands).getD (Game.new "room")

/-- What a run leaves of the phase, the round and, per participant, the Alive flag, the
in-progress number, the last revealed number and the number history. -/
def numberView (cmds : List Cmd) :
    Option (Phase × Nat × List (Bool × Option Int × Option Int × List Int)) :=
  (run (Game.new "room") cmds).map (fun g =>
    (g.phase, g.round, g.players.map (fun p =>
      (p.isAlive && !p.isSponsor, p.selectedNumber, p.lastRevealedNumber, p.usedNumbers))))

/-- The number fields of a roster entry with its id: the history, the number in progress and
the last number revealed. -/
def numKey (p : Player) : SocketId × List Int × Option Int × Option Int :=
  (p.id, p.usedNumbers, p.selectedNumber, p.lastRevealedNumber)

/-- The roster of `g'` carries, entry by entry, the ids and number fields of the roster of
`g`. -/
def SameNumbers (g g' : Game) : Prop := g'.players.map numKey = g.players.map numKey

/-- The positions of the participants that have one (the "already-placed participants" of the
specification). -/
def placedPositions (g : Game) : List Pos := g.players.filterMap (fun p => p.pos)

/-- The state reached from a new Game when Ann and Bob have joined. -/
def exampleTwoJoinedGame : Game := (run (Game.new "room") twoJoins).getD (Game.new "room")

/-! # Theorems -/

/-! ## Roster lookups -/

theorem findP_map_of_id (ps : List Player) (F : Player → Player) (hF : ∀ p, (F p).id = p.id)
    (j : SocketId) : findP (ps.map F) j = (findP ps j).map F := by
  induction ps with
  | nil => rfl
  | cons a t ih =>
    simp only [findP, List.map_cons, List.find?_cons] at ih ⊢
    rw [hF a]
    cases h : (a.id == j) <;> simp [ih]

theorem awardVP_players (g : Game) (pid : SocketId) (a : Int) (m : Bool) :
    (awardVP g pid a m).players = g.players.map (awardFun pid a m) := by
  cases m <;> simp [awardVP, Game.modPlayer, modP, awardFun, List.map_map, Function.comp_def]

theorem awardFun_id (pid : SocketId) (a : Int) (m : Bool) (x : Player) :
    (awardFun pid a m x).id = x.id := by
  unfold awardFun
  cases m <;> dsimp only <;> split_ifs <;> rfl

theorem awardVP_eq (g : Game) (pid : SocketId) (a : Int) (m : Bool) :
    awardVP g pid a m = { g with players := g.players.map (awardFun pid a m) } := by
  cases m <;> simp [awardVP, Game.modPlayer, modP, awardFun, List.map_map, Function.comp_def]

theorem awardFun_other (pid : SocketId) (a : Int) (m : Bool) (x : Player) (h1 : x.id ≠ pid)
    (h2 : x.isSponsor = false ∨ x.sponsorTargetId ≠ some pid) : awardFun pid a m x = x := by
  unfold awardFun
  rcases h2 with h2 | h2 <;> cases m <;> simp [h1, h2]

theorem awardFun_direct (pid : SocketId) (a : Int) (m : Bool) (x : Player) (h1 : x.id = pid)
    (h2 : x.isSponsor = false) : awardFun pid a m x = addVP a x := by
  unfold awardFun
  cases m <;> simp [h1, h2, addVP]

theorem awardFun_mirror (pid : SocketId) (a : Int) (x : Player) (h1 : x.id ≠ pid)
    (h2 : x.isSponsor = true) (h3 : x.sponsorTargetId = some pid) :
    awardFun pid a true x = addVP a x := by
  unfold awardFun
  simp [h1, h2, h3]

theorem awardFun_unmirrored (pid : SocketId) (a : Int) (x : Player) (h1 : x.id ≠ pid) :
    awardFun pid a false x = x := by
  unfold awardFun
  simp [h1]

theorem endOfRoundStep_eq (g : Game) (pid : SocketId) :
    endOfRoundStep g pid = { g with players := g.players.map (eorFun g pid) } := by
  unfold endOfRoundStep eorFun
  cases hf : findP g.players pid with
  | none => simp
  | some p =>
    dsimp only
    by_cases hal : (p.isAlive && !p.isSponsor) = true
    · rw [if_pos hal]
      simp only [hal, if_true]
      cases hpos : p.pos with
      | none =>
        dsimp only
        split_ifs <;> simp [awardVP_eq]
      | some q =>
        dsimp only
        split_ifs <;> simp [awardVP_eq, List.map_map, Function.comp_def]
    · rw [if_neg hal]
      simp [hal]

theorem eorFun_id (g : Game) (pid : SocketId) (x : Player) : (eorFun g pid x).id = x.id := by
  unfold eorFun
  cases findP g.players pid with
  | none => rfl
  | some p =>
    dsimp only
    cases p.pos <;> dsimp only <;> split_ifs <;> simp [awardFun_id]

theorem endOfRoundStep_find (g : Game) (pid j : SocketId) :
    findP (endOfRoundStep g pid).players j = (findP g.players j).map (eorFun g pid) := by
  rw [endOfRoundStep_eq]
  exact findP_map_of_id _ _ (eorFun_id g pid) j

theorem endOfRoundStep_settings (g : Game) (pid : SocketId) :
    (endOfRoundStep g pid).settings = g.settings ∧ (endOfRoundStep g pid).cc = g.cc := by
  rw [endOfRoundStep_eq]; exact ⟨rfl, rfl⟩

/-- Effect of one `awardEndOfRoundVPs` iteration on a sponsor `s` of the sanctum occupant `p`. -/
theorem eorFun_sponsor (g : Game) (a : SocketId) (s p : Player) (q : Pos)
    (hs : findP g.players s.id = some s) (hp : findP g.players p.id = some p)
    (hsurv : g.settings.survivalPerRoundEnabled = true) (hsv : g.settings.survivalPerRoundVP = 1)
    (hsan : g.settings.innerSanctumEnabled = true) (hsanv : g.settings.innerSanctumVP = 2)
    (hc : g.settings.centerTileVP = 0)
    (hpa : p.isAlive = true) (hps : p.isSponsor = false) (hpos : p.pos = some q)
    (hin : isInnerSanctum q.x q.y g.cc = true)
    (hss : s.isSponsor = true) (hst : s.sponsorTargetId = some p.id) :
    eorFun g a s = (if a = p.id then addVP 2 s else s) ∧
    eorFun g a p = (if a = p.id then addVP 2 (addVP 1 p) else p) := by
  have hne : s.id ≠ p.id := by
    intro h
    rw [h, hp] at hs
    have : p = s := Option.some.inj hs
    rw [this, hss] at hps
    exact Bool.noConfusion hps
  by_cases ha : a = p.id
  · subst ha
    simp only [if_true]
    unfold eorFun
    rw [hp]
    simp only [hpa, hps, hsurv, hsv, hsan, hsanv, hc, hpos, hin]
    have e1 : awardFun p.id 1 false s = s := awardFun_unmirrored _ _ _ hne
    have e2 : awardFun p.id 2 true s = addVP 2 s := awardFun_mirror _ _ _ hne hss hst
    have e3 : awardFun p.id 1 false p = addVP 1 p := awardFun_direct _ _ _ _ rfl hps
    have e4 : awardFun p.id 2 true (addVP 1 p) = addVP 2 (addVP 1 p) :=
      awardFun_direct _ _ _ _ rfl hps
    simp [e1, e2, e3, e4]
  · simp only [ha, if_false]
    unfold eorFun
    cases hq : findP g.players a with
    | none => exact ⟨rfl, rfl⟩
    | some qa =>
      dsimp only
      by_cases hal : (qa.isAlive && !qa.isSponsor) = true
      · rw [if_pos hal, if_pos hal]
        have hsa : s.id ≠ a := by
          intro h
          rw [h, hq] at hs
          have : qa = s := Option.some.inj hs
          rw [this, hss] at hal
          simp at hal
        have hpa' : p.id ≠ a := fun h => ha h.symm
        have hst' : s.sponsorTargetId ≠ some a := by
          rw [hst]; intro h; exact ha (Option.some.inj h).symm
        have es : ∀ v m, awardFun a v m s = s := fun v m => awardFun_other _ _ _ _ hsa (Or.inr hst')
        have ep : ∀ v m, awardFun a v m p = p := fun v m => awardFun_other _ _ _ _ hpa' (Or.inl hps)
        cases qa.pos <;> simp [es, ep]
      · rw [if_neg hal, if_neg hal]
        exact ⟨rfl, rfl⟩

theorem eor_fold_sponsor (l : List SocketId) :
    ∀ (g : Game) (s p : Player) (q : Pos), l.Nodup → SanctumScenario g s p q →
    ∃ s' p', findP (l.foldl endOfRoundStep g).players s.id = some s' ∧
      findP (l.foldl endOfRoundStep g).players p.id = some p' ∧
      s'.vp = s.vp + (if p.id ∈ l then 2 else 0) ∧
      s'.vpDelta = s.vpDelta + (if p.id ∈ l then 2 else 0) ∧
      p'.vp = p.vp + (if p.id ∈ l then 3 else 0) ∧
      p'.vpDelta = p.vpDelta + (if p.id ∈ l then 3 else 0) := by
  induction l with
  | nil =>
    intro g s p q _ h
    exact ⟨s, p, h.hs, h.hp, by simp, by simp, by simp, by simp⟩
  | cons a t ih =>
    intro g s p q hnd h
    have hstep := eorFun_sponsor g a s p q h.hs h.hp h.hsurv h.hsv h.hsan h.hsanv h.hc h.hpa h.hps
      h.hpos h.hin h.hss h.hst
    have hset := endOfRoundStep_settings g a
    have hsid : (eorFun g a s).id = s.id := eorFun_id g a s
    have hpid : (eorFun g a p).id = p.id := eorFun_id g a p
    have hs1 : findP (endOfRoundStep g a).players (eorFun g a s).id = some (eorFun g a s) := by
      rw [hsid, endOfRoundStep_find, h.hs]; rfl
    have hp1 : findP (endOfRoundStep g a).players (eorFun g a p).id = some (eorFun g a p) := by
      rw [hpid, endOfRoundStep_find, h.hp]; rfl
    have hnd' : t.Nodup := (List.nodup_cons.mp hnd).2
    have hnotin : a ∉ t := (List.nodup_cons.mp hnd).1
    have h1 : SanctumScenario (endOfRoundStep g a) (eorFun g a s) (eorFun g a p) q := by
      refine ⟨hs1, hp1, ?_, ?_, ?_, ?_, ?_, ?_, ?_, ?_, ?_, ?_, ?_⟩
      · rw [hset.1]; exact h.hsurv
      · rw [hset.1]; exact h.hsv
      · rw [hset.1]; exact h.hsan
      · rw [hset.1]; exact h.hsanv
      · rw [hset.1]; exact h.hc
      · rw [hstep.2]; split_ifs <;> simp [addVP, h.hpa]
      · rw [hstep.2]; split_ifs <;> simp [addVP, h.hps]
      · rw [hstep.2]; split_ifs <;> simp [addVP, h.hpos]
      · rw [hset.2]; exact h.hin
      · rw [hstep.1]; split_ifs <;> simp [addVP, h.hss]
      · rw [hpid, hstep.1]; split_ifs <;> simp [addVP, h.hst]
    obtain ⟨s', p', e1, e2, e3, e4, e5, e6⟩ := ih (endOfRoundStep g a) _ _ q hnd' h1
    rw [hsid] at e1
    rw [hpid] at e2 e3 e4 e5 e6
    refine ⟨s', p', e1, e2, ?_, ?_, ?_, ?_⟩
    · rw [e3, hstep.1]
      by_cases ha : a = p.id
      · have : p.id ∉ t := ha ▸ hnotin
        simp [ha, this, addVP]
      · have : (p.id ∈ a :: t) = (p.id ∈ t) := by simp [Ne.symm ha]
        simp [ha, this]
    · rw [e4, hstep.1]
      by_cases ha : a = p.id
      · have : p.id ∉ t := ha ▸ hnotin
        simp [ha, this, addVP]
      · have : (p.id ∈ a :: t) = (p.id ∈ t) := by simp [Ne.symm ha]
        simp [ha, this]
    · rw [e5, hstep.2]
      by_cases ha : a = p.id
      · have : p.id ∉ t := ha ▸ hnotin
        simp [ha, this, addVP]; ring
      · have : (p.id ∈ a :: t) = (p.id ∈ t) := by simp [Ne.symm ha]
        simp [ha, this]
    · rw [e6, hstep.2]
      by_cases ha : a = p.id
      · have : p.id ∉ t := ha ▸ hnotin
        simp [ha, this, addVP]; ring
      · have : (p.id ∈ a :: t) = (p.id ∈ t) := by simp [Ne.symm ha]
        simp [ha, this]

theorem findP_of_mem_nodup (ps : List Player) (p : Player)
    (hnd : (ps.map (fun x => x.id)).Nodup) (hm : p ∈ ps) : findP ps p.id = some p := by
  induction ps with
  | nil => cases hm
  | cons a t ih =>
    simp only [List.map_cons, List.nodup_cons] at hnd
    simp only [findP, List.find?_cons]
    rcases List.mem_cons.mp hm with h | h
    · subst h; simp
    · have hne : a.id ≠ p.id := by
        intro he
        exact hnd.1 (he ▸ List.mem_map_of_mem (fun x => x.id) h)
      have : (a.id == p.id) = false := by simpa using hne
      rw [this]
      exact ih hnd.2 h

/-! ## C3: per-round VP and sponsors -/

/-- C3 (as stated, refuted): on the default settings (survival VP 1, sanctum VP 2, both enabled,
center VP 0) with `exampleTarget` Alive in the inner sanctum and `exampleSponsor` Ascended and
sponsoring them, `awardEndOfRoundVPs` gives the sponsor 2 VP and 2 delta, not 3. -/
theorem C3_sponsor_gains_two_not_three :
    SanctumScenario exampleSanctumGame exampleSponsor exampleTarget (Pos.mk 5 5) ∧
    (findP (awardEndOfRoundVPs exampleSanctumGame).players exampleSponsor.id).map
        (fun x => (x.vp, x.vpDelta)) = some (exampleSponsor.vp + 2, exampleSponsor.vpDelta + 2) ∧
    (findP (awardEndOfRoundVPs exampleSanctumGame).players exampleSponsor.id).map
        (fun x => (x.vp, x.vpDelta)) ≠ some (exampleSponsor.vp + 3, exampleSponsor.vpDelta + 3) := by
  refine ⟨⟨rfl, rfl, by decide, by decide, by decide, by decide, by decide, by decide,
    by decide, by decide, by decide, by decide, by decide⟩, by decide, by decide⟩

/-- C3 (amended): with survival VP 1 and sanctum VP 2 (both enabled, center VP 0), if an Alive
participant `p` is positioned in the inner sanctum when `awardEndOfRoundVPs` runs, then `p` gains
3 VP and every Ascended participant `s` whose sponsor target is `p` gains the 2 sanctum VP (VP and
per-round delta both +2): the survival VP is awarded with mirroring suppressed. -/
theorem C3_sponsor_mirrors_sanctum_vp (g : Game) (s p : Player) (q : Pos)
    (hnd : (g.players.map (fun x => x.id)).Nodup) (hsm : s ∈ g.players) (hpm : p ∈ g.players)
    (hsurv : g.settings.survivalPerRoundEnabled = true) (hsv : g.settings.survivalPerRoundVP = 1)
    (hsan : g.settings.innerSanctumEnabled = true) (hsanv : g.settings.innerSanctumVP = 2)
    (hc : g.settings.centerTileVP = 0)
    (hpa : p.isAlive = true) (hps : p.isSponsor = false) (hpos : p.pos = some q)
    (hin : isInnerSanctum q.x q.y g.cc = true)
    (hss : s.isSponsor = true) (hst : s.sponsorTargetId = some p.id) :
    ∃ s' p', findP (awardEndOfRoundVPs g).players s.id = some s' ∧
      findP (awardEndOfRoundVPs g).players p.id = some p' ∧
      s'.vp = s.vp + 2 ∧ s'.vpDelta = s.vpDelta + 2 ∧
      p'.vp = p.vp + 3 ∧ p'.vpDelta = p.vpDelta + 3 := by
  have hscen : SanctumScenario g s p q :=
    ⟨findP_of_mem_nodup _ _ hnd hsm, findP_of_mem_nodup _ _ hnd hpm, hsurv, hsv, hsan, hsanv, hc,
      hpa, hps, hpos, hin, hss, hst⟩
  have hmem : p.id ∈ g.players.map (fun x => x.id) := List.mem_map_of_mem (fun x => x.id) hpm
  obtain ⟨s', p', e1, e2, e3, e4, e5, e6⟩ :=
    eor_fold_sponsor (g.players.map (fun x => x.id)) g s p q hnd hscen
  simp only [hmem, if_true] at e3 e4 e5 e6
  exact ⟨s', p', e1, e2, e3, e4, e5, e6⟩

/-- Witness for C3 (amended) on `exampleSanctumGame`. -/
theorem C3_sponsor_mirrors_sanctum_vp_witness :
    ∃ s' p', findP (awardEndOfRoundVPs exampleSanctumGame).players exampleSponsor.id = some s' ∧
      findP (awardEndOfRoundVPs exampleSanctumGame).players exampleTarget.id = some p' ∧
      s'.vp = exampleSponsor.vp + 2 ∧ s'.vpDelta = exampleSponsor.vpDelta + 2 ∧
      p'.vp = exampleTarget.vp + 3 ∧ p'.vpDelta = exampleTarget.vpDelta + 3 :=
  C3_sponsor_mirrors_sanctum_vp exampleSanctumGame exampleSponsor exampleTarget (Pos.mk 5 5)
    (by decide) (List.mem_cons_of_mem _ (List.mem_cons_self _ _)) (List.mem_cons_self _ _)
    (by decide) (by decide) (by decide) (by decide) (by decide) (by decide) (by decide) (by decide)
    (by decide) (by decide) (by decide)

/-! ## C4: number secrecy -/

theorem findP_modP_ne (ps : List Player) (i j : SocketId) (f : Player → Player)
    (hf : ∀ p, (f p).id = p.id) (hne : j ≠ i) : findP (modP ps i f) j = findP ps j := by
  induction ps with
  | nil => rfl
  | cons a t ih =>
    simp only [findP, modP, List.map_cons, List.find?_cons] at ih ⊢
    by_cases ha : a.id = i
    · have h1 : (a.id == j) = false := by
        simp only [beq_eq_false_iff_ne, ne_eq]
        intro h; exact hne (h ▸ ha)
      rw [if_pos ha, hf a, h1]
      exact ih
    · rw [if_neg ha]
      cases (a.id == j)
      · exact ih
      · rfl

theorem occupiedTiles_map (ps : List Player) (F : Player → Player)
    (hF : ∀ p, (F p).isAlive = p.isAlive ∧ (F p).isSponsor = p.isSponsor ∧ (F p).pos = p.pos) :
    occupiedTiles (ps.map F) = occupiedTiles ps := by
  induction ps with
  | nil => rfl
  | cons a t ih =>
    unfold occupiedTiles at ih ⊢
    obtain ⟨h1, h2, h3⟩ := hF a
    simp only [List.map_cons, List.filter_cons, h1, h2, h3]
    split_ifs
    · simp only [List.filterMap_cons, h3]
      rw [ih]
    · exact ih

theorem computeFireStats_withSelectedNumber (g : Game) (q : SocketId) (n : Option Int) :
    computeFireStats (withSelectedNumber g q n) = computeFireStats g := by
  have h : occupiedTiles (withSelectedNumber g q n).players = occupiedTiles g.players := by
    unfold withSelectedNumber Game.modPlayer modP
    apply occupiedTiles_map
    intro p
    split_ifs <;> exact ⟨rfl, rfl, rfl⟩
  unfold computeFireStats
  rw [h]
  rfl

/-- C4 (as stated, refuted): two states in phase `number` that differ only in the
`selectedNumber` of participant `b` give different snapshots `serializeFor("a")`: the public
participant list carries `b`'s in-progress number. -/
theorem C4_number_visible_to_others :
    exampleNumberGame.phase = Phase.number ∧
    serializeFor exampleNumberGame "a" 0 ≠
      serializeFor (withSelectedNumber exampleNumberGame "b" (some 2)) "a" 0 ∧
    ((serializeFor exampleNumberGame "a" 0).players.map (fun e => (e.id, e.selectedNumber))
      = [("a", none), ("b", some 4)]) := by
  refine ⟨rfl, ?_, by decide⟩
  intro h
  have h2 := congrArg (fun s => s.players.map (fun e => e.selectedNumber)) h
  revert h2
  decide

set_option maxRecDepth 20000 in
theorem serialize_withSelectedNumber (g : Game) (q : SocketId) (n : Option Int) (now : Int) :
    serialize (withSelectedNumber g q n) now =
      { serialize g now with
        players := (withSelectedNumber g q n).players.map (playerPub g.phase) } := by
  unfold serialize
  rw [computeFireStats_withSelectedNumber]
  rfl

theorem playerPub_selected_movement (ph : Phase) (hph : ph = Phase.movement ∨ ph = Phase.pregame)
    (p : Player) (n : Option Int) :
    playerPub ph { p with selectedNumber := n } = playerPub ph p := by
  rcases hph with h | h <;> subst h <;> rfl

theorem playerPub_selected_number (p : Player) (n : Option Int) :
    { playerPub Phase.number { p with selectedNumber := n } with selectedNumber := none } =
      { playerPub Phase.number p with selectedNumber := none } := rfl

set_option maxRecDepth 20000 in
/-- C4 (amended): for two states that differ only in the `selectedNumber` of a participant `q`
other than `c`: in phase `number` the snapshots `serializeFor(c)` agree everywhere except in the
`selectedNumber` entries of the public participant list (which carries every participant's
in-progress number), so the per-connection overlay reveals nothing about `q`; in phase
`movement` (and `pregame`), where the number is still unrevealed, the snapshots are equal. -/
theorem C4_overlay_secrecy (g : Game) (c q : SocketId) (n : Option Int) (now : Int)
    (hne : c ≠ q) :
    (g.phase = Phase.number →
      blankSelected (serializeFor (withSelectedNumber g q n) c now) =
        blankSelected (serializeFor g c now)) ∧
    (g.phase = Phase.movement ∨ g.phase = Phase.pregame →
      serializeFor (withSelectedNumber g q n) c now = serializeFor g c now) := by
  have hfind : findP (withSelectedNumber g q n).players c = findP g.players c := by
    unfold withSelectedNumber Game.modPlayer
    exact findP_modP_ne _ _ _ _ (fun _ => rfl) hne
  have hphase : (withSelectedNumber g q n).phase = g.phase := rfl
  constructor
  · intro hph
    have hpl : ((withSelectedNumber g q n).players.map (playerPub g.phase)).map
          (fun e => { e with selectedNumber := none }) =
        (g.players.map (playerPub g.phase)).map (fun e => { e with selectedNumber := none }) := by
      rw [hph]
      unfold withSelectedNumber Game.modPlayer modP
      simp only [List.map_map]
      apply List.map_congr_left
      intro p _
      simp only [Function.comp]
      split_ifs
      · exact playerPub_selected_number p n
      · rfl
    unfold serializeFor
    rw [hfind, serialize_withSelectedNumber, hphase]
    cases findP g.players c with
    | none =>
      unfold blankSelected
      simp only [hpl]
      rfl
    | some p =>
      unfold blankSelected
      simp only [hpl]
      rfl
  · intro hph
    have hpl : (withSelectedNumber g q n).players.map (playerPub g.phase) =
        g.players.map (playerPub g.phase) := by
      unfold withSelectedNumber Game.modPlayer modP
      simp only [List.map_map]
      apply List.map_congr_left
      intro p _
      simp only [Function.comp]
      split_ifs
      · exact playerPub_selected_movement g.phase hph p n
      · rfl
    unfold serializeFor
    rw [hfind, serialize_withSelectedNumber, hphase, hpl]
    rfl

/-- Witness for C4 (amended) on `exampleNumberGame`. -/
theorem C4_overlay_secrecy_witness :
    (exampleNumberGame.phase = Phase.number →
      blankSelected (serializeFor (withSelectedNumber exampleNumberGame "b" (some 2)) "a" 0) =
        blankSelected (serializeFor exampleNumberGame "a" 0)) ∧
    (exampleNumberGame.phase = Phase.movement ∨ exampleNumberGame.phase = Phase.pregame →
      serializeFor (withSelectedNumber exampleNumberGame "b" (some 2)) "a" 0 =
        serializeFor exampleNumberGame "a" 0) :=
  C4_overlay_secrecy exampleNumberGame "a" "b" (some 2) 0 (by decide)

/-! ## C9: Renown pickup -/

theorem mem_insertStable {α : Type} (cmp : α → α → Int) (a x : α) (l : List α) :
    x ∈ insertStable cmp a l ↔ x = a ∨ x ∈ l := by
  induction l with
  | nil => simp [insertStable]
  | cons b t ih =>
    unfold insertStable
    split_ifs
    · simp
    · simp only [List.mem_cons, ih]
      tauto

theorem mem_sortStable {α : Type} (cmp : α → α → Int) (x : α) (l : List α) :
    x ∈ sortStable cmp l ↔ x ∈ l := by
  induction l with
  | nil => simp [sortStable]
  | cons b t ih =>
    unfold sortStable at ih ⊢
    simp only [List.foldr_cons, mem_insertStable, ih, List.mem_cons]

theorem mapGet_mapDelete (m : List (Pos × Item)) (k : Pos) : mapGet (mapDelete m k) k = none := by
  unfold mapGet mapDelete
  have : List.find? (fun e => e.1 == k) (List.filter (fun e => decide (e.1 ≠ k)) m) = none := by
    rw [List.find?_eq_none]
    intro e he
    have := (List.mem_filter.mp he).2
    simpa using this
  rw [this]
  rfl

theorem findP_modP_self (ps : List Player) (i : SocketId) (f : Player → Player)
    (hf : ∀ p, (f p).id = p.id) : findP (modP ps i f) i = (findP ps i).map f := by
  induction ps with
  | nil => rfl
  | cons a t ih =>
    simp only [findP, modP, List.map_cons, List.find?_cons] at ih ⊢
    by_cases ha : a.id = i
    · have h1 : (a.id == i) = true := by simpa using ha
      rw [if_pos ha, hf a, h1]
      rfl
    · have h1 : (a.id == i) = false := by simpa using ha
      rw [if_neg ha, h1]
      exact ih

/-- What `lootPickup` does for a Renown item. -/
theorem lootPickup_renown (g : Game) (k2 : Pos) (w : SocketId) (p : Player)
    (hw : findP g.players w = some p) :
    findP (lootPickup g k2 Item.RENOWN_CHIP w).players w
        = some (addVP (max 0 g.settings.renownChipVP) p) ∧
    (∀ j, j ≠ w → findP (lootPickup g k2 Item.RENOWN_CHIP w).players j = findP g.players j) ∧
    mapGet (lootPickup g k2 Item.RENOWN_CHIP w).board.buffs k2 = none := by
  have hcb : isCombatBuff Item.RENOWN_CHIP = false := by decide
  unfold lootPickup
  rw [hw]
  simp only [hcb, Bool.and_false, Bool.false_eq_true, if_false]
  unfold applyLoot awardVP Game.modPlayer
  simp only [Bool.false_eq_true, if_false]
  refine ⟨?_, ?_, ?_⟩
  · rw [findP_modP_self _ _ (addVP _) (fun _ => rfl), hw]; rfl
  · intro j hj
    exact findP_modP_ne _ _ _ (addVP _) (fun _ => rfl) hj
  · exact mapGet_mapDelete _ _

/-- C9 (as stated, refuted): `w` steps on a Renown tile with Ascended `s` sponsoring `w`. When
the loot loop of `startResolution` has run, `w` has gained `renownChipVP` = 5 and the tile is
cleared, but `s` has gained nothing; after the whole of `startResolution` (survival VP 1 for
`w`, not mirrored either) `s` still has 0 VP. -/
theorem C9_sponsor_gains_nothing_from_renown :
    mapGet exampleChipGame.board.buffs (Pos.mk 1 2) = some Item.RENOWN_CHIP ∧
    (findP exampleChipGame.players "s").map (fun x => (x.isSponsor, x.sponsorTargetId, x.vp))
      = some (true, some "w", 0) ∧
    (findP (resolutionUpToLoot exampleChipGame 0 zeroOracle).g.players "w").map
      (fun x => (x.pos, x.vp, x.vpDelta)) = some (some (Pos.mk 1 2), 5, 5) ∧
    mapGet (resolutionUpToLoot exampleChipGame 0 zeroOracle).g.board.buffs (Pos.mk 1 2) = none ∧
    (findP (resolutionUpToLoot exampleChipGame 0 zeroOracle).g.players "s").map
      (fun x => (x.vp, x.vpDelta)) = some (0, 0) ∧
    (findP (startResolution exampleChipGame 0 zeroOracle).players "s").map
      (fun x => (x.vp, x.vpDelta)) = some (0, 0) := by
  refine ⟨by decide, by decide, by decide, by decide, by decide, by decide⟩

/-- C9 (amended): when the loot loop of `startResolution` reaches a Renown item (`RENOWN_CHIP`,
or its alias `COIN`) on a tile with at least one occupant, the selected occupant `w` gains
`max(0, renownChipVP)` VP and per-round delta and the item leaves the tile; the award is made with
mirroring suppressed, so no other participant, in particular no Ascended participant sponsoring
`w`, is changed by the pickup. -/
theorem C9_renown_pickup_unmirrored (acc : LootAcc) (k2 : Pos) (raw : Item)
    (hraw : normalizeLoot raw = Item.RENOWN_CHIP)
    (hne : byPosGet acc.byPos k2 ≠ [])
    (hfound : ∀ id ∈ byPosGet acc.byPos k2, ∃ p, findP acc.g.players id = some p) :
    ∃ w p p', w ∈ byPosGet acc.byPos k2 ∧ findP acc.g.players w = some p ∧
      findP (lootStep acc (k2, raw)).g.players w = some p' ∧
      p'.vp = p.vp + max 0 acc.g.settings.renownChipVP ∧
      p'.vpDelta = p.vpDelta + max 0 acc.g.settings.renownChipVP ∧
      (∀ j, j ≠ w → findP (lootStep acc (k2, raw)).g.players j = findP acc.g.players j) ∧
      mapGet (lootStep acc (k2, raw)).g.board.buffs k2 = none := by
  unfold lootStep
  simp only [hraw]
  cases hc : byPosGet acc.byPos k2 with
  | nil => exact absurd hc hne
  | cons c cs =>
    cases cs with
    | nil =>
      obtain ⟨p, hp⟩ := hfound c (by rw [hc]; exact List.mem_cons_self _ _)
      obtain ⟨h1, h2, h3⟩ := lootPickup_renown acc.g k2 c p hp
      exact ⟨c, p, _, List.mem_cons_self _ _, hp, h1, rfl, rfl, h2, h3⟩
    | cons c2 cs2 =>
      dsimp only
      cases hs : sortStable (fun a b => indexOfJS acc.g.joinOrder a - indexOfJS acc.g.joinOrder b)
          (c :: c2 :: cs2) with
      | nil =>
        have : c ∈ sortStable (fun a b => indexOfJS acc.g.joinOrder a - indexOfJS acc.g.joinOrder b)
            (c :: c2 :: cs2) := (mem_sortStable _ _ _).mpr (List.mem_cons_self _ _)
        rw [hs] at this
        cases this
      | cons w ws =>
        have hwm : w ∈ c :: c2 :: cs2 := by
          rw [← mem_sortStable (fun a b => indexOfJS acc.g.joinOrder a - indexOfJS acc.g.joinOrder b), hs]
          exact List.mem_cons_self _ _
        obtain ⟨p, hp⟩ := hfound w (by rw [hc]; exact hwm)
        obtain ⟨h1, h2, h3⟩ := lootPickup_renown acc.g k2 w p hp
        exact ⟨w, p, _, hwm, hp, h1, rfl, rfl, h2, h3⟩

/-- Witness for C9 (amended): the loot step of `exampleChipGame` with `w` on the Renown tile. -/
theorem C9_renown_pickup_unmirrored_witness :
    ∃ w p p', w ∈ byPosGet [(Pos.mk 1 2, ["w"])] (Pos.mk 1 2) ∧
      findP exampleChipGame.players w = some p ∧
      findP (lootStep { g := exampleChipGame, byPos := [(Pos.mk 1 2, ["w"])] }
        (Pos.mk 1 2, Item.RENOWN_CHIP)).g.players w = some p' ∧
      p'.vp = p.vp + max 0 exampleChipGame.settings.renownChipVP ∧
      p'.vpDelta = p.vpDelta + max 0 exampleChipGame.settings.renownChipVP ∧
      (∀ j, j ≠ w → findP (lootStep { g := exampleChipGame, byPos := [(Pos.mk 1 2, ["w"])] }
        (Pos.mk 1 2, Item.RENOWN_CHIP)).g.players j = findP exampleChipGame.players j) ∧
      mapGet (lootStep { g := exampleChipGame, byPos := [(Pos.mk 1 2, ["w"])] }
        (Pos.mk 1 2, Item.RENOWN_CHIP)).g.board.buffs (Pos.mk 1 2) = none :=
  C9_renown_pickup_unmirrored { g := exampleChipGame, byPos := [(Pos.mk 1 2, ["w"])] }
    (Pos.mk 1 2) Item.RENOWN_CHIP (by decide) (by decide)
    (by
      intro id hid
      have : id = "w" := by simpa [byPosGet] using hid
      subst this
      exact ⟨_, rfl⟩)

/-! ## Combat resolver: lookups through the loops -/

theorem findP_modP (ps : List Player) (i j : SocketId) (f : Player → Player)
    (hf : ∀ p, (f p).id = p.id) :
    findP (modP ps i f) j = (findP ps j).map (fun p => if j = i then f p else p) := by
  by_cases h : j = i
  · subst h
    rw [findP_modP_self _ _ _ hf]
    simp
  · rw [findP_modP_ne _ _ _ _ hf h]
    simp [h]

theorem foldl_modPlayer_find (f : Player → Player) (hf : ∀ p, (f p).id = p.id)
    (ws : List SocketId) (hnd : ws.Nodup) :
    ∀ (g : Game) (j : SocketId),
      findP (ws.foldl (fun g w => g.modPlayer w f) g).players j =
        (findP g.players j).map (fun p => if j ∈ ws then f p else p) := by
  induction ws with
  | nil => intro g j; simp
  | cons w t ih =>
    intro g j
    have hnd' := List.nodup_cons.mp hnd
    rw [List.foldl_cons, ih hnd'.2]
    unfold Game.modPlayer
    dsimp only
    rw [findP_modP _ _ _ _ hf]
    cases findP g.players j with
    | none => rfl
    | some p =>
      simp only [Option.map_some', List.mem_cons]
      by_cases hjw : j = w
      · subst hjw
        simp [hnd'.1]
      · by_cases hjt : j ∈ t
        · simp [hjw, hjt]
        · simp [hjw, hjt]

theorem foldl_modPlayer_frame (f : SocketId → Game → Game)
    (hf : ∀ w g, (f w g).round = g.round ∧ (f w g).settings = g.settings ∧ (f w g).cc = g.cc ∧
      (f w g).joinOrder = g.joinOrder ∧ (f w g).board.fire = g.board.fire ∧ (f w g).size = g.size ∧
      (f w g).phase = g.phase)
    (ws : List SocketId) :
    ∀ (g : Game), (ws.foldl (fun g w => f w g) g).round = g.round ∧
      (ws.foldl (fun g w => f w g) g).settings = g.settings ∧
      (ws.foldl (fun g w => f w g) g).cc = g.cc ∧
      (ws.foldl (fun g w => f w g) g).joinOrder = g.joinOrder ∧
      (ws.foldl (fun g w => f w g) g).board.fire = g.board.fire ∧
      (ws.foldl (fun g w => f w g) g).size = g.size ∧
      (ws.foldl (fun g w => f w g) g).phase = g.phase := by
  induction ws with
  | nil => intro g; simp
  | cons w t ih =>
    intro g
    rw [List.foldl_cons]
    obtain ⟨h1, h2, h3, h4, h5, h6, h7⟩ := ih (f w g)
    obtain ⟨k1, k2, k3, k4, k5, k6, k7⟩ := hf w g
    exact ⟨h1.trans k1, h2.trans k2, h3.trans k3, h4.trans k4, h5.trans k5, h6.trans k6,
      h7.trans k7⟩

theorem maxOf_foldl_ge (t : List Int) : ∀ (a : Int), a ≤ t.foldl max a ∧
    (∀ x ∈ t, x ≤ t.foldl max a) ∧ (t.foldl max a = a ∨ t.foldl max a ∈ t) := by
  induction t with
  | nil => intro a; simp
  | cons b t ih =>
    intro a
    obtain ⟨h1, h2, h3⟩ := ih (max a b)
    simp only [List.foldl_cons, List.mem_cons]
    refine ⟨le_trans (le_max_left a b) h1, ?_, ?_⟩
    · intro x hx
      rcases hx with hx | hx
      · subst hx; exact le_trans (le_max_right a x) h1
      · exact h2 x hx
    · rcases h3 with h3 | h3
      · rcases max_choice a b with hm | hm
        · left; rw [h3, hm]
        · right; left; rw [h3, hm]
      · right; right; exact h3

theorem maxOf_spec (l : List Int) (hl : l ≠ []) :
    maxOf l ∈ l ∧ ∀ x ∈ l, x ≤ maxOf l := by
  cases l with
  | nil => exact absurd rfl hl
  | cons a t =>
    obtain ⟨h1, h2, h3⟩ := maxOf_foldl_ge t a
    show t.foldl max a ∈ a :: t ∧ ∀ x ∈ a :: t, x ≤ t.foldl max a
    refine ⟨?_, ?_⟩
    · rcases h3 with h3 | h3
      · rw [h3]; exact List.mem_cons_self _ _
      · exact List.mem_cons_of_mem _ h3
    · intro x hx
      rcases List.mem_cons.mp hx with hx | hx
      · subst hx; exact h1
      · exact h2 x hx

theorem combatVals_eq (g : Game) (ids : List SocketId)
    (hfound : ∀ id ∈ ids, ∃ p, findP g.players id = some p) :
    combatVals g ids = ids.map (fun id => (id, totalOf g id)) := by
  induction ids with
  | nil => rfl
  | cons a t ih =>
    obtain ⟨p, hp⟩ := hfound a (List.mem_cons_self _ _)
    have ih' := ih (fun id hid => hfound id (List.mem_cons_of_mem _ hid))
    unfold combatVals at ih' ⊢
    simp only [List.filterMap_cons, hp, Option.map_some', List.map_cons, ih', totalOf]

theorem combatWinners_eq (g : Game) (ids : List SocketId)
    (hfound : ∀ id ∈ ids, ∃ p, findP g.players id = some p) :
    combatWinners g ids = ids.filter (fun id => decide (totalOf g id = combatMax g ids)) := by
  unfold combatWinners
  rw [combatVals_eq g ids hfound, List.filter_map, List.map_map]
  simp [Function.comp_def]

theorem combatLosers_eq (g : Game) (ids : List SocketId)
    (hfound : ∀ id ∈ ids, ∃ p, findP g.players id = some p) :
    combatLosers g ids = ids.filter (fun id => decide (totalOf g id < combatMax g ids)) := by
  unfold combatLosers
  rw [combatVals_eq g ids hfound, List.filter_map, List.map_map]
  simp [Function.comp_def]

theorem combatMax_spec (g : Game) (ids : List SocketId)
    (hfound : ∀ id ∈ ids, ∃ p, findP g.players id = some p) (hne : ids ≠ []) :
    (∃ id ∈ ids, totalOf g id = combatMax g ids) ∧ ∀ id ∈ ids, totalOf g id ≤ combatMax g ids := by
  unfold combatMax
  rw [combatVals_eq g ids hfound, List.map_map]
  have hne' : List.map ((fun v => v.2) ∘ fun id => (id, totalOf g id)) ids ≠ [] := by
    simpa using hne
  obtain ⟨h1, h2⟩ := maxOf_spec _ hne'
  constructor
  · obtain ⟨id, hid, he⟩ := List.mem_map.mp h1
    exact ⟨id, hid, he⟩
  · intro id hid
    exact h2 _ (List.mem_map.mpr ⟨id, hid, rfl⟩)

theorem elimFun_of_not_seal (r : Nat) (L : Player) (h : L.cornucopia = false) :
    ascend r L = elimFun r L := by
  unfold elimFun ascend
  cases L
  simp_all

theorem eliminate_find (g : Game) (l : SocketId) (L : Player)
    (hL : findP g.players l = some L) (j : SocketId) :
    findP (eliminate g l).players j =
      (findP g.players j).map (fun p => if j = l then elimFun g.round p else p) := by
  have h1 : findP (g.modPlayer l (ascend g.round)).players l = some (ascend g.round L) := by
    unfold Game.modPlayer
    dsimp only
    rw [findP_modP_self _ _ (ascend g.round) (fun _ => rfl), hL]
    rfl
  unfold eliminate returnSeal
  rw [h1]
  dsimp only
  by_cases hc : L.cornucopia = true
  · have hc' : (ascend g.round L).cornucopia = true := hc
    rw [if_pos hc']
    unfold Game.setBuff Game.modPlayer
    dsimp only
    rw [findP_modP _ _ _ clearSeal (fun _ => rfl), findP_modP _ _ _ (ascend g.round) (fun _ => rfl)]
    cases findP g.players j with
    | none => rfl
    | some p =>
      simp only [Option.map_some']
      by_cases hj : j = l
      · simp only [hj, if_true]; rfl
      · simp only [hj, if_false]
  · have hc0 : L.cornucopia = false := by simpa using hc
    have hc' : ¬ (ascend g.round L).cornucopia = true := hc
    rw [if_neg hc']
    unfold Game.modPlayer
    dsimp only
    rw [findP_modP _ _ _ (ascend g.round) (fun _ => rfl)]
    by_cases hj : j = l
    · subst hj
      rw [hL]
      simp only [Option.map_some', if_true]
      rw [elimFun_of_not_seal _ _ hc0]
    · cases findP g.players j with
      | none => rfl
      | some p => simp only [Option.map_some', hj, if_false]

theorem eliminate_frame (g : Game) (l : SocketId) :
    (eliminate g l).round = g.round ∧ (eliminate g l).settings = g.settings ∧
    (eliminate g l).cc = g.cc ∧ (eliminate g l).joinOrder = g.joinOrder ∧
    (eliminate g l).board.fire = g.board.fire ∧ (eliminate g l).size = g.size ∧
    (eliminate g l).phase = g.phase := by
  unfold eliminate returnSeal
  cases findP (g.modPlayer l (ascend g.round)).players l with
  | none => exact ⟨rfl, rfl, rfl, rfl, rfl, rfl, rfl⟩
  | some L =>
    dsimp only
    split_ifs <;> exact ⟨rfl, rfl, rfl, rfl, rfl, rfl, rfl⟩

theorem loserStep_spec (sw : Bool) (acc : LoserAcc) (l : SocketId) (L : Player)
    (hL : findP acc.g.players l = some L) :
    (loserStep sw acc l).victimsForVP
      = acc.victimsForVP ++ (if shieldSaved acc.g sw l then [l] else []) ∧
    (loserStep sw acc l).defeated
      = acc.defeated ++ (if shieldSaved acc.g sw l then [] else [l]) ∧
    (∀ j, findP (loserStep sw acc l).g.players j =
      (findP acc.g.players j).map (fun p =>
        if j = l then (if shieldSaved acc.g sw l then consumeShield p else elimFun acc.g.round p)
        else p)) ∧
    (loserStep sw acc l).g.round = acc.g.round ∧ (loserStep sw acc l).g.settings = acc.g.settings ∧
    (loserStep sw acc l).g.cc = acc.g.cc ∧ (loserStep sw acc l).g.joinOrder = acc.g.joinOrder ∧
    (loserStep sw acc l).g.board.fire = acc.g.board.fire ∧
    (loserStep sw acc l).g.size = acc.g.size ∧ (loserStep sw acc l).g.phase = acc.g.phase := by
  have hss : shieldSaved acc.g sw l = (!(sw && L.hasShield) && L.hasShield) := by
    unfold shieldSaved; rw [hL]
  unfold loserStep
  rw [hL]
  dsimp only
  by_cases hsv : (!(sw && L.hasShield) && L.hasShield) = true
  · rw [if_pos hsv]
    rw [hss, hsv]
    refine ⟨rfl, by simp, ?_, rfl, rfl, rfl, rfl, rfl, rfl, rfl⟩
    intro j
    unfold Game.modPlayer
    dsimp only
    rw [findP_modP _ _ _ consumeShield (fun p => by unfold consumeShield; rfl)]
    simp
  · rw [if_neg hsv]
    have hsv' : (!(sw && L.hasShield) && L.hasShield) = false := by simpa using hsv
    rw [hss, hsv']
    obtain ⟨f1, f2, f3, f4, f5, f6, f7⟩ := eliminate_frame acc.g l
    refine ⟨by simp, rfl, ?_, f1, f2, f3, f4, f5, f6, f7⟩
    intro j
    dsimp only
    rw [eliminate_find acc.g l L hL j]
    simp

theorem shieldSaved_congr (g g' : Game) (sw : Bool) (j : SocketId)
    (h : findP g'.players j = findP g.players j) : shieldSaved g' sw j = shieldSaved g sw j := by
  unfold shieldSaved; rw [h]

theorem loserLoop_spec (sw : Bool) (ls : List SocketId) :
    ∀ (acc : LoserAcc), ls.Nodup → (∀ l ∈ ls, ∃ p, findP acc.g.players l = some p) →
      (ls.foldl (loserStep sw) acc).victimsForVP
        = acc.victimsForVP ++ ls.filter (shieldSaved acc.g sw) ∧
      (ls.foldl (loserStep sw) acc).defeated
        = acc.defeated ++ ls.filter (fun l => !shieldSaved acc.g sw l) ∧
      (∀ j, findP (ls.foldl (loserStep sw) acc).g.players j =
        (findP acc.g.players j).map (fun p =>
          if j ∈ ls then (if shieldSaved acc.g sw j then consumeShield p else elimFun acc.g.round p)
          else p)) ∧
      (ls.foldl (loserStep sw) acc).g.round = acc.g.round ∧
      (ls.foldl (loserStep sw) acc).g.settings = acc.g.settings ∧
      (ls.foldl (loserStep sw) acc).g.cc = acc.g.cc ∧
      (ls.foldl (loserStep sw) acc).g.joinOrder = acc.g.joinOrder ∧
      (ls.foldl (loserStep sw) acc).g.board.fire = acc.g.board.fire ∧
      (ls.foldl (loserStep sw) acc).g.size = acc.g.size ∧
      (ls.foldl (loserStep sw) acc).g.phase = acc.g.phase := by
  induction ls with
  | nil =>
    intro acc _ _
    refine ⟨by simp, by simp, ?_, rfl, rfl, rfl, rfl, rfl, rfl, rfl⟩
    intro j; simp
  | cons l t ih =>
    intro acc hnd hfound
    obtain ⟨hlt, hndt⟩ := List.nodup_cons.mp hnd
    obtain ⟨L, hL⟩ := hfound l (List.mem_cons_self _ _)
    obtain ⟨s1, s2, s3, s4, s5, s6, s7, s8, s9, s10⟩ := loserStep_spec sw acc l L hL
    have hsame : ∀ j, j ≠ l → findP (loserStep sw acc l).g.players j = findP acc.g.players j := by
      intro j hj
      rw [s3 j]
      cases findP acc.g.players j with
      | none => rfl
      | some p => simp [hj]
    have hfound' : ∀ x ∈ t, ∃ p, findP (loserStep sw acc l).g.players x = some p := by
      intro x hx
      have hxl : x ≠ l := fun h => hlt (h ▸ hx)
      rw [hsame x hxl]
      exact hfound x (List.mem_cons_of_mem _ hx)
    obtain ⟨i1, i2, i3, i4, i5, i6, i7, i8, i9, i10⟩ := ih (loserStep sw acc l) hndt hfound'
    have hfilt1 : t.filter (shieldSaved (loserStep sw acc l).g sw) = t.filter (shieldSaved acc.g sw) := by
      apply List.filter_congr
      intro x hx
      exact shieldSaved_congr _ _ _ _ (hsame x (fun h => hlt (h ▸ hx)))
    have hfilt2 : t.filter (fun x => !shieldSaved (loserStep sw acc l).g sw x)
        = t.filter (fun x => !shieldSaved acc.g sw x) := by
      apply List.filter_congr
      intro x hx
      rw [shieldSaved_congr _ _ _ _ (hsame x (fun h => hlt (h ▸ hx)))]
    rw [List.foldl_cons]
    refine ⟨?_, ?_, ?_, i4.trans s4, i5.trans s5, i6.trans s6, i7.trans s7, i8.trans s8,
      i9.trans s9, i10.trans s10⟩
    · rw [i1, s1, hfilt1, List.filter_cons]
      cases shieldSaved acc.g sw l <;> simp
    · rw [i2, s2, hfilt2, List.filter_cons]
      cases shieldSaved acc.g sw l <;> simp
    · intro j
      rw [i3 j, s3 j, s4]
      cases hfj : findP acc.g.players j with
      | none => rfl
      | some p =>
        simp only [Option.map_some', List.mem_cons]
        by_cases hjl : j = l
        · subst hjl
          simp [hlt]
        · have := shieldSaved_congr acc.g (loserStep sw acc l).g sw j (hsame j hjl)
          simp [hjl, this]

theorem addVP_zero (x : Player) : addVP 0 x = x := by
  unfold addVP
  cases x
  simp

theorem map_addVP_zero (o : Option Player) : o.map (addVP 0) = o := by
  cases o with
  | none => rfl
  | some x => simp [addVP_zero]

theorem addVP_addVP (a b : Int) (x : Player) : addVP a (addVP b x) = addVP (b + a) x := by
  unfold addVP
  simp [add_assoc]

theorem awardFun_addVP (pid : SocketId) (a : Int) (m : Bool) (x : Player) :
    ∃ c, awardFun pid a m x = addVP c x := by
  unfold awardFun
  cases m <;> dsimp only
  · simp only [Bool.false_eq_true, if_false]
    split_ifs
    · exact ⟨a, rfl⟩
    · exact ⟨0, (addVP_zero x).symm⟩
  · simp only [if_true]
    split_ifs
    · exact ⟨a + a, (addVP_addVP a a x)⟩
    · exact ⟨a, rfl⟩
    · exact ⟨a, rfl⟩
    · exact ⟨0, (addVP_zero x).symm⟩

theorem findP_id (ps : List Player) (j : SocketId) (x : Player) (h : findP ps j = some x) :
    x.id = j := by
  unfold findP at h
  have := List.find?_some h
  simpa using this

/-- Body of the winner loop of `awardEliminationRenownFlat`, for a total `T`. -/
theorem awardLoop_find (T : Int) (ws : List SocketId) :
    ∀ (g : Game) (j : SocketId), ∃ c,
      findP (ws.foldl (fun g wid =>
        match findP g.players wid with
        | none => g
        | some _ => awardVP g wid T true) g).players j = (findP g.players j).map (addVP c) := by
  induction ws with
  | nil => intro g j; exact ⟨0, (map_addVP_zero _).symm⟩
  | cons w t ih =>
    intro g j
    rw [List.foldl_cons]
    cases hw : findP g.players w with
    | none => exact ih g j
    | some pw =>
      dsimp only
      obtain ⟨c, hc⟩ := ih (awardVP g w T true) j
      rw [hc, awardVP_players, findP_map_of_id _ _ (awardFun_id w T true)]
      cases findP g.players j with
      | none => exact ⟨0, rfl⟩
      | some x =>
        obtain ⟨c1, hc1⟩ := awardFun_addVP w T true x
        refine ⟨c1 + c, ?_⟩
        simp only [Option.map_some', hc1, addVP_addVP]

theorem awardLoop_rest (T : Int) (ws : List SocketId) :
    ∀ (g : Game), ∃ ps, (ws.foldl (fun g wid =>
        match findP g.players wid with
        | none => g
        | some _ => awardVP g wid T true) g) = { g with players := ps } := by
  induction ws with
  | nil => intro g; exact ⟨g.players, rfl⟩
  | cons w t ih =>
    intro g
    rw [List.foldl_cons]
    cases hw : findP g.players w with
    | none => exact ih g
    | some pw =>
      dsimp only
      obtain ⟨ps, hps⟩ := ih (awardVP g w T true)
      rw [hps, awardVP_eq]
      exact ⟨ps, rfl⟩

theorem awardLoop_nonsponsor (T : Int) (ws : List SocketId) :
    ∀ (g : Game) (j : SocketId) (x : Player), ws.Nodup →
      (∀ w ∈ ws, ∃ p, findP g.players w = some p) →
      findP g.players j = some x → x.isSponsor = false →
      findP (ws.foldl (fun g wid =>
        match findP g.players wid with
        | none => g
        | some _ => awardVP g wid T true) g).players j
        = some (if j ∈ ws then addVP T x else x) := by
  induction ws with
  | nil => intro g j x _ _ hx _; simpa using hx
  | cons w t ih =>
    intro g j x hnd hfound hx hns
    obtain ⟨hwt, hndt⟩ := List.nodup_cons.mp hnd
    obtain ⟨pw, hpw⟩ := hfound w (List.mem_cons_self _ _)
    rw [List.foldl_cons, hpw]
    dsimp only
    have hxid : x.id = j := findP_id _ _ _ hx
    have hfound' : ∀ w' ∈ t, ∃ p, findP (awardVP g w T true).players w' = some p := by
      intro w' hw'
      obtain ⟨p, hp⟩ := hfound w' (List.mem_cons_of_mem _ hw')
      rw [awardVP_players, findP_map_of_id _ _ (awardFun_id w T true), hp]
      exact ⟨_, rfl⟩
    have hx1 : findP (awardVP g w T true).players j = some (awardFun w T true x) := by
      rw [awardVP_players, findP_map_of_id _ _ (awardFun_id w T true), hx]; rfl
    by_cases hjw : j = w
    · have e : awardFun w T true x = addVP T x := awardFun_direct _ _ _ _ (hxid.trans hjw) hns
      rw [e] at hx1
      rw [ih _ j _ hndt hfound' hx1 hns]
      have : j ∉ t := hjw ▸ hwt
      simp [hjw, hwt]
    · have e : awardFun w T true x = x :=
        awardFun_other _ _ _ _ (fun h => hjw (hxid.symm.trans h)) (Or.inl hns)
      rw [e] at hx1
      rw [ih _ j _ hndt hfound' hx1 hns]
      simp [hjw]

theorem awardElimination_find (g : Game) (ws vs : List SocketId) (j : SocketId) :
    ∃ c, findP (awardEliminationRenownFlat g ws vs).players j = (findP g.players j).map (addVP c) := by
  unfold awardEliminationRenownFlat
  dsimp only
  split_ifs
  · exact ⟨0, (map_addVP_zero _).symm⟩
  · exact awardLoop_find _ ws g j

theorem awardElimination_rest (g : Game) (ws vs : List SocketId) :
    ∃ ps, awardEliminationRenownFlat g ws vs = { g with players := ps } := by
  unfold awardEliminationRenownFlat
  dsimp only
  split_ifs
  · exact ⟨g.players, rfl⟩
  · exact awardLoop_rest _ ws g

theorem awardElimination_nonsponsor (g : Game) (ws vs : List SocketId) (j : SocketId) (x : Player)
    (hnd : ws.Nodup) (hfound : ∀ w ∈ ws, ∃ p, findP g.players w = some p)
    (hx : findP g.players j = some x) (hns : x.isSponsor = false) :
    findP (awardEliminationRenownFlat g ws vs).players j
      = some (if j ∈ ws then addVP (max 0 g.settings.eliminationVP * (vs.length : Int)) x else x) := by
  unfold awardEliminationRenownFlat
  dsimp only
  split_ifs with hskip hj hj
  · rw [hx]
    simp only [Bool.or_eq_true, decide_eq_true_eq, List.isEmpty_iff] at hskip
    rcases hskip with (h | h) | h
    · rw [h, zero_mul, addVP_zero]
    · rw [h]; simp [addVP_zero]
    · rw [h] at hj; cases hj
  · exact hx
  · rw [awardLoop_nonsponsor _ ws g j x hnd hfound hx hns, if_pos hj]
  · rw [awardLoop_nonsponsor _ ws g j x hnd hfound hx hns, if_neg hj]

theorem addKills_zero (x : Player) : addKills 0 x = x := by
  unfold addKills
  cases x
  simp

theorem combatWinners_ne_nil (g : Game) (ids : List SocketId) (hs : CombatSetup g ids)
    (hne : ids ≠ []) : combatWinners g ids ≠ [] := by
  obtain ⟨⟨id, hid, he⟩, _⟩ := combatMax_spec g ids hs.found hne
  rw [combatWinners_eq g ids hs.found]
  intro h
  have : id ∈ ids.filter (fun id => decide (totalOf g id = combatMax g ids)) :=
    List.mem_filter.mpr ⟨hid, by simpa using he⟩
  rw [h] at this
  cases this

theorem combatTile_eq (g : Game) (ids : List SocketId) (hs : CombatSetup g ids)
    (hlen : 2 ≤ ids.length) :
    combatTile g ids = ids.foldl (fun g id => g.modPlayer id consumeEncounterBuff)
      (combatBranch g (combatWinners g ids) (combatLosers g ids)) := by
  have hne : ids ≠ [] := by
    intro h; rw [h] at hlen; simp at hlen
  have hw := combatWinners_ne_nil g ids hs hne
  have hwl : 1 ≤ (combatWinners g ids).length := by
    cases hc : combatWinners g ids with
    | nil => exact absurd hc hw
    | cons a t => simp
  unfold combatTile
  rw [if_neg (by omega)]
  dsimp only
  rw [combatVals_eq g ids hs.found, List.foldl_map]
  by_cases h1 : (combatWinners g ids).length > 1
  · rw [if_pos h1]
  · rw [if_neg h1, if_pos (by omega)]

theorem loserLoop_facts (g : Game) (ids : List SocketId) (hs : CombatSetup g ids) :
    (loserLoop g ids).victimsForVP = savedLosers g ids ∧
    (loserLoop g ids).defeated = defeatedLosers g ids ∧
    (∀ j, findP (loserLoop g ids).g.players j = (findP g.players j).map (loserEffect g ids j)) ∧
    (loserLoop g ids).g.round = g.round ∧ (loserLoop g ids).g.settings = g.settings ∧
    (loserLoop g ids).g.cc = g.cc ∧ (loserLoop g ids).g.joinOrder = g.joinOrder ∧
    (loserLoop g ids).g.board.fire = g.board.fire ∧ (loserLoop g ids).g.size = g.size ∧
    (loserLoop g ids).g.phase = g.phase := by
  have hsub : ∀ l ∈ combatLosers g ids, l ∈ ids := by
    intro l hl
    rw [combatLosers_eq g ids hs.found] at hl
    exact (List.mem_filter.mp hl).1
  have hnd : (combatLosers g ids).Nodup := by
    rw [combatLosers_eq g ids hs.found]
    exact hs.nodup.filter _
  obtain ⟨h1, h2, h3, h4, h5, h6, h7, h8, h9, h10⟩ :=
    loserLoop_spec (swordInPlay g (combatWinners g ids)) (combatLosers g ids)
      { g := g, victimsForVP := [], defeated := [] } hnd (fun l hl => hs.found l (hsub l hl))
  unfold loserLoop
  refine ⟨by simpa [savedLosers] using h1, by simpa [defeatedLosers] using h2, ?_, h4, h5, h6, h7,
    h8, h9, h10⟩
  intro j
  rw [h3 j]
  rfl

theorem combatBranch_find (g : Game) (ids : List SocketId) (hs : CombatSetup g ids)
    (j : SocketId) :
    findP (combatBranch g (combatWinners g ids) (combatLosers g ids)).players j =
      (findP (awardEliminationRenownFlat (loserLoop g ids).g (combatWinners g ids)
        (if (savedLosers g ids).isEmpty then defeatedLosers g ids else savedLosers g ids)).players j).map
        (fun p => if j ∈ combatWinners g ids
          then addKills ((defeatedLosers g ids).length : Int) p else p) := by
  obtain ⟨h1, h2, _⟩ := loserLoop_facts g ids hs
  have hnd : (combatWinners g ids).Nodup := by
    rw [combatWinners_eq g ids hs.found]
    exact hs.nodup.filter _
  unfold combatBranch
  dsimp only
  have hacc : List.foldl (loserStep (swordInPlay g (combatWinners g ids)))
      { g := g, victimsForVP := [], defeated := [] } (combatLosers g ids) = loserLoop g ids := rfl
  rw [hacc, h1, h2]
  by_cases hd : (defeatedLosers g ids).isEmpty = true
  · rw [if_pos hd]
    have : defeatedLosers g ids = [] := List.isEmpty_iff.mp hd
    rw [this]
    simp only [List.length_nil, Nat.cast_zero, addKills_zero, ite_self]
    simp
  · rw [if_neg hd]
    exact foldl_modPlayer_find (addKills _) (fun _ => rfl) _ hnd _ j

theorem combatTile_find (g : Game) (ids : List SocketId) (hs : CombatSetup g ids)
    (hlen : 2 ≤ ids.length) (j : SocketId) :
    ∃ c, findP (combatTile g ids).players j = (findP g.players j).map (combatEffect g ids j c) := by
  obtain ⟨_, _, h3, _⟩ := loserLoop_facts g ids hs
  obtain ⟨c, hc⟩ := awardElimination_find (loserLoop g ids).g (combatWinners g ids)
    (if (savedLosers g ids).isEmpty then defeatedLosers g ids else savedLosers g ids) j
  refine ⟨c, ?_⟩
  rw [combatTile_eq g ids hs hlen,
    foldl_modPlayer_find consumeEncounterBuff
      (fun p => by unfold consumeEncounterBuff; split_ifs <;> rfl) ids hs.nodup,
    combatBranch_find g ids hs j, hc, h3 j]
  cases findP g.players j with
  | none => rfl
  | some p => rfl

theorem combatTile_find_nonsponsor (g : Game) (ids : List SocketId) (hs : CombatSetup g ids)
    (hlen : 2 ≤ ids.length) (j : SocketId) (p : Player) (hp : findP g.players j = some p)
    (hns : (loserEffect g ids j p).isSponsor = false) :
    findP (combatTile g ids).players j = some (combatEffect g ids j
      (if j ∈ combatWinners g ids then max 0 g.settings.eliminationVP * creditedVictims g ids else 0)
      p) := by
  obtain ⟨_, _, h3, _, h5, _⟩ := loserLoop_facts g ids hs
  have hnd : (combatWinners g ids).Nodup := by
    rw [combatWinners_eq g ids hs.found]
    exact hs.nodup.filter _
  have hfound : ∀ w ∈ combatWinners g ids, ∃ q, findP (loserLoop g ids).g.players w = some q := by
    intro w hw
    rw [combatWinners_eq g ids hs.found] at hw
    obtain ⟨q, hq⟩ := hs.found w (List.mem_filter.mp hw).1
    rw [h3 w, hq]
    exact ⟨_, rfl⟩
  have hx : findP (loserLoop g ids).g.players j = some (loserEffect g ids j p) := by
    rw [h3 j, hp]; rfl
  have haw := awardElimination_nonsponsor (loserLoop g ids).g (combatWinners g ids)
    (if (savedLosers g ids).isEmpty then defeatedLosers g ids else savedLosers g ids) j _ hnd hfound
    hx hns
  have hcred : (((if (savedLosers g ids).isEmpty then defeatedLosers g ids
      else savedLosers g ids).length : Nat) : Int) = creditedVictims g ids := by
    unfold creditedVictims
    split_ifs <;> rfl
  rw [h5, hcred] at haw
  rw [combatTile_eq g ids hs hlen,
    foldl_modPlayer_find consumeEncounterBuff
      (fun p => by unfold consumeEncounterBuff; split_ifs <;> rfl) ids hs.nodup,
    combatBranch_find g ids hs j, haw]
  unfold combatEffect
  by_cases hjw : j ∈ combatWinners g ids
  · simp only [hjw, if_true, Option.map_some']
  · simp only [hjw, if_false, Option.map_some', addVP_zero]

/-! ## Combat resolver: fate of winners and losers -/

theorem occupantsOK_spec (g : Game) (ids : List SocketId) (hok : occupantsOK g ids = true) :
    ∀ id ∈ ids, ∃ p, findP g.players id = some p ∧ p.isAlive = true ∧ p.isSponsor = false := by
  intro id hid
  unfold occupantsOK at hok
  have h := List.all_eq_true.mp hok id hid
  cases hf : findP g.players id with
  | none => rw [hf] at h; cases h
  | some p =>
    rw [hf] at h
    simp only [Bool.and_eq_true, Bool.not_eq_true'] at h
    exact ⟨p, rfl, h.1.1, h.1.2⟩

theorem combatSetup_of_ok (g : Game) (ids : List SocketId) (hnd : ids.Nodup)
    (hok : occupantsOK g ids = true) : CombatSetup g ids :=
  ⟨hnd, fun id hid => by
    obtain ⟨p, hp, _⟩ := occupantsOK_spec g ids hok id hid
    exact ⟨p, hp⟩⟩

theorem combatEffect_fields (g : Game) (ids : List SocketId) (j : SocketId) (c : Int) (p : Player) :
    (combatEffect g ids j c p).isAlive = (loserEffect g ids j p).isAlive ∧
    (combatEffect g ids j c p).isSponsor = (loserEffect g ids j p).isSponsor ∧
    (combatEffect g ids j c p).pos = (loserEffect g ids j p).pos ∧
    (combatEffect g ids j c p).hasShield = (loserEffect g ids j p).hasShield ∧
    (combatEffect g ids j c p).vp = (loserEffect g ids j p).vp + c ∧
    (combatEffect g ids j c p).vpDelta = (loserEffect g ids j p).vpDelta + c ∧
    (combatEffect g ids j c p).kills = (if j ∈ combatWinners g ids
      then (loserEffect g ids j p).kills + ((defeatedLosers g ids).length : Int)
      else (loserEffect g ids j p).kills) ∧
    ((combatEffect g ids j c p).buff = (loserEffect g ids j p).buff ∨
      (combatEffect g ids j c p).buff = none) := by
  unfold combatEffect consumeEncounterBuff addKills addVP
  dsimp only
  split_ifs <;> simp

theorem winner_not_loser (g : Game) (ids : List SocketId) (hs : CombatSetup g ids) (w : SocketId)
    (hw : w ∈ combatWinners g ids) : w ∉ combatLosers g ids := by
  rw [combatWinners_eq g ids hs.found] at hw
  rw [combatLosers_eq g ids hs.found]
  intro hl
  have h1 := (List.mem_filter.mp hw).2
  have h2 := (List.mem_filter.mp hl).2
  simp only [decide_eq_true_eq] at h1 h2
  omega

theorem loser_fate (g : Game) (ids : List SocketId) (hs : CombatSetup g ids)
    (hlen : 2 ≤ ids.length) (l : SocketId) (hl : l ∈ combatLosers g ids) (L : Player)
    (hL : findP g.players l = some L) :
    ∃ L', findP (combatTile g ids).players l = some L' ∧
      (shieldSaved g (swordInPlay g (combatWinners g ids)) l = true →
        L'.isAlive = L.isAlive ∧ L'.isSponsor = L.isSponsor ∧ L'.pos = L.pos ∧
        L'.hasShield = false ∧ L'.buff ≠ some Item.SHIELD) ∧
      (shieldSaved g (swordInPlay g (combatWinners g ids)) l = false →
        L'.isAlive = false ∧ L'.isSponsor = true ∧ L'.pos = none) := by
  obtain ⟨c, hc⟩ := combatTile_find g ids hs hlen l
  rw [hL] at hc
  obtain ⟨f1, f2, f3, f4, _, _, _, f8⟩ := combatEffect_fields g ids l c L
  refine ⟨_, hc, ?_, ?_⟩
  · intro hsv
    have hle : loserEffect g ids l L = consumeShield L := by
      unfold loserEffect; rw [if_pos hl, if_pos hsv]
    rw [hle] at f1 f2 f3 f4 f8
    refine ⟨f1, f2, f3, f4, ?_⟩
    have hb : (consumeShield L).buff ≠ some Item.SHIELD := by
      unfold consumeShield
      dsimp only
      split_ifs with h
      · simp
      · exact h
    rcases f8 with f8 | f8
    · rw [f8]; exact hb
    · rw [f8]; simp
  · intro hsv
    have hle : loserEffect g ids l L = elimFun g.round L := by
      unfold loserEffect; rw [if_pos hl, hsv]; simp
    rw [hle] at f1 f2 f3
    exact ⟨f1, f2, f3⟩

theorem winner_fate (g : Game) (ids : List SocketId) (hs : CombatSetup g ids)
    (hlen : 2 ≤ ids.length) (w : SocketId) (hw : w ∈ combatWinners g ids) (pw : Player)
    (hpw : findP g.players w = some pw) (hns : pw.isSponsor = false) :
    ∃ pw', findP (combatTile g ids).players w = some pw' ∧
      pw'.vp = pw.vp + max 0 g.settings.eliminationVP * creditedVictims g ids ∧
      pw'.vpDelta = pw.vpDelta + max 0 g.settings.eliminationVP * creditedVictims g ids ∧
      pw'.kills = pw.kills + ((defeatedLosers g ids).length : Int) ∧
      pw'.isAlive = pw.isAlive ∧ pw'.isSponsor = pw.isSponsor ∧ pw'.pos = pw.pos ∧
      pw'.hasShield = pw.hasShield := by
  have hle : loserEffect g ids w pw = pw := by
    unfold loserEffect; rw [if_neg (winner_not_loser g ids hs w hw)]
  have h := combatTile_find_nonsponsor g ids hs hlen w pw hpw (by rw [hle]; exact hns)
  rw [if_pos hw] at h
  obtain ⟨f1, f2, f3, f4, f5, f6, f7, _⟩ := combatEffect_fields g ids w
    (max 0 g.settings.eliminationVP * creditedVictims g ids) pw
  rw [hle] at f1 f2 f3 f4 f5 f6 f7
  rw [if_pos hw] at f7
  exact ⟨_, h, f5, f6, f7, f1, f2, f3, f4⟩

theorem swordInPlay_iff (g : Game) (ws : List SocketId) :
    swordInPlay g ws = true ↔
      ∃ w ∈ ws, ∃ pw, findP g.players w = some pw ∧ pw.buff = some Item.SWORD := by
  unfold swordInPlay
  rw [List.any_eq_true]
  constructor
  · rintro ⟨w, hw, h⟩
    cases hf : findP g.players w with
    | none => rw [hf] at h; cases h
    | some pw =>
      rw [hf] at h
      exact ⟨w, hw, pw, hf, by simpa using h⟩
  · rintro ⟨w, hw, pw, hf, hb⟩
    refine ⟨w, hw, ?_⟩
    rw [hf]
    simpa using hb

theorem shieldSaved_eq (g : Game) (sw : Bool) (l : SocketId) (L : Player)
    (hL : findP g.players l = some L) : shieldSaved g sw l = (L.hasShield && !sw) := by
  unfold shieldSaved
  rw [hL]
  dsimp only
  cases sw <;> cases L.hasShield <;> rfl

theorem loser_alive_iff (g : Game) (ids : List SocketId) (hnd : ids.Nodup)
    (hok : occupantsOK g ids = true) (hlen : 2 ≤ ids.length) :
    ∀ l ∈ combatLosers g ids, ∃ L', findP (combatTile g ids).players l = some L' ∧
      (l ∈ savedLosers g ids ↔ L'.isAlive = true) ∧
      (l ∈ defeatedLosers g ids ↔ L'.isAlive = false) := by
  have hs := combatSetup_of_ok g ids hnd hok
  have hsubl : ∀ x ∈ combatLosers g ids, x ∈ ids := by
    intro x hx
    rw [combatLosers_eq g ids hs.found] at hx
    exact (List.mem_filter.mp hx).1
  intro l hl
  obtain ⟨L, hL, hal, _⟩ := occupantsOK_spec g ids hok l (hsubl l hl)
  obtain ⟨L', h1, h2, h3⟩ := loser_fate g ids hs hlen l hl L hL
  refine ⟨L', h1, ?_, ?_⟩
  · unfold savedLosers
    rw [List.mem_filter]
    constructor
    · intro h
      rw [(h2 h.2).1, hal]
    · intro h
      refine ⟨hl, ?_⟩
      cases hsv : shieldSaved g (swordInPlay g (combatWinners g ids)) l with
      | true => rfl
      | false => rw [(h3 hsv).1] at h; cases h
  · unfold defeatedLosers
    rw [List.mem_filter]
    constructor
    · intro h
      have : shieldSaved g (swordInPlay g (combatWinners g ids)) l = false := by simpa using h.2
      exact (h3 this).1
    · intro h
      refine ⟨hl, ?_⟩
      cases hsv : shieldSaved g (swordInPlay g (combatWinners g ids)) l with
      | false => rfl
      | true => rw [(h2 hsv).1, hal] at h; cases h

/-! ## C5: elimination VP -/

/-- C5 (the code at the failing input): `w` (value 6) beats `l1` (shielded), `l2` and `l3`; no
winner holds Sword, so `l1` is shield-saved while `l2` and `l3` are eliminated. The claim credits
`w` with `eliminationVP * 2` = 20 for the two eliminations; the code credits
`eliminationVP * 1` = 10, counting the saved loser instead, while the kill count grows by 2. -/
theorem C5_mixed_combat_credits_saved_losers :
    exampleMixedGame.settings.eliminationVP = 10 ∧
    combatWinners exampleMixedGame ["w", "l1", "l2", "l3"] = ["w"] ∧
    combatLosers exampleMixedGame ["w", "l1", "l2", "l3"] = ["l1", "l2", "l3"] ∧
    (resolveCombatsDetailed exampleMixedGame [(Pos.mk 1 1, ["w", "l1", "l2", "l3"])]).players.map
      (fun p => (p.id, p.isAlive)) = [("w", true), ("l1", true), ("l2", false), ("l3", false)] ∧
    (findP exampleMixedGame.players "w").map (fun p => p.vp) = some 0 ∧
    (findP (resolveCombatsDetailed exampleMixedGame
      [(Pos.mk 1 1, ["w", "l1", "l2", "l3"])]).players "w").map (fun p => (p.vp, p.kills))
      = some (10, 2) := by
  refine ⟨by decide, by decide, by decide, by decide, by decide, by decide⟩

/-- The elimination credit as coded: for every combat resolved by `resolveCombatsDetailed` (a
tile with at least two occupants), each winner is credited `max(0, eliminationVP)` times the
number of losers that survived via shield whenever at least one loser did, and times the number
of losers eliminated when none did. The saved losers are those still Alive after the combat, the
others are not. -/
theorem eliminationCredit_as_coded (g : Game) (ids : List SocketId) (hnd : ids.Nodup)
    (hok : occupantsOK g ids = true) (hlen : 2 ≤ ids.length)
    (w : SocketId) (hw : w ∈ combatWinners g ids) (pw : Player)
    (hpw : findP g.players w = some pw) :
    (∃ pw', findP (combatTile g ids).players w = some pw' ∧
      pw'.vp = pw.vp + max 0 g.settings.eliminationVP *
        (if (savedLosers g ids).isEmpty then ((defeatedLosers g ids).length : Int)
         else ((savedLosers g ids).length : Int)) ∧
      pw'.vpDelta = pw.vpDelta + max 0 g.settings.eliminationVP *
        (if (savedLosers g ids).isEmpty then ((defeatedLosers g ids).length : Int)
         else ((savedLosers g ids).length : Int))) ∧
    (∀ l ∈ combatLosers g ids, ∃ L', findP (combatTile g ids).players l = some L' ∧
      (l ∈ savedLosers g ids ↔ L'.isAlive = true) ∧
      (l ∈ defeatedLosers g ids ↔ L'.isAlive = false)) := by
  have hs := combatSetup_of_ok g ids hnd hok
  have hsub : ∀ x ∈ combatWinners g ids, x ∈ ids := by
    intro x hx
    rw [combatWinners_eq g ids hs.found] at hx
    exact (List.mem_filter.mp hx).1
  constructor
  · obtain ⟨p, hp, _, hns⟩ := occupantsOK_spec g ids hok w (hsub w hw)
    rw [hpw] at hp
    cases hp
    obtain ⟨pw', h1, h2, h3, _⟩ := winner_fate g ids hs hlen w hw pw hpw hns
    exact ⟨pw', h1, h2, h3⟩
  · exact loser_alive_iff g ids hnd hok hlen

/-- The credit as coded in the mixed combat of `exampleMixedGame`. -/
theorem eliminationCredit_as_coded_example :
    (∃ pw', findP (combatTile exampleMixedGame ["w", "l1", "l2", "l3"]).players "w" = some pw' ∧
      pw'.vp = (fighter "w" 6).vp + max 0 exampleMixedGame.settings.eliminationVP *
        (if (savedLosers exampleMixedGame ["w", "l1", "l2", "l3"]).isEmpty
         then ((defeatedLosers exampleMixedGame ["w", "l1", "l2", "l3"]).length : Int)
         else ((savedLosers exampleMixedGame ["w", "l1", "l2", "l3"]).length : Int)) ∧
      pw'.vpDelta = (fighter "w" 6).vpDelta + max 0 exampleMixedGame.settings.eliminationVP *
        (if (savedLosers exampleMixedGame ["w", "l1", "l2", "l3"]).isEmpty
         then ((defeatedLosers exampleMixedGame ["w", "l1", "l2", "l3"]).length : Int)
         else ((savedLosers exampleMixedGame ["w", "l1", "l2", "l3"]).length : Int))) ∧
    (∀ l ∈ combatLosers exampleMixedGame ["w", "l1", "l2", "l3"],
      ∃ L', findP (combatTile exampleMixedGame ["w", "l1", "l2", "l3"]).players l = some L' ∧
        (l ∈ savedLosers exampleMixedGame ["w", "l1", "l2", "l3"] ↔ L'.isAlive = true) ∧
        (l ∈ defeatedLosers exampleMixedGame ["w", "l1", "l2", "l3"] ↔ L'.isAlive = false)) :=
  eliminationCredit_as_coded exampleMixedGame ["w", "l1", "l2", "l3"] (by decide) (by decide)
    (by decide) "w" (by decide) (fighter "w" 6) rfl

/-! ## C8: shield save and piercing -/

/-- C8: in a combat (a tile with at least two occupants) a loser `l` with shield-save survives
if and only if no winner holds Sword. A surviving loser stays Alive at their position, loses the
shield-save and no longer holds a Shield consumable, and is not among the defeated losers (the
losers that are not Alive after the combat), whose number is what every winner's kill count grows
by; a shielded loser facing a Sword-holding winner is eliminated (Ascended, no position) and
counted as defeated. -/
theorem C8_shield_save_and_piercing (g : Game) (ids : List SocketId) (hnd : ids.Nodup)
    (hok : occupantsOK g ids = true) (hlen : 2 ≤ ids.length)
    (l : SocketId) (hl : l ∈ combatLosers g ids) (L : Player)
    (hL : findP g.players l = some L) (hsh : L.hasShield = true) :
    (swordInPlay g (combatWinners g ids) = true ↔
      ∃ w ∈ combatWinners g ids, ∃ pw, findP g.players w = some pw ∧ pw.buff = some Item.SWORD) ∧
    (∃ L', findP (combatTile g ids).players l = some L' ∧
      (L'.isAlive = true ↔ swordInPlay g (combatWinners g ids) = false) ∧
      (swordInPlay g (combatWinners g ids) = false →
        L'.isAlive = true ∧ L'.isSponsor = false ∧ L'.pos = L.pos ∧ L'.hasShield = false ∧
        L'.buff ≠ some Item.SHIELD ∧ l ∉ defeatedLosers g ids) ∧
      (swordInPlay g (combatWinners g ids) = true →
        L'.isAlive = false ∧ L'.isSponsor = true ∧ L'.pos = none ∧ l ∈ defeatedLosers g ids)) ∧
    (∀ w ∈ combatWinners g ids, ∀ pw, findP g.players w = some pw →
      ∃ pw', findP (combatTile g ids).players w = some pw' ∧
        pw'.kills = pw.kills + ((defeatedLosers g ids).length : Int)) ∧
    (∀ l' ∈ combatLosers g ids, ∃ L', findP (combatTile g ids).players l' = some L' ∧
      (l' ∈ defeatedLosers g ids ↔ L'.isAlive = false)) := by
  have hs := combatSetup_of_ok g ids hnd hok
  have hsub : ∀ x ∈ combatWinners g ids, x ∈ ids := by
    intro x hx
    rw [combatWinners_eq g ids hs.found] at hx
    exact (List.mem_filter.mp hx).1
  have hsubl : ∀ x ∈ combatLosers g ids, x ∈ ids := by
    intro x hx
    rw [combatLosers_eq g ids hs.found] at hx
    exact (List.mem_filter.mp hx).1
  obtain ⟨p, hp, hal, hns⟩ := occupantsOK_spec g ids hok l (hsubl l hl)
  rw [hL] at hp
  cases hp
  have hsv := shieldSaved_eq g (swordInPlay g (combatWinners g ids)) l L hL
  rw [hsh] at hsv
  have hsvF : swordInPlay g (combatWinners g ids) = false →
      shieldSaved g (swordInPlay g (combatWinners g ids)) l = true := by
    intro h; rw [hsv, h]; rfl
  have hsvT : swordInPlay g (combatWinners g ids) = true →
      shieldSaved g (swordInPlay g (combatWinners g ids)) l = false := by
    intro h; rw [hsv, h]; rfl
  obtain ⟨L', h1, h2, h3⟩ := loser_fate g ids hs hlen l hl L hL
  refine ⟨swordInPlay_iff g _, ⟨L', h1, ?_, ?_, ?_⟩, ?_, ?_⟩
  · cases hsw : swordInPlay g (combatWinners g ids) with
    | false =>
      rw [(h2 (hsvF hsw)).1, hal]
      simp
    | true =>
      rw [(h3 (hsvT hsw)).1]
      simp
  · intro hsw
    obtain ⟨a1, a2, a3, a4, a5⟩ := h2 (hsvF hsw)
    refine ⟨a1.trans hal, a2.trans hns, a3, a4, a5, ?_⟩
    unfold defeatedLosers
    rw [List.mem_filter]
    rintro ⟨_, hx⟩
    rw [hsvF hsw] at hx
    cases hx
  · intro hsw
    obtain ⟨a1, a2, a3⟩ := h3 (hsvT hsw)
    refine ⟨a1, a2, a3, ?_⟩
    unfold defeatedLosers
    rw [List.mem_filter]
    exact ⟨hl, by rw [hsvT hsw]; rfl⟩
  · intro w hw pw hpw
    obtain ⟨p, hp, _, hnsw⟩ := occupantsOK_spec g ids hok w (hsub w hw)
    rw [hpw] at hp
    cases hp
    obtain ⟨pw', k1, _, _, k4, _⟩ := winner_fate g ids hs hlen w hw pw hpw hnsw
    exact ⟨pw', k1, k4⟩
  · intro l' hl'
    obtain ⟨L'', e1, _, e3⟩ := loser_alive_iff g ids hnd hok hlen l' hl'
    exact ⟨L'', e1, e3⟩

/-- Witness for C8: the shielded loser `d` at value 3 without the Seal, against the winners
`4 + Sword` and `5` of `exampleShieldGame`. -/
theorem C8_shield_save_and_piercing_witness :
    (swordInPlay exampleShieldGame (combatWinners exampleShieldGame ["a", "b", "d"]) = true ↔
      ∃ w ∈ combatWinners exampleShieldGame ["a", "b", "d"], ∃ pw,
        findP exampleShieldGame.players w = some pw ∧ pw.buff = some Item.SWORD) ∧
    (∃ L', findP (combatTile exampleShieldGame ["a", "b", "d"]).players "d" = some L' ∧
      (L'.isAlive = true ↔
        swordInPlay exampleShieldGame (combatWinners exampleShieldGame ["a", "b", "d"]) = false) ∧
      (swordInPlay exampleShieldGame (combatWinners exampleShieldGame ["a", "b", "d"]) = false →
        L'.isAlive = true ∧ L'.isSponsor = false ∧
        L'.pos = ({ fighter "d" 3 with buff := some Item.SHIELD, hasShield := true } : Player).pos ∧
        L'.hasShield = false ∧ L'.buff ≠ some Item.SHIELD ∧
        "d" ∉ defeatedLosers exampleShieldGame ["a", "b", "d"]) ∧
      (swordInPlay exampleShieldGame (combatWinners exampleShieldGame ["a", "b", "d"]) = true →
        L'.isAlive = false ∧ L'.isSponsor = true ∧ L'.pos = none ∧
        "d" ∈ defeatedLosers exampleShieldGame ["a", "b", "d"])) :=
  have h := C8_shield_save_and_piercing exampleShieldGame ["a", "b", "d"] (by decide) (by decide)
    (by decide) "d" (by decide)
    { fighter "d" 3 with buff := some Item.SHIELD, hasShield := true } rfl rfl
  ⟨h.1, h.2.1⟩

/-! ## C6: the three-way tie of the specification's example -/

/-- C6 (as stated, refuted): with occupants `a` (4, Sword), `b` (5, no buff) and `c` (3, Seal)
all three combat values are 5; `resolveCombatsDetailed` makes all three joint winners, there is
no loser, and nobody is eliminated (the claim has two winners and one eliminated loser). -/
theorem C6_tie_has_three_winners :
    combatVals exampleTieGame ["a", "b", "c"] = [("a", 5), ("b", 5), ("c", 5)] ∧
    combatWinners exampleTieGame ["a", "b", "c"] = ["a", "b", "c"] ∧
    combatLosers exampleTieGame ["a", "b", "c"] = [] ∧
    (resolveCombatsDetailed exampleTieGame [(Pos.mk 1 1, ["a", "b", "c"])]).players.map
      (fun p => (p.id, p.isAlive, p.isSponsor, p.pos)) =
      [("a", true, false, some (Pos.mk 1 1)), ("b", true, false, some (Pos.mk 1 1)),
       ("c", true, false, some (Pos.mk 1 1))] := by
  refine ⟨by decide, by decide, by decide, by decide⟩

theorem totalOf_eq (g : Game) (id : SocketId) (p : Player) (hp : findP g.players id = some p) :
    totalOf g id = combatTotal p := by
  unfold totalOf; rw [hp]

/-- C6 (amended): when three Alive participants share a tile with (number 4, Sword),
(number 5, no buff) and (number 3, Seal), their combat values are 5, 5 and 5 and
`resolveCombatsDetailed` produces three joint winners at value 5 and no loser: every participant
keeps their life-cycle state and position. -/
theorem C6_three_joint_winners (g : Game) (a b c : SocketId) (pa pb pc : Player)
    (hnd : [a, b, c].Nodup)
    (ha : findP g.players a = some pa) (hb : findP g.players b = some pb)
    (hc : findP g.players c = some pc)
    (hpa : pa.selectedNumber = some 4 ∧ pa.buff = some Item.SWORD ∧ pa.cornucopia = false)
    (hpb : pb.selectedNumber = some 5 ∧ pb.buff = none ∧ pb.cornucopia = false)
    (hpc : pc.selectedNumber = some 3 ∧ pc.buff ≠ some Item.SWORD ∧ pc.cornucopia = true) :
    combatTotal pa = 5 ∧ combatTotal pb = 5 ∧ combatTotal pc = 5 ∧
    combatWinners g [a, b, c] = [a, b, c] ∧ combatLosers g [a, b, c] = [] ∧
    ∀ j p, findP g.players j = some p →
      ∃ p', findP (resolveCombatsDetailed g [(Pos.mk 1 1, [a, b, c])]).players j = some p' ∧
        p'.isAlive = p.isAlive ∧ p'.isSponsor = p.isSponsor ∧ p'.pos = p.pos := by
  have ta : combatTotal pa = 5 := by
    unfold combatTotal combatBase combatSword combatSeal numOr1
    rw [hpa.1, hpa.2.1, hpa.2.2]
    decide
  have tb : combatTotal pb = 5 := by
    unfold combatTotal combatBase combatSword combatSeal numOr1
    rw [hpb.1, hpb.2.1, hpb.2.2]
    decide
  have tc : combatTotal pc = 5 := by
    unfold combatTotal combatBase combatSword combatSeal numOr1
    rw [hpc.1, hpc.2.2, if_neg hpc.2.1]
    decide
  have hs : CombatSetup g [a, b, c] := by
    refine ⟨hnd, ?_⟩
    intro id hid
    simp only [List.mem_cons, List.mem_singleton, List.not_mem_nil, or_false] at hid
    rcases hid with h | h | h
    · exact ⟨pa, h ▸ ha⟩
    · exact ⟨pb, h ▸ hb⟩
    · exact ⟨pc, h ▸ hc⟩
  have hvals : combatVals g [a, b, c] = [(a, 5), (b, 5), (c, 5)] := by
    rw [combatVals_eq g _ hs.found]
    simp only [List.map_cons, List.map_nil, totalOf_eq g a pa ha, totalOf_eq g b pb hb,
      totalOf_eq g c pc hc, ta, tb, tc]
  have hmax : combatMax g [a, b, c] = 5 := by
    unfold combatMax
    rw [hvals]
    rfl
  have hwin : combatWinners g [a, b, c] = [a, b, c] := by
    unfold combatWinners
    rw [hmax, hvals]
    simp
  have hlose : combatLosers g [a, b, c] = [] := by
    unfold combatLosers
    rw [hmax, hvals]
    simp
  refine ⟨ta, tb, tc, hwin, hlose, ?_⟩
  intro j p hp
  obtain ⟨v, hv⟩ := combatTile_find g [a, b, c] hs (by simp) j
  rw [hp] at hv
  obtain ⟨f1, f2, f3, _⟩ := combatEffect_fields g [a, b, c] j v p
  have hle : loserEffect g [a, b, c] j p = p := by
    unfold loserEffect; rw [hlose]; simp
  rw [hle] at f1 f2 f3
  exact ⟨_, hv, f1, f2, f3⟩

/-- Witness for C6 (amended) on `exampleTieGame`. -/
theorem C6_three_joint_winners_witness :
    combatTotal ({ fighter "a" 4 with buff := some Item.SWORD } : Player) = 5 ∧
    combatTotal (fighter "b" 5) = 5 ∧
    combatTotal ({ fighter "c" 3 with cornucopia := true } : Player) = 5 ∧
    combatWinners exampleTieGame ["a", "b", "c"] = ["a", "b", "c"] ∧
    combatLosers exampleTieGame ["a", "b", "c"] = [] ∧
    ∀ j p, findP exampleTieGame.players j = some p →
      ∃ p', findP (resolveCombatsDetailed exampleTieGame
          [(Pos.mk 1 1, ["a", "b", "c"])]).players j = some p' ∧
        p'.isAlive = p.isAlive ∧ p'.isSponsor = p.isSponsor ∧ p'.pos = p.pos :=
  C6_three_joint_winners exampleTieGame "a" "b" "c"
    { fighter "a" 4 with buff := some Item.SWORD } (fighter "b" 5)
    { fighter "c" 3 with cornucopia := true } (by decide) rfl rfl rfl
    (by decide) (by decide) (by decide)

/-! ## C7: combat value, winners and determinism -/

theorem combatTotal_formula (p : Player) :
    combatTotal p = clamp (p.selectedNumber.getD 0) 1 6 +
      (if p.buff = some Item.SWORD then 1 else 0) + (if p.cornucopia then 2 else 0) := by
  unfold combatTotal combatBase combatSword combatSeal clamp numOr1
  cases hsel : p.selectedNumber with
  | none => simp
  | some v =>
    by_cases hv : v = 0
    · simp [hv]
    · simp [hv]

theorem totalOf_attr (g : Game) (id : SocketId) (p : Player) (hp : findP g.players id = some p) :
    totalOf g id = attrTotal (attrOf g id) := by
  unfold totalOf attrOf
  rw [hp]
  rfl

theorem combatMax_attr (g : Game) (ids : List SocketId) (hs : CombatSetup g ids) :
    combatMax g ids = maxOf ((combatAttrs g ids).map attrTotal) := by
  unfold combatMax combatAttrs
  rw [combatVals_eq g ids hs.found, List.map_map, List.map_map]
  congr 1
  apply List.map_congr_left
  intro id hid
  obtain ⟨p, hp⟩ := hs.found id hid
  exact totalOf_attr g id p hp

theorem any_map_congr {α β : Type} (f : α → β) (p : β → Bool) (q : α → Bool) (l : List α)
    (h : ∀ x ∈ l, p (f x) = q x) : (l.map f).any p = l.any q := by
  induction l with
  | nil => rfl
  | cons a t ih =>
    simp only [List.map_cons, List.any_cons]
    rw [h a (List.mem_cons_self _ _), ih (fun x hx => h x (List.mem_cons_of_mem _ hx))]

theorem swordInPlay_attr (g : Game) (ids : List SocketId) (hs : CombatSetup g ids) :
    swordInPlay g (combatWinners g ids) = attrSword (combatAttrs g ids) := by
  unfold swordInPlay attrSword
  rw [combatWinners_eq g ids hs.found, List.any_filter, ← combatMax_attr g ids hs]
  unfold combatAttrs
  symm
  apply any_map_congr
  intro id hid
  obtain ⟨p, hp⟩ := hs.found id hid
  rw [← totalOf_attr g id p hp]
  unfold attrOf
  rw [hp]
  rfl

theorem shieldSaved_attr (g : Game) (sw : Bool) (id : SocketId) (p : Player)
    (hp : findP g.players id = some p) : shieldSaved g sw id = attrSaved sw (attrOf g id) := by
  unfold shieldSaved attrSaved attrOf
  rw [hp]
  rfl

theorem mem_combatWinners_iff (g : Game) (ids : List SocketId) (hs : CombatSetup g ids)
    (id : SocketId) :
    id ∈ combatWinners g ids ↔ id ∈ ids ∧ totalOf g id = combatMax g ids := by
  rw [combatWinners_eq g ids hs.found, List.mem_filter]
  simp

theorem mem_combatLosers_iff (g : Game) (ids : List SocketId) (hs : CombatSetup g ids)
    (id : SocketId) :
    id ∈ combatLosers g ids ↔ id ∈ ids ∧ totalOf g id < combatMax g ids := by
  rw [combatLosers_eq g ids hs.found, List.mem_filter]
  simp

theorem verdicts_attr (g : Game) (ids : List SocketId) (hs : CombatSetup g ids) :
    ids.map (verdictOf g ids) = attrVerdicts (combatAttrs g ids) := by
  unfold attrVerdicts
  rw [← combatMax_attr g ids hs, ← swordInPlay_attr g ids hs]
  unfold combatAttrs
  rw [List.map_map]
  apply List.map_congr_left
  intro id hid
  obtain ⟨p, hp⟩ := hs.found id hid
  simp only [Function.comp]
  rw [← totalOf_attr g id p hp, ← shieldSaved_attr g _ id p hp]
  unfold verdictOf
  by_cases hw : id ∈ combatWinners g ids
  · rw [if_pos hw, if_pos ((mem_combatWinners_iff g ids hs id).mp hw).2]
  · have : ¬ totalOf g id = combatMax g ids :=
      fun h => hw ((mem_combatWinners_iff g ids hs id).mpr ⟨hid, h⟩)
    rw [if_neg hw, if_neg this]

theorem length_filter_map_congr {α β : Type} (f : α → β) (p : β → Bool) (q : α → Bool)
    (l : List α) (h : ∀ x ∈ l, p (f x) = q x) :
    ((l.map f).filter p).length = (l.filter q).length := by
  induction l with
  | nil => rfl
  | cons a t ih =>
    simp only [List.map_cons, List.filter_cons]
    rw [h a (List.mem_cons_self _ _)]
    have := ih (fun x hx => h x (List.mem_cons_of_mem _ hx))
    cases q a
    · simpa using this
    · simpa using this

theorem isEmpty_eq_of_length {α β : Type} (l : List α) (l' : List β)
    (h : l.length = l'.length) : l.isEmpty = l'.isEmpty := by
  cases l with
  | nil =>
    cases l' with
    | nil => rfl
    | cons b t => simp at h
  | cons a s =>
    cases l' with
    | nil => simp at h
    | cons b t => rfl

theorem credited_attr (g : Game) (ids : List SocketId) (hs : CombatSetup g ids) :
    creditedVictims g ids = attrCredited (combatAttrs g ids) := by
  have hsaved : (savedLosers g ids).length =
      (((combatAttrs g ids).filter (fun a =>
          decide (attrTotal a < maxOf ((combatAttrs g ids).map attrTotal)))).filter
        (attrSaved (attrSword (combatAttrs g ids)))).length := by
    unfold savedLosers
    rw [combatLosers_eq g ids hs.found, List.filter_filter, List.filter_filter,
      ← combatMax_attr g ids hs, ← swordInPlay_attr g ids hs]
    unfold combatAttrs
    symm
    apply length_filter_map_congr
    intro id hid
    obtain ⟨p, hp⟩ := hs.found id hid
    rw [← totalOf_attr g id p hp, ← shieldSaved_attr g _ id p hp]
  have hdef : (defeatedLosers g ids).length =
      (((combatAttrs g ids).filter (fun a =>
          decide (attrTotal a < maxOf ((combatAttrs g ids).map attrTotal)))).filter
        (fun a => !attrSaved (attrSword (combatAttrs g ids)) a)).length := by
    unfold defeatedLosers
    rw [combatLosers_eq g ids hs.found, List.filter_filter, List.filter_filter,
      ← combatMax_attr g ids hs, ← swordInPlay_attr g ids hs]
    unfold combatAttrs
    symm
    apply length_filter_map_congr
    intro id hid
    obtain ⟨p, hp⟩ := hs.found id hid
    rw [← totalOf_attr g id p hp, ← shieldSaved_attr g _ id p hp]
  unfold creditedVictims attrCredited
  dsimp only
  rw [isEmpty_eq_of_length _ _ hsaved, hsaved, hdef]

theorem verdict_semantics (g : Game) (ids : List SocketId) (hnd : ids.Nodup)
    (hok : occupantsOK g ids = true) (hlen : 2 ≤ ids.length) (id : SocketId) (hid : id ∈ ids) :
    ∃ p p', findP g.players id = some p ∧ findP (combatTile g ids).players id = some p' ∧
      (p'.isAlive = true ↔ verdictOf g ids id ≠ Verdict.eliminated) ∧
      (verdictOf g ids id = Verdict.winner →
        p'.vp = p.vp + max 0 g.settings.eliminationVP * creditedVictims g ids) := by
  have hs := combatSetup_of_ok g ids hnd hok
  obtain ⟨p, hp, hal, hns⟩ := occupantsOK_spec g ids hok id hid
  have hne : ids ≠ [] := by
    intro h; rw [h] at hid; cases hid
  obtain ⟨_, hle⟩ := combatMax_spec g ids hs.found hne
  by_cases hw : id ∈ combatWinners g ids
  · obtain ⟨p', h1, h2, _, _, h5, _⟩ := winner_fate g ids hs hlen id hw p hp hns
    refine ⟨p, p', hp, h1, ?_, fun _ => h2⟩
    unfold verdictOf
    rw [if_pos hw, h5, hal]
    simp
  · have hl : id ∈ combatLosers g ids := by
      rw [mem_combatLosers_iff g ids hs]
      refine ⟨hid, lt_of_le_of_ne (hle id hid) ?_⟩
      intro h
      exact hw ((mem_combatWinners_iff g ids hs id).mpr ⟨hid, h⟩)
    obtain ⟨p', h1, h2, h3⟩ := loser_fate g ids hs hlen id hl p hp
    refine ⟨p, p', hp, h1, ?_, ?_⟩
    · unfold verdictOf
      rw [if_neg hw]
      cases hsv : shieldSaved g (swordInPlay g (combatWinners g ids)) id with
      | true => rw [(h2 hsv).1, hal]; simp
      | false => rw [(h3 hsv).1]; simp
    · intro hv
      unfold verdictOf at hv
      rw [if_neg hw] at hv
      split_ifs at hv

theorem combatTile_few (g : Game) (ids : List SocketId) (h : ids.length ≤ 1) :
    combatTile g ids = g := by
  unfold combatTile
  rw [if_pos h]

theorem resolveCombats_few (byPos : List (Pos × List SocketId)) :
    ∀ (g : Game), (∀ e ∈ byPos, e.2.length ≤ 1) → resolveCombatsDetailed g byPos = g := by
  induction byPos with
  | nil => intro g _; rfl
  | cons e t ih =>
    intro g h
    unfold resolveCombatsDetailed at ih ⊢
    rw [List.foldl_cons, combatTile_few g e.2 (h e (List.mem_cons_self _ _))]
    exact ih g (fun x hx => h x (List.mem_cons_of_mem _ hx))

/-- C7: for a tile holding at least two positioned Alive participants `ids`: each occupant's
combat value (the `total` of `vals`) is `clamp(selectedNumber, 1, 6)` + 1 with Sword + 2 with the Seal; the maximum of the
values is attained; the winners are exactly the occupants whose value equals the maximum and the
losers exactly the other occupants; tiles with fewer than two occupants leave the state
unchanged; and the outcome (who wins, who is shield-saved, who is eliminated, the number of
credited victims, hence who is Alive afterwards and the winners' VP gain per `eliminationVP`) is
the same for any two tiles whose occupants have the same numbers, consumables, shield-save and
seal flags. -/
theorem C7_combat_value_and_winners (g : Game) (ids : List SocketId) (hnd : ids.Nodup)
    (hok : occupantsOK g ids = true) (hlen : 2 ≤ ids.length) :
    combatVals g ids = ids.map (fun id => (id, totalOf g id)) ∧
    (∀ id ∈ ids, ∃ p, findP g.players id = some p ∧
      totalOf g id = clamp (p.selectedNumber.getD 0) 1 6 +
        (if p.buff = some Item.SWORD then 1 else 0) + (if p.cornucopia then 2 else 0)) ∧
    (∃ id ∈ ids, totalOf g id = combatMax g ids) ∧
    (∀ id ∈ ids, totalOf g id ≤ combatMax g ids) ∧
    (∀ id, id ∈ combatWinners g ids ↔ id ∈ ids ∧ totalOf g id = combatMax g ids) ∧
    (∀ id, id ∈ combatLosers g ids ↔ id ∈ ids ∧ id ∉ combatWinners g ids) ∧
    (∀ (g' : Game) (byPos : List (Pos × List SocketId)),
      (∀ e ∈ byPos, e.2.length ≤ 1) → resolveCombatsDetailed g' byPos = g') ∧
    (∀ (g' : Game) (ids' : List SocketId), ids'.Nodup → occupantsOK g' ids' = true →
      combatAttrs g' ids' = combatAttrs g ids →
      ids'.map (verdictOf g' ids') = ids.map (verdictOf g ids) ∧
      creditedVictims g' ids' = creditedVictims g ids) ∧
    (∀ id ∈ ids, ∃ p p', findP g.players id = some p ∧
      findP (combatTile g ids).players id = some p' ∧
      (verdictOf g ids id = Verdict.winner ↔ id ∈ combatWinners g ids) ∧
      (p'.isAlive = true ↔ verdictOf g ids id ≠ Verdict.eliminated) ∧
      (verdictOf g ids id = Verdict.winner →
        p'.vp = p.vp + max 0 g.settings.eliminationVP * creditedVictims g ids)) := by
  have hs := combatSetup_of_ok g ids hnd hok
  have hne : ids ≠ [] := by
    intro h; rw [h] at hlen; simp at hlen
  obtain ⟨hmax1, hmax2⟩ := combatMax_spec g ids hs.found hne
  refine ⟨combatVals_eq g ids hs.found, ?_, hmax1, hmax2, mem_combatWinners_iff g ids hs,
    ?_, ?_, ?_, ?_⟩
  · intro id hid
    obtain ⟨p, hp⟩ := hs.found id hid
    exact ⟨p, hp, by rw [totalOf_eq g id p hp, combatTotal_formula]⟩
  · intro id
    rw [mem_combatLosers_iff g ids hs, mem_combatWinners_iff g ids hs]
    constructor
    · rintro ⟨h1, h2⟩
      exact ⟨h1, fun h => by omega⟩
    · rintro ⟨h1, h2⟩
      exact ⟨h1, lt_of_le_of_ne (hmax2 id h1) (fun h => h2 ⟨h1, h⟩)⟩
  · intro g' byPos h
    exact resolveCombats_few byPos g' h
  · intro g' ids' hnd' hok' hattr
    have hs' := combatSetup_of_ok g' ids' hnd' hok'
    rw [verdicts_attr g' ids' hs', verdicts_attr g ids hs, credited_attr g' ids' hs',
      credited_attr g ids hs, hattr]
    exact ⟨rfl, rfl⟩
  · intro id hid
    obtain ⟨p, p', h1, h2, h3, h4⟩ := verdict_semantics g ids hnd hok hlen id hid
    refine ⟨p, p', h1, h2, ?_, h3, h4⟩
    unfold verdictOf
    by_cases hw : id ∈ combatWinners g ids
    · simp [hw]
    · rw [if_neg hw]
      split_ifs <;> simp [hw]

/-- Witness for C7: the tile of `exampleShieldGame`. -/
theorem C7_combat_value_and_winners_witness :
    (∃ id ∈ ["a", "b", "d"], totalOf exampleShieldGame id = combatMax exampleShieldGame ["a", "b", "d"]) ∧
    (∀ id, id ∈ combatWinners exampleShieldGame ["a", "b", "d"] ↔
      id ∈ ["a", "b", "d"] ∧ totalOf exampleShieldGame id = combatMax exampleShieldGame ["a", "b", "d"]) ∧
    (∀ id, id ∈ combatLosers exampleShieldGame ["a", "b", "d"] ↔
      id ∈ ["a", "b", "d"] ∧ id ∉ combatWinners exampleShieldGame ["a", "b", "d"]) :=
  have h := C7_combat_value_and_winners exampleShieldGame ["a", "b", "d"] (by decide) (by decide)
    (by decide)
  ⟨h.2.2.1, h.2.2.2.2.1, h.2.2.2.2.2.1⟩

/-! ## C1 and C10: board invariants under set-board-size -/

/-- C1 (the code at the failing input): from a new Game the host sets the board size to 8 and
then to 10. `setSize` seeds the Seal on each new center and keeps in-bounds loot, so the tiles
(4,4) and (5,5) both hold the Seal, and (4,4) is not the center. In the new Game itself no tile
and no participant holds the Seal. -/
theorem C1_resize_leaves_two_seals :
    sealTiles (Game.new "room") = [] ∧ sealHolders (Game.new "room") = [] ∧
    (run (Game.new "room") [Cmd.hostBoardSize 8, Cmd.hostBoardSize 10]).map
      (fun g => (sealTiles g, sealHolders g, g.cc.center))
      = some ([Pos.mk 4 4, Pos.mk 5 5], [], Pos.mk 5 5) := by
  refine ⟨by decide, by decide, by decide⟩

/-- C10 (the code at the failing input): on the new 10x10 board the host paints a hazard on
(2,2), which is outside the safe zone [3,7]x[3,7], and then sets the board size to 8. `setSize`
only purges out-of-bounds hazards, so (2,2) stays a hazard tile inside the new safe zone
[2,6]x[2,6]. -/
theorem C10_resize_leaves_hazard_in_safe_zone :
    inCornucore 2 2 (Game.new "room").cc = false ∧
    (run (Game.new "room") [Cmd.hostPaint 2 2 PaintMode.FIRE none, Cmd.hostBoardSize 8]).map
      (fun g => (g.board.fire, g.cc.minX, g.cc.maxX, g.cc.minY, g.cc.maxY, hazardsInSafeZone g))
      = some ([Pos.mk 2 2], 2, 6, 2, 6, [Pos.mk 2 2]) := by
  refine ⟨by decide, by decide⟩

/-! ## C2: the life-cycle invariant -/

theorem foldl_inv {α β : Type} (P : β → Prop) (f : β → α → β) (h : ∀ b a, P b → P (f b a))
    (l : List α) : ∀ (b : β), P b → P (l.foldl f b) := by
  induction l with
  | nil => intro b hb; exact hb
  | cons a t ih => intro b hb; exact ih (f b a) (h b a hb)

theorem rosterOK_map (ps : List Player) (F : Player → Player) (hF : Safe F)
    (h : RosterOK ps) : RosterOK (ps.map F) := by
  constructor
  · rw [List.map_map]
    have : (fun p => p.id) ∘ F = fun p => p.id := funext (fun p => hF.1 p)
    rw [this]
    exact h.1
  · intro p hp
    obtain ⟨q, hq, rfl⟩ := List.mem_map.mp hp
    exact hF.2 q (h.2 q hq)

theorem safe_ite (c : Player → Prop) [DecidablePred c] (f : Player → Player) (hf : Safe f) :
    Safe (fun p => if c p then f p else p) := by
  constructor
  · intro p; dsimp only; split_ifs
    · exact hf.1 p
    · rfl
  · intro p hp; dsimp only; split_ifs
    · exact hf.2 p hp
    · exact hp

theorem rosterOK_modP (ps : List Player) (id : SocketId) (f : Player → Player) (hf : Safe f)
    (h : RosterOK ps) : RosterOK (modP ps id f) :=
  rosterOK_map ps _ (safe_ite (fun p => p.id = id) f hf) h

/-- Mutation of the participant found under `id` when the new record is `LifeOK`. -/
theorem rosterOK_modP_found (ps : List Player) (id : SocketId) (f : Player → Player)
    (p : Player) (hid : ∀ q, (f q).id = q.id) (hp : findP ps id = some p) (hfp : LifeOK (f p))
    (h : RosterOK ps) : RosterOK (modP ps id f) := by
  constructor
  · unfold modP
    rw [List.map_map]
    have : ((fun p => p.id) ∘ fun p => if p.id = id then f p else p) = fun p => p.id := by
      funext q
      simp only [Function.comp]
      split_ifs
      · exact hid q
      · rfl
    rw [this]
    exact h.1
  · intro q hq
    unfold modP at hq
    obtain ⟨r, hr, rfl⟩ := List.mem_map.mp hq
    split_ifs with hrid
    · have h1 := findP_of_mem_nodup ps r h.1 hr
      rw [hrid, hp] at h1
      cases h1
      exact hfp
    · exact h.2 r hr

theorem rosterOK_filter (ps : List Player) (c : Player → Bool) (h : RosterOK ps) :
    RosterOK (ps.filter c) := by
  constructor
  · exact ((List.filter_sublist ps).map (fun p => p.id)).nodup h.1
  · intro p hp
    exact h.2 p (List.mem_filter.mp hp).1

theorem rosterOK_rosterSet (ps : List Player) (p : Player) (hp : LifeOK p) (h : RosterOK ps) :
    RosterOK (rosterSet ps p) := by
  unfold rosterSet
  split_ifs with hany
  · constructor
    · rw [List.map_map]
      have : ((fun q => q.id) ∘ fun q => if q.id = p.id then p else q) = fun q => q.id := by
        funext q
        simp only [Function.comp]
        split_ifs with hq
        · exact hq.symm
        · rfl
      rw [this]
      exact h.1
    · intro q hq
      obtain ⟨r, hr, rfl⟩ := List.mem_map.mp hq
      split_ifs
      · exact hp
      · exact h.2 r hr
  · constructor
    · rw [List.map_append, List.nodup_append]
      refine ⟨h.1, by simp, ?_⟩
      intro a ha hb
      simp only [List.map_cons, List.map_nil, List.mem_singleton] at hb
      obtain ⟨q, hq, hqa⟩ := List.mem_map.mp ha
      apply hany
      rw [List.any_eq_true]
      exact ⟨q, hq, by simp [hqa, hb]⟩
    · intro q hq
      rcases List.mem_append.mp hq with hq | hq
      · exact h.2 q hq
      · simp only [List.mem_singleton] at hq
        rw [hq]; exact hp

theorem findP_mem (ps : List Player) (id : SocketId) (p : Player) (h : findP ps id = some p) :
    p ∈ ps := by
  unfold findP at h
  exact List.mem_of_find?_eq_some h

theorem lifeOK_ascend (r : Nat) (p : Player) : LifeOK (ascend r p) :=
  ⟨rfl, fun _ => rfl, fun _ => rfl⟩

theorem safe_ascend (r : Nat) : Safe (ascend r) :=
  ⟨fun _ => rfl, fun p _ => lifeOK_ascend r p⟩

theorem safe_respawnPlayer (spot : Pos) : Safe (respawnPlayer spot) :=
  ⟨fun _ => rfl, fun _ _ => ⟨rfl, fun h => Bool.noConfusion h, fun h => Bool.noConfusion h⟩⟩

theorem safe_resetPlayer (spawn : Pos) : Safe (resetPlayer spawn) :=
  ⟨fun _ => rfl, fun _ _ => ⟨rfl, fun h => Bool.noConfusion h, fun h => Bool.noConfusion h⟩⟩

theorem safe_addVP (a : Int) : Safe (addVP a) := ⟨fun _ => rfl, fun _ h => h⟩

theorem safe_clearSeal : Safe clearSeal := ⟨fun _ => rfl, fun _ h => h⟩

theorem safe_addKills (n : Int) : Safe (addKills n) := ⟨fun _ => rfl, fun _ h => h⟩

theorem safe_consumeShield : Safe consumeShield := ⟨fun _ => rfl, fun _ h => h⟩

theorem safe_clearRoundFlags : Safe clearRoundFlags :=
  ⟨fun _ => rfl, fun _ h => ⟨h.1, h.2.1, fun _ => rfl⟩⟩

theorem safe_consumeEncounterBuff : Safe consumeEncounterBuff := by
  constructor
  · intro p; unfold consumeEncounterBuff; split_ifs <;> rfl
  · intro p h; unfold consumeEncounterBuff; split_ifs
    · exact h
    · exact h

theorem safe_consumeRespawnWarp : Safe consumeRespawnWarp := by
  constructor
  · intro p; unfold consumeRespawnWarp; split_ifs <;> rfl
  · intro p h; unfold consumeRespawnWarp; split_ifs
    · exact h
    · exact h

theorem safe_revealNumber : Safe revealNumber := by
  constructor
  · intro p; unfold revealNumber; cases p.selectedNumber <;> rfl
  · intro p h; unfold revealNumber
    cases p.selectedNumber with
    | none => exact h
    | some n => exact h

theorem safe_startMovementPlayer (o : Oracle) : Safe (startMovementPlayer o) := by
  constructor
  · intro p; unfold startMovementPlayer; split_ifs <;> rfl
  · intro p h; unfold startMovementPlayer; split_ifs <;> exact h

theorem safe_awardFun (pid : SocketId) (a : Int) (m : Bool) : Safe (awardFun pid a m) := by
  constructor
  · exact awardFun_id pid a m
  · intro p h
    obtain ⟨c, hc⟩ := awardFun_addVP pid a m p
    rw [hc]
    exact h

theorem inv_modPlayer (g : Game) (id : SocketId) (f : Player → Player) (hf : Safe f)
    (h : RosterOK g.players) : RosterOK (g.modPlayer id f).players :=
  rosterOK_modP g.players id f hf h

theorem inv_awardVP (g : Game) (pid : SocketId) (a : Int) (m : Bool) (h : RosterOK g.players) :
    RosterOK (awardVP g pid a m).players := by
  rw [awardVP_players]
  exact rosterOK_map _ _ (safe_awardFun pid a m) h

theorem inv_returnSeal (g : Game) (id : SocketId) (h : RosterOK g.players) :
    RosterOK (returnSeal g id).players := by
  unfold returnSeal
  cases findP g.players id with
  | none => exact h
  | some L =>
    dsimp only
    split_ifs
    · exact inv_modPlayer g id clearSeal safe_clearSeal h
    · exact h

theorem inv_eliminate (g : Game) (id : SocketId) (h : RosterOK g.players) :
    RosterOK (eliminate g id).players :=
  inv_returnSeal _ id (inv_modPlayer g id _ (safe_ascend g.round) h)

theorem inv_eliminateNoMoves (g : Game) (id : SocketId) (h : RosterOK g.players) :
    RosterOK (eliminateNoMoves g id).players := by
  unfold eliminateNoMoves
  apply inv_modPlayer
  · exact ⟨fun _ => rfl, fun _ h => h⟩
  · exact inv_returnSeal _ id (inv_modPlayer g id _ (safe_ascend g.round) h)

theorem inv_loserStep (sw : Bool) (acc : LoserAcc) (l : SocketId) (h : RosterOK acc.g.players) :
    RosterOK (loserStep sw acc l).g.players := by
  unfold loserStep
  cases findP acc.g.players l with
  | none => exact h
  | some L =>
    dsimp only
    split_ifs
    · exact inv_modPlayer acc.g l consumeShield safe_consumeShield h
    · exact inv_eliminate acc.g l h

theorem inv_awardElimination (g : Game) (ws vs : List SocketId) (h : RosterOK g.players) :
    RosterOK (awardEliminationRenownFlat g ws vs).players := by
  unfold awardEliminationRenownFlat
  dsimp only
  split_ifs
  · exact h
  · refine foldl_inv (fun g : Game => RosterOK g.players) _ ?_ ws g h
    intro b a hb
    dsimp only
    cases findP b.players a with
    | none => exact hb
    | some _ => exact inv_awardVP b a _ true hb

theorem inv_combatBranch (g : Game) (ws ls : List SocketId) (h : RosterOK g.players) :
    RosterOK (combatBranch g ws ls).players := by
  unfold combatBranch
  dsimp only
  have hacc : RosterOK (ls.foldl (loserStep (swordInPlay g ws))
      { g := g, victimsForVP := [], defeated := [] }).g.players :=
    foldl_inv (fun acc : LoserAcc => RosterOK acc.g.players) _
      (fun b a hb => inv_loserStep _ b a hb) ls _ h
  generalize List.foldl (loserStep (swordInPlay g ws))
    { g := g, victimsForVP := [], defeated := [] } ls = acc at hacc ⊢
  by_cases hd : acc.defeated.isEmpty = true
  · rw [if_pos hd]
    exact inv_awardElimination _ _ _ hacc
  · rw [if_neg hd]
    exact foldl_inv (fun g : Game => RosterOK g.players) _
      (fun b a hb => inv_modPlayer b a _ (safe_addKills _) hb) ws _
      (inv_awardElimination _ _ _ hacc)

theorem inv_combatTile (g : Game) (ids : List SocketId) (h : RosterOK g.players) :
    RosterOK (combatTile g ids).players := by
  unfold combatTile
  by_cases hlen : ids.length ≤ 1
  · rw [if_pos hlen]; exact h
  · rw [if_neg hlen]
    dsimp only
    refine foldl_inv (fun g : Game => RosterOK g.players) _
      (fun b a hb => inv_modPlayer b a.1 _ safe_consumeEncounterBuff hb) _ _ ?_
    split_ifs
    · exact inv_combatBranch g _ _ h
    · exact inv_combatBranch g _ _ h
    · exact h

theorem inv_resolveCombats (g : Game) (byPos : List (Pos × List SocketId))
    (h : RosterOK g.players) : RosterOK (resolveCombatsDetailed g byPos).players := by
  unfold resolveCombatsDetailed
  exact foldl_inv (fun g : Game => RosterOK g.players) _
    (fun b a hb => inv_combatTile b a.2 hb) byPos g h

theorem inv_moveStep (o : Oracle) (g : Game) (id : SocketId) (h : RosterOK g.players) :
    RosterOK (moveStep o g id).players := by
  unfold moveStep
  cases hp : findP g.players id with
  | none => exact h
  | some p =>
    dsimp only
    by_cases h1 : (!p.isAlive || p.isSponsor || p.pos.isNone) = true
    · rw [if_pos h1]; exact h
    · rw [if_neg h1]
      by_cases h2 : (validMovesFor g p).isEmpty = true
      · rw [if_pos h2]; exact inv_eliminateNoMoves g id h
      · rw [if_neg h2]
        have hlife : LifeOK p := h.2 p (findP_mem _ _ _ hp)
        have hns : p.isSponsor = false := by
          simp only [Bool.or_eq_true, Bool.not_eq_true', not_or, Bool.not_eq_true] at h1
          exact h1.1.2
        split
        · unfold Game.modPlayer
          refine rosterOK_modP_found g.players id _ p (fun _ => rfl) hp ?_ h
          have hno : ∀ Q : Prop, p.isSponsor = true → Q := fun Q hsp => by
            rw [hns] at hsp; cases hsp
          exact ⟨hlife.1, hno _, hno _⟩
        · exact h

theorem inv_applyLoot (g : Game) (w : SocketId) (code : Item) (h : RosterOK g.players) :
    RosterOK (applyLoot g w code).players := by
  unfold applyLoot
  cases code
  · exact inv_modPlayer g w _ ⟨fun _ => rfl, fun _ h => h⟩ h
  · exact inv_modPlayer g w _ ⟨fun _ => rfl, fun _ h => h⟩ h
  · exact inv_modPlayer g w _ ⟨fun _ => rfl, fun _ h => h⟩ h
  · exact inv_awardVP g w _ false h
  · exact inv_modPlayer g w _ ⟨fun _ => rfl, fun _ h => h⟩ h
  · exact inv_modPlayer g w _ ⟨fun _ => rfl, fun _ h => h⟩ h
  · exact h
  · exact h
  · exact h

theorem inv_lootPickup (g : Game) (k2 : Pos) (code : Item) (w : SocketId)
    (h : RosterOK g.players) : RosterOK (lootPickup g k2 code w).players := by
  unfold lootPickup
  cases findP g.players w with
  | none => exact h
  | some p =>
    dsimp only
    split_ifs
    · exact h
    · exact inv_applyLoot g w code h

theorem inv_lootStep (acc : LootAcc) (e : Pos × Item) (h : RosterOK acc.g.players) :
    RosterOK (lootStep acc e).g.players := by
  unfold lootStep
  dsimp only
  cases byPosGet acc.byPos e.1 with
  | nil => exact h
  | cons c cs =>
    cases cs with
    | nil => exact inv_lootPickup _ _ _ _ h
    | cons c2 cs2 =>
      dsimp only
      cases sortStable (fun a b => indexOfJS acc.g.joinOrder a - indexOfJS acc.g.joinOrder b)
          (c :: c2 :: cs2) with
      | nil => exact h
      | cons w ws => exact inv_lootPickup _ _ _ _ h

theorem inv_fireStep (g : Game) (id : SocketId) (h : RosterOK g.players) :
    RosterOK (fireStep g id).players := by
  unfold fireStep
  cases findP g.players id with
  | none => exact h
  | some p =>
    dsimp only
    split_ifs
    · exact h
    · cases p.pos with
      | none => exact h
      | some k =>
        dsimp only
        split_ifs
        · exact inv_eliminate g id h
        · exact h

theorem inv_autoSponsor (o : Oracle) (g : Game) (h : RosterOK g.players) :
    RosterOK (autoSponsor o g).players := by
  unfold autoSponsor
  dsimp only
  split_ifs
  · exact h
  · refine foldl_inv (fun g : Game => RosterOK g.players) _ ?_ _ g h
    intro b s hb
    dsimp only
    cases List.find? (fun p => p.id != s.id) (sortStable
        (fun (a b : Player) => if a.vp - b.vp ≠ 0 then a.vp - b.vp else o.localeCompare a.name b.name)
        (g.players.filter (fun p => p.isAlive && !p.isSponsor))) with
    | none => exact hb
    | some t => exact inv_modPlayer b s.id _ ⟨fun _ => rfl, fun _ h => h⟩ hb

theorem inv_awardEndOfRoundVPs (g : Game) (h : RosterOK g.players) :
    RosterOK (awardEndOfRoundVPs g).players := by
  unfold awardEndOfRoundVPs
  refine foldl_inv (fun g : Game => RosterOK g.players) _ ?_ _ g h
  intro b a hb
  rw [endOfRoundStep_eq]
  refine rosterOK_map _ _ ⟨eorFun_id b a, ?_⟩ hb
  intro p hp
  unfold eorFun
  cases findP b.players a with
  | none => exact hp
  | some q =>
    dsimp only
    have hs := fun pid v m x hx => (safe_awardFun pid v m).2 x hx
    cases q.pos <;> dsimp only <;> split_ifs <;>
      first
        | exact hp
        | exact hs _ _ _ _ hp
        | exact hs _ _ _ _ (hs _ _ _ _ hp)
        | exact hs _ _ _ _ (hs _ _ _ _ (hs _ _ _ _ hp))

theorem inv_startResolution (g : Game) (now : Int) (o : Oracle) (h : RosterOK g.players) :
    RosterOK (startResolution g now o).players := by
  have h0 : RosterOK (g.players.map revealNumber) := rosterOK_map _ _ safe_revealNumber h
  have hacc : RosterOK (resolutionUpToLoot g now o).g.players := by
    unfold resolutionUpToLoot
    dsimp only
    refine foldl_inv (fun acc : LootAcc => RosterOK acc.g.players) _
      (fun b a hb => inv_lootStep b a hb) _ _ ?_
    exact foldl_inv (fun g : Game => RosterOK g.players) _
      (fun b a hb => inv_moveStep o b a hb) _ _ h0
  have h3 := inv_resolveCombats _ (resolutionUpToLoot g now o).byPos hacc
  have h4 : RosterOK (((resolveCombatsDetailed (resolutionUpToLoot g now o).g
      (resolutionUpToLoot g now o).byPos).players.map (fun p => p.id)).foldl fireStep
      (resolveCombatsDetailed (resolutionUpToLoot g now o).g
        (resolutionUpToLoot g now o).byPos)).players :=
    foldl_inv (fun g : Game => RosterOK g.players) _ (fun b a hb => inv_fireStep b a hb) _ _ h3
  have h5 := inv_autoSponsor o _ h4
  have h6 := rosterOK_map _ _ safe_consumeRespawnWarp h5
  unfold startResolution
  exact inv_awardEndOfRoundVPs _ h6

theorem inv_startMovement (g : Game) (now : Int) (o : Oracle) (h : RosterOK g.players) :
    RosterOK (startMovement g now o).players :=
  rosterOK_map _ _ (safe_startMovementPlayer o) h

theorem inv_respawnStep (r : Nat) (acc : RespawnAcc) (id : SocketId)
    (h : RosterOK acc.g.players) : RosterOK (respawnStep r acc id).g.players := by
  unfold respawnStep
  cases findP acc.g.players id with
  | none => exact h
  | some p =>
    dsimp only
    split_ifs
    · exact h
    · cases acc.shuffled.getLast? with
      | none => exact h
      | some spot => exact inv_modPlayer acc.g id _ (safe_respawnPlayer spot) h
    · exact h

theorem inv_tryRespawns (g : Game) (r : Nat) (o : Oracle) (h : RosterOK g.players) :
    RosterOK (tryRespawnsForRound g r o).players := by
  unfold tryRespawnsForRound
  dsimp only
  exact foldl_inv (fun acc : RespawnAcc => RosterOK acc.g.players) _
    (fun b a hb => inv_respawnStep r b a hb) _ _ h

theorem inv_advanceToNumber (g : Game) (now : Int) (o : Oracle) (h : RosterOK g.players) :
    RosterOK (advanceToNumber g now o).players := by
  unfold advanceToNumber
  dsimp only
  exact inv_tryRespawns _ _ o (rosterOK_map _ _ safe_clearRoundFlags h)

theorem refreshBuffs_players (g : Game) (occ : List Pos) (now : Int) (o : Oracle) :
    (refreshBuffs g occ now o).players = g.players := rfl

theorem endGame_players (g : Game) (r : Option EndReason) (now : Int) :
    (endGame g r now).players = g.players := rfl

theorem inv_startRefresh (g : Game) (now : Int) (o : Oracle) (h : RosterOK g.players) :
    RosterOK (startRefresh g now o).players := by
  have h0 : RosterOK (g.players.map (fun p =>
      if p.isAlive && !p.isSponsor then { p with usedNumbers := [] } else p)) := by
    refine rosterOK_map _ _ ⟨?_, ?_⟩ h
    · intro p; dsimp only; split_ifs <;> rfl
    · intro p hp; dsimp only; split_ifs
      · exact hp
      · exact hp
  unfold startRefresh
  dsimp only
  split_ifs
  · rw [endGame_players]; exact h0
  · rw [refreshBuffs_players]; exact h0
  · rw [endGame_players]; exact h0
  · rw [refreshBuffs_players]; exact h0

theorem inv_advancePhase (g : Game) (now : Int) (o : Oracle) (h : RosterOK g.players) :
    RosterOK (advancePhase g now o).players := by
  unfold advancePhase
  cases g.phase
  · exact h
  · exact inv_startMovement g now o h
  · exact inv_startResolution g now o h
  · dsimp only
    split_ifs
    · exact inv_startRefresh g now o h
    · exact inv_advanceToNumber g now o h
  · exact inv_advanceToNumber g now o h
  · exact h

theorem inv_tick (g : Game) (now : Int) (o : Oracle) (h : RosterOK g.players) :
    RosterOK (tick g now o).players := by
  unfold tick
  split_ifs
  · exact h
  · exact inv_advancePhase g now o h
  · exact h

theorem setSize_players (g : Game) (n : Int) : (setSize g n).players = g.players := rfl

theorem inv_reset (g : Game) (h : RosterOK g.players) : RosterOK (reset g).players := by
  unfold reset
  dsimp only
  exact foldl_inv (fun g : Game => RosterOK g.players) _
    (fun b a hb => inv_modPlayer b a _ (safe_resetPlayer _) hb) _ _ h

theorem lifeOK_of_find (ps : List Player) (c : Player → Bool) (p : Player)
    (h : RosterOK ps) (hp : ps.find? c = some p) : LifeOK p :=
  h.2 p (List.mem_of_find?_eq_some hp)

theorem findByClientOrPin_mem (g : Game) (clientId pin : String) (a : Bool) (p : Player)
    (hp : findPlayerByClientOrPin g clientId pin a = some p) : p ∈ g.players := by
  unfold findPlayerByClientOrPin at hp
  dsimp only at hp
  split at hp
  · rename_i q hq
    cases hp
    split_ifs at hq
    exact List.mem_of_find?_eq_some hq
  · split_ifs at hp
    · exact List.mem_of_find?_eq_some hp

theorem inv_join (g g' : Game) (p' : Player) (sid : SocketId)
    (name : JSString) (color clientId pin : String) (a : Bool) (newPin : String)
    (lower : JSString → JSString)
    (hj : joinOrReconnect g sid name color clientId pin a newPin lower = some (g', p'))
    (h : RosterOK g.players) : RosterOK g'.players := by
  unfold joinOrReconnect at hj
  cases hf : findPlayerByClientOrPin g clientId pin a with
  | none =>
    rw [hf] at hj
    dsimp only at hj
    split at hj
    · cases hj
    · cases hj
      exact rosterOK_rosterSet _ _
        ⟨rfl, fun hs => Bool.noConfusion hs, fun hs => Bool.noConfusion hs⟩ h
  | some p =>
    rw [hf] at hj
    dsimp only at hj
    cases hj
    have hp : LifeOK p := h.2 p (findByClientOrPin_mem g clientId pin a p hf)
    exact rosterOK_rosterSet _ _ hp (rosterOK_filter _ _ h)

theorem inv_pickNumber (g : Game) (sid : SocketId) (n : Int) (h : RosterOK g.players) :
    RosterOK (pickNumber g sid n).players := by
  unfold pickNumber
  cases findP g.players sid with
  | none => exact h
  | some p =>
    dsimp only
    split_ifs
    · exact h
    · exact h
    · exact h
    · exact inv_modPlayer g sid _ ⟨fun _ => rfl, fun _ h => h⟩ h

theorem inv_moveTo (g : Game) (sid : SocketId) (x y : Int) (h : RosterOK g.players) :
    RosterOK (moveTo g sid x y).players := by
  unfold moveTo
  cases findP g.players sid with
  | none => exact h
  | some p =>
    dsimp only
    split_ifs
    · exact h
    · exact h
    · exact inv_modPlayer g sid _ ⟨fun _ => rfl, fun _ h => h⟩ h
    · exact h
    · exact inv_modPlayer g sid _ ⟨fun _ => rfl, fun _ h => h⟩ h

theorem inv_sponsorPick (g : Game) (sid : SocketId) (t : Option SocketId)
    (h : RosterOK g.players) : RosterOK (sponsorPick g sid t).players := by
  unfold sponsorPick
  cases findP g.players sid with
  | none => exact h
  | some p =>
    dsimp only
    split_ifs
    all_goals first
      | exact h
      | exact inv_modPlayer g sid _ ⟨fun _ => rfl, fun _ h => h⟩ h

theorem hostPaint_players (g : Game) (x y : Int) (m : PaintMode) (v : Option Item) :
    (hostPaint g x y m v).players = g.players := by
  unfold hostPaint
  cases m <;> dsimp only <;> split_ifs <;> rfl

theorem inv_kick (g : Game) (pid : SocketId) (h : RosterOK g.players) :
    RosterOK (kick g pid).players := by
  unfold kick
  cases findP g.players pid with
  | none => exact h
  | some p => exact rosterOK_filter _ _ h

theorem inv_step (g g' : Game) (c : Cmd) (hs : step g c = some g') (h : RosterOK g.players) :
    RosterOK g'.players := by
  cases c with
  | hostJoin sid => cases hs; exact h
  | hostConfig size durations =>
    simp only [step, Option.some.injEq] at hs
    subst hs
    cases durations <;> cases size <;> dsimp only <;> try split_ifs
    all_goals exact h
  | hostStart size now =>
    cases hs
    unfold startGame
    cases size with
    | none => exact h
    | some n =>
      dsimp only
      split_ifs
      · exact h
      · exact h
  | hostReset => cases hs; exact inv_reset g h
  | hostEndPhase now => cases hs; exact h
  | hostEndRound now o => cases hs; exact inv_advancePhase g now o h
  | hostEndGame now => cases hs; exact h
  | hostPaint x y mode value => cases hs; rw [hostPaint_players]; exact h
  | hostClearGhosts => cases hs; exact rosterOK_filter _ _ h
  | hostTogglePause now =>
    cases hs
    unfold togglePause
    split_ifs
    · exact h
    · exact h
  | hostSetColor pid color =>
    cases hs
    exact inv_modPlayer g pid _ ⟨fun _ => rfl, fun _ h => h⟩ h
  | hostKick pid => cases hs; exact inv_kick g pid h
  | hostUpdateSettings d => cases hs; exact h
  | hostBoardSize size =>
    simp only [step, Option.some.injEq] at hs
    subst hs
    split_ifs
    · exact h
    · exact h
  | join sid name color clientId pin a newPin lower =>
    simp only [step, Option.map_eq_some'] at hs
    obtain ⟨r, hr, rfl⟩ := hs
    exact inv_join g r.1 r.2 sid name color clientId pin a newPin lower hr h
  | pickNumber sid n => cases hs; exact inv_pickNumber g sid n h
  | moveTo sid x y => cases hs; exact inv_moveTo g sid x y h
  | sponsorPick sid t => cases hs; exact inv_sponsorPick g sid t h
  | disconnect sid =>
    cases hs
    exact inv_modPlayer g sid _ ⟨fun _ => rfl, fun _ h => h⟩ h
  | tick now o =>
    simp only [step, Option.some.injEq] at hs
    subst hs
    split_ifs
    · exact inv_tick g now o h
    · exact h

theorem inv_run (cmds : List Cmd) : ∀ (g g' : Game), run g cmds = some g' →
    RosterOK g.players → RosterOK g'.players := by
  induction cmds with
  | nil =>
    intro g g' hr h
    simp only [run, Option.some.injEq] at hr
    subst hr
    exact h
  | cons c cs ih =>
    intro g g' hr h
    unfold run at hr
    cases hstep : step g c with
    | none => rw [hstep] at hr; cases hr
    | some g1 =>
      rw [hstep] at hr
      exact ih g1 g' hr (inv_step g g1 c hstep h)

/-- C2: in every state reachable from a new Game by any sequence of commands (join, reconnect,
kick, reset, host and participant commands) and ticks (with their eliminations by combat, hazard
and lack of legal moves, and their respawns), every participant satisfies `isAlive` XOR
`isSponsor`, and every Ascended participant has no board position. -/
theorem C2_lifecycle_invariant (g : Game) (hr : Reachable g) :
    ∀ p ∈ g.players, xor p.isAlive p.isSponsor = true ∧ (p.isSponsor = true → p.pos = none) := by
  obtain ⟨room, cmds, hrun⟩ := hr
  have h0 : RosterOK (Game.new room).players := ⟨List.nodup_nil, fun p hp => by cases hp⟩
  have h := inv_run cmds _ g hrun h0
  intro p hp
  obtain ⟨h1, h2, _⟩ := h.2 p hp
  refine ⟨?_, h2⟩
  rw [h1]
  cases p.isSponsor <;> rfl

set_option maxRecDepth 100000 in
/-- Witness for C2: the state after two joins, a start and two expired ticks. -/
theorem C2_lifecycle_invariant_witness :
    Reachable exampleReachedGame ∧
    exampleReachedGame.players.map (fun p => (p.id, p.isAlive, p.isSponsor)) =
      [("s1", true, false), ("s2", true, false)] ∧
    ∀ p ∈ exampleReachedGame.players,
      xor p.isAlive p.isSponsor = true ∧ (p.isSponsor = true → p.pos = none) :=
  ⟨⟨"room", exampleCommands, rfl⟩, by decide,
   C2_lifecycle_invariant exampleReachedGame ⟨"room", exampleCommands, rfl⟩⟩

/-! ## C18: gameover and the commands that leave it -/

theorem pickNumber_phase (g : Game) (sid : SocketId) (n : Int) :
    (pickNumber g sid n).phase = g.phase := by
  unfold pickNumber
  cases findP g.players sid with
  | none => rfl
  | some p => dsimp only; split_ifs <;> rfl

theorem moveTo_phase (g : Game) (sid : SocketId) (x y : Int) :
    (moveTo g sid x y).phase = g.phase := by
  unfold moveTo
  cases findP g.players sid with
  | none => rfl
  | some p => dsimp only; split_ifs <;> rfl

theorem sponsorPick_phase (g : Game) (sid : SocketId) (t : Option SocketId) :
    (sponsorPick g sid t).phase = g.phase := by
  unfold sponsorPick
  cases findP g.players sid with
  | none => rfl
  | some p => dsimp only; split_ifs <;> rfl

theorem hostPaint_phase (g : Game) (x y : Int) (m : PaintMode) (v : Option Item) :
    (hostPaint g x y m v).phase = g.phase := by
  unfold hostPaint
  cases m <;> dsimp only <;> split_ifs <;> rfl

theorem kick_phase (g : Game) (pid : SocketId) : (kick g pid).phase = g.phase := by
  unfold kick
  cases findP g.players pid <;> rfl

theorem togglePause_phase (g : Game) (now : Int) : (togglePause g now).phase = g.phase := by
  unfold togglePause
  split_ifs <;> rfl

theorem joinOrReconnect_phase (g g' : Game) (p' : Player) (sid : SocketId)
    (name : JSString) (color clientId pin : String) (a : Bool) (newPin : String)
    (lower : JSString → JSString)
    (hj : joinOrReconnect g sid name color clientId pin a newPin lower = some (g', p')) :
    g'.phase = g.phase := by
  unfold joinOrReconnect at hj
  cases hf : findPlayerByClientOrPin g clientId pin a with
  | none =>
    rw [hf] at hj
    dsimp only at hj
    split at hj
    · cases hj
    · cases hj; rfl
  | some p =>
    rw [hf] at hj
    dsimp only at hj
    cases hj
    rfl

theorem advancePhase_gameover (g : Game) (now : Int) (o : Oracle)
    (hg : g.phase = Phase.gameover) : advancePhase g now o = g := by
  unfold advancePhase
  rw [hg]

theorem tick_gameover (g : Game) (now : Int) (o : Oracle) (hg : g.phase = Phase.gameover) :
    tick g now o = g := by
  unfold tick
  split_ifs
  · rfl
  · exact advancePhase_gameover g now o hg
  · rfl

/-- C18 as stated fails: from the gameover state reached by the host's end-game, the host's
start-game puts the session in the number phase. -/
theorem C18_start_game_leaves_gameover :
    (run (Game.new "room") [Cmd.hostEndGame 0]).map (fun g => g.phase) = some Phase.gameover ∧
    (run (Game.new "room") [Cmd.hostEndGame 0, Cmd.hostStart none 5]).map (fun g => (g.phase, g.round))
      = some (Phase.number, 1) := by
  decide

/-- C18 (amended): once the phase is gameover, no tick and no command other than reset and
start-game changes the phase (force-end-phase, force-end-round, end-game, pick-number, move-to,
paint, join, kick and the settings commands leave it gameover); reset puts the session in
pregame and start-game in the number phase at round 1. -/
theorem C18_gameover_terminal (g : Game) (hg : g.phase = Phase.gameover) :
    (∀ c g', c.isReset = false → c.isStart = false → step g c = some g' →
      g'.phase = Phase.gameover) ∧
    (step g Cmd.hostReset).map (fun g' => g'.phase) = some Phase.pregame ∧
    ∀ size now, (step g (Cmd.hostStart size now)).map (fun g' => (g'.phase, g'.round))
      = some (Phase.number, 1) := by
  refine ⟨?_, rfl, fun size now => rfl⟩
  intro c g' hr hst hs
  cases c with
  | hostJoin sid => cases hs; exact hg
  | hostConfig size durations =>
    simp only [step, Option.some.injEq] at hs
    subst hs
    cases durations <;> cases size <;> dsimp only <;> try split_ifs
    all_goals exact hg
  | hostStart size now => cases hst
  | hostReset => cases hr
  | hostEndPhase now => cases hs; exact hg
  | hostEndRound now o => cases hs; rw [advancePhase_gameover g now o hg]; exact hg
  | hostEndGame now => cases hs; rfl
  | hostPaint x y mode value => cases hs; rw [hostPaint_phase]; exact hg
  | hostClearGhosts => cases hs; exact hg
  | hostTogglePause now => cases hs; rw [togglePause_phase]; exact hg
  | hostSetColor pid color => cases hs; exact hg
  | hostKick pid => cases hs; rw [kick_phase]; exact hg
  | hostUpdateSettings d => cases hs; exact hg
  | hostBoardSize size =>
    simp only [step, Option.some.injEq] at hs
    subst hs
    split_ifs
    · exact hg
    · exact hg
  | join sid name color clientId pin a newPin lower =>
    simp only [step, Option.map_eq_some'] at hs
    obtain ⟨r, hr, rfl⟩ := hs
    rw [joinOrReconnect_phase g r.1 r.2 sid name color clientId pin a newPin lower hr]; exact hg
  | pickNumber sid n => cases hs; rw [pickNumber_phase]; exact hg
  | moveTo sid x y => cases hs; rw [moveTo_phase]; exact hg
  | sponsorPick sid t => cases hs; rw [sponsorPick_phase]; exact hg
  | disconnect sid => cases hs; exact hg
  | tick now o =>
    simp only [step, Option.some.injEq] at hs
    subst hs
    split_ifs
    · rw [tick_gameover g now o hg]; exact hg
    · exact hg

/-- Witness for C18 (amended): the gameover state reached by the host's end-game. -/
theorem C18_gameover_terminal_witness :
    (∀ c g', c.isReset = false → c.isStart = false →
      step (endGame (Game.new "room") none 0) c = some g' → g'.phase = Phase.gameover) ∧
    (step (endGame (Game.new "room") none 0) Cmd.hostReset).map (fun g' => g'.phase)
      = some Phase.pregame ∧
    ∀ size now, (step (endGame (Game.new "room") none 0) (Cmd.hostStart size now)).map
      (fun g' => (g'.phase, g'.round)) = some (Phase.number, 1) :=
  C18_gameover_terminal (endGame (Game.new "room") none 0) rfl

/-! ## C12: geometry of the safe zone -/

theorem mem_intsFromTo (lo hi v : Int) : v ∈ intsFromTo lo hi ↔ lo ≤ v ∧ v ≤ hi := by
  unfold intsFromTo intRange
  simp only [List.mem_map, List.mem_range]
  constructor
  · rintro ⟨i, hi1, rfl⟩
    rw [Int.lt_toNat] at hi1
    omega
  · rintro ⟨h1, h2⟩
    refine ⟨(v - lo).toNat, ?_, ?_⟩
    · rw [Int.lt_toNat, Int.toNat_of_nonneg (by omega)]
      omega
    · rw [Int.toNat_of_nonneg (by omega)]
      omega

theorem nodup_intsFromTo (lo hi : Int) : (intsFromTo lo hi).Nodup := by
  unfold intsFromTo intRange
  refine List.Nodup.map_on ?_ (List.nodup_range _)
  intro a _ b _ h
  omega

theorem length_intsFromTo (lo hi : Int) : (intsFromTo lo hi).length = (hi + 1 - lo).toNat := by
  unfold intsFromTo intRange
  rw [List.length_map, List.length_range]

theorem mem_boxTiles (x0 x1 y0 y1 : Int) (t : Pos) :
    t ∈ boxTiles x0 x1 y0 y1 ↔ x0 ≤ t.x ∧ t.x ≤ x1 ∧ y0 ≤ t.y ∧ t.y ≤ y1 := by
  unfold boxTiles
  simp only [List.mem_flatMap, List.mem_map, mem_intsFromTo]
  constructor
  · rintro ⟨x, ⟨hx1, hx2⟩, y, ⟨hy1, hy2⟩, rfl⟩
    exact ⟨hx1, hx2, hy1, hy2⟩
  · rintro ⟨h1, h2, h3, h4⟩
    exact ⟨t.x, ⟨h1, h2⟩, t.y, ⟨h3, h4⟩, rfl⟩

theorem boxTiles_square (c : Int) (r : Nat) :
    (boxTiles (c - r) (c + r) (c - r) (c + r)).length = (2 * r + 1) * (2 * r + 1) ∧
    (boxTiles (c - r) (c + r) (c - r) (c + r)).Nodup := by
  have hn : (c + (r : Int) + 1 - (c - r)).toNat = 2 * r + 1 := by omega
  constructor
  · unfold boxTiles
    simp [List.length_flatMap, length_intsFromTo, hn, Function.comp_def]
  · unfold boxTiles
    rw [List.nodup_flatMap]
    refine ⟨fun x _ => ?_, ?_⟩
    · refine List.Nodup.map ?_ (nodup_intsFromTo _ _)
      intro a b h
      injection h
    · refine List.Pairwise.imp ?_ (nodup_intsFromTo _ _)
      intro a b hab
      intro t h1 h2
      simp only [List.mem_map] at h1 h2
      obtain ⟨y1, _, rfl⟩ := h1
      obtain ⟨y2, _, h⟩ := h2
      injection h with hx hy
      exact hab hx.symm

theorem ring16_length (cc : Cornucore) : (ring16TilesCornucore cc).length = 16 := by
  unfold ring16TilesCornucore intsFromTo intRange
  have h5 : (cc.center.x + 2 + 1 - (cc.center.x - 2)).toNat = 5 := by omega
  have h3 : (cc.center.y + 2 - 1 + 1 - (cc.center.y - 2 + 1)).toNat = 3 := by omega
  simp only [h5, h3]
  rfl

theorem ring16_nodup (cc : Cornucore) : (ring16TilesCornucore cc).Nodup := by
  unfold ring16TilesCornucore intsFromTo intRange
  have h5 : (cc.center.x + 2 + 1 - (cc.center.x - 2)).toNat = 5 := by omega
  have h3 : (cc.center.y + 2 - 1 + 1 - (cc.center.y - 2 + 1)).toNat = 3 := by omega
  simp only [h5, h3]
  simp [List.range_succ, List.flatMap]
  omega

theorem mem_ring16 (cc : Cornucore) (t : Pos) :
    t ∈ ring16TilesCornucore cc ↔
      (cc.center.x - 2 ≤ t.x ∧ t.x ≤ cc.center.x + 2 ∧
       cc.center.y - 2 ≤ t.y ∧ t.y ≤ cc.center.y + 2) ∧
      ¬ (cc.center.x - 2 < t.x ∧ t.x < cc.center.x + 2 ∧
         cc.center.y - 2 < t.y ∧ t.y < cc.center.y + 2) := by
  unfold ring16TilesCornucore
  simp only [List.mem_append, List.mem_flatMap, mem_intsFromTo, List.mem_cons, List.mem_singleton,
    List.not_mem_nil, or_false]
  obtain ⟨x, y⟩ := t
  simp only [Pos.mk.injEq]
  constructor
  · rintro (⟨a, ⟨ha1, ha2⟩, h | h⟩ | ⟨a, ⟨ha1, ha2⟩, h | h⟩) <;> omega
  · rintro ⟨⟨h1, h2, h3, h4⟩, h5⟩
    by_cases hy : y = cc.center.y - 2 ∨ y = cc.center.y + 2
    · left
      exact ⟨x, ⟨h1, h2⟩, by omega⟩
    · right
      exact ⟨y, ⟨by omega, by omega⟩, by omega⟩

/-- C12: for every integer `N` with `8 ≤ N ≤ 64`, `makeCornucore N` is the 5x5 square centered at
`(⌊N/2⌋, ⌊N/2⌋)` (25 distinct tiles, those with both coordinates within 2 of the center), all of
whose tiles have both coordinates in `[0, N-1]`; `ring16TilesCornucore` returns 16 pairwise
distinct tiles, which are exactly the safe-zone tiles not strictly inside the square; and
`isInnerSanctum` holds for exactly 9 tiles (the 3x3 square around the center), all of them in
the safe zone. -/
theorem C12_safe_zone_geometry (N : Int) (h8 : 8 ≤ N) (h64 : N ≤ 64) :
    makeCornucore N =
      { center := Pos.mk (N / 2) (N / 2), minX := N / 2 - 2, maxX := N / 2 + 2,
        minY := N / 2 - 2, maxY := N / 2 + 2 } ∧
    (∀ t : Pos, inCornucore t.x t.y (makeCornucore N) = true ↔
      t ∈ boxTiles (N / 2 - 2) (N / 2 + 2) (N / 2 - 2) (N / 2 + 2)) ∧
    (boxTiles (N / 2 - 2) (N / 2 + 2) (N / 2 - 2) (N / 2 + 2)).length = 25 ∧
    (boxTiles (N / 2 - 2) (N / 2 + 2) (N / 2 - 2) (N / 2 + 2)).Nodup ∧
    (∀ x y : Int, inCornucore x y (makeCornucore N) = true →
      0 ≤ x ∧ x ≤ N - 1 ∧ 0 ≤ y ∧ y ≤ N - 1) ∧
    (ring16TilesCornucore (makeCornucore N)).length = 16 ∧
    (ring16TilesCornucore (makeCornucore N)).Nodup ∧
    (∀ t : Pos, t ∈ ring16TilesCornucore (makeCornucore N) ↔
      inCornucore t.x t.y (makeCornucore N) = true ∧
      ¬ ((makeCornucore N).minX < t.x ∧ t.x < (makeCornucore N).maxX ∧
         (makeCornucore N).minY < t.y ∧ t.y < (makeCornucore N).maxY)) ∧
    (∀ t : Pos, isInnerSanctum t.x t.y (makeCornucore N) = true ↔
      t ∈ boxTiles (N / 2 - 1) (N / 2 + 1) (N / 2 - 1) (N / 2 + 1)) ∧
    (boxTiles (N / 2 - 1) (N / 2 + 1) (N / 2 - 1) (N / 2 + 1)).length = 9 ∧
    (boxTiles (N / 2 - 1) (N / 2 + 1) (N / 2 - 1) (N / 2 + 1)).Nodup ∧
    (∀ x y : Int, isInnerSanctum x y (makeCornucore N) = true →
      inCornucore x y (makeCornucore N) = true) := by
  have hin : ∀ x y : Int, inCornucore x y (makeCornucore N) = true ↔
      (N / 2 - 2 ≤ x ∧ x ≤ N / 2 + 2 ∧ N / 2 - 2 ≤ y ∧ y ≤ N / 2 + 2) := by
    intro x y
    simp only [inCornucore, makeCornucore, Bool.and_eq_true, decide_eq_true_eq, ge_iff_le]
    constructor
    · rintro ⟨⟨⟨h1, h2⟩, h3⟩, h4⟩; exact ⟨h1, h2, h3, h4⟩
    · rintro ⟨h1, h2, h3, h4⟩; exact ⟨⟨⟨h1, h2⟩, h3⟩, h4⟩
  have hsan : ∀ x y : Int, isInnerSanctum x y (makeCornucore N) = true ↔
      (N / 2 - 1 ≤ x ∧ x ≤ N / 2 + 1 ∧ N / 2 - 1 ≤ y ∧ y ≤ N / 2 + 1) := by
    intro x y
    simp only [isInnerSanctum, makeCornucore, Bool.and_eq_true, decide_eq_true_eq, ge_iff_le]
    constructor
    · rintro ⟨⟨⟨h1, h2⟩, h3⟩, h4⟩; exact ⟨h1, h2, h3, h4⟩
    · rintro ⟨h1, h2, h3, h4⟩; exact ⟨⟨⟨h1, h2⟩, h3⟩, h4⟩
  have h25 := boxTiles_square (N / 2) 2
  have h9 := boxTiles_square (N / 2) 1
  refine ⟨rfl, ?_, h25.1, h25.2, ?_, ring16_length _, ring16_nodup _, ?_, ?_, h9.1, h9.2, ?_⟩
  · intro t
    rw [hin, mem_boxTiles]
  · intro x y h
    rw [hin] at h
    omega
  · intro t
    rw [mem_ring16, hin]
    rfl
  · intro t
    rw [hsan, mem_boxTiles]
  · intro x y h
    rw [hsan] at h
    rw [hin]
    omega

/-- Witness for C12: the default 10x10 board. -/
theorem C12_safe_zone_geometry_witness :
    (makeCornucore 10).center = Pos.mk 5 5 ∧
    (ring16TilesCornucore (makeCornucore 10)).length = 16 ∧
    (ring16TilesCornucore (makeCornucore 10)).Nodup ∧
    (boxTiles (10 / 2 - 1) (10 / 2 + 1) (10 / 2 - 1) (10 / 2 + 1)).length = 9 :=
  have h := C12_safe_zone_geometry 10 (by decide) (by decide)
  ⟨congrArg Cornucore.center h.1, h.2.2.2.2.2.1, h.2.2.2.2.2.2.1, h.2.2.2.2.2.2.2.2.2.1⟩

/-! ## C11: where loot is placed -/

theorem mem_mapSet (m : List (Pos × Item)) (k : Pos) (v : Item) (e : Pos × Item)
    (h : e ∈ mapSet m k v) : e ∈ m ∨ e = (k, v) := by
  unfold mapSet at h
  split_ifs at h
  · obtain ⟨e0, he0, rfl⟩ := List.mem_map.mp h
    split_ifs
    · exact Or.inr rfl
    · exact Or.inl he0
  · rcases List.mem_append.mp h with h | h
    · exact Or.inl h
    · exact Or.inr (List.mem_singleton.mp h)

theorem mem_foldl_mapSet (l : List (Pos × Item)) : ∀ (m : List (Pos × Item)) (e : Pos × Item),
    e ∈ l.foldl (fun m e => mapSet m e.1 e.2) m → e ∈ m ∨ e ∈ l := by
  induction l with
  | nil => intro m e h; exact Or.inl h
  | cons a t ih =>
    intro m e h
    rcases ih _ e h with h1 | h1
    · rcases mem_mapSet m a.1 a.2 e h1 with h2 | h2
      · exact Or.inl h2
      · exact Or.inr (h2 ▸ List.mem_cons_self a t)
    · exact Or.inr (List.mem_cons_of_mem _ h1)

theorem mem_swapAt {α : Type} (a : List α) (i j : Nat) (x : α) (h : x ∈ swapAt a i j) :
    x ∈ a := by
  unfold swapAt at h
  split at h
  · rename_i u v hu hv
    rcases List.mem_or_eq_of_mem_set h with h1 | h1
    · rcases List.mem_or_eq_of_mem_set h1 with h2 | h2
      · exact h2
      · rw [h2]; exact List.get?_mem hv
    · rw [h1]; exact List.get?_mem hu
  · exact h

theorem length_swapAt {α : Type} (a : List α) (i j : Nat) : (swapAt a i j).length = a.length := by
  unfold swapAt
  split
  · rw [List.length_set, List.length_set]
  · rfl

theorem shuffleLoop_mem_length {α : Type} (r : Nat → Nat) (n : Nat) : ∀ (a : List α),
    (∀ x, x ∈ shuffleLoop r n a → x ∈ a) ∧ (shuffleLoop r n a).length = a.length := by
  induction n with
  | zero => intro a; exact ⟨fun x h => h, rfl⟩
  | succ i ih =>
    intro a
    obtain ⟨h1, h2⟩ := ih (swapAt a (i + 1) (r (i + 1) % (i + 2)))
    exact ⟨fun x h => mem_swapAt a _ _ x (h1 x h), h2.trans (length_swapAt a _ _)⟩

theorem mem_shuffle {α : Type} (r : Nat → Nat) (a : List α) (x : α) (h : x ∈ shuffle r a) :
    x ∈ a :=
  (shuffleLoop_mem_length r _ a).1 x h

theorem length_shuffle {α : Type} (r : Nat → Nat) (a : List α) :
    (shuffle r a).length = a.length :=
  (shuffleLoop_mem_length r _ a).2

theorem baseOrder_spawnable : ∀ v ∈ [Item.SWORD, Item.SHIELD, Item.SPEED, Item.RENOWN_CHIP,
    Item.RENOWN_CHIP], v ∈ REFRESH_SPAWN_TYPES := by
  decide

theorem spawnType_spawnable (n : Nat) :
    (REFRESH_SPAWN_TYPES.get? (n % 4)).getD Item.SWORD ∈ REFRESH_SPAWN_TYPES := by
  have h4 : n % 4 < 4 := Nat.mod_lt _ (by decide)
  generalize n % 4 = m at h4
  interval_cases m <;> decide

theorem refreshBuffs_loot (g : Game) (occ : List Pos) (now : Int) (o : Oracle) (e : Pos × Item)
    (h : e ∈ (refreshBuffs g occ now o).board.buffs) :
    e ∈ g.board.buffs ∨
      (e.1 ∈ ring16TilesCornucore g.cc ∧ e.1 ∉ g.board.fire ∧ e.1 ∉ occ ∧
        e.2 ∈ REFRESH_SPAWN_TYPES) := by
  unfold refreshBuffs at h
  dsimp only at h
  rcases mem_foldl_mapSet _ _ e h with h1 | h1
  · exact Or.inl h1
  · right
    obtain ⟨k, v⟩ := e
    obtain ⟨hk, hv⟩ := List.of_mem_zip h1
    have hk1 := List.mem_filter.mp (mem_shuffle _ _ k hk)
    simp only [Bool.and_eq_true, Bool.not_eq_true', decide_eq_false_iff_not] at hk1
    refine ⟨hk1.1, hk1.2.1, hk1.2.2, ?_⟩
    rcases List.mem_append.mp hv with hv | hv
    · exact baseOrder_spawnable v hv
    · obtain ⟨i, _, rfl⟩ := List.mem_map.mp hv
      exact spawnType_spawnable _

theorem startRefresh_loot (g : Game) (now : Int) (o : Oracle) (e : Pos × Item)
    (h : e ∈ (startRefresh g now o).board.buffs) :
    e ∈ g.board.buffs ∨
      (e.1 ∈ ring16TilesCornucore g.cc ∧ e.1 ∉ (startRefresh g now o).board.fire ∧
        e.2 ∈ REFRESH_SPAWN_TYPES) := by
  unfold startRefresh at h ⊢
  dsimp only at h ⊢
  split_ifs at h ⊢
  · exact Or.inl h
  · rcases refreshBuffs_loot _ _ now o e h with h1 | ⟨h1, h2, _, h4⟩
    · exact Or.inl h1
    · exact Or.inr ⟨h1, h2, h4⟩
  · exact Or.inl h
  · rcases refreshBuffs_loot _ _ now o e h with h1 | ⟨h1, h2, _, h4⟩
    · exact Or.inl h1
    · exact Or.inr ⟨h1, h2, h4⟩

theorem mem_mapDelete (m : List (Pos × Item)) (k : Pos) (e : Pos × Item)
    (h : e ∈ mapDelete m k) : e ∈ m :=
  (List.mem_filter.mp h).1

theorem hostPaint_loot (g : Game) (x y : Int) (m : PaintMode) (v : Option Item) (e : Pos × Item)
    (h : e ∈ (hostPaint g x y m v).board.buffs) :
    e ∈ g.board.buffs ∨
      (e.1 = Pos.mk (clamp x 0 (g.size - 1)) (clamp y 0 (g.size - 1)) ∧
        (m = PaintMode.BUFF ∨ m = PaintMode.CLEAR) ∧
        if isCenter e.1.x e.1.y g.cc then e.2 = Item.SPACETIME_SEAL
        else m = PaintMode.BUFF ∧ e.2 ∈ PAINTABLE_TYPES) := by
  unfold hostPaint at h
  cases m with
  | FIRE =>
    dsimp only at h
    split_ifs at h <;> exact Or.inl h
  | BUFF =>
    dsimp only at h
    by_cases hc : isCenter (clamp x 0 (g.size - 1)) (clamp y 0 (g.size - 1)) g.cc = true
    · rw [if_pos hc] at h
      rcases mem_mapSet _ _ _ e h with h1 | h1
      · exact Or.inl h1
      · right
        subst h1
        refine ⟨rfl, Or.inl rfl, ?_⟩
        rw [if_pos hc]
    · rw [if_neg hc] at h
      by_cases hh : mapHas g.board.buffs
          (Pos.mk (clamp x 0 (g.size - 1)) (clamp y 0 (g.size - 1))) = true
      · rw [if_pos hh] at h
        exact Or.inl (mem_mapDelete _ _ e h)
      · rw [if_neg hh] at h
        have hty : ∀ t2 : Item,
            (if t2 ∈ PAINTABLE_TYPES then t2 else Item.RENOWN_CHIP) ∈ PAINTABLE_TYPES := by
          intro t2
          split_ifs with h5
          · exact h5
          · decide
        rcases mem_mapSet _ _ _ e h with h1 | h1
        · exact Or.inl h1
        · right
          subst h1
          refine ⟨rfl, Or.inl rfl, ?_⟩
          rw [if_neg hc]
          exact ⟨rfl, hty _⟩
  | CLEAR =>
    dsimp only at h
    split_ifs at h with hc
    · rcases mem_mapSet _ _ _ e h with h1 | h1
      · exact Or.inl h1
      · right
        subst h1
        refine ⟨rfl, Or.inr rfl, ?_⟩
        rw [if_pos hc]
    · exact Or.inl (mem_mapDelete _ _ e h)
  | OTHER => exact Or.inl h

theorem ring16_in_safe_zone (N : Int) (t : Pos) (h : t ∈ ring16TilesCornucore (makeCornucore N)) :
    inCornucore t.x t.y (makeCornucore N) = true ∧
    isInnerSanctum t.x t.y (makeCornucore N) = false ∧
    isCenter t.x t.y (makeCornucore N) = false := by
  rw [mem_ring16] at h
  obtain ⟨⟨h1, h2, h3, h4⟩, h5⟩ := h
  simp only [makeCornucore] at h1 h2 h3 h4 h5
  refine ⟨?_, ?_, ?_⟩
  · simp only [inCornucore, makeCornucore, Bool.and_eq_true, decide_eq_true_eq, ge_iff_le]
    exact ⟨⟨⟨h1, h2⟩, h3⟩, h4⟩
  · simp only [isInnerSanctum, makeCornucore, Bool.and_eq_false_iff, decide_eq_false_iff_not,
      ge_iff_le]
    omega
  · simp only [isCenter, makeCornucore, Bool.and_eq_false_iff, decide_eq_false_iff_not]
    omega

set_option maxRecDepth 100000 in
/-- C11 as stated fails: on the default 10x10 board the refresh after round 6 leaves five loot
items on safe-zone ring tiles, and a host paint puts a Sword on the safe-zone tile (4,4). -/
theorem C11_loot_lands_in_safe_zone :
    (run (Game.new "room") (forcedAdvances 17)).map
        (fun g => (g.phase, g.round, lootInSafeZone g)) = some (Phase.resolution, 6, []) ∧
    (run (Game.new "room") (forcedAdvances 18)).map
        (fun g => (g.phase, g.round, lootInSafeZone g)) =
      some (Phase.refresh, 6,
        [(Pos.mk 3 7, Item.SWORD), (Pos.mk 4 3, Item.SHIELD), (Pos.mk 4 7, Item.SPEED),
         (Pos.mk 5 3, Item.RENOWN_CHIP), (Pos.mk 5 7, Item.RENOWN_CHIP)]) ∧
    (run (Game.new "room") [Cmd.hostPaint 4 4 PaintMode.BUFF (some Item.SWORD)]).map
        lootInSafeZone = some [(Pos.mk 4 4, Item.SWORD)] := by
  decide

/-- C11 (amended): every loot entry present after `startRefresh` was there before or is a Sword,
Shield, Renown or Speed item on a tile of the 16-tile ring that is not a hazard tile; ring tiles
are safe-zone tiles outside the inner sanctum and off the center. Every loot entry present after
a host paint was there before or lies on the painted tile (clamped into the board, safe zone
or not): the Seal when that tile is the center, and otherwise a Sword, Shield, Renown or Speed
item placed by mode BUFF. -/
theorem C11_loot_placement (g : Game) :
    (∀ (now : Int) (o : Oracle) (e : Pos × Item), e ∈ (startRefresh g now o).board.buffs →
      e ∈ g.board.buffs ∨
        (e.1 ∈ ring16TilesCornucore g.cc ∧ e.1 ∉ (startRefresh g now o).board.fire ∧
          e.2 ∈ REFRESH_SPAWN_TYPES)) ∧
    (∀ (N : Int) (t : Pos), t ∈ ring16TilesCornucore (makeCornucore N) →
      inCornucore t.x t.y (makeCornucore N) = true ∧
      isInnerSanctum t.x t.y (makeCornucore N) = false ∧
      isCenter t.x t.y (makeCornucore N) = false) ∧
    (∀ (x y : Int) (m : PaintMode) (v : Option Item) (e : Pos × Item),
      e ∈ (hostPaint g x y m v).board.buffs →
      e ∈ g.board.buffs ∨
        (e.1 = Pos.mk (clamp x 0 (g.size - 1)) (clamp y 0 (g.size - 1)) ∧
          (m = PaintMode.BUFF ∨ m = PaintMode.CLEAR) ∧
          if isCenter e.1.x e.1.y g.cc then e.2 = Item.SPACETIME_SEAL
          else m = PaintMode.BUFF ∧ e.2 ∈ PAINTABLE_TYPES)) :=
  ⟨fun now o e h => startRefresh_loot g now o e h, ring16_in_safe_zone,
   fun x y m v e h => hostPaint_loot g x y m v e h⟩

/-! ## C13: hazard exhaustion -/

theorem mem_setAdd (s : List Pos) (k n : Pos) : n ∈ setAdd s k ↔ n ∈ s ∨ n = k := by
  unfold setAdd
  split_ifs with h
  · constructor
    · exact Or.inl
    · rintro (h1 | h1)
      · exact h1
      · rw [h1]; exact h
  · rw [List.mem_append, List.mem_singleton]

theorem mem_foldl_setAdd_if (P : Pos → Bool) (l : List Pos) : ∀ (c : List Pos) (n : Pos),
    n ∈ l.foldl (fun cand m => if P m then setAdd cand m else cand) c ↔
      n ∈ c ∨ (n ∈ l ∧ P n = true) := by
  induction l with
  | nil => intro c n; simp
  | cons a t ih =>
    intro c n
    rw [List.foldl_cons, ih]
    by_cases hP : P a = true
    · rw [if_pos hP, mem_setAdd]
      constructor
      · rintro ((h | h) | h)
        · exact Or.inl h
        · exact Or.inr ⟨h ▸ List.mem_cons_self a t, h ▸ hP⟩
        · exact Or.inr ⟨List.mem_cons_of_mem _ h.1, h.2⟩
      · rintro (h | ⟨h1, h2⟩)
        · exact Or.inl (Or.inl h)
        · rcases List.mem_cons.mp h1 with h3 | h3
          · exact Or.inl (Or.inr h3)
          · exact Or.inr ⟨h3, h2⟩
    · rw [if_neg hP]
      constructor
      · rintro (h | h)
        · exact Or.inl h
        · exact Or.inr ⟨List.mem_cons_of_mem _ h.1, h.2⟩
      · rintro (h | ⟨h1, h2⟩)
        · exact Or.inl h
        · rcases List.mem_cons.mp h1 with h3 | h3
          · rw [h3] at h2; exact absurd h2 hP
          · exact Or.inr ⟨h3, h2⟩

theorem mem_foldl_nbrs (P : Pos → Bool) (fs : List Pos) : ∀ (c : List Pos) (n : Pos),
    n ∈ fs.foldl (fun cand f =>
        (fireNbrs f).foldl (fun cand m => if P m then setAdd cand m else cand) cand) c ↔
      n ∈ c ∨ ((∃ f ∈ fs, n ∈ fireNbrs f) ∧ P n = true) := by
  induction fs with
  | nil => intro c n; simp
  | cons a t ih =>
    intro c n
    rw [List.foldl_cons, ih, mem_foldl_setAdd_if]
    constructor
    · rintro ((h | ⟨h1, h2⟩) | ⟨⟨f, hf, h1⟩, h2⟩)
      · exact Or.inl h
      · exact Or.inr ⟨⟨a, List.mem_cons_self a t, h1⟩, h2⟩
      · exact Or.inr ⟨⟨f, List.mem_cons_of_mem _ hf, h1⟩, h2⟩
    · rintro (h | ⟨⟨f, hf, h1⟩, h2⟩)
      · exact Or.inl (Or.inl h)
      · rcases List.mem_cons.mp hf with h3 | h3
        · exact Or.inl (Or.inr ⟨h3 ▸ h1, h2⟩)
        · exact Or.inr ⟨⟨f, h3, h1⟩, h2⟩

theorem fireFrontier_eq (g : Game) (c : Bool) :
    fireFrontier g c = g.board.fire.foldl (fun cand f =>
      (fireNbrs f).foldl (fun cand m =>
        if frontierOK g (if c then occupiedTiles g.players else []) m then setAdd cand m
        else cand) cand) [] := by
  unfold fireFrontier
  dsimp only
  congr 1
  funext cand f
  unfold fireNbrs
  congr 1
  funext cand m
  unfold frontierOK
  cases inBoard g.size m <;> cases inCornucore m.x m.y g.cc <;>
    cases decide (m ∈ g.board.fire) <;>
    cases decide (m ∈ (if c = true then occupiedTiles g.players else [])) <;> rfl

/-- Membership in the frontier. -/
theorem mem_fireFrontier (g : Game) (c : Bool) (n : Pos) :
    n ∈ fireFrontier g c ↔
      (∃ f ∈ g.board.fire, n ∈ fireNbrs f) ∧
      frontierOK g (if c then occupiedTiles g.players else []) n = true := by
  rw [fireFrontier_eq, mem_foldl_nbrs]
  simp

theorem fireFrontier_true_subset (g : Game) (n : Pos) (h : n ∈ fireFrontier g true) :
    n ∈ fireFrontier g false := by
  rw [mem_fireFrontier] at h ⊢
  refine ⟨h.1, ?_⟩
  have h2 := h.2
  simp only [frontierOK, Bool.and_eq_true, if_true] at h2
  simp only [frontierOK, Bool.and_eq_true]
  exact ⟨h2.1, by simp⟩

theorem fireFrontier_congr (g g' : Game) (c : Bool) (h1 : g'.board.fire = g.board.fire)
    (h2 : g'.size = g.size) (h3 : g'.cc = g.cc)
    (h4 : occupiedTiles g'.players = occupiedTiles g.players) :
    fireFrontier g' c = fireFrontier g c := by
  unfold fireFrontier
  rw [h1, h2, h3, h4]

theorem refresh_occupied (g : Game) :
    occupiedTiles (refreshStart g).players = occupiedTiles g.players := by
  unfold refreshStart
  apply occupiedTiles_map
  intro p
  dsimp only
  split_ifs
  · exact ⟨rfl, rfl, rfl⟩
  · exact ⟨rfl, rfl, rfl⟩

/-- The expansion branch of `startRefresh`. -/
theorem startRefresh_expand (g : Game) (now : Int) (o : Oracle) (hf : g.board.fire ≠ []) :
    startRefresh g now o =
      if (refreshToAdd g o).length = 0 ∧ (fireFrontier (refreshExpanded g o) false).length = 0 then
        endGame { refreshExpanded g o with endReason := some EndReason.fire_exhausted }
          (some EndReason.fire_exhausted) now
      else refreshBuffs (refreshExpanded g o) (occupiedTiles (refreshStart g).players) now o := by
  have hlen : ¬ g.board.fire.length = 0 := fun h => hf (List.length_eq_zero.mp h)
  unfold startRefresh
  dsimp only
  rw [if_neg hlen]
  rfl

theorem refreshToAdd_nil (g : Game) (o : Oracle) (h : fireFrontier g true = []) :
    refreshToAdd g o = [] := by
  unfold refreshToAdd
  rw [fireFrontier_congr g (refreshStart g) true rfl rfl rfl (refresh_occupied g), h]
  have hs : shuffle o.shuffleA ([] : List Pos) = [] := rfl
  rw [hs, List.take_nil]

theorem refreshExpanded_frontier (g : Game) (o : Oracle) (h : refreshToAdd g o = []) :
    fireFrontier (refreshExpanded g o) false = fireFrontier g false := by
  apply fireFrontier_congr
  · unfold refreshExpanded
    rw [h]
    rfl
  · rfl
  · rfl
  · exact refresh_occupied g

theorem fireFrontier_true_nil (g : Game) (h : fireFrontier g false = []) :
    fireFrontier g true = [] := by
  apply List.eq_nil_iff_forall_not_mem.mpr
  intro n hn
  have := fireFrontier_true_subset g n hn
  rw [h] at this
  cases this

/-- The expansion branch of `startRefresh` when the frontier ignoring occupancy is empty. -/
theorem startRefresh_exhausted (g : Game) (now : Int) (o : Oracle) (hf : g.board.fire ≠ [])
    (he : fireFrontier g false = []) :
    (startRefresh g now o).phase = Phase.gameover ∧
    (startRefresh g now o).endReason = some EndReason.fire_exhausted ∧
    (startRefresh g now o).board.fire = g.board.fire := by
  have h1 := refreshToAdd_nil g o (fireFrontier_true_nil g he)
  have h2 := refreshExpanded_frontier g o h1
  rw [startRefresh_expand g now o hf, if_pos ⟨by rw [h1]; rfl, by rw [h2, he]; rfl⟩]
  refine ⟨rfl, rfl, ?_⟩
  show (refreshToAdd g o).foldl setAdd g.board.fire = g.board.fire
  rw [h1]
  rfl

/-- The expansion branch of `startRefresh` when the frontier ignoring occupancy is not empty. -/
theorem startRefresh_continues (g : Game) (now : Int) (o : Oracle) (hf : g.board.fire ≠ [])
    (he : fireFrontier g false ≠ []) :
    (startRefresh g now o).phase = Phase.refresh ∧
    (startRefresh g now o).endReason = g.endReason ∧
    (startRefresh g now o).board.fire = (refreshToAdd g o).foldl setAdd g.board.fire := by
  have hc : ¬ ((refreshToAdd g o).length = 0 ∧
      (fireFrontier (refreshExpanded g o) false).length = 0) := by
    rintro ⟨h1, h2⟩
    have h3 := List.length_eq_zero.mp h1
    rw [refreshExpanded_frontier g o h3] at h2
    exact he (List.length_eq_zero.mp h2)
  rw [startRefresh_expand g now o hf, if_neg hc]
  exact ⟨rfl, rfl, rfl⟩

/-- C13: when `startRefresh` runs with a non-empty hazard set, the game ends (phase gameover, with
reason `fire_exhausted`) if and only if `fireFrontier(false)`, the frontier computed ignoring
occupancy, is empty, and otherwise the session is in the refresh phase; when the frontier is
non-empty but every tile of it is occupied (`fireFrontier(true)` is empty) no hazard tile is
added and the game does not end. -/
theorem C13_exhaustion_exactness (g : Game) (now : Int) (o : Oracle) (hf : g.board.fire ≠ []) :
    ((startRefresh g now o).phase = Phase.gameover ↔ fireFrontier g false = []) ∧
    ((startRefresh g now o).phase = Phase.gameover →
      (startRefresh g now o).endReason = some EndReason.fire_exhausted) ∧
    ((startRefresh g now o).phase ≠ Phase.gameover →
      (startRefresh g now o).phase = Phase.refresh ∧
      (startRefresh g now o).endReason = g.endReason) ∧
    (fireFrontier g false ≠ [] → fireFrontier g true = [] →
      (startRefresh g now o).board.fire = g.board.fire ∧
      (startRefresh g now o).phase = Phase.refresh) := by
  by_cases he : fireFrontier g false = []
  · obtain ⟨h1, h2, _⟩ := startRefresh_exhausted g now o hf he
    refine ⟨⟨fun _ => he, fun _ => h1⟩, fun _ => h2, fun h => absurd h1 h, fun h => absurd he h⟩
  · obtain ⟨h1, h2, h3⟩ := startRefresh_continues g now o hf he
    refine ⟨⟨fun h => ?_, fun h => absurd h he⟩, fun h => ?_, fun _ => ⟨h1, h2⟩, fun _ ht => ?_⟩
    · rw [h1] at h; cases h
    · rw [h1] at h; cases h
    · refine ⟨?_, h1⟩
      rw [h3, refreshToAdd_nil g o ht]
      rfl

/-- Witness for C13: one hazard tile in the corner of the empty default board, whose frontier is
not empty. -/
theorem C13_exhaustion_exactness_witness :
    exampleHazardGame.board.fire ≠ [] ∧ fireFrontier exampleHazardGame false ≠ [] ∧
    ((startRefresh exampleHazardGame 0 zeroOracle).phase = Phase.gameover ↔
      fireFrontier exampleHazardGame false = []) ∧
    (startRefresh exampleHazardGame 0 zeroOracle).phase = Phase.refresh :=
  have h := C13_exhaustion_exactness exampleHazardGame 0 zeroOracle (by decide)
  ⟨by decide, by decide, h.1, (h.2.2.1 (fun hg => by
    have := h.1.mp hg
    revert this
    decide)).1⟩

/-! ## C14: movement legality -/

theorem validMovesFor_normal (g : Game) (p : Player) (pos : Pos) (hpos : p.pos = some pos)
    (hw : ¬ (p.buff = some Item.WARP ∧ p.justRespawned = true)) :
    validMovesFor g p =
      (intsFromTo (-moveBudget p) (moveBudget p)).flatMap (fun dx =>
        (intsFromTo (-moveBudget p) (moveBudget p)).filterMap (stepTo g pos (moveBudget p) dx)) := by
  unfold validMovesFor
  rw [hpos]
  dsimp only
  rw [if_neg hw]
  rfl

theorem stepTo_eq_some (g : Game) (pos : Pos) (m dx dy : Int) (t : Pos) :
    stepTo g pos m dx dy = some t ↔
      (1 ≤ (dx.natAbs : Int) + (dy.natAbs : Int) ∧ (dx.natAbs : Int) + (dy.natAbs : Int) ≤ m) ∧
      (0 ≤ t.x ∧ t.x < g.size ∧ 0 ≤ t.y ∧ t.y < g.size) ∧ t ∉ g.board.fire ∧
      t = Pos.mk (pos.x + dx) (pos.y + dy) := by
  unfold stepTo
  dsimp only
  split_ifs with h1 h2 h3
  · constructor
    · intro h; cases h
    · rintro ⟨h, _⟩; omega
  · constructor
    · intro h; cases h
    · rintro ⟨_, h, _, rfl⟩
      dsimp only at h
      omega
  · constructor
    · intro h; cases h
    · rintro ⟨_, _, h, rfl⟩
      exact absurd h3 h
  · constructor
    · intro h
      injection h with h
      subst h
      dsimp only
      exact ⟨by omega, by omega, h3, rfl⟩
    · rintro ⟨_, _, _, rfl⟩
      rfl

theorem mem_validMovesFor (g : Game) (p : Player) (pos : Pos) (hpos : p.pos = some pos)
    (hw : ¬ (p.buff = some Item.WARP ∧ p.justRespawned = true)) (t : Pos) :
    t ∈ validMovesFor g p ↔
      (0 ≤ t.x ∧ t.x < g.size ∧ 0 ≤ t.y ∧ t.y < g.size) ∧ t ∉ g.board.fire ∧
      1 ≤ manhattan pos t ∧ manhattan pos t ≤ moveBudget p := by
  rw [validMovesFor_normal g p pos hpos hw]
  simp only [List.mem_flatMap, List.mem_filterMap, mem_intsFromTo, stepTo_eq_some]
  unfold manhattan
  constructor
  · rintro ⟨dx, _, dy, _, ⟨h1, h2⟩, hb, hf, rfl⟩
    dsimp only at hb ⊢
    refine ⟨hb, hf, ?_, ?_⟩
    · have e1 : (pos.x - (pos.x + dx)).natAbs = dx.natAbs := by omega
      have e2 : (pos.y - (pos.y + dy)).natAbs = dy.natAbs := by omega
      rw [e1, e2]; exact h1
    · have e1 : (pos.x - (pos.x + dx)).natAbs = dx.natAbs := by omega
      have e2 : (pos.y - (pos.y + dy)).natAbs = dy.natAbs := by omega
      rw [e1, e2]; exact h2
  · rintro ⟨hb, hf, h1, h2⟩
    have e1 : (t.x - pos.x).natAbs = (pos.x - t.x).natAbs := by omega
    have e2 : (t.y - pos.y).natAbs = (pos.y - t.y).natAbs := by omega
    refine ⟨t.x - pos.x, by omega, t.y - pos.y, by omega, ⟨?_, ?_⟩, hb, hf, ?_⟩
    · rw [e1, e2]; exact h1
    · rw [e1, e2]; exact h2
    · obtain ⟨x, y⟩ := t
      simp only [Pos.mk.injEq]
      constructor <;> ring

theorem nodup_validMovesFor (g : Game) (p : Player) (pos : Pos) (hpos : p.pos = some pos)
    (hw : ¬ (p.buff = some Item.WARP ∧ p.justRespawned = true)) :
    (validMovesFor g p).Nodup := by
  rw [validMovesFor_normal g p pos hpos hw, List.nodup_flatMap]
  refine ⟨fun dx _ => ?_, ?_⟩
  · refine List.Nodup.filterMap ?_ (nodup_intsFromTo _ _)
    intro a a' b hb hb'
    rw [Option.mem_def, stepTo_eq_some] at hb hb'
    have h := hb.2.2.2.symm.trans hb'.2.2.2
    injection h with _ hy
    omega
  · refine List.Pairwise.imp ?_ (nodup_intsFromTo _ _)
    intro a b hab
    intro t h1 h2
    rw [List.mem_filterMap] at h1 h2
    obtain ⟨y1, _, e1⟩ := h1
    obtain ⟨y2, _, e2⟩ := h2
    rw [stepTo_eq_some] at e1 e2
    have h := e1.2.2.2.symm.trans e2.2.2.2
    injection h with hx _
    exact hab (by omega)

theorem validMovesFor_ascended (g : Game) (p : Player) (h : LifeOK p)
    (hs : p.isSponsor = true ∨ p.isAlive = false) : validMovesFor g p = [] := by
  have hsp : p.isSponsor = true := by
    rcases hs with hs | hs
    · exact hs
    · have := h.1
      rw [hs] at this
      cases hsp : p.isSponsor
      · rw [hsp] at this; cases this
      · rfl
  unfold validMovesFor
  rw [h.2.1 hsp]
  dsimp only
  rw [if_neg]
  rintro ⟨_, hj, _⟩
  rw [h.2.2 hsp] at hj
  cases hj

/-- C14: for a positioned participant who is not in the just-respawned-Warp state,
`validMovesFor` returns, without duplicates, exactly the tiles `(x, y)` with `0 ≤ x, y < N`
that are not hazard tiles and whose Manhattan distance `d` from the participant's position
satisfies `1 ≤ d ≤ budget`, the budget being the stored movement budget `speedSteps` (a stored 0
is read as the default 2, `p.speedSteps || 2`); for every Ascended participant of a reachable
state it returns the empty list. -/
theorem C14_movement_legality :
    (∀ (g : Game) (p : Player) (pos : Pos), p.pos = some pos →
      ¬ (p.buff = some Item.WARP ∧ p.justRespawned = true) →
      (validMovesFor g p).Nodup ∧
      ∀ t : Pos, t ∈ validMovesFor g p ↔
        (0 ≤ t.x ∧ t.x < g.size ∧ 0 ≤ t.y ∧ t.y < g.size) ∧ t ∉ g.board.fire ∧
        1 ≤ manhattan pos t ∧ manhattan pos t ≤ moveBudget p) ∧
    (∀ p : Player, p.speedSteps ≠ 0 → moveBudget p = p.speedSteps) ∧
    (∀ g : Game, Reachable g → ∀ p ∈ g.players, p.isSponsor = true ∨ p.isAlive = false →
      validMovesFor g p = []) := by
  refine ⟨fun g p pos hpos hw => ⟨nodup_validMovesFor g p pos hpos hw,
    mem_validMovesFor g p pos hpos hw⟩, fun p hp => if_neg hp, ?_⟩
  rintro g ⟨room, cmds, hrun⟩ p hp hs
  have h0 : RosterOK (Game.new room).players := ⟨List.nodup_nil, fun p hp => by cases hp⟩
  have h := inv_run cmds _ g hrun h0
  exact validMovesFor_ascended g p (h.2 p hp) hs

/-- Witness for C14: the participant standing on the corner (0,0) of the 10x10 board with the
default budget 2. -/
theorem C14_movement_legality_witness :
    validMovesFor exampleNumberGame
        { Player.new "a" (utf16 "Ann") "" "" "1111" with pos := some (Pos.mk 0 0) } =
      [Pos.mk 0 1, Pos.mk 0 2, Pos.mk 1 0, Pos.mk 1 1, Pos.mk 2 0] ∧
    ((validMovesFor exampleNumberGame
        { Player.new "a" (utf16 "Ann") "" "" "1111" with pos := some (Pos.mk 0 0) }).Nodup ∧
      ∀ t : Pos, t ∈ validMovesFor exampleNumberGame
          { Player.new "a" (utf16 "Ann") "" "" "1111" with pos := some (Pos.mk 0 0) } ↔
        (0 ≤ t.x ∧ t.x < exampleNumberGame.size ∧ 0 ≤ t.y ∧ t.y < exampleNumberGame.size) ∧
        t ∉ exampleNumberGame.board.fire ∧
        1 ≤ manhattan (Pos.mk 0 0) t ∧
        manhattan (Pos.mk 0 0) t ≤
          moveBudget { Player.new "a" (utf16 "Ann") "" "" "1111" with pos := some (Pos.mk 0 0) }) :=
  ⟨by decide, C14_movement_legality.1 exampleNumberGame
    { Player.new "a" (utf16 "Ann") "" "" "1111" with pos := some (Pos.mk 0 0) } (Pos.mk 0 0) rfl
    (by decide)⟩

/-! ## C15: the respawn Warp and repeated move-to commands -/

set_option maxRecDepth 1000000 in
/-- C15 fails on the code: the participant `a`, just respawned with the Warp in the movement
phase of round 3, has the 16 ring tiles as legal set; after `moveTo(3,3)` (a ring tile) the
legal set is that tile; a second `moveTo(2,2)` is accepted although (2,2) is not a ring tile,
the legal set becomes `[(2,2)]`, and the following `startResolution` commits position (2,2). -/
theorem C15_second_move_escapes_ring :
    (run (Game.new "room") warpCommands).map (fun g => (g.phase, g.round,
        (findP g.players "a").map (fun p => (p.isAlive, p.buff, p.justRespawned)))) =
      some (Phase.movement, 3, some (true, some Item.WARP, true)) ∧
    (observe warpCommands "a").map (fun r => r.2.2) =
      some (ring16TilesCornucore (makeCornucore 10)) ∧
    observe (warpCommands ++ [Cmd.moveTo "a" 3 3]) "a" =
      some (some (Pos.mk 0 0), some (Pos.mk 3 3), [Pos.mk 3 3]) ∧
    observe (warpCommands ++ [Cmd.moveTo "a" 3 3, Cmd.moveTo "a" 2 2]) "a" =
      some (some (Pos.mk 0 0), some (Pos.mk 2 2), [Pos.mk 2 2]) ∧
    (observe (warpCommands ++ [Cmd.moveTo "a" 3 3, Cmd.moveTo "a" 2 2,
        Cmd.tick 50000 zeroOracle]) "a").map (fun r => r.1) = some (some (Pos.mk 2 2)) ∧
    Pos.mk 2 2 ∉ ring16TilesCornucore (makeCornucore 10) := by
  refine ⟨rfl, ?_⟩
  decide

/-! ## C16: reconnecting -/

theorem find?_unique (ps : List Player) (c : Player → Bool) (p : Player) (hp : p ∈ ps)
    (hc : c p = true) (hu : ∀ q ∈ ps, c q = true → q = p) : ps.find? c = some p := by
  cases hf : ps.find? c with
  | none =>
    rw [List.find?_eq_none] at hf
    exact absurd hc (hf p hp)
  | some q =>
    have h1 := List.find?_some hf
    have h2 := List.mem_of_find?_eq_some hf
    rw [hu q h2 h1]

theorem findPlayer_identified (g : Game) (p : Player) (clientId pin : String) (a : Bool)
    (hp : p ∈ g.players) (hi : IdentifiedBy g p clientId pin a) :
    findPlayerByClientOrPin g clientId pin a = some p := by
  unfold findPlayerByClientOrPin
  dsimp only
  rcases hi with ⟨ha, hc, hpc, hu⟩ | ⟨hno, hpin, hpp, hu⟩
  · have hcond : (a && clientId != "") = true := by simp [ha, hc]
    rw [if_pos hcond]
    rw [find?_unique g.players _ p hp (by simp [hpc, hc])]
    intro q hq hcq
    apply hu q hq
    cases hqc : q.clientId with
    | none => rw [hqc] at hcq; cases hcq
    | some c =>
      rw [hqc] at hcq
      simp only [Bool.and_eq_true, bne_iff_ne, ne_eq, beq_iff_eq] at hcq
      rw [hcq.2]
  · split
    · rename_i q0 q hq
      exfalso
      split_ifs at hq with hcond
      have hcq := List.find?_some hq
      have hqm := List.mem_of_find?_eq_some hq
      simp only [Bool.and_eq_true, bne_iff_ne, ne_eq] at hcond
      rcases hno with h | h | h
      · rw [h] at hcond; exact absurd hcond.1 (by decide)
      · exact hcond.2 h
      · cases hqc : q.clientId with
        | none => rw [hqc] at hcq; cases hcq
        | some c =>
          rw [hqc] at hcq
          simp only [Bool.and_eq_true, bne_iff_ne, ne_eq, beq_iff_eq] at hcq
          apply h q hqm
          rw [hqc, hcq.2]
    · have hpin2 : (pin != "") = true := by simp [hpin]
      rw [if_pos hpin2]
      apply find?_unique g.players _ p hp
      · simp [hpp, hpin]
      · intro q hq hcq
        simp only [Bool.and_eq_true, bne_iff_ne, ne_eq, beq_iff_eq] at hcq
        exact hu q hq hcq.2

theorem length_filter_ne_id (ps : List Player) (p : Player)
    (hnd : (ps.map (fun q => q.id)).Nodup) (hp : p ∈ ps) :
    (ps.filter (fun q => decide (q.id ≠ p.id))).length + 1 = ps.length := by
  induction ps with
  | nil => cases hp
  | cons a t ih =>
    rw [List.map_cons, List.nodup_cons] at hnd
    rcases List.mem_cons.mp hp with h | h
    · subst h
      have : t.filter (fun q => decide (q.id ≠ p.id)) = t := by
        rw [List.filter_eq_self]
        intro q hq
        simp only [ne_eq, decide_not, Bool.not_eq_true', decide_eq_false_iff_not]
        intro he
        exact hnd.1 (List.mem_map.mpr ⟨q, hq, he⟩)
      rw [List.filter_cons]
      simp only [ne_eq, not_true_eq_false, decide_False, Bool.false_eq_true, if_false,
        List.length_cons]
      have h2 := this
      simp only [ne_eq] at h2
      rw [h2]
    · have hne : a.id ≠ p.id := by
        intro he
        exact hnd.1 (List.mem_map.mpr ⟨p, h, he.symm⟩)
      simp only [List.filter_cons, ne_eq, hne, not_false_eq_true, decide_True, if_true,
        List.length_cons]
      have := ih hnd.2 h
      simp only [ne_eq] at this
      omega

theorem findP_append_last (ps : List Player) (p : Player)
    (h : ∀ q ∈ ps, q.id ≠ p.id) : findP (ps ++ [p]) p.id = some p := by
  unfold findP
  rw [List.find?_append]
  have : ps.find? (fun q => q.id == p.id) = none := by
    rw [List.find?_eq_none]
    intro q hq
    simp [h q hq]
  rw [this]
  simp

theorem findP_none_of_forall_ne (ps : List Player) (i : SocketId) (h : ∀ q ∈ ps, q.id ≠ i) :
    findP ps i = none := by
  unfold findP
  rw [List.find?_eq_none]
  intro q hq
  simp [h q hq]

/-- C16 as stated fails. After two joins (`Ann` on connection `s1` with pin 1111, `Bob` on
`s2`), a reconnect with Ann's pin from Bob's connection `s2` stores Ann under `s2` in Bob's
place: the roster shrinks from two participants to one. And when two participants joined
with the same token, a reconnect with that token returns the first of them, whichever of the
two is meant. -/
theorem C16_reconnect_can_drop_or_confuse :
    (run (Game.new "room")
        [Cmd.join "s1" (utf16 "Ann") "" "" "" false "1111" asciiLower,
         Cmd.join "s2" (utf16 "Bob") "" "" "" false "2222" asciiLower]).map
      (fun g => g.players.map (fun p => (p.id, p.name, p.pin))) =
      some [("s1", utf16 "Ann", "1111"), ("s2", utf16 "Bob", "2222")] ∧
    (run (Game.new "room")
        [Cmd.join "s1" (utf16 "Ann") "" "" "" false "1111" asciiLower,
         Cmd.join "s2" (utf16 "Bob") "" "" "" false "2222" asciiLower,
         Cmd.join "s2" (utf16 "") "" "" "1111" true "3333" asciiLower]).map
      (fun g => g.players.map (fun p => (p.id, p.name, p.pin))) =
      some [("s2", utf16 "Ann", "1111")] ∧
    ((run (Game.new "room")
        [Cmd.join "s1" (utf16 "Ann") "" "tok" "" false "1111" asciiLower,
         Cmd.join "s2" (utf16 "Bob") "" "tok" "" false "2222" asciiLower]).bind
      (fun g => joinOrReconnect g "s3" (utf16 "") "" "tok" "" true "3333" asciiLower)).map
      (fun r => (r.2.name, r.1.players.map (fun p => (p.id, p.name, p.clientId)))) =
      some (utf16 "Ann", [("s2", utf16 "Bob", some "tok"), ("s3", utf16 "Ann", some "tok")]) :=
  ⟨rfl, rfl, rfl⟩

/-- C16 (amended): if a participant `P` of a roster with one entry per connection id is the only
participant holding the token presented on the reconnect path, or, no participant matching the
token, the only one holding the pin presented, and the new connection id is not in use by
another participant, then `joinOrReconnect` returns `P` rebound to the new connection id, with
VP, per-round delta, kills, consumable, shield-save, seal flag, number history, position, name,
pin and life-cycle flags as before the call; the roster size is unchanged, `P` is stored under
the new connection id, and no longer under the old one when the two differ. -/
theorem C16_reconnect_round_trip (g : Game) (P : Player) (socketId : SocketId)
    (name : JSString) (color clientId pin : String) (allowClientId : Bool)
    (newPin : String) (lower : JSString → JSString)
    (hnd : (g.players.map (fun q => q.id)).Nodup) (hP : P ∈ g.players)
    (hid : IdentifiedBy g P clientId pin allowClientId)
    (hfresh : ∀ q ∈ g.players, q.id = socketId → q = P) :
    ∃ g', joinOrReconnect g socketId name color clientId pin allowClientId newPin lower =
        some (g', rebound P socketId clientId) ∧
      (rebound P socketId clientId).vp = P.vp ∧
      (rebound P socketId clientId).vpDelta = P.vpDelta ∧
      (rebound P socketId clientId).kills = P.kills ∧
      (rebound P socketId clientId).buff = P.buff ∧
      (rebound P socketId clientId).hasShield = P.hasShield ∧
      (rebound P socketId clientId).cornucopia = P.cornucopia ∧
      (rebound P socketId clientId).usedNumbers = P.usedNumbers ∧
      (rebound P socketId clientId).pos = P.pos ∧
      (rebound P socketId clientId).name = P.name ∧
      (rebound P socketId clientId).pin = P.pin ∧
      (rebound P socketId clientId).isAlive = P.isAlive ∧
      (rebound P socketId clientId).isSponsor = P.isSponsor ∧
      (rebound P socketId clientId).connected = true ∧
      g'.players.length = g.players.length ∧
      findP g'.players socketId = some (rebound P socketId clientId) ∧
      (P.id ≠ socketId → findP g'.players P.id = none) ∧
      g'.joinOrder = g.joinOrder := by
  have hfind := findPlayer_identified g P clientId pin allowClientId hP hid
  have hrest : ∀ q ∈ g.players.filter (fun q => decide (q.id ≠ P.id)), q.id ≠ socketId := by
    intro q hq he
    rw [List.mem_filter] at hq
    have := hfresh q hq.1 he
    rw [this] at hq
    simp at hq
  have hany : ¬ ((g.players.filter (fun q => decide (q.id ≠ P.id))).any
      (fun q => q.id == (rebound P socketId clientId).id) = true) := by
    intro h
    rw [List.any_eq_true] at h
    obtain ⟨q, hq, he⟩ := h
    exact hrest q hq (by simpa [rebound] using he)
  have hset : rosterSet (g.players.filter (fun q => decide (q.id ≠ P.id)))
      (rebound P socketId clientId) =
      g.players.filter (fun q => decide (q.id ≠ P.id)) ++ [rebound P socketId clientId] := by
    unfold rosterSet
    rw [if_neg hany]
  refine ⟨{ g with
      players :=
        rosterSet (g.players.filter (fun q => decide (q.id ≠ P.id)))
          (rebound P socketId clientId) }, ?_, rfl, rfl, rfl, rfl, rfl, rfl, rfl, rfl, rfl, rfl, rfl,
      rfl, rfl, ?_, ?_, ?_, rfl⟩
  · unfold joinOrReconnect
    rw [hfind]
    rfl
  · show (rosterSet _ _).length = _
    rw [hset, List.length_append, List.length_singleton]
    exact length_filter_ne_id g.players P hnd hP
  · show findP (rosterSet _ _) socketId = _
    rw [hset]
    exact findP_append_last _ (rebound P socketId clientId) hrest
  · intro hne
    show findP (rosterSet _ _) P.id = none
    rw [hset]
    apply findP_none_of_forall_ne
    intro q hq
    rcases List.mem_append.mp hq with h | h
    · rw [List.mem_filter] at h
      simpa using h.2
    · rw [List.mem_singleton] at h
      rw [h]
      exact fun he => hne he.symm

/-- Witness for C16 (amended): `annPlayer` of `exampleLobby` reconnects with her pin from the
new connection `s9`. -/
theorem C16_reconnect_round_trip_witness :
    ∃ g', joinOrReconnect exampleLobby "s9" (utf16 "") "" "" "1111" true "9999" asciiLower =
        some (g', rebound annPlayer "s9" "") ∧
      (rebound annPlayer "s9" "").vp = 7 ∧
      (rebound annPlayer "s9" "").buff = some Item.SWORD ∧
      (rebound annPlayer "s9" "").pos = some (Pos.mk 0 0) ∧
      g'.players.length = 2 ∧
      findP g'.players "s9" = some (rebound annPlayer "s9" "") :=
  have h := C16_reconnect_round_trip exampleLobby annPlayer "s9" (utf16 "") "" "" "1111" true "9999"
    asciiLower
    (by decide) (List.mem_cons_self _ _)
    (Or.inr ⟨Or.inr (Or.inl rfl), by decide, rfl, fun q hq hpin => by
      rcases List.mem_cons.mp hq with h1 | h1
      · exact h1
      · rw [List.mem_singleton] at h1
        rw [h1] at hpin
        exact absurd hpin (by decide)⟩)
    (fun q hq hqid => by
      rcases List.mem_cons.mp hq with h1 | h1
      · exact h1
      · rw [List.mem_singleton] at h1
        rw [h1] at hqid
        exact absurd hqid (by decide))
  h.imp (fun g' hg => ⟨hg.1, hg.2.1, hg.2.2.2.2.1, hg.2.2.2.2.2.2.2.2.1,
    hg.2.2.2.2.2.2.2.2.2.2.2.2.2.2.1, hg.2.2.2.2.2.2.2.2.2.2.2.2.2.2.2.1⟩)

/-! ## C19: ranking -/

theorem perm_insertStable {α : Type} (cmp : α → α → Int) (a : α) (l : List α) :
    (insertStable cmp a l).Perm (a :: l) := by
  induction l with
  | nil => exact List.Perm.refl _
  | cons b t ih =>
    unfold insertStable
    split_ifs
    · exact List.Perm.refl _
    · exact (List.Perm.cons b ih).trans (List.Perm.swap a b t)

theorem perm_sortStable {α : Type} (cmp : α → α → Int) (l : List α) :
    (sortStable cmp l).Perm l := by
  induction l with
  | nil => exact List.Perm.refl _
  | cons a t ih =>
    show (insertStable cmp a (sortStable cmp t)).Perm (a :: t)
    exact (perm_insertStable cmp a _).trans (List.Perm.cons a ih)

theorem pairwise_insertStable {α : Type} (cmp : α → α → Int)
    (htot : ∀ a b, cmp a b ≤ 0 ∨ cmp b a ≤ 0)
    (htr : ∀ a b c, cmp a b ≤ 0 → cmp b c ≤ 0 → cmp a c ≤ 0) (a : α) (l : List α)
    (hl : l.Pairwise (fun x y => cmp x y ≤ 0)) :
    (insertStable cmp a l).Pairwise (fun x y => cmp x y ≤ 0) := by
  induction l with
  | nil => exact List.pairwise_singleton _ _
  | cons b t ih =>
    unfold insertStable
    rw [List.pairwise_cons] at hl
    split_ifs with h
    · refine List.Pairwise.cons ?_ (List.Pairwise.cons hl.1 hl.2)
      intro x hx
      rcases List.mem_cons.mp hx with hx | hx
      · rw [hx]; exact h
      · exact htr a b x h (hl.1 x hx)
    · refine List.Pairwise.cons ?_ (ih hl.2)
      intro x hx
      rcases List.mem_cons.mp ((perm_insertStable cmp a t).mem_iff.mp hx) with hx | hx
      · rw [hx]
        rcases htot a b with h1 | h1
        · exact absurd h1 h
        · exact h1
      · exact hl.1 x hx

theorem pairwise_sortStable {α : Type} (cmp : α → α → Int)
    (htot : ∀ a b, cmp a b ≤ 0 ∨ cmp b a ≤ 0)
    (htr : ∀ a b c, cmp a b ≤ 0 → cmp b c ≤ 0 → cmp a c ≤ 0) (l : List α) :
    (sortStable cmp l).Pairwise (fun x y => cmp x y ≤ 0) := by
  induction l with
  | nil => exact List.Pairwise.nil
  | cons a t ih => exact pairwise_insertStable cmp htot htr a _ ih

theorem lbCmp_le_iff (o : Oracle) (a b : LbEntry) : lbCmp o a b ≤ 0 ↔ rankedBefore o a b := by
  unfold lbCmp rankedBefore
  cases ha : a.isSponsor <;> cases hb : b.isSponsor <;> simp <;> split_ifs <;> omega

theorem lbCmp_total (o : Oracle) (hc : Collation o.localeCompare) (a b : LbEntry) :
    lbCmp o a b ≤ 0 ∨ lbCmp o b a ≤ 0 := by
  rw [lbCmp_le_iff, lbCmp_le_iff]
  unfold rankedBefore
  have := hc.total a.name b.name
  cases ha : a.isSponsor <;> cases hb : b.isSponsor <;> simp <;> omega

theorem lbCmp_trans (o : Oracle) (hc : Collation o.localeCompare) (a b c : LbEntry)
    (h1 : lbCmp o a b ≤ 0) (h2 : lbCmp o b c ≤ 0) : lbCmp o a c ≤ 0 := by
  rw [lbCmp_le_iff] at h1 h2 ⊢
  unfold rankedBefore at h1 h2 ⊢
  have := hc.trans a.name b.name c.name
  cases ha : a.isSponsor <;> cases hb : b.isSponsor <;> cases hcs : c.isSponsor <;>
    simp [ha, hb, hcs] at h1 h2 ⊢ <;> omega

theorem zeroOracle_le (a b : JSString) : zeroOracle.localeCompare a b ≤ 0 ↔ a ≤ b := by
  show (if a < b then (-1 : Int) else if a = b then 0 else 1) ≤ 0 ↔ a ≤ b
  split_ifs with h1 h2
  · exact ⟨fun _ => le_of_lt h1, fun _ => by decide⟩
  · exact ⟨fun _ => le_of_eq h2, fun _ => le_refl _⟩
  · constructor
    · intro h; exact absurd h (by decide)
    · intro h
      rcases lt_or_eq_of_le h with h3 | h3
      · exact absurd h3 h1
      · exact absurd h3 h2

theorem zeroOracle_collation : Collation zeroOracle.localeCompare := by
  constructor
  · intro a b
    rw [zeroOracle_le, zeroOracle_le]
    exact le_total a b
  · intro a b c
    rw [zeroOracle_le, zeroOracle_le, zeroOracle_le]
    exact le_trans

/-- C19: when `localeCompare` is a consistent collation, `leaderboard` returns exactly one entry
per participant of the roster (a permutation of the participants' entries), ordered by VP
descending, then not Ascended before Ascended, then name ascending: every entry is ranked
before all the entries that follow it; `endGame` reports the first entry as the winner (none
for an empty roster), and the winner is ranked before every entry. In a reachable state the
entries that are not Ascended are exactly the Alive ones. -/
theorem C19_ranking (g : Game) (o : Oracle) (hc : Collation o.localeCompare) :
    (leaderboard g o).Perm (g.players.map lbEntry) ∧
    (leaderboard g o).length = g.players.length ∧
    (leaderboard g o).Pairwise (rankedBefore o) ∧
    endGameWinner g o = (leaderboard g o).head? ∧
    (endGameWinner g o = none ↔ g.players = []) ∧
    (∀ w, endGameWinner g o = some w →
      (∃ p ∈ g.players, w = lbEntry p) ∧ ∀ e ∈ leaderboard g o, rankedBefore o w e) ∧
    (Reachable g → ∀ e ∈ leaderboard g o, e.isAlive = !e.isSponsor) := by
  have hperm : (leaderboard g o).Perm (g.players.map lbEntry) := perm_sortStable _ _
  have hlen : (leaderboard g o).length = g.players.length := by
    rw [hperm.length_eq, List.length_map]
  have hsort : (leaderboard g o).Pairwise (rankedBefore o) := by
    have := pairwise_sortStable (lbCmp o) (lbCmp_total o hc) (lbCmp_trans o hc)
      (g.players.map lbEntry)
    exact this.imp (fun h => (lbCmp_le_iff o _ _).mp h)
  refine ⟨hperm, hlen, hsort, rfl, ?_, ?_, ?_⟩
  · unfold endGameWinner
    rw [List.head?_eq_none_iff, ← List.length_eq_zero, hlen, List.length_eq_zero]
  · intro w hw
    unfold endGameWinner at hw
    cases hl : leaderboard g o with
    | nil => rw [hl] at hw; cases hw
    | cons a t =>
      rw [hl] at hw hsort hperm
      injection hw with hw
      subst hw
      constructor
      · have hm : a ∈ g.players.map lbEntry := hperm.mem_iff.mp (List.mem_cons_self a t)
        obtain ⟨p, hp, rfl⟩ := List.mem_map.mp hm
        exact ⟨p, hp, rfl⟩
      · intro e he
        rcases List.mem_cons.mp he with h | h
        · rw [h]
          apply (lbCmp_le_iff o a a).mp
          rcases lbCmp_total o hc a a with h1 | h1 <;> exact h1
        · exact (List.pairwise_cons.mp hsort).1 e h
  · rintro ⟨room, cmds, hrun⟩ e he
    have h0 : RosterOK (Game.new room).players := ⟨List.nodup_nil, fun p hp => by cases hp⟩
    have h := inv_run cmds _ g hrun h0
    obtain ⟨p, hp, rfl⟩ := List.mem_map.mp (hperm.mem_iff.mp he)
    exact (h.2 p hp).1

/-- Witness for C19: the three participants of `exampleFinalGame` under code-point collation. -/
theorem C19_ranking_witness :
    leaderboard exampleFinalGame zeroOracle =
      [{ name := utf16 "Ann", vp := 7, isSponsor := false, isAlive := true },
       { name := utf16 "Bob", vp := 7, isSponsor := true, isAlive := false },
       { name := utf16 "Cy", vp := 3, isSponsor := false, isAlive := true }] ∧
    (leaderboard exampleFinalGame zeroOracle).Perm (exampleFinalGame.players.map lbEntry) ∧
    (leaderboard exampleFinalGame zeroOracle).Pairwise (rankedBefore zeroOracle) ∧
    endGameWinner exampleFinalGame zeroOracle =
      some { name := utf16 "Ann", vp := 7, isSponsor := false, isAlive := true } :=
  have h := C19_ranking exampleFinalGame zeroOracle zeroOracle_collation
  ⟨by decide, h.1, h.2.2.1, by decide⟩

/-! ## What the steps of a round leave alone -/

theorem SameRound.same (g : Game) : SameRound g g := ⟨rfl, rfl⟩

theorem SameRound.andThen {g g' g'' : Game} (h1 : SameRound g g') (h2 : SameRound g' g'') :
    SameRound g g'' := by
  constructor
  · have e : frameOf g' g''.players g''.board.buffs =
        frameOf (frameOf g g'.players g'.board.buffs) g''.players g''.board.buffs :=
      congrArg (fun x => frameOf x g''.players g''.board.buffs) h1.1
    exact h2.1.trans e
  · exact h2.2.trans h1.2

theorem SameRound.size {g g' : Game} (h : SameRound g g') : g'.size = g.size :=
  (congrArg Game.size h.1).trans rfl

theorem SameRound.cc {g g' : Game} (h : SameRound g g') : g'.cc = g.cc :=
  (congrArg Game.cc h.1).trans rfl

theorem SameRound.fire {g g' : Game} (h : SameRound g g') : g'.board.fire = g.board.fire :=
  (congrArg (fun x => x.board.fire) h.1).trans rfl

theorem SameRound.phase {g g' : Game} (h : SameRound g g') : g'.phase = g.phase :=
  (congrArg Game.phase h.1).trans rfl

theorem SameRound.round {g g' : Game} (h : SameRound g g') : g'.round = g.round :=
  (congrArg Game.round h.1).trans rfl

theorem SameRound.settings {g g' : Game} (h : SameRound g g') : g'.settings = g.settings :=
  (congrArg Game.settings h.1).trans rfl

theorem SameRound.paused {g g' : Game} (h : SameRound g g') : g'.paused = g.paused :=
  (congrArg Game.paused h.1).trans rfl

theorem SameRound.interval {g g' : Game} (h : SameRound g g') : g'.interval = g.interval :=
  (congrArg Game.interval h.1).trans rfl

theorem SameRound.timerEnd {g g' : Game} (h : SameRound g g') : g'.timerEnd = g.timerEnd :=
  (congrArg Game.timerEnd h.1).trans rfl

theorem SameRound.durations {g g' : Game} (h : SameRound g g') : g'.durations = g.durations :=
  (congrArg Game.durations h.1).trans rfl

theorem SameRound.endReason {g g' : Game} (h : SameRound g g') : g'.endReason = g.endReason :=
  (congrArg Game.endReason h.1).trans rfl

theorem SameRound.joinOrder {g g' : Game} (h : SameRound g g') : g'.joinOrder = g.joinOrder :=
  (congrArg Game.joinOrder h.1).trans rfl

theorem SameRound.length {g g' : Game} (h : SameRound g g') :
    g'.players.length = g.players.length := by
  have := congrArg List.length h.2
  rwa [List.length_map, List.length_map] at this

theorem modP_ids (ps : List Player) (id : SocketId) (f : Player → Player)
    (hf : ∀ p, (f p).id = p.id) :
    (modP ps id f).map (fun p => p.id) = ps.map (fun p => p.id) := by
  unfold modP
  rw [List.map_map]
  apply List.map_congr_left
  intro p _
  simp only [Function.comp]
  split_ifs
  · exact hf p
  · rfl

theorem map_ids (ps : List Player) (F : Player → Player) (hF : ∀ p, (F p).id = p.id) :
    (ps.map F).map (fun p => p.id) = ps.map (fun p => p.id) := by
  rw [List.map_map]
  apply List.map_congr_left
  intro p _
  exact hF p

theorem sameRound_map (g : Game) (F : Player → Player) (hF : ∀ p, (F p).id = p.id) :
    SameRound g { g with players := g.players.map F } :=
  ⟨rfl, map_ids g.players F hF⟩

theorem sameRound_modPlayer (g : Game) (id : SocketId) (f : Player → Player)
    (hf : ∀ p, (f p).id = p.id) : SameRound g (g.modPlayer id f) :=
  ⟨rfl, modP_ids g.players id f hf⟩

theorem sameRound_setBuff (g : Game) (k : Pos) (v : Item) : SameRound g (g.setBuff k v) :=
  ⟨rfl, rfl⟩

theorem sameRound_awardVP (g : Game) (pid : SocketId) (a : Int) (m : Bool) :
    SameRound g (awardVP g pid a m) := by
  rw [awardVP_eq]
  exact sameRound_map g _ (awardFun_id pid a m)

theorem sameRound_foldl {α : Type} (f : Game → α → Game) (h : ∀ g a, SameRound g (f g a))
    (l : List α) (g : Game) : SameRound g (l.foldl f g) :=
  foldl_inv (fun g' : Game => SameRound g g') f (fun b a hb => hb.andThen (h b a)) l g
    (SameRound.same g)

theorem sameRound_returnSeal (g : Game) (id : SocketId) : SameRound g (returnSeal g id) := by
  unfold returnSeal
  cases findP g.players id with
  | none => exact SameRound.same g
  | some L =>
    dsimp only
    split_ifs
    · exact (sameRound_modPlayer g id clearSeal (fun _ => rfl)).andThen (sameRound_setBuff _ _ _)
    · exact SameRound.same g

theorem sameRound_eliminate (g : Game) (id : SocketId) : SameRound g (eliminate g id) :=
  (sameRound_modPlayer g id (ascend g.round) (fun _ => rfl)).andThen (sameRound_returnSeal _ id)

theorem sameRound_eliminateNoMoves (g : Game) (id : SocketId) :
    SameRound g (eliminateNoMoves g id) :=
  ((sameRound_modPlayer g id (ascend g.round) (fun _ => rfl)).andThen
    (sameRound_returnSeal _ id)).andThen (sameRound_modPlayer _ id _ (fun _ => rfl))

theorem sameRound_loserStep (sw : Bool) (acc : LoserAcc) (l : SocketId) :
    SameRound acc.g (loserStep sw acc l).g := by
  unfold loserStep
  cases findP acc.g.players l with
  | none => exact SameRound.same _
  | some L =>
    dsimp only
    split_ifs
    · exact sameRound_modPlayer _ l consumeShield (fun _ => rfl)
    · exact sameRound_eliminate _ l

theorem sameRound_awardElimination (g : Game) (ws vs : List SocketId) :
    SameRound g (awardEliminationRenownFlat g ws vs) := by
  unfold awardEliminationRenownFlat
  dsimp only
  split_ifs
  · exact SameRound.same g
  · apply sameRound_foldl
    intro b w
    cases findP b.players w with
    | none => exact SameRound.same b
    | some _ => exact sameRound_awardVP b w _ true

theorem sameRound_combatBranch (g : Game) (ws ls : List SocketId) :
    SameRound g (combatBranch g ws ls) := by
  unfold combatBranch
  dsimp only
  have h1 : SameRound g (ls.foldl (loserStep (swordInPlay g ws))
      { g := g, victimsForVP := [], defeated := [] }).g :=
    foldl_inv (fun acc : LoserAcc => SameRound g acc.g) _
      (fun b a hb => hb.andThen (sameRound_loserStep _ b a)) ls _ (SameRound.same g)
  generalize ls.foldl (loserStep (swordInPlay g ws))
      { g := g, victimsForVP := [], defeated := [] } = acc at h1 ⊢
  generalize (if acc.victimsForVP.isEmpty then acc.defeated else acc.victimsForVP) = vs
  have h2 := h1.andThen (sameRound_awardElimination acc.g ws vs)
  by_cases hd : acc.defeated.isEmpty = true
  · rw [if_pos hd]; exact h2
  · rw [if_neg hd]
    exact h2.andThen (sameRound_foldl _
      (fun b w => sameRound_modPlayer b w (addKills _) (fun _ => rfl)) ws _)

theorem consumeEncounterBuff_id (p : Player) : (consumeEncounterBuff p).id = p.id := by
  unfold consumeEncounterBuff
  split_ifs <;> rfl

theorem sameRound_combatTile (g : Game) (ids : List SocketId) :
    SameRound g (combatTile g ids) := by
  unfold combatTile
  split_ifs
  · exact SameRound.same g
  · dsimp only
    have h1 : SameRound g (if (combatWinners g ids).length > 1 then
        combatBranch g (combatWinners g ids) (combatLosers g ids)
        else if (combatWinners g ids).length = 1 then
          combatBranch g (combatWinners g ids) (combatLosers g ids) else g) := by
      split_ifs
      · exact sameRound_combatBranch g _ _
      · exact sameRound_combatBranch g _ _
      · exact SameRound.same g
    exact h1.andThen (sameRound_foldl
      (fun (b : Game) (v : SocketId × Int) => b.modPlayer v.1 consumeEncounterBuff)
      (fun b v => sameRound_modPlayer b v.1 _ consumeEncounterBuff_id) _ _)

theorem sameRound_resolveCombats (g : Game) (byPos : List (Pos × List SocketId)) :
    SameRound g (resolveCombatsDetailed g byPos) :=
  sameRound_foldl (fun (b : Game) (e : Pos × List SocketId) => combatTile b e.2)
    (fun b e => sameRound_combatTile b e.2) byPos g

theorem sameRound_moveStep (o : Oracle) (g : Game) (id : SocketId) :
    SameRound g (moveStep o g id) := by
  unfold moveStep
  cases findP g.players id with
  | none => exact SameRound.same g
  | some p =>
    dsimp only
    by_cases h1 : (!p.isAlive || p.isSponsor || p.pos.isNone) = true
    · rw [if_pos h1]; exact SameRound.same g
    · rw [if_neg h1]
      by_cases h2 : (validMovesFor g p).isEmpty = true
      · rw [if_pos h2]; exact sameRound_eliminateNoMoves g id
      · rw [if_neg h2]
        split
        · exact sameRound_modPlayer g id _ (fun _ => rfl)
        · exact SameRound.same g

theorem sameRound_applyLoot (g : Game) (w : SocketId) (code : Item) :
    SameRound g (applyLoot g w code) := by
  unfold applyLoot
  cases code
  all_goals first
    | exact SameRound.same g
    | exact sameRound_awardVP g w _ false
    | exact sameRound_modPlayer g w _ (fun _ => rfl)

theorem sameRound_lootPickup (g : Game) (k2 : Pos) (code : Item) (w : SocketId) :
    SameRound g (lootPickup g k2 code w) := by
  unfold lootPickup
  cases findP g.players w with
  | none => exact SameRound.same g
  | some p =>
    dsimp only
    split_ifs
    · exact SameRound.same g
    · have h := sameRound_applyLoot g w code
      exact h.andThen ⟨rfl, rfl⟩

theorem sameRound_lootStep (acc : LootAcc) (e : Pos × Item) :
    SameRound acc.g (lootStep acc e).g := by
  unfold lootStep
  dsimp only
  split
  · exact SameRound.same _
  · exact sameRound_lootPickup _ _ _ _
  · split
    · exact SameRound.same _
    · exact sameRound_lootPickup _ _ _ _

theorem sameRound_fireStep (g : Game) (id : SocketId) : SameRound g (fireStep g id) := by
  unfold fireStep
  cases findP g.players id with
  | none => exact SameRound.same g
  | some p =>
    dsimp only
    split_ifs
    · exact SameRound.same g
    · cases p.pos with
      | none => exact SameRound.same g
      | some k =>
        dsimp only
        split_ifs
        · exact sameRound_eliminate g id
        · exact SameRound.same g

theorem sameRound_autoSponsor (o : Oracle) (g : Game) : SameRound g (autoSponsor o g) := by
  unfold autoSponsor
  dsimp only
  split_ifs
  · exact SameRound.same g
  · apply sameRound_foldl
    intro b s
    split
    · exact sameRound_modPlayer b s.id _ (fun _ => rfl)
    · exact SameRound.same b

theorem sameRound_endOfRoundStep (g : Game) (pid : SocketId) :
    SameRound g (endOfRoundStep g pid) := by
  rw [endOfRoundStep_eq]
  exact sameRound_map g _ (eorFun_id g pid)

theorem sameRound_awardEndOfRoundVPs (g : Game) : SameRound g (awardEndOfRoundVPs g) :=
  sameRound_foldl endOfRoundStep sameRound_endOfRoundStep _ g

theorem revealNumber_id (p : Player) : (revealNumber p).id = p.id := by
  unfold revealNumber
  cases p.selectedNumber <;> rfl

theorem consumeRespawnWarp_id (p : Player) : (consumeRespawnWarp p).id = p.id := by
  unfold consumeRespawnWarp
  split_ifs <;> rfl

/-- The state in which `startResolution` starts moving the participants. -/
theorem sameRound_resolutionUpToLoot (g : Game) (now : Int) (o : Oracle) :
    SameRound { g with timerEnd := now + g.durations.resolution, phase := Phase.resolution }
      (resolutionUpToLoot g now o).g := by
  unfold resolutionUpToLoot
  dsimp only
  have h0 : SameRound
      { g with timerEnd := now + g.durations.resolution, phase := Phase.resolution }
      { g with timerEnd := now + g.durations.resolution, phase := Phase.resolution,
               players := g.players.map revealNumber } :=
    ⟨rfl, map_ids g.players revealNumber revealNumber_id⟩
  have h1 := h0.andThen (sameRound_foldl (moveStep o) (sameRound_moveStep o)
    (({ g with timerEnd := now + g.durations.resolution, phase := Phase.resolution,
               players := g.players.map revealNumber } : Game).players.map (fun p => p.id)) _)
  exact foldl_inv
    (fun acc : LootAcc => SameRound
      { g with timerEnd := now + g.durations.resolution, phase := Phase.resolution } acc.g)
    lootStep (fun b a hb => hb.andThen (sameRound_lootStep b a)) _ _ h1

theorem startResolution_core (g : Game) (now : Int) (o : Oracle) :
    startResolution g now o =
      { resolutionCore g now o with
        timerEnd := now + (resolutionCore g now o).durations.resolution } := rfl

theorem sameRound_resolutionCore (g : Game) (now : Int) (o : Oracle) :
    SameRound { g with timerEnd := now + g.durations.resolution, phase := Phase.resolution }
      (resolutionCore g now o) := by
  have h2 := sameRound_resolutionUpToLoot g now o
  have h3 := h2.andThen (sameRound_resolveCombats _ (resolutionUpToLoot g now o).byPos)
  have h4 := h3.andThen (sameRound_foldl fireStep sameRound_fireStep
    ((resolveCombatsDetailed (resolutionUpToLoot g now o).g
      (resolutionUpToLoot g now o).byPos).players.map (fun p => p.id)) _)
  have h5 := h4.andThen (sameRound_autoSponsor o _)
  have h6 := h5.andThen (sameRound_map _ consumeRespawnWarp consumeRespawnWarp_id)
  exact h6.andThen (sameRound_awardEndOfRoundVPs _)

theorem sameRound_startResolution (g : Game) (now : Int) (o : Oracle) :
    SameRound { g with timerEnd := now + g.durations.resolution, phase := Phase.resolution }
      (startResolution g now o) := by
  have h7 := sameRound_resolutionCore g now o
  rw [startResolution_core]
  generalize resolutionCore g now o = core at h7 ⊢
  have hd : core.durations = g.durations := h7.durations
  rw [hd]
  refine ⟨?_, h7.2⟩
  exact congrArg (fun x : Game => { x with timerEnd := now + g.durations.resolution }) h7.1

theorem sameRound_respawnStep (r : Nat) (acc : RespawnAcc) (id : SocketId) :
    SameRound acc.g (respawnStep r acc id).g := by
  unfold respawnStep
  cases findP acc.g.players id with
  | none => exact SameRound.same _
  | some p =>
    dsimp only
    split_ifs
    · exact SameRound.same _
    · cases acc.shuffled.getLast? with
      | none => exact SameRound.same _
      | some spot => exact sameRound_modPlayer acc.g id _ (fun _ => rfl)
    · exact SameRound.same _

theorem sameRound_tryRespawns (g : Game) (r : Nat) (o : Oracle) :
    SameRound g (tryRespawnsForRound g r o) := by
  unfold tryRespawnsForRound
  dsimp only
  exact foldl_inv (fun acc : RespawnAcc => SameRound g acc.g) _
    (fun b a hb => hb.andThen (sameRound_respawnStep r b a)) _ _ (SameRound.same g)

theorem sameRound_advanceToNumber (g : Game) (now : Int) (o : Oracle) :
    SameRound { g with phase := Phase.number, round := g.round + 1,
                       timerEnd := now + g.durations.number }
      (advanceToNumber g now o) := by
  have h0 : SameRound { g with phase := Phase.number, round := g.round + 1 }
      { g with phase := Phase.number, round := g.round + 1,
               players := g.players.map clearRoundFlags } :=
    ⟨rfl, map_ids g.players clearRoundFlags (fun _ => rfl)⟩
  have h1 := h0.andThen (sameRound_tryRespawns _ (g.round + 1) o)
  unfold advanceToNumber
  dsimp only
  generalize tryRespawnsForRound
    { g with phase := Phase.number, round := g.round + 1,
             players := g.players.map clearRoundFlags } (g.round + 1) o = g2 at h1 ⊢
  have hd : g2.durations = g.durations := h1.durations
  have e : ({ g2 with timerEnd := now + g2.durations.number } : Game) =
      { g2 with timerEnd := now + g.durations.number } := by rw [hd]
  refine ⟨e.trans ?_, h1.2⟩
  exact (congrArg (fun x : Game => { x with timerEnd := now + g.durations.number }) h1.1).trans rfl

theorem startMovementPlayer_id (o : Oracle) (p : Player) : (startMovementPlayer o p).id = p.id :=
  (safe_startMovementPlayer o).1 p

theorem sameRound_startMovement (g : Game) (now : Int) (o : Oracle) :
    SameRound { g with phase := Phase.movement, timerEnd := now + g.durations.movement }
      (startMovement g now o) :=
  ⟨rfl, map_ids g.players (startMovementPlayer o) (startMovementPlayer_id o)⟩

/-- The seeding branch of `startRefresh`. -/
theorem startRefresh_seeding (g : Game) (now : Int) (o : Oracle) (hf : g.board.fire = []) :
    startRefresh g now o =
      if (refreshSeeds g o).length = 0 then
        endGame { refreshSeeded g o with endReason := some EndReason.fire_exhausted }
          (some EndReason.fire_exhausted) now
      else refreshBuffs (refreshSeeded g o) (occupiedTiles (refreshStart g).players) now o := by
  have hlen : g.board.fire.length = 0 := by rw [hf]; rfl
  unfold startRefresh
  dsimp only
  rw [if_pos hlen]
  rfl

/-- After `startRefresh` the session is in the refresh phase, or in gameover with the exhaustion
reason; the round counter is unchanged. -/
theorem startRefresh_phase (g : Game) (now : Int) (o : Oracle) :
    (startRefresh g now o).round = g.round ∧
    ((startRefresh g now o).phase = Phase.refresh ∨
      ((startRefresh g now o).phase = Phase.gameover ∧
        (startRefresh g now o).endReason = some EndReason.fire_exhausted)) := by
  by_cases hf : g.board.fire = []
  · rw [startRefresh_seeding g now o hf]
    split_ifs
    · exact ⟨rfl, Or.inr ⟨rfl, rfl⟩⟩
    · exact ⟨rfl, Or.inl rfl⟩
  · rw [startRefresh_expand g now o hf]
    split_ifs
    · exact ⟨rfl, Or.inr ⟨rfl, rfl⟩⟩
    · exact ⟨rfl, Or.inl rfl⟩

theorem pickSeeds_step_length (n : Int) (rnd : List Pos) : ∀ seeds : List Pos,
    seeds.length ≤ (rnd.foldl (fun seeds kk =>
      if (seeds.length : Int) ≥ n then seeds
      else if !(seeds.any (fun s => isAdj s kk)) then seeds ++ [kk]
      else seeds) seeds).length := by
  induction rnd with
  | nil => intro seeds; exact le_refl _
  | cons a t ih =>
    intro seeds
    rw [List.foldl_cons]
    refine le_trans ?_ (ih _)
    split_ifs
    · exact le_refl _
    · rw [List.length_append]; exact Nat.le_add_right _ _
    · exact le_refl _

theorem pickSeeds_ne_nil (n : Int) (rnd : List Pos) (hn : 1 ≤ n) (hr : rnd ≠ []) :
    (pickSeeds n rnd).length ≠ 0 := by
  unfold pickSeeds
  cases rnd with
  | nil => exact absurd rfl hr
  | cons a t =>
    rw [List.foldl_cons]
    have h1 : ¬ ((([] : List Pos).length : Int) ≥ n) := by
      simp only [List.length_nil, Nat.cast_zero, ge_iff_le, not_le]
      omega
    rw [if_neg h1]
    have h2 := pickSeeds_step_length n t ([] ++ [a])
    simp only [List.any_nil, Bool.not_false, if_true]
    simp only [List.nil_append, List.length_singleton] at h2 ⊢
    omega

/-! ## C17: the phase cycle -/

theorem tick_expired (g : Game) (now : Int) (o : Oracle) (hp : g.paused = false)
    (hn : now ≥ g.timerEnd) : tick g now o = advancePhase g now o := by
  unfold tick
  rw [hp]
  simp only [Bool.false_eq_true, if_false]
  rw [if_pos hn]

theorem freshBoard_of_sameRound {b g' : Game} (h : SameRound b g') (hb : FreshBoard b) :
    FreshBoard g' :=
  ⟨h.length.trans hb.players, h.size.trans hb.size, h.cc.trans hb.cc,
   (congrArg Settings.refreshEvery h.settings).trans hb.every,
   (congrArg Settings.firesPerRefresh h.settings).symm ▸ hb.fires,
   h.fire.trans hb.fire, h.paused.trans hb.paused⟩

theorem occupiedTiles_length (ps : List Player) : (occupiedTiles ps).length ≤ ps.length := by
  unfold occupiedTiles
  exact le_trans (List.length_filterMap_le _ _) (List.length_filter_le _ _)

theorem exists_not_mem_of_length_lt (l occ : List Pos) (hl : l.Nodup)
    (h : occ.length < l.length) : ∃ t ∈ l, t ∉ occ := by
  by_contra hc
  push_neg at hc
  have hsub : l ⊆ occ := fun t ht => hc t ht
  have := (List.subperm_of_subset hl hsub).length_le
  omega

theorem seedCandidates_ne_nil (g : Game) (hg : FreshBoard g) : seedCandidates g ≠ [] := by
  have hocc : (occupiedTiles (refreshStart g).players).length < 4 := by
    have h1 := occupiedTiles_length (refreshStart g).players
    have h2 : (refreshStart g).players.length = g.players.length := by
      unfold refreshStart
      exact List.length_map _ _
    rw [h2, hg.players] at h1
    omega
  obtain ⟨t, ht, hno⟩ := exists_not_mem_of_length_lt
    [Pos.mk 0 0, Pos.mk 1 0, Pos.mk 2 0, Pos.mk 3 0] _ (by decide) hocc
  have hmem : t ∈ seedCandidates g := by
    unfold seedCandidates
    rw [hg.size, hg.cc]
    simp only [List.mem_flatMap, List.mem_filterMap, mem_intsFromTo]
    simp only [List.mem_cons, List.mem_singleton, List.not_mem_nil, or_false] at ht
    refine ⟨t.y, ?_, t.x, ?_, ?_⟩
    · rcases ht with rfl | rfl | rfl | rfl <;> decide
    · rcases ht with rfl | rfl | rfl | rfl <;> decide
    · have hc : inCornucore t.x t.y (makeCornucore 10) = false := by
        rcases ht with rfl | rfl | rfl | rfl <;> decide
      rw [hc]
      simp only [Bool.false_eq_true, if_false]
      rw [if_pos (by simpa using hno)]
  intro he
  rw [he] at hmem
  cases hmem

theorem startRefresh_fresh (g : Game) (now : Int) (o : Oracle) (hg : FreshBoard g) :
    (startRefresh g now o).phase = Phase.refresh ∧ (startRefresh g now o).round = g.round := by
  have hseeds : ¬ (refreshSeeds g o).length = 0 := by
    unfold refreshSeeds
    apply pickSeeds_ne_nil
    · have := hg.fires
      omega
    · intro he
      have := congrArg List.length he
      rw [length_shuffle] at this
      exact seedCandidates_ne_nil g hg (List.length_eq_zero.mp this)
  rw [startRefresh_seeding g now o hg.fire, if_neg hseeds]
  exact ⟨rfl, rfl⟩

/-- One expired tick in the number phase. -/
theorem tick_from_number (g : Game) (d : Nat) (o : Oracle) (hg : FreshBoard g)
    (hp : g.phase = Phase.number) :
    FreshBoard (tick g (g.timerEnd + (d : Int)) o) ∧
    (tick g (g.timerEnd + (d : Int)) o).phase = Phase.movement ∧
    (tick g (g.timerEnd + (d : Int)) o).round = g.round := by
  rw [tick_expired g _ o hg.paused (by omega)]
  unfold advancePhase
  rw [hp]
  dsimp only
  have h := sameRound_startMovement g (g.timerEnd + (d : Int)) o
  exact ⟨freshBoard_of_sameRound h ⟨hg.players, hg.size, hg.cc, hg.every, hg.fires, hg.fire,
    hg.paused⟩, h.phase, h.round⟩

/-- One expired tick in the movement phase. -/
theorem tick_from_movement (g : Game) (d : Nat) (o : Oracle) (hg : FreshBoard g)
    (hp : g.phase = Phase.movement) :
    FreshBoard (tick g (g.timerEnd + (d : Int)) o) ∧
    (tick g (g.timerEnd + (d : Int)) o).phase = Phase.resolution ∧
    (tick g (g.timerEnd + (d : Int)) o).round = g.round := by
  rw [tick_expired g _ o hg.paused (by omega)]
  unfold advancePhase
  rw [hp]
  dsimp only
  have h := sameRound_startResolution g (g.timerEnd + (d : Int)) o
  exact ⟨freshBoard_of_sameRound h ⟨hg.players, hg.size, hg.cc, hg.every, hg.fires, hg.fire,
    hg.paused⟩, h.phase, h.round⟩

/-- One expired tick in the resolution phase of a round that is not a multiple of 6. -/
theorem tick_from_resolution (g : Game) (d : Nat) (o : Oracle) (hg : FreshBoard g)
    (hp : g.phase = Phase.resolution) (hr : g.round % 6 ≠ 0) :
    FreshBoard (tick g (g.timerEnd + (d : Int)) o) ∧
    (tick g (g.timerEnd + (d : Int)) o).phase = Phase.number ∧
    (tick g (g.timerEnd + (d : Int)) o).round = g.round + 1 := by
  rw [tick_expired g _ o hg.paused (by omega)]
  unfold advancePhase
  rw [hp]
  dsimp only
  have hne : ¬ ((g.round : Int) % g.settings.refreshEvery = 0) := by
    rw [hg.every]
    omega
  rw [if_neg hne]
  have h := sameRound_advanceToNumber g (g.timerEnd + (d : Int)) o
  exact ⟨freshBoard_of_sameRound h ⟨hg.players, hg.size, hg.cc, hg.every, hg.fires, hg.fire,
    hg.paused⟩, h.phase, h.round⟩

/-- One expired tick in the resolution phase of a round that is a multiple of 6. -/
theorem tick_from_resolution_six (g : Game) (d : Nat) (o : Oracle) (hg : FreshBoard g)
    (hp : g.phase = Phase.resolution) (hr : g.round % 6 = 0) :
    (tick g (g.timerEnd + (d : Int)) o).phase = Phase.refresh ∧
    (tick g (g.timerEnd + (d : Int)) o).round = g.round := by
  rw [tick_expired g _ o hg.paused (by omega)]
  unfold advancePhase
  rw [hp]
  dsimp only
  have he : (g.round : Int) % g.settings.refreshEvery = 0 := by
    rw [hg.every]
    omega
  rw [if_pos he]
  exact startRefresh_fresh g _ o hg

theorem trace_round (g : Game) (hg : FreshBoard g) (hp : g.phase = Phase.number)
    (hr : g.round % 6 ≠ 0) (t1 t2 t3 : Nat × Oracle) (rest : List (Nat × Oracle)) :
    ∃ g3, FreshBoard g3 ∧ g3.phase = Phase.number ∧ g3.round = g.round + 1 ∧
      (ticksAtDeadline g (t1 :: t2 :: t3 :: rest)).map (fun s => (s.phase, s.round)) =
        (Phase.movement, g.round) :: (Phase.resolution, g.round) ::
          (Phase.number, g.round + 1) ::
          (ticksAtDeadline g3 rest).map (fun s => (s.phase, s.round)) := by
  obtain ⟨f1, p1, r1⟩ := tick_from_number g t1.1 t1.2 hg hp
  obtain ⟨f2, p2, r2⟩ := tick_from_movement _ t2.1 t2.2 f1 p1
  obtain ⟨f3, p3, r3⟩ := tick_from_resolution _ t3.1 t3.2 f2 p2 (by rw [r2, r1]; exact hr)
  refine ⟨_, f3, p3, by rw [r3, r2, r1], ?_⟩
  simp only [ticksAtDeadline, List.map_cons]
  rw [p1, r1, p2, r2, r1, p3, r3, r2, r1]

theorem trace_sixth_round (g : Game) (hg : FreshBoard g) (hp : g.phase = Phase.number)
    (hr : g.round % 6 = 0) (t1 t2 t3 : Nat × Oracle) :
    (ticksAtDeadline g [t1, t2, t3]).map (fun s => (s.phase, s.round)) =
      [(Phase.movement, g.round), (Phase.resolution, g.round), (Phase.refresh, g.round)] := by
  obtain ⟨f1, p1, r1⟩ := tick_from_number g t1.1 t1.2 hg hp
  obtain ⟨f2, p2, r2⟩ := tick_from_movement _ t2.1 t2.2 f1 p1
  obtain ⟨p3, r3⟩ := tick_from_resolution_six _ t3.1 t3.2 f2 p2 (by rw [r2, r1]; exact hr)
  simp only [ticksAtDeadline, List.map_cons, List.map_nil]
  rw [p1, r1, p2, r2, r1, p3, r3, r2, r1]

theorem startGame_fresh (g : Game) (now : Int) (h3 : g.players.length = 3)
    (h6 : g.settings.refreshEvery = 6) (hfi : 1 ≤ g.settings.firesPerRefresh)
    (hf : g.board.fire = []) (hp : g.paused = false) :
    FreshBoard (startGame g (some 10) now) ∧ (startGame g (some 10) now).phase = Phase.number ∧
    (startGame g (some 10) now).round = 1 := by
  refine ⟨⟨h3, rfl, rfl, h6, hfi, ?_, hp⟩, rfl, rfl⟩
  show (g.board.fire.filter _) = []
  rw [hf]
  rfl

theorem exists_cons_of_length {α : Type} (l : List α) (n : Nat) (h : l.length = n + 1) :
    ∃ a t, l = a :: t ∧ t.length = n := by
  cases l with
  | nil => cases h
  | cons a t => exact ⟨a, t, rfl, Nat.succ.inj h⟩

theorem exists_three_of_length {α : Type} (l : List α) (n : Nat) (h : l.length = n + 3) :
    ∃ a b c t, l = a :: b :: c :: t ∧ t.length = n := by
  obtain ⟨a, l1, rfl, h1⟩ := exists_cons_of_length l (n + 2) h
  obtain ⟨b, l2, rfl, h2⟩ := exists_cons_of_length l1 (n + 1) h1
  obtain ⟨c, l3, rfl, h3⟩ := exists_cons_of_length l2 n h2
  exact ⟨a, b, c, l3, rfl, h3⟩

/-- The phases and rounds of the 18 expired ticks that follow a start. -/
theorem trace_six_rounds (g : Game) (hg : FreshBoard g) (hp : g.phase = Phase.number)
    (hr : g.round = 1) (ts : List (Nat × Oracle)) (hlen : ts.length = 18) :
    (ticksAtDeadline g ts).map (fun s => (s.phase, s.round)) =
      [(Phase.movement, 1), (Phase.resolution, 1), (Phase.number, 2),
       (Phase.movement, 2), (Phase.resolution, 2), (Phase.number, 3),
       (Phase.movement, 3), (Phase.resolution, 3), (Phase.number, 4),
       (Phase.movement, 4), (Phase.resolution, 4), (Phase.number, 5),
       (Phase.movement, 5), (Phase.resolution, 5), (Phase.number, 6),
       (Phase.movement, 6), (Phase.resolution, 6), (Phase.refresh, 6)] := by
  obtain ⟨a1, b1, c1, l1, rfl, hl1⟩ := exists_three_of_length ts 15 hlen
  obtain ⟨a2, b2, c2, l2, rfl, hl2⟩ := exists_three_of_length l1 12 hl1
  obtain ⟨a3, b3, c3, l3, rfl, hl3⟩ := exists_three_of_length l2 9 hl2
  obtain ⟨a4, b4, c4, l4, rfl, hl4⟩ := exists_three_of_length l3 6 hl3
  obtain ⟨a5, b5, c5, l5, rfl, hl5⟩ := exists_three_of_length l4 3 hl4
  obtain ⟨a6, b6, c6, l6, rfl, hl6⟩ := exists_three_of_length l5 0 hl5
  have hnil : l6 = [] := List.length_eq_zero.mp hl6
  subst hnil
  obtain ⟨g1, f1, p1, r1, e1⟩ := trace_round g hg hp (by rw [hr]; decide) a1 b1 c1 _
  rw [hr] at r1 e1
  obtain ⟨g2, f2, p2, r2, e2⟩ := trace_round g1 f1 p1 (by rw [r1]; decide) a2 b2 c2 _
  rw [r1] at r2 e2
  obtain ⟨g3, f3, p3, r3, e3⟩ := trace_round g2 f2 p2 (by rw [r2]; decide) a3 b3 c3 _
  rw [r2] at r3 e3
  obtain ⟨g4, f4, p4, r4, e4⟩ := trace_round g3 f3 p3 (by rw [r3]; decide) a4 b4 c4 _
  rw [r3] at r4 e4
  obtain ⟨g5, f5, p5, r5, e5⟩ := trace_round g4 f4 p4 (by rw [r4]; decide) a5 b5 c5 _
  rw [r4] at r5 e5
  have e6 := trace_sixth_round g5 f5 p5 (by rw [r5]) a6 b6 c6
  rw [r5] at e6
  rw [e1, e2, e3, e4, e5, e6]

/-- C17: from `startGame` on a 10x10 board with 3 participants, `refreshEvery = 6` and the
hazard settings of a new session (no hazard tile yet, at least one hazard tile per refresh),
18 ticks whose clock has reached the deadline take the session through number, movement and
resolution of rounds 1 to 6 in that order and then, directly after the resolution of round 6,
into refresh, which is entered at no other point. In general an expired tick of an unpaused
session runs `startRefresh` from resolution exactly when `round mod refreshEvery = 0` (leaving
the round as it is, in phase refresh, or in gameover when the hazard engine reports
exhaustion), and otherwise enters number with `round + 1`; from refresh it enters number with
`round + 1`. -/
theorem C17_phase_cycle :
    (∀ (g : Game) (now : Int) (ts : List (Nat × Oracle)),
      g.players.length = 3 → g.settings.refreshEvery = 6 → 1 ≤ g.settings.firesPerRefresh →
      g.board.fire = [] → g.paused = false → ts.length = 18 →
      (startGame g (some 10) now).size = 10 ∧
      ((startGame g (some 10) now).phase, (startGame g (some 10) now).round) =
        (Phase.number, 1) ∧
      (ticksAtDeadline (startGame g (some 10) now) ts).map (fun s => (s.phase, s.round)) =
        [(Phase.movement, 1), (Phase.resolution, 1), (Phase.number, 2),
         (Phase.movement, 2), (Phase.resolution, 2), (Phase.number, 3),
         (Phase.movement, 3), (Phase.resolution, 3), (Phase.number, 4),
         (Phase.movement, 4), (Phase.resolution, 4), (Phase.number, 5),
         (Phase.movement, 5), (Phase.resolution, 5), (Phase.number, 6),
         (Phase.movement, 6), (Phase.resolution, 6), (Phase.refresh, 6)]) ∧
    (∀ (g : Game) (now : Int) (o : Oracle), g.paused = false → now ≥ g.timerEnd →
      (g.phase = Phase.resolution → (g.round : Int) % g.settings.refreshEvery = 0 →
        tick g now o = startRefresh g now o ∧ (tick g now o).round = g.round ∧
        ((tick g now o).phase = Phase.refresh ∨
          ((tick g now o).phase = Phase.gameover ∧
            (tick g now o).endReason = some EndReason.fire_exhausted))) ∧
      (g.phase = Phase.resolution → (g.round : Int) % g.settings.refreshEvery ≠ 0 →
        (tick g now o).phase = Phase.number ∧ (tick g now o).round = g.round + 1) ∧
      (g.phase = Phase.refresh →
        (tick g now o).phase = Phase.number ∧ (tick g now o).round = g.round + 1)) := by
  constructor
  · intro g now ts h3 h6 hfi hf hp hlen
    obtain ⟨hfresh, hph, hr⟩ := startGame_fresh g now h3 h6 hfi hf hp
    refine ⟨hfresh.size, ?_, trace_six_rounds _ hfresh hph hr ts hlen⟩
    rw [hph, hr]
  · intro g now o hp hn
    rw [tick_expired g now o hp hn]
    refine ⟨fun hph hr => ?_, fun hph hr => ?_, fun hph => ?_⟩
    · have e : advancePhase g now o = startRefresh g now o := by
        unfold advancePhase
        rw [hph]
        dsimp only
        rw [if_pos hr]
      rw [e]
      exact ⟨rfl, (startRefresh_phase g now o).1, (startRefresh_phase g now o).2⟩
    · have e : advancePhase g now o = advanceToNumber g now o := by
        unfold advancePhase
        rw [hph]
        dsimp only
        rw [if_neg hr]
      rw [e]
      have h := sameRound_advanceToNumber g now o
      exact ⟨h.phase, h.round⟩
    · have e : advancePhase g now o = advanceToNumber g now o := by
        unfold advancePhase
        rw [hph]
      rw [e]
      have h := sameRound_advanceToNumber g now o
      exact ⟨h.phase, h.round⟩

/-- Witness for C17: three participants in the lobby of a new session, a start at time 0 and 18
ticks at the deadline with the zero oracle. -/
theorem C17_phase_cycle_witness :
    exampleTrioLobby.players.length = 3 ∧
    (ticksAtDeadline (startGame exampleTrioLobby (some 10) 0)
        (List.replicate 18 (0, zeroOracle))).map (fun s => (s.phase, s.round)) =
      [(Phase.movement, 1), (Phase.resolution, 1), (Phase.number, 2),
       (Phase.movement, 2), (Phase.resolution, 2), (Phase.number, 3),
       (Phase.movement, 3), (Phase.resolution, 3), (Phase.number, 4),
       (Phase.movement, 4), (Phase.resolution, 4), (Phase.number, 5),
       (Phase.movement, 5), (Phase.resolution, 5), (Phase.number, 6),
       (Phase.movement, 6), (Phase.resolution, 6), (Phase.refresh, 6)] :=
  ⟨rfl, (C17_phase_cycle.1 exampleTrioLobby 0 (List.replicate 18 (0, zeroOracle))
    rfl rfl (by decide) rfl rfl rfl).2.2⟩

/-! ## C20: the three elimination paths -/

theorem mapGet_mapSet_self (m : List (Pos × Item)) (k : Pos) (v : Item) :
    mapGet (mapSet m k v) k = some v := by
  unfold mapSet mapGet
  split_ifs with h
  · unfold mapHas at h
    induction m with
    | nil => simp at h
    | cons a t ih =>
      simp only [List.map_cons, List.find?_cons]
      by_cases ha : a.1 = k
      · simp [ha]
      · have h1 : (a.1 == k) = false := by simpa using ha
        simp only [List.any_cons, h1, Bool.false_or] at h
        simp only [ha, if_false, h1]
        exact ih h
  · unfold mapHas at h
    rw [List.find?_append]
    have : m.find? (fun e => e.1 == k) = none := by
      rw [List.find?_eq_none]
      intro e he hek
      exact h (List.any_eq_true.mpr ⟨e, he, hek⟩)
    rw [this]
    simp

theorem KeepsSeal.kept (g : Game) : KeepsSeal g g := ⟨rfl, fun h => h⟩

theorem KeepsSeal.thenKeeps {g g' g'' : Game} (h1 : KeepsSeal g g') (h2 : KeepsSeal g' g'') :
    KeepsSeal g g'' :=
  ⟨h2.1.trans h1.1, fun h => h2.2 (h1.2 h)⟩

theorem keepsSeal_of_buffs (g g' : Game) (hc : g'.cc = g.cc)
    (hb : g'.board.buffs = g.board.buffs) : KeepsSeal g g' := by
  refine ⟨hc, fun h => ?_⟩
  unfold SealAtCenter at h ⊢
  rw [hc, hb]
  exact h

theorem sealAtCenter_setBuff (g : Game) : SealAtCenter (g.setBuff g.cc.center Item.SPACETIME_SEAL) :=
  mapGet_mapSet_self _ _ _

theorem keepsSeal_returnSeal (g : Game) (id : SocketId) : KeepsSeal g (returnSeal g id) := by
  unfold returnSeal
  cases findP g.players id with
  | none => exact KeepsSeal.kept g
  | some L =>
    dsimp only
    split_ifs
    · exact ⟨rfl, fun _ => mapGet_mapSet_self _ _ _⟩
    · exact KeepsSeal.kept g

theorem keepsSeal_eliminate (g : Game) (id : SocketId) : KeepsSeal g (eliminate g id) :=
  (keepsSeal_of_buffs g (g.modPlayer id (ascend g.round)) rfl rfl).thenKeeps
    (keepsSeal_returnSeal _ id)

/-- Eliminating a holder of the Seal puts the Seal on the center tile. -/
theorem sealAtCenter_eliminate (g : Game) (l : SocketId) (L : Player)
    (hL : findP g.players l = some L) (hc : L.cornucopia = true) :
    SealAtCenter (eliminate g l) := by
  have h1 : findP (g.modPlayer l (ascend g.round)).players l = some (ascend g.round L) := by
    unfold Game.modPlayer
    dsimp only
    rw [findP_modP_self _ _ (ascend g.round) (fun _ => rfl), hL]
    rfl
  unfold eliminate returnSeal
  rw [h1]
  dsimp only
  have hc' : (ascend g.round L).cornucopia = true := hc
  rw [if_pos hc']
  exact mapGet_mapSet_self _ _ _

theorem keepsSeal_loserStep (sw : Bool) (acc : LoserAcc) (l : SocketId) :
    KeepsSeal acc.g (loserStep sw acc l).g := by
  unfold loserStep
  cases findP acc.g.players l with
  | none => exact KeepsSeal.kept _
  | some L =>
    dsimp only
    split_ifs
    · exact keepsSeal_of_buffs _ _ rfl rfl
    · exact keepsSeal_eliminate _ l

theorem keepsSeal_foldl {α : Type} (f : Game → α → Game) (h : ∀ g a, KeepsSeal g (f g a))
    (l : List α) (g : Game) : KeepsSeal g (l.foldl f g) :=
  foldl_inv (fun g' : Game => KeepsSeal g g') f (fun b a hb => hb.thenKeeps (h b a)) l g
    (KeepsSeal.kept g)

theorem keepsSeal_awardVP (g : Game) (pid : SocketId) (a : Int) (m : Bool) :
    KeepsSeal g (awardVP g pid a m) := by
  rw [awardVP_eq]
  exact keepsSeal_of_buffs _ _ rfl rfl

theorem keepsSeal_awardElimination (g : Game) (ws vs : List SocketId) :
    KeepsSeal g (awardEliminationRenownFlat g ws vs) := by
  unfold awardEliminationRenownFlat
  dsimp only
  split_ifs
  · exact KeepsSeal.kept g
  · apply keepsSeal_foldl
    intro b w
    cases findP b.players w with
    | none => exact KeepsSeal.kept b
    | some _ => exact keepsSeal_awardVP b w _ true

theorem keepsSeal_loserLoop (sw : Bool) (ls : List SocketId) (acc : LoserAcc) :
    KeepsSeal acc.g (ls.foldl (loserStep sw) acc).g :=
  foldl_inv (fun a : LoserAcc => KeepsSeal acc.g a.g) _
    (fun b a hb => hb.thenKeeps (keepsSeal_loserStep sw b a)) ls acc (KeepsSeal.kept _)

/-- The loser loop puts the Seal on the center tile when it eliminates a holder of the Seal. -/
theorem sealAtCenter_loserLoop (sw : Bool) (ls : List SocketId) :
    ∀ (acc : LoserAcc), ls.Nodup → (∀ x ∈ ls, ∃ p, findP acc.g.players x = some p) →
      ∀ l ∈ ls, ∀ L, findP acc.g.players l = some L → L.cornucopia = true →
        shieldSaved acc.g sw l = false → SealAtCenter (ls.foldl (loserStep sw) acc).g := by
  induction ls with
  | nil => intro acc _ _ l hl; cases hl
  | cons a t ih =>
    intro acc hnd hfound l hl L hL hc hsv
    obtain ⟨hat, hndt⟩ := List.nodup_cons.mp hnd
    rw [List.foldl_cons]
    obtain ⟨A, hA⟩ := hfound a (List.mem_cons_self _ _)
    obtain ⟨_, _, s3, _⟩ := loserStep_spec sw acc a A hA
    have hsame : ∀ j, j ≠ a → findP (loserStep sw acc a).g.players j = findP acc.g.players j := by
      intro j hj
      rw [s3 j]
      cases findP acc.g.players j with
      | none => rfl
      | some p => simp [hj]
    rcases List.mem_cons.mp hl with h | h
    · subst h
      have hstep : (loserStep sw acc l).g = eliminate acc.g l := by
        have hss : (!(sw && L.hasShield) && L.hasShield) = false := by
          have := hsv
          unfold shieldSaved at this
          rw [hL] at this
          exact this
        unfold loserStep
        rw [hL]
        dsimp only
        rw [hss]
        simp
      have h1 : SealAtCenter (loserStep sw acc l).g := by
        rw [hstep]
        exact sealAtCenter_eliminate acc.g l L hL hc
      exact (keepsSeal_loserLoop sw t _).2 h1
    · have hla : l ≠ a := fun he => hat (he ▸ h)
      refine ih (loserStep sw acc a) hndt ?_ l h L ((hsame l hla).trans hL) hc ?_
      · intro x hx
        have hxa : x ≠ a := fun he => hat (he ▸ hx)
        rw [hsame x hxa]
        exact hfound x (List.mem_cons_of_mem _ hx)
      · rw [shieldSaved_congr _ _ _ _ (hsame l hla)]
        exact hsv

theorem keepsSeal_combatBranch (g : Game) (ws ls : List SocketId) :
    KeepsSeal (ls.foldl (loserStep (swordInPlay g ws))
      { g := g, victimsForVP := [], defeated := [] }).g (combatBranch g ws ls) := by
  unfold combatBranch
  dsimp only
  generalize ls.foldl (loserStep (swordInPlay g ws))
      { g := g, victimsForVP := [], defeated := [] } = acc
  generalize (if acc.victimsForVP.isEmpty then acc.defeated else acc.victimsForVP) = vs
  have h2 := keepsSeal_awardElimination acc.g ws vs
  by_cases hd : acc.defeated.isEmpty = true
  · rw [if_pos hd]; exact h2
  · rw [if_neg hd]
    exact h2.thenKeeps (keepsSeal_foldl _
      (fun b w => keepsSeal_of_buffs b (b.modPlayer w (addKills _)) rfl rfl) ws _)

/-- The combat of a tile puts the Seal on the center tile when it eliminates a holder of the
Seal. -/
theorem sealAtCenter_combatTile (g : Game) (ids : List SocketId) (hs : CombatSetup g ids)
    (hlen : 2 ≤ ids.length) (l : SocketId) (hl : l ∈ defeatedLosers g ids) (L : Player)
    (hL : findP g.players l = some L) (hc : L.cornucopia = true) :
    mapGet (combatTile g ids).board.buffs g.cc.center = some Item.SPACETIME_SEAL := by
  have hsub : ∀ x ∈ combatLosers g ids, x ∈ ids := by
    intro x hx
    rw [combatLosers_eq g ids hs.found] at hx
    exact (List.mem_filter.mp hx).1
  have hnd : (combatLosers g ids).Nodup := by
    rw [combatLosers_eq g ids hs.found]
    exact hs.nodup.filter _
  have hl2 := List.mem_filter.mp hl
  have hsv : shieldSaved g (swordInPlay g (combatWinners g ids)) l = false := by
    simpa using hl2.2
  have h1 := sealAtCenter_loserLoop (swordInPlay g (combatWinners g ids)) (combatLosers g ids)
    { g := g, victimsForVP := [], defeated := [] } hnd (fun x hx => hs.found x (hsub x hx))
    l hl2.1 L hL hc hsv
  have k0 := keepsSeal_loserLoop (swordInPlay g (combatWinners g ids)) (combatLosers g ids)
    { g := g, victimsForVP := [], defeated := [] }
  have k1 := keepsSeal_combatBranch g (combatWinners g ids) (combatLosers g ids)
  have k2 : KeepsSeal (combatBranch g (combatWinners g ids) (combatLosers g ids))
      (combatTile g ids) := by
    rw [combatTile_eq g ids hs hlen]
    exact keepsSeal_foldl _
      (fun b w => keepsSeal_of_buffs b (b.modPlayer w consumeEncounterBuff) rfl rfl) ids _
  have h2 := k2.2 (k1.2 h1)
  have hcc : (combatTile g ids).cc = g.cc := k2.1.trans (k1.1.trans k0.1)
  unfold SealAtCenter at h2
  rw [hcc] at h2
  exact h2

theorem combatEffect_eliminated (g : Game) (ids : List SocketId) (l : SocketId) (c : Int)
    (L : Player) (hl : l ∈ defeatedLosers g ids) :
    (combatEffect g ids l c L).isAlive = false ∧ (combatEffect g ids l c L).isSponsor = true ∧
    (combatEffect g ids l c L).pos = none ∧
    (combatEffect g ids l c L).ascendedReturnRound = some (g.round + 2) ∧
    (combatEffect g ids l c L).cornucopia = false := by
  have hl2 := List.mem_filter.mp hl
  have hsv : shieldSaved g (swordInPlay g (combatWinners g ids)) l = false := by
    simpa using hl2.2
  have hle : loserEffect g ids l L = elimFun g.round L := by
    unfold loserEffect; rw [if_pos hl2.1, hsv]; simp
  unfold combatEffect
  rw [hle]
  unfold consumeEncounterBuff addKills addVP elimFun ascend
  dsimp only
  split_ifs <;> exact ⟨rfl, rfl, rfl, rfl, rfl⟩

/-- Combat path: a loser that is not shield-saved. -/
theorem combat_elimination (g : Game) (ids : List SocketId) (hnd : ids.Nodup)
    (hok : occupantsOK g ids = true) (hlen : 2 ≤ ids.length) (l : SocketId)
    (hl : l ∈ defeatedLosers g ids) (L : Player) (hL : findP g.players l = some L) :
    ∃ L', findP (combatTile g ids).players l = some L' ∧
      L'.isAlive = false ∧ L'.isSponsor = true ∧ L'.pos = none ∧
      L'.ascendedReturnRound = some (g.round + 2) ∧ L'.cornucopia = false ∧
      (L.cornucopia = true →
        mapGet (combatTile g ids).board.buffs g.cc.center = some Item.SPACETIME_SEAL) := by
  have hs := combatSetup_of_ok g ids hnd hok
  obtain ⟨c, hc⟩ := combatTile_find g ids hs hlen l
  rw [hL] at hc
  obtain ⟨f1, f2, f3, f4, f5⟩ := combatEffect_eliminated g ids l c L hl
  exact ⟨_, hc, f1, f2, f3, f4, f5,
    fun hcorn => sealAtCenter_combatTile g ids hs hlen l hl L hL hcorn⟩

/-- Hazard path: `fireStep` on an Alive participant standing on a hazard tile, shielded or
not. -/
theorem fire_elimination (g : Game) (id : SocketId) (p : Player) (k : Pos)
    (hp : findP g.players id = some p) (ha : p.isAlive = true) (hs : p.isSponsor = false)
    (hpos : p.pos = some k) (hk : k ∈ g.board.fire) :
    ∃ p', findP (fireStep g id).players id = some p' ∧
      p'.isAlive = false ∧ p'.isSponsor = true ∧ p'.pos = none ∧
      p'.ascendedReturnRound = some (g.round + 2) ∧ p'.cornucopia = false ∧
      (p.cornucopia = true →
        mapGet (fireStep g id).board.buffs g.cc.center = some Item.SPACETIME_SEAL) := by
  have he : fireStep g id = eliminate g id := by
    unfold fireStep
    rw [hp]
    dsimp only
    rw [ha, hs, hpos]
    simp only [Bool.not_true, Bool.or_self, Bool.false_eq_true, if_false]
    rw [if_pos hk]
  have hfind : findP (eliminate g id).players id = some (elimFun g.round p) := by
    rw [eliminate_find g id p hp id, hp]
    simp
  rw [he, hfind]
  refine ⟨_, rfl, rfl, rfl, rfl, rfl, rfl, fun hc => ?_⟩
  have h := sealAtCenter_eliminate g id p hp hc
  unfold SealAtCenter at h
  rw [(keepsSeal_eliminate g id).1] at h
  exact h

/-- No-legal-move path: `moveStep` on an Alive positioned participant with no legal move. -/
theorem noMoves_elimination (o : Oracle) (g : Game) (id : SocketId) (p : Player) (k : Pos)
    (hp : findP g.players id = some p) (ha : p.isAlive = true) (hs : p.isSponsor = false)
    (hpos : p.pos = some k) (hlegal : validMovesFor g p = []) :
    ∃ p', findP (moveStep o g id).players id = some p' ∧
      p'.isAlive = false ∧ p'.isSponsor = true ∧ p'.pos = none ∧
      p'.ascendedReturnRound = some (g.round + 2) ∧ p'.cornucopia = false ∧
      (p.cornucopia = true →
        mapGet (moveStep o g id).board.buffs g.cc.center = some Item.SPACETIME_SEAL) := by
  have he : moveStep o g id = eliminateNoMoves g id := by
    unfold moveStep
    rw [hp]
    dsimp only
    rw [ha, hs, hpos, hlegal]
    simp
  have hfind : findP (eliminateNoMoves g id).players id =
      some { elimFun g.round p with vpDelta := 0 } := by
    show findP ((eliminate g id).modPlayer id (fun q => { q with vpDelta := 0 })).players id = _
    unfold Game.modPlayer
    dsimp only
    rw [findP_modP_self _ _ (fun q => { q with vpDelta := 0 }) (fun _ => rfl),
      eliminate_find g id p hp id, hp]
    simp
  rw [he, hfind]
  refine ⟨_, rfl, rfl, rfl, rfl, rfl, rfl, fun hc => ?_⟩
  have h := sealAtCenter_eliminate g id p hp hc
  unfold SealAtCenter at h
  rw [(keepsSeal_eliminate g id).1] at h
  exact h

theorem fireFun_congr (g g' : Game) (hf : g'.board.fire = g.board.fire)
    (hr : g'.round = g.round) : fireFun g' = fireFun g := by
  funext p
  unfold fireFun
  rw [hf, hr]

theorem fireStep_find (g : Game) (id j : SocketId) :
    findP (fireStep g id).players j =
      (findP g.players j).map (fun p => if j = id then fireFun g p else p) := by
  have hid : ∀ (o : Option Player), o.map (fun p => if j = id then p else p) = o := by
    intro o; cases o <;> simp
  unfold fireStep
  cases hp : findP g.players id with
  | none =>
    dsimp only
    by_cases hj : j = id
    · subst hj; rw [hp]; rfl
    · cases findP g.players j with
      | none => rfl
      | some q => simp [hj]
  | some p =>
    dsimp only
    have hkeep : ∀ (hno : fireFun g p = p), findP g.players j =
        (findP g.players j).map (fun q => if j = id then fireFun g q else q) := by
      intro hno
      by_cases hj : j = id
      · subst hj; rw [hp]; simp [hno]
      · cases findP g.players j with
        | none => rfl
        | some q => simp [hj]
    by_cases h1 : (!p.isAlive || p.isSponsor) = true
    · rw [if_pos h1]
      apply hkeep
      unfold fireFun
      rw [if_neg]
      rintro ⟨h2, _⟩
      cases ha : p.isAlive <;> cases hs : p.isSponsor <;> simp [ha, hs] at h1 h2
    · rw [if_neg h1]
      cases hpos : p.pos with
      | none =>
        dsimp only
        apply hkeep
        unfold fireFun
        rw [if_neg]
        rintro ⟨_, k, hk, _⟩
        rw [hpos] at hk
        cases hk
      | some k =>
        dsimp only
        by_cases hk : k ∈ g.board.fire
        · rw [if_pos hk, eliminate_find g id p hp j]
          have hyes : fireFun g p = elimFun g.round p := by
            unfold fireFun
            rw [if_pos]
            refine ⟨?_, k, hpos, hk⟩
            cases ha : p.isAlive <;> cases hs : p.isSponsor <;> simp [ha, hs] at h1 ⊢
          by_cases hj : j = id
          · subst hj; rw [hp]; simp [hyes]
          · cases findP g.players j with
            | none => rfl
            | some q => simp [hj]
        · rw [if_neg hk]
          apply hkeep
          unfold fireFun
          rw [if_neg]
          rintro ⟨_, k', hk', hk2⟩
          rw [hpos] at hk'
          injection hk' with hk'
          exact hk (hk' ▸ hk2)

theorem fireLoop_find (ids : List SocketId) (hnd : ids.Nodup) : ∀ (g : Game) (j : SocketId),
    findP (ids.foldl fireStep g).players j =
      (findP g.players j).map (fun p => if j ∈ ids then fireFun g p else p) := by
  induction ids with
  | nil => intro g j; simp
  | cons a t ih =>
    intro g j
    obtain ⟨hat, hndt⟩ := List.nodup_cons.mp hnd
    have hsr := sameRound_fireStep g a
    rw [List.foldl_cons, ih hndt, fireStep_find, fireFun_congr g (fireStep g a) hsr.fire hsr.round]
    cases findP g.players j with
    | none => rfl
    | some p =>
      simp only [Option.map_some', List.mem_cons]
      by_cases hja : j = a
      · subst hja
        simp [hat]
      · simp [hja]

/-- After the hazard check no Alive participant stands on a hazard tile. -/
theorem fireLoop_clears (g : Game) (hnd : (g.players.map (fun p => p.id)).Nodup) :
    ∀ p' ∈ ((g.players.map (fun p => p.id)).foldl fireStep g).players,
      ¬ AliveOnHazard ((g.players.map (fun p => p.id)).foldl fireStep g) p' := by
  intro p' hp'
  have hsr := sameRound_foldl fireStep sameRound_fireStep (g.players.map (fun p => p.id)) g
  have hnd' : (((g.players.map (fun p => p.id)).foldl fireStep g).players.map
      (fun p => p.id)).Nodup := by
    rw [hsr.2]; exact hnd
  have h1 := findP_of_mem_nodup _ p' hnd' hp'
  rw [fireLoop_find _ hnd g p'.id] at h1
  have hmem : p'.id ∈ g.players.map (fun p => p.id) := by
    rw [← hsr.2]
    exact List.mem_map_of_mem (fun p => p.id) hp'
  cases hq : findP g.players p'.id with
  | none => rw [hq] at h1; cases h1
  | some q =>
    rw [hq] at h1
    simp only [Option.map_some', hmem, if_true, Option.some.injEq] at h1
    rintro ⟨ha, hs, k, hk, hkf⟩
    rw [hsr.fire] at hkf
    rw [← h1] at ha hs hk
    unfold fireFun at ha hs hk
    split_ifs at ha hs hk with hc
    · cases ha
    · apply hc
      refine ⟨?_, k, hk, hkf⟩
      rw [ha, hs]
      rfl

theorem SameLife.alike (g : Game) : SameLife g g :=
  ⟨rfl, fun p hp => ⟨p, hp, rfl, rfl, rfl⟩⟩

theorem SameLife.thenLife {g g' g'' : Game} (h1 : SameLife g g') (h2 : SameLife g' g'') :
    SameLife g g'' := by
  refine ⟨h2.1.trans h1.1, fun p'' hp'' => ?_⟩
  obtain ⟨p', hp', a1, a2, a3⟩ := h2.2 p'' hp''
  obtain ⟨p, hp, b1, b2, b3⟩ := h1.2 p' hp'
  exact ⟨p, hp, a1.trans b1, a2.trans b2, a3.trans b3⟩

theorem sameLife_map (g : Game) (F : Player → Player) (hF : KeepsLife F) :
    SameLife g { g with players := g.players.map F } := by
  refine ⟨rfl, fun p' hp' => ?_⟩
  obtain ⟨p, hp, rfl⟩ := List.mem_map.mp hp'
  exact ⟨p, hp, hF p⟩

theorem sameLife_modPlayer (g : Game) (id : SocketId) (f : Player → Player) (hf : KeepsLife f) :
    SameLife g (g.modPlayer id f) := by
  refine ⟨rfl, fun p' hp' => ?_⟩
  obtain ⟨p, hp, rfl⟩ := List.mem_map.mp hp'
  refine ⟨p, hp, ?_⟩
  split_ifs
  · exact hf p
  · exact ⟨rfl, rfl, rfl⟩

theorem sameLife_foldl {α : Type} (f : Game → α → Game) (h : ∀ g a, SameLife g (f g a))
    (l : List α) (g : Game) : SameLife g (l.foldl f g) :=
  foldl_inv (fun g' : Game => SameLife g g') f (fun b a hb => hb.thenLife (h b a)) l g
    (SameLife.alike g)

theorem keepsLife_awardFun (pid : SocketId) (a : Int) (m : Bool) : KeepsLife (awardFun pid a m) := by
  intro p
  obtain ⟨c, hc⟩ := awardFun_addVP pid a m p
  rw [hc]
  exact ⟨rfl, rfl, rfl⟩

theorem keepsLife_eorFun (g : Game) (pid : SocketId) : KeepsLife (eorFun g pid) := by
  intro x
  have ka : ∀ (a : Int) (m : Bool) (y : Player), (awardFun pid a m y).isAlive = y.isAlive :=
    fun a m y => (keepsLife_awardFun pid a m y).1
  have ks : ∀ (a : Int) (m : Bool) (y : Player), (awardFun pid a m y).isSponsor = y.isSponsor :=
    fun a m y => (keepsLife_awardFun pid a m y).2.1
  have kp : ∀ (a : Int) (m : Bool) (y : Player), (awardFun pid a m y).pos = y.pos :=
    fun a m y => (keepsLife_awardFun pid a m y).2.2
  unfold eorFun
  cases findP g.players pid with
  | none => exact ⟨rfl, rfl, rfl⟩
  | some p =>
    dsimp only
    cases p.pos with
    | none =>
      dsimp only
      split_ifs <;> simp only [ka, ks, kp, and_self]
    | some q =>
      dsimp only
      split_ifs <;> simp only [ka, ks, kp, and_self]

theorem sameLife_autoSponsor (o : Oracle) (g : Game) : SameLife g (autoSponsor o g) := by
  unfold autoSponsor
  dsimp only
  split_ifs
  · exact SameLife.alike g
  · apply sameLife_foldl
    intro b s
    split
    · exact sameLife_modPlayer b s.id _ (fun _ => ⟨rfl, rfl, rfl⟩)
    · exact SameLife.alike b

theorem keepsLife_consumeRespawnWarp : KeepsLife consumeRespawnWarp := by
  intro p
  unfold consumeRespawnWarp
  split_ifs <;> exact ⟨rfl, rfl, rfl⟩

theorem sameLife_awardEndOfRoundVPs (g : Game) : SameLife g (awardEndOfRoundVPs g) := by
  unfold awardEndOfRoundVPs
  apply sameLife_foldl
  intro b pid
  rw [endOfRoundStep_eq]
  exact sameLife_map b _ (keepsLife_eorFun b pid)

theorem not_aliveOnHazard_of_sameLife {g g' : Game} (h : SameLife g g')
    (hg : ∀ p ∈ g.players, ¬ AliveOnHazard g p) : ∀ p' ∈ g'.players, ¬ AliveOnHazard g' p' := by
  intro p' hp'
  obtain ⟨p, hp, a1, a2, a3⟩ := h.2 p' hp'
  rintro ⟨ha, hs, k, hk, hkf⟩
  refine hg p hp ⟨a1 ▸ ha, a2 ▸ hs, k, a3 ▸ hk, ?_⟩
  rw [← h.1]
  exact hkf

theorem aliveOnHazard_timer (g : Game) (t : Int) (p : Player) :
    AliveOnHazard { g with timerEnd := t } p ↔ AliveOnHazard g p := Iff.rfl

/-- After `startResolution` no Alive participant stands on a hazard tile. -/
theorem startResolution_clears (g : Game) (now : Int) (o : Oracle)
    (hnd : (g.players.map (fun p => p.id)).Nodup) :
    ∀ p ∈ (startResolution g now o).players, ¬ AliveOnHazard (startResolution g now o) p := by
  have h2 := sameRound_resolutionUpToLoot g now o
  have h3 := h2.andThen (sameRound_resolveCombats _ (resolutionUpToLoot g now o).byPos)
  rw [startResolution_core]
  unfold resolutionCore
  dsimp only
  generalize resolveCombatsDetailed (resolutionUpToLoot g now o).g
    (resolutionUpToLoot g now o).byPos = g3 at h3 ⊢
  have hnd3 : (g3.players.map (fun p => p.id)).Nodup := by
    rw [h3.2]; exact hnd
  have h4 := fireLoop_clears g3 hnd3
  generalize (g3.players.map (fun p => p.id)).foldl fireStep g3 = g4 at h4 ⊢
  have l5 := sameLife_autoSponsor o g4
  generalize autoSponsor o g4 = g5 at l5 ⊢
  have l6 := l5.thenLife (sameLife_map g5 consumeRespawnWarp keepsLife_consumeRespawnWarp)
  have l7 := l6.thenLife (sameLife_awardEndOfRoundVPs _)
  have h7 := not_aliveOnHazard_of_sameLife l7 h4
  generalize awardEndOfRoundVPs { g5 with players := g5.players.map consumeRespawnWarp } = g7
    at h7 ⊢
  intro p hp
  rw [aliveOnHazard_timer]
  exact h7 p hp

/-- C20: on each of the three elimination paths of a resolution (a combat loser that is not
shield-saved, in the combat of a tile of at least two positioned Alive participants; an Alive
participant standing on a hazard tile at the hazard check, shielded or not; an Alive positioned
participant without a legal move when movement is applied) the participant becomes Ascended
(not Alive, no position) with respawn due-round `round + 2` and a cleared seal flag, and if
they held the Seal, the Seal is on the center tile afterwards. After `startResolution`, from a
roster with one entry per id (as in every reachable state), no Alive participant stands on a
hazard tile. -/
theorem C20_elimination_effects :
    (∀ (g : Game) (ids : List SocketId), ids.Nodup → occupantsOK g ids = true →
      2 ≤ ids.length → ∀ l ∈ defeatedLosers g ids, ∀ L, findP g.players l = some L →
      ∃ L', findP (combatTile g ids).players l = some L' ∧
        L'.isAlive = false ∧ L'.isSponsor = true ∧ L'.pos = none ∧
        L'.ascendedReturnRound = some (g.round + 2) ∧ L'.cornucopia = false ∧
        (L.cornucopia = true →
          mapGet (combatTile g ids).board.buffs g.cc.center = some Item.SPACETIME_SEAL)) ∧
    (∀ (g : Game) (id : SocketId) (p : Player) (k : Pos), findP g.players id = some p →
      p.isAlive = true → p.isSponsor = false → p.pos = some k → k ∈ g.board.fire →
      ∃ p', findP (fireStep g id).players id = some p' ∧
        p'.isAlive = false ∧ p'.isSponsor = true ∧ p'.pos = none ∧
        p'.ascendedReturnRound = some (g.round + 2) ∧ p'.cornucopia = false ∧
        (p.cornucopia = true →
          mapGet (fireStep g id).board.buffs g.cc.center = some Item.SPACETIME_SEAL)) ∧
    (∀ (o : Oracle) (g : Game) (id : SocketId) (p : Player) (k : Pos),
      findP g.players id = some p → p.isAlive = true → p.isSponsor = false →
      p.pos = some k → validMovesFor g p = [] →
      ∃ p', findP (moveStep o g id).players id = some p' ∧
        p'.isAlive = false ∧ p'.isSponsor = true ∧ p'.pos = none ∧
        p'.ascendedReturnRound = some (g.round + 2) ∧ p'.cornucopia = false ∧
        (p.cornucopia = true →
          mapGet (moveStep o g id).board.buffs g.cc.center = some Item.SPACETIME_SEAL)) ∧
    (∀ (g : Game) (now : Int) (o : Oracle),
      (Reachable g ∨ (g.players.map (fun p => p.id)).Nodup) →
      ∀ p ∈ (startResolution g now o).players,
        ¬ (p.isAlive = true ∧ p.isSponsor = false ∧
          ∃ k, p.pos = some k ∧ k ∈ (startResolution g now o).board.fire)) := by
  refine ⟨fun g ids hnd hok hlen l hl L hL => combat_elimination g ids hnd hok hlen l hl L hL,
    fun g id p k hp ha hs hpos hk => fire_elimination g id p k hp ha hs hpos hk,
    fun o g id p k hp ha hs hpos hl => noMoves_elimination o g id p k hp ha hs hpos hl, ?_⟩
  intro g now o hg
  have hnd : (g.players.map (fun p => p.id)).Nodup := by
    rcases hg with ⟨room, cmds, hrun⟩ | h
    · have h0 : RosterOK (Game.new room).players := ⟨List.nodup_nil, fun p hp => by cases hp⟩
      exact (inv_run cmds _ g hrun h0).1
    · exact h
  exact startResolution_clears g now o hnd

set_option maxRecDepth 100000 in
/-- Witness for C20: the shielded holder of the Seal standing on the hazard tile (2,2) of
`exampleBurningGame` at the hazard check of round 4. -/
theorem C20_elimination_effects_witness :
    ∃ p', findP (fireStep exampleBurningGame "a").players "a" = some p' ∧
      p'.isAlive = false ∧ p'.isSponsor = true ∧ p'.pos = none ∧
      p'.ascendedReturnRound = some (4 + 2) ∧ p'.cornucopia = false ∧
      (true = true →
        mapGet (fireStep exampleBurningGame "a").board.buffs (Pos.mk 5 5) =
          some Item.SPACETIME_SEAL) :=
  C20_elimination_effects.2.1 exampleBurningGame "a"
    { Player.new "a" (utf16 "Ann") "" "" "1111" with
      pos := some (Pos.mk 2 2), buff := some Item.SHIELD, hasShield := true, cornucopia := true }
    (Pos.mk 2 2) rfl rfl rfl rfl (by decide)

/-- C22. Forced and natural advancement agree: in an unpaused state whose deadline has been
reached (`now ≥ timerEnd`), the host-end-round handler yields exactly the state `tick()` yields,
for the same clock and the same random choices, and so does the timer tick while the ticker is
installed; in pregame and gameover the handler, `tick()` and the timer tick all leave the whole
state, and with it the phase, as it was, whatever the clock and the pause flag. -/
theorem C22_forced_equals_natural (g : Game) (now : Int) (o : Oracle) :
    (g.paused = false → now ≥ g.timerEnd →
      step g (Cmd.hostEndRound now o) = some (tick g now o) ∧
      (g.interval = true → step g (Cmd.tick now o) = step g (Cmd.hostEndRound now o))) ∧
    ((g.phase = Phase.pregame ∨ g.phase = Phase.gameover) →
      step g (Cmd.hostEndRound now o) = some g ∧ tick g now o = g ∧
      step g (Cmd.tick now o) = some g) := by
  have hs : step g (Cmd.hostEndRound now o) = some (advancePhase g now o) := rfl
  constructor
  · intro hp hd
    have ht : tick g now o = advancePhase g now o := by
      unfold tick
      rw [hp]
      simp only [Bool.false_eq_true, if_false]
      rw [if_pos hd]
    refine ⟨by rw [hs, ht], ?_⟩
    intro hi
    show some (if g.interval then tick g now o else g) = some (advancePhase g now o)
    rw [hi, if_pos rfl, ht]
  · intro hph
    have ha : advancePhase g now o = g := by
      unfold advancePhase
      rcases hph with h | h <;> rw [h]
    have ht : tick g now o = g := by
      unfold tick
      rw [ha]
      simp
    refine ⟨by rw [hs, ha], ht, ?_⟩
    show some (if g.interval then tick g now o else g) = some g
    rw [ht]
    simp

theorem C22_forced_equals_natural_witness :
    exampleHazardGame.paused = false ∧ (0 : Int) ≥ exampleHazardGame.timerEnd ∧
    step exampleHazardGame (Cmd.hostEndRound 0 zeroOracle)
      = some (tick exampleHazardGame 0 zeroOracle) :=
  ⟨rfl, by decide,
    ((C22_forced_equals_natural exampleHazardGame 0 zeroOracle).1 rfl (by decide)).1⟩

theorem awardFun_gain (pid : SocketId) (a : Int) (m : Bool) (x : Player) :
    awardFun pid a m x = addVP ((if x.id = pid then a else 0) +
      (if m = true ∧ x.isSponsor = true ∧ x.sponsorTargetId = some pid then a else 0)) x := by
  unfold awardFun
  cases m
  · by_cases h1 : x.id = pid
    · simp [h1]
    · simp [h1, addVP_zero]
  · by_cases h1 : x.id = pid
    · by_cases h2 : x.isSponsor = true ∧ x.sponsorTargetId = some pid
      · simp [h1, h2, addVP, add_assoc]
      · have h2' : ¬ (x.isSponsor = true ∧ x.sponsorTargetId = some x.id) := h1 ▸ h2
        simp only [h1, if_true, true_and, h2, if_false, add_zero]
        have : ((addVP a x).isSponsor && (addVP a x).sponsorTargetId == some pid) = false := by
          show (x.isSponsor && x.sponsorTargetId == some pid) = false
          rcases not_and_or.mp h2 with h | h
          · simp [h]
          · simp [h]
        rw [this]
        rfl
    · by_cases h2 : x.isSponsor = true ∧ x.sponsorTargetId = some pid
      · simp [h1, h2]
      · simp only [h1, if_false, true_and, h2, add_zero, addVP_zero]
        have : (x.isSponsor && x.sponsorTargetId == some pid) = false := by
          rcases not_and_or.mp h2 with h | h
          · simp [h]
          · simp [h]
        rw [this]
        rfl

/-- C25. The VP primitive. `awardVP(p, a, mirror)` replaces the roster by the one in which every
entry `x` has `a` added to its VP and per-round delta once if `x` is stored under the id of `p`,
and once more if mirroring is on and `x` is Ascended (`isSponsor`) with sponsor target `p`; every
other field of every entry and every other field of the session is as before. So with mirroring
suppressed only the entry of `p` changes, and an entry that is not `p` and does not target `p`
itself (a sponsor of a sponsor of `p`, say) is unchanged: mirroring is one level deep. -/
theorem C25_award_vp_primitive (g : Game) (pid : SocketId) (a : Int) (m : Bool) :
    awardVP g pid a m = { g with players := g.players.map (fun x =>
      { x with
        vp := x.vp + ((if x.id = pid then a else 0) +
          (if m = true ∧ x.isSponsor = true ∧ x.sponsorTargetId = some pid then a else 0)),
        vpDelta := x.vpDelta + ((if x.id = pid then a else 0) +
          (if m = true ∧ x.isSponsor = true ∧ x.sponsorTargetId = some pid then a else 0)) }) } ∧
    (awardVP g pid a false).players
      = g.players.map (fun x => if x.id = pid then addVP a x else x) ∧
    (∀ x ∈ g.players, x.id ≠ pid → x.sponsorTargetId ≠ some pid →
      awardFun pid a m x = x ∧ x ∈ (awardVP g pid a m).players) := by
  refine ⟨?_, ?_, ?_⟩
  · rw [awardVP_eq]
    have : awardFun pid a m = (fun x => { x with
        vp := x.vp + ((if x.id = pid then a else 0) +
          (if m = true ∧ x.isSponsor = true ∧ x.sponsorTargetId = some pid then a else 0)),
        vpDelta := x.vpDelta + ((if x.id = pid then a else 0) +
          (if m = true ∧ x.isSponsor = true ∧ x.sponsorTargetId = some pid then a else 0)) }) := by
      funext x
      rw [awardFun_gain]
      rfl
    rw [this]
  · rfl
  · intro x hx h1 h2
    have e : awardFun pid a m x = x := awardFun_other pid a m x h1 (Or.inr h2)
    refine ⟨e, ?_⟩
    rw [awardVP_players]
    exact List.mem_map.mpr ⟨x, hx, e⟩

/-- C23, counterexample. After `ascendedCommands` participant `a` is Ascended and sponsors `b`;
no participant is stored under `zz`. A `sponsorPick` by `a` with the unknown id `zz` replaces the
sponsor target by `zz`, and one with the caller's own id replaces it by `a`: neither pick is
ignored. -/
theorem C23_sponsor_pick_unvalidated :
    sponsorView ascendedCommands "a" = some (true, some "b") ∧
    sponsorView ascendedCommands "zz" = none ∧
    sponsorView (ascendedCommands ++ [Cmd.sponsorPick "a" (some "zz")]) "a"
      = some (true, some "zz") ∧
    sponsorView (ascendedCommands ++ [Cmd.sponsorPick "a" (some "a")]) "a"
      = some (true, some "a") := by
  decide

/-- C23, amended. `sponsorPick(socketId, targetId)` by an Ascended caller stores the id sent as
the caller's sponsor target (no target when the id is absent or empty), whether or not it is the
id of an Alive participant other than the caller, and changes nothing else: every other field of
the caller, every other participant and every other field of the session is as before. A pick by
a caller who is unknown or not Ascended leaves the state unchanged. -/
theorem C23_sponsor_pick_effect (g : Game) (socketId : SocketId) (targetId : Option SocketId)
    (s : Player) (hs : findP g.players socketId = some s) :
    (s.isSponsor = true →
      sponsorPick g socketId targetId = { g with players := g.players.map (fun q =>
        if q.id = socketId
        then { q with sponsorTargetId := if noTarget targetId then none else targetId }
        else q) } ∧
      findP (sponsorPick g socketId targetId).players socketId
        = some { s with sponsorTargetId := if noTarget targetId then none else targetId } ∧
      ∀ j, j ≠ socketId →
        findP (sponsorPick g socketId targetId).players j = findP g.players j) ∧
    (s.isSponsor = false → sponsorPick g socketId targetId = g) ∧
    (∀ unknown, findP g.players unknown = none → sponsorPick g unknown targetId = g) := by
  refine ⟨?_, ?_, ?_⟩
  · intro hsp
    have e : sponsorPick g socketId targetId = g.modPlayer socketId
        (fun q => { q with sponsorTargetId := if noTarget targetId then none else targetId }) := by
      unfold sponsorPick
      rw [hs]
      simp [hsp]
    refine ⟨e, ?_, ?_⟩
    · rw [e]
      exact (findP_modP_self g.players socketId
        (fun q => { q with sponsorTargetId := if noTarget targetId then none else targetId })
        (fun _ => rfl)).trans (by rw [hs]; rfl)
    · intro j hj
      rw [e]
      exact findP_modP_ne g.players socketId j
        (fun q => { q with sponsorTargetId := if noTarget targetId then none else targetId })
        (fun _ => rfl) hj
  · intro hsp
    unfold sponsorPick
    rw [hs]
    simp [hsp]
  · intro u hu
    unfold sponsorPick
    rw [hu]

set_option maxRecDepth 100000 in
theorem C23_sponsor_pick_effect_witness :
    findP exampleSanctumGame.players exampleSponsor.id = some exampleSponsor ∧
    exampleSponsor.isSponsor = true ∧
    findP (sponsorPick exampleSanctumGame exampleSponsor.id (some "zz")).players exampleSponsor.id
      = some { exampleSponsor with sponsorTargetId := some "zz" } :=
  ⟨by decide, rfl,
    ((C23_sponsor_pick_effect exampleSanctumGame exampleSponsor.id (some "zz") exampleSponsor
      (by decide)).1 rfl).2.1⟩

theorem requestLegalMoves_state (g : Game) (socketId : SocketId) :
    (requestLegalMoves g socketId).1 = g := by
  unfold requestLegalMoves
  cases findP g.players socketId <;> rfl

/-- C27. Legal-move query idempotence: a legal-move query leaves the session, and with it every
participant record, exactly as it found it, so a second query directly after the first emits the
same tiles, and so does every one of `n` consecutive queries. -/
theorem C27_legal_move_query_idempotent (g : Game) (socketId : SocketId) :
    (requestLegalMoves g socketId).1 = g ∧
    (requestLegalMoves (requestLegalMoves g socketId).1 socketId).2
      = (requestLegalMoves g socketId).2 ∧
    (∀ p, findP g.players socketId = some p →
      (requestLegalMoves g socketId).2 = some (validMovesFor g p) ∧
      findP (requestLegalMoves g socketId).1.players socketId = some p) ∧
    ∀ n, (requestLegalMovesTimes socketId n g).1 = g ∧
      ∀ r ∈ (requestLegalMovesTimes socketId n g).2, r = (requestLegalMoves g socketId).2 := by
  have h1 := requestLegalMoves_state g socketId
  refine ⟨h1, by rw [h1], ?_, ?_⟩
  · intro p hp
    rw [h1]
    refine ⟨?_, hp⟩
    unfold requestLegalMoves
    rw [hp]
  · intro n
    induction n with
    | zero => exact ⟨rfl, fun r hr => absurd hr (List.not_mem_nil r)⟩
    | succ k ih =>
      have e : requestLegalMovesTimes socketId (k + 1) g
          = ((requestLegalMovesTimes socketId k g).1,
             (requestLegalMoves g socketId).2 :: (requestLegalMovesTimes socketId k g).2) := by
        show ((requestLegalMovesTimes socketId k (requestLegalMoves g socketId).1).1,
          (requestLegalMoves g socketId).2 ::
            (requestLegalMovesTimes socketId k (requestLegalMoves g socketId).1).2) = _
        rw [h1]
      rw [e]
      refine ⟨ih.1, ?_⟩
      intro r hr
      rcases List.mem_cons.mp hr with h | h
      · exact h
      · exact ih.2 r h

theorem eorFun_self (g : Game) (p : Player) (hp : findP g.players p.id = some p)
    (ha : p.isAlive = true) (hs : p.isSponsor = false)
    (h1 : 0 ≤ g.settings.survivalPerRoundVP) (h2 : 0 ≤ g.settings.innerSanctumVP) :
    eorFun g p.id p = addVP (perRoundVP g p) p := by
  have d : ∀ (v : Int) (m : Bool) (c : Int),
      awardFun p.id v m (addVP c p) = addVP (c + v) p := by
    intro v m c
    rw [awardFun_direct p.id v m (addVP c p) rfl hs, addVP_addVP]
  have d0 : ∀ (v : Int) (m : Bool), awardFun p.id v m p = addVP v p :=
    fun v m => awardFun_direct p.id v m p rfl hs
  have m1 : max 0 g.settings.survivalPerRoundVP = g.settings.survivalPerRoundVP := max_eq_right h1
  have m2 : max 0 g.settings.innerSanctumVP = g.settings.innerSanctumVP := max_eq_right h2
  unfold eorFun perRoundVP
  rw [hp]
  simp only [ha, hs, Bool.not_false, Bool.and_self, if_true, m1, m2]
  have e1 : (if (g.settings.survivalPerRoundEnabled && decide (g.settings.survivalPerRoundVP > 0))
        = true then awardFun p.id g.settings.survivalPerRoundVP false p else p)
      = addVP (if g.settings.survivalPerRoundEnabled = true
          then g.settings.survivalPerRoundVP else 0) p := by
    cases g.settings.survivalPerRoundEnabled
    · simp [addVP_zero]
    · by_cases hv : g.settings.survivalPerRoundVP > 0
      · simp [hv, d0]
      · have : g.settings.survivalPerRoundVP = 0 := le_antisymm (not_lt.mp hv) h1
        simp [this, addVP_zero]
  rw [e1]
  generalize (if g.settings.survivalPerRoundEnabled = true
    then g.settings.survivalPerRoundVP else 0) = c
  cases hq : p.pos with
  | none => simp
  | some q =>
    dsimp only
    by_cases hc : 0 < g.settings.centerTileVP
    · have m3 : max 0 g.settings.centerTileVP = g.settings.centerTileVP :=
        max_eq_right (le_of_lt hc)
      rw [m3]
      cases g.settings.innerSanctumEnabled <;> cases isInnerSanctum q.x q.y g.cc <;>
        cases isCenter q.x q.y g.cc <;> simp [hc, d, add_assoc]
    · have m3 : max 0 g.settings.centerTileVP = 0 := max_eq_left (not_lt.mp hc)
      rw [m3]
      cases g.settings.innerSanctumEnabled <;> cases isInnerSanctum q.x q.y g.cc <;>
        simp [hc, d]

theorem eorFun_nonself (g : Game) (a : SocketId) (p : Player) (hne : p.id ≠ a)
    (hs : p.isSponsor = false) : eorFun g a p = p := by
  have e : ∀ v m, awardFun a v m p = p := fun v m => awardFun_other a v m p hne (Or.inl hs)
  unfold eorFun
  cases findP g.players a with
  | none => rfl
  | some qa =>
    dsimp only
    split_ifs <;> cases qa.pos <;> simp [e]

theorem perRoundVP_congr (g g' : Game) (p p' : Player) (hs : g'.settings = g.settings)
    (hc : g'.cc = g.cc) (hp : p'.pos = p.pos) : perRoundVP g' p' = perRoundVP g p := by
  unfold perRoundVP
  rw [hs, hc, hp]

theorem eor_fold_alive (l : List SocketId) :
    ∀ (g : Game) (p : Player), l.Nodup → findP g.players p.id = some p →
    p.isAlive = true → p.isSponsor = false →
    0 ≤ g.settings.survivalPerRoundVP → 0 ≤ g.settings.innerSanctumVP →
    findP (l.foldl endOfRoundStep g).players p.id
      = some (addVP (if p.id ∈ l then perRoundVP g p else 0) p) := by
  induction l with
  | nil =>
    intro g p _ hp _ _ _ _
    simp [hp, addVP_zero]
  | cons a t ih =>
    intro g p hnd hp ha hs h1 h2
    have hset := endOfRoundStep_settings g a
    have hfind : findP (endOfRoundStep g a).players p.id = some (eorFun g a p) := by
      rw [endOfRoundStep_find, hp]; rfl
    have hnd' : t.Nodup := (List.nodup_cons.mp hnd).2
    have hnotin : a ∉ t := (List.nodup_cons.mp hnd).1
    rw [List.foldl_cons]
    by_cases hap : a = p.id
    · subst hap
      have e := eorFun_self g p hp ha hs h1 h2
      rw [e] at hfind
      have := ih (endOfRoundStep g p.id) (addVP (perRoundVP g p) p) hnd' hfind ha hs
        (by rw [hset.1]; exact h1) (by rw [hset.1]; exact h2)
      have hid : (addVP (perRoundVP g p) p).id = p.id := rfl
      rw [hid] at this
      rw [this]
      simp [hnotin, addVP_zero]
    · have e := eorFun_nonself g a p (fun h => hap h.symm) hs
      rw [e] at hfind
      have := ih (endOfRoundStep g a) p hnd' hfind ha hs
        (by rw [hset.1]; exact h1) (by rw [hset.1]; exact h2)
      rw [this, perRoundVP_congr g (endOfRoundStep g a) p p hset.1 hset.2 rfl]
      by_cases hm : p.id ∈ t
      · simp [hm]
      · simp [hm, Ne.symm hap]

/-- C26. Per-round VP. In a roster with one entry per connection id and non-negative survival
and sanctum amounts (the constructor sets 1 and 2, the settings handler clamps both to [0,10]),
`awardEndOfRoundVPs` leaves every Alive participant with VP and per-round delta increased by
exactly `perRoundVP`: the survival VP if survival is enabled, plus the sanctum VP if the sanctum
is enabled and the participant is positioned in the inner sanctum, plus the center-tile VP if it
is positive and the participant is exactly on the center tile; no other field of the
participant changes. The loop body does nothing for a participant who is not Alive, so nothing
is awarded directly to an Ascended participant. With survival 1, sanctum 2 and center 0, both
enabled, the amount for a participant in the inner sanctum is 3. -/
theorem C26_per_round_vp (g : Game) (hnd : (g.players.map (fun p => p.id)).Nodup)
    (h1 : 0 ≤ g.settings.survivalPerRoundVP) (h2 : 0 ≤ g.settings.innerSanctumVP) :
    (∀ p ∈ g.players, p.isAlive = true → p.isSponsor = false →
      findP (awardEndOfRoundVPs g).players p.id
        = some { p with vp := p.vp + perRoundVP g p, vpDelta := p.vpDelta + perRoundVP g p }) ∧
    (∀ (g0 : Game) (pid : SocketId) (p : Player), findP g0.players pid = some p →
      (p.isAlive = false ∨ p.isSponsor = true) → endOfRoundStep g0 pid = g0) ∧
    (g.settings.survivalPerRoundEnabled = true → g.settings.survivalPerRoundVP = 1 →
      g.settings.innerSanctumEnabled = true → g.settings.innerSanctumVP = 2 →
      g.settings.centerTileVP = 0 →
      ∀ (p : Player) (q : Pos), p.pos = some q → isInnerSanctum q.x q.y g.cc = true →
        perRoundVP g p = 3) := by
  refine ⟨?_, ?_, ?_⟩
  · intro p hp ha hs
    have hf := findP_of_mem_nodup g.players p hnd hp
    have := eor_fold_alive (g.players.map (fun p => p.id)) g p hnd hf ha hs h1 h2
    have hm : p.id ∈ g.players.map (fun p => p.id) := List.mem_map.mpr ⟨p, hp, rfl⟩
    rw [if_pos hm] at this
    exact this
  · intro g0 pid p hp hdead
    unfold endOfRoundStep
    rw [hp]
    rcases hdead with h | h <;> simp [h]
  · intro e1 e2 e3 e4 e5 p q hq hin
    unfold perRoundVP
    rw [hq]
    simp [e1, e2, e3, e4, e5, hin]

set_option maxRecDepth 100000 in
theorem C26_per_round_vp_witness :
    (exampleSanctumGame.players.map (fun p => p.id)).Nodup ∧
    exampleTarget ∈ exampleSanctumGame.players ∧
    perRoundVP exampleSanctumGame exampleTarget = 3 ∧
    findP (awardEndOfRoundVPs exampleSanctumGame).players exampleTarget.id
      = some { exampleTarget with
          vp := exampleTarget.vp + perRoundVP exampleSanctumGame exampleTarget,
          vpDelta := exampleTarget.vpDelta + perRoundVP exampleSanctumGame exampleTarget } :=
  ⟨by decide, by decide, by decide,
    (C26_per_round_vp exampleSanctumGame (by decide) (by decide) (by decide)).1
      exampleTarget (by decide) rfl rfl⟩

theorem strSlice_length (s : JSString) (n : Nat) : (strSlice s n).length ≤ n := by
  unfold strSlice
  rw [List.length_take]
  exact Nat.min_le_left _ _

theorem strSlice_ne_nil (s : JSString) (n : Nat) (hs : s ≠ []) (hn : 0 < n) :
    strSlice s n ≠ [] := by
  unfold strSlice
  cases s with
  | nil => exact absurd rfl hs
  | cons a t =>
    cases n with
    | zero => exact absurd hn (Nat.lt_irrefl 0)
    | succ k => exact List.cons_ne_nil _ _

theorem dedupeName_spec (lower : JSString → JSString) (taken : List JSString)
    (base : JSString) (hb : base ≠ []) :
    ∀ (fuel : Nat) (tryName : JSString) (idx : Nat) (nm : JSString),
    tryName ≠ [] → tryName.length ≤ 24 →
    dedupeName lower taken base fuel tryName idx = some nm →
    nm ≠ [] ∧ nm.length ≤ 24 ∧ lower nm ∉ taken := by
  intro fuel
  induction fuel with
  | zero =>
    intro t i nm _ _ h
    cases h
  | succ k ih =>
    intro t i nm hne ht h
    unfold dedupeName at h
    by_cases hin : lower t ∈ taken
    · rw [if_pos hin] at h
      have hcand : base ++ utf16 " " ++ utf16 (toString i) ≠ [] := by
        intro e
        have := congrArg List.length e
        rw [List.length_append, List.length_append] at this
        have hl : 0 < base.length := List.length_pos.mpr hb
        simp only [List.length_nil] at this
        omega
      refine ih _ _ nm ?_ ?_ h
      · split_ifs with hl
        · exact strSlice_ne_nil _ 24 hcand (by decide)
        · exact hcand
      · split_ifs with hl
        · exact strSlice_length _ _
        · exact not_lt.mp hl
    · rw [if_neg hin] at h
      cases h
      exact ⟨hne, ht, hin⟩

theorem taken_eq (lower : JSString → JSString) (ps : List Player)
    (h : ∀ p ∈ ps, p.name ≠ []) :
    ps.map (fun pp => if pp.name = [] then [] else lower pp.name)
      = ps.map (lowerName lower) := by
  apply List.map_congr_left
  intro p hp
  unfold lowerName
  rw [if_neg (h p hp)]

theorem mem_rosterSet (ps : List Player) (p q : Player) (h : q ∈ rosterSet ps p) :
    q = p ∨ q ∈ ps := by
  unfold rosterSet at h
  split_ifs at h
  · obtain ⟨r, hr, e⟩ := List.mem_map.mp h
    split_ifs at e
    · exact Or.inl e.symm
    · exact Or.inr (e ▸ hr)
  · rcases List.mem_append.mp h with h | h
    · exact Or.inr h
    · exact Or.inl (List.mem_singleton.mp h)

theorem names_replace (lower : JSString → JSString) (p : Player) : ∀ (ps : List Player),
    (ps.map (fun q => q.id)).Nodup → (ps.map (lowerName lower)).Nodup →
    lowerName lower p ∉ ps.map (lowerName lower) →
    ((ps.map (fun q => if q.id = p.id then p else q)).map (lowerName lower)).Nodup := by
  intro ps
  induction ps with
  | nil => intro _ _ _; exact List.nodup_nil
  | cons a t ih =>
    intro hid hn hp
    have hid' := List.nodup_cons.mp hid
    have hn' := List.nodup_cons.mp hn
    have hpa : lowerName lower p ≠ lowerName lower a := fun h => hp (by simp [h])
    have hpt : lowerName lower p ∉ t.map (lowerName lower) :=
      fun h => hp (List.mem_cons_of_mem _ h)
    simp only [List.map_cons]
    refine List.nodup_cons.mpr ⟨?_, ih hid'.2 hn'.2 hpt⟩
    intro hmem
    obtain ⟨r, hr, e⟩ := List.mem_map.mp hmem
    obtain ⟨r0, hr0, e0⟩ := List.mem_map.mp hr
    by_cases ha : a.id = p.id
    · rw [if_pos ha] at e
      by_cases hr0p : r0.id = p.id
      · exact hid'.1 (List.mem_map.mpr ⟨r0, hr0, hr0p.trans ha.symm⟩)
      · rw [if_neg hr0p] at e0
        subst e0
        exact hpt (List.mem_map.mpr ⟨r0, hr0, e⟩)
    · rw [if_neg ha] at e
      by_cases hr0p : r0.id = p.id
      · rw [if_pos hr0p] at e0
        subst e0
        exact hpa e
      · rw [if_neg hr0p] at e0
        subst e0
        exact hn'.1 (List.mem_map.mpr ⟨r0, hr0, e⟩)

theorem namesOK_rosterSet (lower : JSString → JSString) (ps : List Player) (p : Player)
    (hid : (ps.map (fun q => q.id)).Nodup) (h : NamesOK lower ps)
    (hl : p.name ≠ [] ∧ p.name.length ≤ 24)
    (hp : lowerName lower p ∉ ps.map (lowerName lower)) :
    NamesOK lower (rosterSet ps p) := by
  refine ⟨?_, ?_⟩
  · intro q hq
    rcases mem_rosterSet ps p q hq with e | e
    · rw [e]; exact hl
    · exact h.1 q e
  · unfold rosterSet
    split_ifs
    · exact names_replace lower p ps hid h.2 hp
    · rw [List.map_append]
      refine List.Nodup.append h.2 (List.nodup_singleton _) ?_
      intro x hx hx'
      simp only [List.map_cons, List.map_nil, List.mem_singleton] at hx'
      exact hp (hx' ▸ hx)

theorem playerNew_name_ne_nil (id : SocketId) (name : JSString) (color clientId pin : String) :
    (Player.new id name color clientId pin).name ≠ [] := by
  show strSlice (if name = [] then utf16 "P" ++ strSlice (utf16 id) 4 else name) 24 ≠ []
  apply strSlice_ne_nil _ 24 _ (by decide)
  split_ifs with h
  · exact List.cons_ne_nil _ _
  · exact h

theorem namesOK_join (g g' : Game) (p' : Player) (sid : SocketId)
    (name : JSString) (color clientId pin : String) (a : Bool) (newPin : String)
    (lower : JSString → JSString)
    (hj : joinOrReconnect g sid name color clientId pin a newPin lower = some (g', p'))
    (hid : (g.players.map (fun q => q.id)).Nodup) (h : NamesOK lower g.players) :
    NamesOK lower g'.players := by
  unfold joinOrReconnect at hj
  cases hf : findPlayerByClientOrPin g clientId pin a with
  | none =>
    rw [hf] at hj
    dsimp only at hj
    rw [taken_eq lower g.players (fun p hp => (h.1 p hp).1)] at hj
    rw [if_neg (playerNew_name_ne_nil sid name color clientId newPin)] at hj
    split at hj
    · cases hj
    · rename_i nm hnm
      cases hj
      have hb : strSlice (Player.new sid name color clientId newPin).name 24 ≠ [] :=
        strSlice_ne_nil _ 24 (playerNew_name_ne_nil sid name color clientId newPin) (by decide)
      have hs := dedupeName_spec lower _ _ hb _ _ _ nm hb (strSlice_length _ 24) hnm
      exact namesOK_rosterSet lower _ _ hid h ⟨hs.1, hs.2.1⟩ hs.2.2
  | some p =>
    rw [hf] at hj
    cases hj
    have hpm : p ∈ g.players := findByClientOrPin_mem g clientId pin a p hf
    have hsub : (g.players.filter (fun q => q.id ≠ p.id)).Sublist g.players :=
      List.filter_sublist _
    have hid' := (hsub.map (fun q => q.id)).nodup hid
    have hok : NamesOK lower (g.players.filter (fun q => q.id ≠ p.id)) :=
      ⟨fun q hq => h.1 q (List.mem_of_mem_filter hq), (hsub.map (lowerName lower)).nodup h.2⟩
    refine namesOK_rosterSet lower _ _ hid' hok (h.1 p hpm) ?_
    intro hmem
    obtain ⟨q, hq, e⟩ := List.mem_map.mp hmem
    have hqm : q ∈ g.players := List.mem_of_mem_filter hq
    have hqp : q = p := List.inj_on_of_nodup_map h.2 hqm hpm e
    have := (List.mem_filter.mp hq).2
    rw [hqp] at this
    simp at this

theorem names_run (lower : JSString → JSString) (cmds : List Cmd) : ∀ (g g' : Game),
    (∀ c ∈ cmds, c.isJoin = true) → (∀ c ∈ cmds, c.lowersWith lower) →
    run g cmds = some g' → RosterOK g.players → NamesOK lower g.players →
    NamesOK lower g'.players := by
  induction cmds with
  | nil =>
    intro g g' _ _ hr _ hn
    cases hr
    exact hn
  | cons c cs ih =>
    intro g g' hj hlw hr hro hn
    unfold run at hr
    cases hs : step g c with
    | none => rw [hs] at hr; cases hr
    | some g1 =>
      rw [hs] at hr
      dsimp only at hr
      have hro1 := inv_step g g1 c hs hro
      refine ih g1 g' (fun c' hc' => hj c' (List.mem_cons_of_mem _ hc'))
        (fun c' hc' => hlw c' (List.mem_cons_of_mem _ hc')) hr hro1 ?_
      have hc := hj c (List.mem_cons_self _ _)
      have hcl := hlw c (List.mem_cons_self _ _)
      cases c with
      | join sid name color clientId pin a newPin l =>
        have hl : l = lower := hcl
        subst hl
        have hs' : (joinOrReconnect g sid name color clientId pin a newPin l).map (fun r => r.1)
            = some g1 := hs
        cases hjr : joinOrReconnect g sid name color clientId pin a newPin l with
        | none => rw [hjr] at hs'; cases hs'
        | some r =>
          rw [hjr] at hs'
          cases hs'
          exact namesOK_join g r.1 r.2 sid name color clientId pin a newPin l hjr hro.1 hn
      | _ => exact Bool.noConfusion hc

/-- C29. Unique display names: in the state left by any sequence of `joinOrReconnect` calls
(joins and reconnects) that all return, starting from a new Game, every participant's display
name has at most 24 code units (`name.length <= 24`, hence at most 24 characters), and the
lower-cased names of the roster are pairwise different: no two participants have names equal
ignoring case. `lower` is the `toLowerCase` of the runtime that handles the calls, whatever
function it is. -/
theorem C29_unique_display_names (lower : JSString → JSString) (room : String)
    (cmds : List Cmd) (g : Game)
    (hj : ∀ c ∈ cmds, c.isJoin = true) (hl : ∀ c ∈ cmds, c.lowersWith lower)
    (hr : run (Game.new room) cmds = some g) :
    (∀ p ∈ g.players, p.name.length ≤ 24) ∧
    (g.players.map (fun p => lower p.name)).Nodup :=
  have h := names_run lower cmds (Game.new room) g hj hl hr
    ⟨List.nodup_nil, fun _ h => absurd h (List.not_mem_nil _)⟩
    ⟨fun _ h => absurd h (List.not_mem_nil _), List.nodup_nil⟩
  ⟨fun p hp => (h.1 p hp).2, h.2⟩

set_option maxRecDepth 1000000 in
/-- Witness for C29: `Émile` and `émile`, equal ignoring case, then 13 emoji (26 code units) and
`a` with 12 emoji (25 code units). The second participant is renamed `émile 2`, the third name
is cut to 12 emoji and the fourth to `a`, 11 emoji and the first half of the twelfth. -/
theorem C29_unique_display_names_witness :
    (∀ c ∈ unicodeNameCommands, c.isJoin = true) ∧
    run (Game.new "room") unicodeNameCommands = some unicodeNamedGame ∧
    unicodeNamedGame.players.map (fun p => (p.id, p.name)) =
      [("s1", utf16 "Émile"), ("s2", utf16 "émile 2"),
       ("s3", utf16 "😀😀😀😀😀😀😀😀😀😀😀😀"),
       ("s4", utf16 "a😀😀😀😀😀😀😀😀😀😀😀" ++ [55357])] ∧
    unicodeNamedGame.players.map (fun p => p.name.length) = [5, 7, 24, 24] ∧
    latin1Lower (utf16 "Émile") = latin1Lower (utf16 "émile") ∧
    (∀ p ∈ unicodeNamedGame.players, p.name.length ≤ 24) ∧
    (unicodeNamedGame.players.map (fun p => latin1Lower p.name)).Nodup :=
  ⟨by decide, rfl, by decide!, by decide!, by decide!,
    C29_unique_display_names latin1Lower "room" unicodeNameCommands unicodeNamedGame (by decide)
      (by
        intro c hc
        simp only [unicodeNameCommands, List.mem_cons, List.mem_singleton, List.not_mem_nil,
          or_false] at hc
        rcases hc with e | e | e | e <;> rw [e] <;> rfl)
      rfl⟩

set_option maxRecDepth 1000000 in
/-- C30 (the code at the failing input). Ann joins first, Bob second; Bob reconnects on a new
connection, which stores him under the id `s3` while the join sequence stays `[s1, s2]`. Both
end round 5 on the tile (5,4) holding a Renown Chip (5 VP) with equal combat values. The chip
goes to Bob, who gains 1 + 2 + 5 = 8 VP in the round against the 3 VP of Ann, although Ann is
earlier in the join sequence; without the reconnect the same walk gives the chip to Ann. -/
theorem C30_reconnected_latecomer_wins_loot :
    lootView (meetCommands (twoJoins ++ [bobReconnects]) "s3") (Pos.mk 5 4)
      = some ([("s1", utf16 "Ann", some (Pos.mk 5 4), 3),
          ("s3", utf16 "Bob", some (Pos.mk 5 4), 8)],
          ["s1", "s2"], none) ∧
    lootView (meetCommands twoJoins "s2") (Pos.mk 5 4)
      = some ([("s1", utf16 "Ann", some (Pos.mk 5 4), 8),
          ("s2", utf16 "Bob", some (Pos.mk 5 4), 3)],
          ["s1", "s2"], none) := by
  constructor <;> rfl

/-- C28 (the code at the failing input). Ann joins on `s1`, Bob on `s2`, and Bob reconnects with
his pin on `s3`: the roster holds the ids `s1` and `s3`, the join sequence is still `[s1, s2]`,
so Bob's current id is not in it. When a connection joins twice its id is in the sequence
twice, and after clear-disconnected the id of a removed participant stays in the sequence and
is added again when that connection joins anew. The kick handler, by contrast, removes the id
from the join sequence. -/
theorem C28_join_order_misses_reconnected_id :
    joinView (twoJoins ++ [bobReconnects]) = some (["s1", "s3"], ["s1", "s2"]) ∧
    joinView [Cmd.join "s1" (utf16 "Ann") "" "" "" false "1111" asciiLower, Cmd.join "s1" (utf16 "Bob") "" "" "" false "2222" asciiLower]
      = some (["s1"], ["s1", "s1"]) ∧
    joinView (twoJoins ++ [Cmd.disconnect "s2", Cmd.hostClearGhosts,
        Cmd.join "s2" (utf16 "Cy") "" "" "" false "3333" asciiLower])
      = some (["s1", "s2"], ["s1", "s2", "s2"]) ∧
    joinView (twoJoins ++ [Cmd.hostKick "s2"]) = some (["s1"], ["s1"]) := by
  refine ⟨?_, ?_, ?_, ?_⟩ <;> rfl

set_option maxRecDepth 1000000 in
/-- C24 (the code at the failing input). Ann and Bob meet on one tile in round 5, Ann with the
higher number: Bob is eliminated, Ann has 24 VP and 1 kill. After the host's reset both have
0 VP, and Ann still has kill count 1: `reset()` re-initialises the VP and the per-round delta
and leaves `kills` as it was. -/
theorem C24_reset_keeps_kill_count :
    killView killCommands = some [("s1", 24, 1), ("s2", 10, 0)] ∧
    killView (killCommands ++ [Cmd.hostReset]) = some [("s1", 0, 1), ("s2", 0, 0)] := by
  constructor <;> rfl

theorem respawnOutcome_step (r : Nat) (g0 : Game) (acc : RespawnAcc) (a : SocketId)
    (h : RespawnOutcome r g0 acc.g) : RespawnOutcome r g0 (respawnStep r acc a).g := by
  unfold respawnStep
  cases hq : findP acc.g.players a with
  | none => exact h
  | some q =>
    dsimp only
    by_cases hsp : (!q.isSponsor) = true
    · rw [if_pos hsp]; exact h
    · rw [if_neg hsp]
      by_cases hdue : q.ascendedReturnRound = some r
      · rw [if_pos hdue]
        cases acc.shuffled.getLast? with
        | none => exact h
        | some spot =>
          dsimp only
          intro id p hp
          by_cases hid : id = a
          · subst hid
            have hfind : findP (acc.g.modPlayer id (respawnPlayer spot)).players id
                = (findP acc.g.players id).map (respawnPlayer spot) :=
              findP_modP_self acc.g.players id (respawnPlayer spot) (fun _ => rfl)
            rcases h id p hp with h1 | ⟨_, _, spot', h2⟩
            · rw [hq] at h1
              have hqp : q = p := Option.some.inj h1
              subst hqp
              refine Or.inr ⟨by simpa using hsp, hdue, spot, ?_⟩
              rw [hfind, hq]
              rfl
            · rw [hq] at h2
              have hqp : q = respawnPlayer spot' p := Option.some.inj h2
              rw [hqp] at hsp
              exact absurd rfl hsp
          · have hfind : findP (acc.g.modPlayer a (respawnPlayer spot)).players id
                = findP acc.g.players id :=
              findP_modP_ne acc.g.players a id (respawnPlayer spot) (fun _ => rfl) hid
            rcases h id p hp with h1 | ⟨e1, e2, spot', h2⟩
            · exact Or.inl (hfind.trans h1)
            · exact Or.inr ⟨e1, e2, spot', hfind.trans h2⟩
      · rw [if_neg hdue]; exact h

theorem respawnOutcome_tryRespawns (g : Game) (r : Nat) (o : Oracle) :
    RespawnOutcome r g (tryRespawnsForRound g r o) := by
  unfold tryRespawnsForRound
  dsimp only
  exact foldl_inv (fun acc : RespawnAcc => RespawnOutcome r g acc.g) _
    (fun b a hb => respawnOutcome_step r g b a hb) _ _ (fun _ _ hp => Or.inl hp)

theorem respawnStep_empty (r : Nat) (acc : RespawnAcc) (a : SocketId) (h : acc.shuffled = []) :
    respawnStep r acc a = acc := by
  unfold respawnStep
  cases findP acc.g.players a with
  | none => rfl
  | some q =>
    dsimp only
    rw [h]
    split_ifs <;> rfl

theorem tryRespawns_no_free_tile (g : Game) (r : Nat) (o : Oracle)
    (h : (edgeTilesOfBoard g.size).filter (fun t =>
      !decide (t ∈ g.board.fire) && !decide (t ∈ occupiedTiles g.players)) = []) :
    tryRespawnsForRound g r o = g := by
  unfold tryRespawnsForRound
  dsimp only
  rw [h]
  have hs : shuffle o.shuffleA ([] : List Pos) = [] := rfl
  rw [hs]
  have : ∀ (l : List SocketId) (acc : RespawnAcc), acc.shuffled = [] →
      l.foldl (respawnStep r) acc = acc := by
    intro l
    induction l with
    | nil => intro acc _; rfl
    | cons a t ih =>
      intro acc hacc
      rw [List.foldl_cons, respawnStep_empty r acc a hacc]
      exact ih acc hacc
  rw [this _ _ rfl]

theorem tryRespawns_other_round (g : Game) (r r' : Nat) (o : Oracle) (id : SocketId) (p : Player)
    (hp : findP g.players id = some p) (hd : p.ascendedReturnRound = some r) (hne : r' ≠ r) :
    findP (tryRespawnsForRound g r' o).players id = some p := by
  rcases respawnOutcome_tryRespawns g r' o id p hp with h | ⟨_, h, _⟩
  · exact h
  · rw [hd] at h
    exact absurd (Option.some.inj h).symm hne

theorem advanceToNumber_starved (g : Game) (now : Int) (o : Oracle) (id : SocketId) (p : Player)
    (r : Nat) (hp : findP g.players id = some p) (hd : p.ascendedReturnRound = some r)
    (hr : r ≤ g.round) :
    findP (advanceToNumber g now o).players id = some (clearRoundFlags p) ∧
    (advanceToNumber g now o).round = g.round + 1 := by
  have hm : findP (g.players.map clearRoundFlags) id = some (clearRoundFlags p) := by
    rw [findP_map_of_id g.players clearRoundFlags (fun _ => rfl) id, hp]
    rfl
  generalize hg1 : ({ g with
    phase := Phase.number, round := g.round + 1,
    players := g.players.map clearRoundFlags } : Game) = g1
  have h1 : findP g1.players id = some (clearRoundFlags p) := by rw [← hg1]; exact hm
  have hr1 : g1.round = g.round + 1 := by rw [← hg1]
  have h2 := tryRespawns_other_round g1 r (g.round + 1) o id (clearRoundFlags p) h1 hd (by omega)
  have h3 := (sameRound_tryRespawns g1 (g.round + 1) o).round
  have e : advanceToNumber g now o = { tryRespawnsForRound g1 (g.round + 1) o with
      timerEnd := now + (tryRespawnsForRound g1 (g.round + 1) o).durations.number } := by
    rw [← hg1]; rfl
  rw [e]
  exact ⟨h2, h3.trans hr1⟩

theorem tryRespawns_later_calls (id : SocketId) (p : Player) (r : Nat)
    (hd : p.ascendedReturnRound = some r) (calls : List (Nat × Oracle)) :
    ∀ (g : Game), findP g.players id = some p → (∀ c ∈ calls, r < c.1) →
    findP (calls.foldl (fun g c => tryRespawnsForRound g c.1 c.2) g).players id = some p := by
  induction calls with
  | nil => intro g hp _; exact hp
  | cons c cs ih =>
    intro g hp hc
    rw [List.foldl_cons]
    have h1 := tryRespawns_other_round g r c.1 c.2 id p hp hd
      (Nat.ne_of_gt (hc c (List.mem_cons_self _ _)))
    exact ih (tryRespawnsForRound g c.1 c.2) h1
      (fun c' hc' => hc c' (List.mem_cons_of_mem _ hc'))

theorem due_map {i : SocketId} {r : Nat} (ps : List Player) (F : Player → Player)
    (hF : KeepsDue F) (h : AscendedDue i r ps) : AscendedDue i r (ps.map F) := by
  obtain ⟨p, hp, hs, hd⟩ := h
  refine ⟨F p, ?_, (hF p).2.1.trans hs, (hF p).2.2.trans hd⟩
  rw [findP_map_of_id ps F (fun q => (hF q).1) i, hp]
  rfl

theorem due_modP {i : SocketId} {r : Nat} (ps : List Player) (j : SocketId) (f : Player → Player)
    (hf : KeepsDue f) (h : AscendedDue i r ps) : AscendedDue i r (modP ps j f) := by
  have : KeepsDue (fun p => if p.id = j then f p else p) := by
    intro p
    show (if p.id = j then f p else p).id = p.id ∧
      (if p.id = j then f p else p).isSponsor = p.isSponsor ∧
      (if p.id = j then f p else p).ascendedReturnRound = p.ascendedReturnRound
    by_cases hp : p.id = j
    · rw [if_pos hp]; exact hf p
    · rw [if_neg hp]; exact ⟨rfl, rfl, rfl⟩
  exact due_map ps _ this h

theorem due_modP_ne {i : SocketId} {r : Nat} (ps : List Player) (j : SocketId)
    (f : Player → Player) (hid : ∀ p, (f p).id = p.id) (hne : i ≠ j)
    (h : AscendedDue i r ps) : AscendedDue i r (modP ps j f) := by
  obtain ⟨p, hp, hs, hd⟩ := h
  exact ⟨p, (findP_modP_ne ps j i f hid hne).trans hp, hs, hd⟩

theorem keepsDue_addVP (c : Int) : KeepsDue (addVP c) := fun _ => ⟨rfl, rfl, rfl⟩

theorem keepsDue_awardFun (pid : SocketId) (a : Int) (m : Bool) : KeepsDue (awardFun pid a m) := by
  intro p
  obtain ⟨c, hc⟩ := awardFun_addVP pid a m p
  rw [hc]
  exact ⟨rfl, rfl, rfl⟩

theorem due_awardVP {i : SocketId} {r : Nat} (g : Game) (pid : SocketId) (a : Int) (m : Bool)
    (h : AscendedDue i r g.players) : AscendedDue i r (awardVP g pid a m).players := by
  rw [awardVP_players]
  exact due_map _ _ (keepsDue_awardFun pid a m) h

theorem due_returnSeal {i : SocketId} {r : Nat} (g : Game) (id : SocketId)
    (h : AscendedDue i r g.players) : AscendedDue i r (returnSeal g id).players := by
  unfold returnSeal
  cases findP g.players id with
  | none => exact h
  | some L =>
    dsimp only
    split_ifs
    · exact due_modP g.players id clearSeal (fun _ => ⟨rfl, rfl, rfl⟩) h
    · exact h

theorem due_eliminate {i : SocketId} {r : Nat} (g : Game) (id : SocketId) (hne : i ≠ id)
    (h : AscendedDue i r g.players) : AscendedDue i r (eliminate g id).players :=
  due_returnSeal _ id (due_modP_ne g.players id (ascend g.round) (fun _ => rfl) hne h)

theorem due_eliminateNoMoves {i : SocketId} {r : Nat} (g : Game) (id : SocketId) (hne : i ≠ id)
    (h : AscendedDue i r g.players) : AscendedDue i r (eliminateNoMoves g id).players :=
  due_modP _ id _ (fun _ => ⟨rfl, rfl, rfl⟩)
    (due_returnSeal _ id (due_modP_ne g.players id (ascend g.round) (fun _ => rfl) hne h))

theorem due_guard {i : SocketId} {r : Nat} {ps : List Player} (h : AscendedDue i r ps)
    (id : SocketId) (p : Player) (hp : findP ps id = some p) (hal : p.isSponsor = false) :
    i ≠ id := by
  intro e
  obtain ⟨q, hq, hs, _⟩ := h
  rw [e, hp] at hq
  rw [← Option.some.inj hq, hal] at hs
  exact Bool.noConfusion hs

theorem due_moveStep {i : SocketId} {r : Nat} (o : Oracle) (g : Game) (id : SocketId)
    (h : AscendedDue i r g.players) : AscendedDue i r (moveStep o g id).players := by
  unfold moveStep
  cases hp : findP g.players id with
  | none => exact h
  | some p =>
    dsimp only
    by_cases hg : (!p.isAlive || p.isSponsor || p.pos.isNone) = true
    · rw [if_pos hg]; exact h
    · rw [if_neg hg]
      have hsp : p.isSponsor = false := by
        cases hs : p.isSponsor
        · rfl
        · rw [hs] at hg; simp at hg
      have hne := due_guard h id p hp hsp
      split_ifs
      · exact due_eliminateNoMoves g id hne h
      · split
        · exact due_modP_ne g.players id _ (fun _ => rfl) hne h
        · exact h
      · split
        · exact due_modP_ne g.players id _ (fun _ => rfl) hne h
        · exact h

theorem due_fireStep {i : SocketId} {r : Nat} (g : Game) (id : SocketId)
    (h : AscendedDue i r g.players) : AscendedDue i r (fireStep g id).players := by
  unfold fireStep
  cases hp : findP g.players id with
  | none => exact h
  | some p =>
    dsimp only
    by_cases hg : (!p.isAlive || p.isSponsor) = true
    · rw [if_pos hg]; exact h
    · rw [if_neg hg]
      have hsp : p.isSponsor = false := by
        cases hs : p.isSponsor
        · rfl
        · rw [hs] at hg; simp at hg
      have hne := due_guard h id p hp hsp
      cases p.pos with
      | none => exact h
      | some k =>
        dsimp only
        split_ifs
        · exact due_eliminate g id hne h
        · exact h

theorem due_applyLoot {i : SocketId} {r : Nat} (g : Game) (w : SocketId) (code : Item)
    (h : AscendedDue i r g.players) : AscendedDue i r (applyLoot g w code).players := by
  unfold applyLoot
  cases code <;> first
    | exact h
    | exact due_awardVP g w _ false h
    | exact due_modP g.players w _ (fun _ => ⟨rfl, rfl, rfl⟩) h

theorem due_lootPickup {i : SocketId} {r : Nat} (g : Game) (k2 : Pos) (code : Item)
    (w : SocketId) (h : AscendedDue i r g.players) :
    AscendedDue i r (lootPickup g k2 code w).players := by
  unfold lootPickup
  cases findP g.players w with
  | none => exact h
  | some q =>
    dsimp only
    split_ifs
    · exact h
    · exact due_applyLoot g w code h

theorem due_lootStep {i : SocketId} {r : Nat} (acc : LootAcc) (e : Pos × Item)
    (h : AscendedDue i r acc.g.players) : AscendedDue i r (lootStep acc e).g.players := by
  unfold lootStep
  dsimp only
  split
  · exact h
  · exact due_lootPickup _ _ _ _ h
  · split
    · exact h
    · exact due_lootPickup _ _ _ _ h

theorem byPosGet_subset (m : List (Pos × List SocketId)) (k : Pos) (j : SocketId)
    (hj : j ∈ byPosGet m k) : ∃ e ∈ m, j ∈ e.2 := by
  unfold byPosGet at hj
  cases hf : m.find? (fun e => e.1 == k) with
  | none => rw [hf] at hj; cases hj
  | some e =>
    rw [hf] at hj
    exact ⟨e, List.mem_of_find?_eq_some hf, hj⟩

theorem lootStep_byPos (acc : LootAcc) (e : Pos × Item) (j : SocketId)
    (en : Pos × List SocketId) (hen : en ∈ (lootStep acc e).byPos) (hj : j ∈ en.2) :
    ∃ e0 ∈ acc.byPos, j ∈ e0.2 := by
  have key : ∀ (l : List SocketId), (∀ x ∈ l, ∃ e0 ∈ acc.byPos, x ∈ e0.2) →
      en ∈ acc.byPos.map (fun en => if en.1 = e.1 then (en.1, l) else en) →
      ∃ e0 ∈ acc.byPos, j ∈ e0.2 := by
    intro l hl hmem
    obtain ⟨e1, he1, e2⟩ := List.mem_map.mp hmem
    split_ifs at e2
    · subst e2
      exact hl j hj
    · subst e2
      exact ⟨e1, he1, hj⟩
  unfold lootStep at hen
  dsimp only at hen
  split at hen
  · exact ⟨en, hen, hj⟩
  · exact ⟨en, hen, hj⟩
  · rename_i xl c cs hne hget
    have hl : ∀ x ∈ sortStable (fun a b => indexOfJS acc.g.joinOrder a - indexOfJS acc.g.joinOrder b)
        (c :: cs), ∃ e0 ∈ acc.byPos, x ∈ e0.2 := by
      intro x hx
      rw [mem_sortStable] at hx
      rw [← hget] at hx
      exact byPosGet_subset _ _ _ hx
    split at hen
    · exact key _ hl hen
    · exact key _ hl hen

theorem byPosPush_mem (m : List (Pos × List SocketId)) (k : Pos) (id j : SocketId)
    (en : Pos × List SocketId) (hen : en ∈ byPosPush m k id) (hj : j ∈ en.2) :
    j = id ∨ ∃ e0 ∈ m, j ∈ e0.2 := by
  unfold byPosPush at hen
  split_ifs at hen
  · obtain ⟨e1, he1, e2⟩ := List.mem_map.mp hen
    split_ifs at e2
    · subst e2
      rcases List.mem_append.mp hj with h | h
      · exact Or.inr ⟨e1, he1, h⟩
      · exact Or.inl (List.mem_singleton.mp h)
    · subst e2
      exact Or.inr ⟨e1, he1, hj⟩
  · rcases List.mem_append.mp hen with h | h
    · exact Or.inr ⟨en, h, hj⟩
    · rw [List.mem_singleton.mp h] at hj
      exact Or.inl (List.mem_singleton.mp hj)

theorem buildByPos_sound (ps : List Player) (en : Pos × List SocketId) (j : SocketId)
    (hen : en ∈ buildByPos ps) (hj : j ∈ en.2) :
    ∃ p ∈ ps, p.id = j ∧ p.isSponsor = false := by
  unfold buildByPos at hen
  have key : ∀ (l : List Player) (m0 : List (Pos × List SocketId)),
      (∀ e0 ∈ m0, ∀ x ∈ e0.2, ∃ p ∈ ps, p.id = x ∧ p.isSponsor = false) →
      (∀ p ∈ l, p ∈ ps) →
      ∀ e0 ∈ l.foldl (fun m p =>
        if !p.isAlive || p.isSponsor then m
        else match p.pos with
          | none => m
          | some k => byPosPush m k p.id) m0,
      ∀ x ∈ e0.2, ∃ p ∈ ps, p.id = x ∧ p.isSponsor = false := by
    intro l
    induction l with
    | nil => intro m0 h0 _; exact h0
    | cons a t ih =>
      intro m0 h0 hsub
      rw [List.foldl_cons]
      refine ih _ ?_ (fun p hp => hsub p (List.mem_cons_of_mem _ hp))
      by_cases hg : (!a.isAlive || a.isSponsor) = true
      · rw [if_pos hg]; exact h0
      · rw [if_neg hg]
        cases hpos : a.pos with
        | none => exact h0
        | some k =>
          dsimp only
          intro e0 he0 x hx
          rcases byPosPush_mem m0 k a.id x e0 he0 hx with h | ⟨e1, he1, h⟩
          · refine ⟨a, hsub a (List.mem_cons_self _ _), h.symm, ?_⟩
            cases hs : a.isSponsor
            · rfl
            · rw [hs] at hg; simp at hg
          · exact h0 e1 he1 x h
  exact key ps [] (fun _ h => absurd h (List.not_mem_nil _)) (fun _ h => h) en hen j hj

theorem due_loserStep {i : SocketId} {r : Nat} (sw : Bool) (acc : LoserAcc) (l : SocketId)
    (hne : i ≠ l) (h : AscendedDue i r acc.g.players) :
    AscendedDue i r (loserStep sw acc l).g.players := by
  unfold loserStep
  cases findP acc.g.players l with
  | none => exact h
  | some L =>
    dsimp only
    split_ifs
    · exact due_modP_ne acc.g.players l consumeShield (fun _ => rfl) hne h
    · exact due_eliminate acc.g l hne h

theorem due_foldl {α β : Type} {i : SocketId} {r : Nat} (proj : β → Game) (f : β → α → β)
    (l : List α) (P : α → Prop) (hP : ∀ a ∈ l, P a)
    (hf : ∀ b a, P a → AscendedDue i r (proj b).players → AscendedDue i r (proj (f b a)).players) :
    ∀ b, AscendedDue i r (proj b).players → AscendedDue i r (proj (l.foldl f b)).players := by
  induction l with
  | nil => intro b hb; exact hb
  | cons a t ih =>
    intro b hb
    rw [List.foldl_cons]
    exact ih (fun x hx => hP x (List.mem_cons_of_mem _ hx)) _
      (hf b a (hP a (List.mem_cons_self _ _)) hb)

theorem due_awardElimination {i : SocketId} {r : Nat} (g : Game) (ws vs : List SocketId)
    (h : AscendedDue i r g.players) :
    AscendedDue i r (awardEliminationRenownFlat g ws vs).players := by
  unfold awardEliminationRenownFlat
  dsimp only
  split_ifs
  · exact h
  · refine due_foldl (fun g : Game => g) _ ws (fun _ => True) (fun _ _ => trivial) ?_ g h
    intro b a _ hb
    dsimp only
    cases findP b.players a with
    | none => exact hb
    | some _ => exact due_awardVP b a _ true hb

theorem due_combatBranch {i : SocketId} {r : Nat} (g : Game) (ws ls : List SocketId)
    (hl : i ∉ ls) (h : AscendedDue i r g.players) :
    AscendedDue i r (combatBranch g ws ls).players := by
  unfold combatBranch
  dsimp only
  have h1 : AscendedDue i r (ls.foldl (loserStep (swordInPlay g ws))
      { g := g, victimsForVP := [], defeated := [] }).g.players :=
    due_foldl (fun acc : LoserAcc => acc.g) (loserStep (swordInPlay g ws)) ls (fun a => i ≠ a)
      (fun a ha e => hl (e ▸ ha)) (fun b a hne hb => due_loserStep _ b a hne hb) _ h
  generalize ls.foldl (loserStep (swordInPlay g ws))
    { g := g, victimsForVP := [], defeated := [] } = acc at h1 ⊢
  have h2 := due_awardElimination acc.g ws
    (if acc.victimsForVP.isEmpty then acc.defeated else acc.victimsForVP) h1
  by_cases hd : acc.defeated.isEmpty = true
  · rw [if_pos hd]; exact h2
  · rw [if_neg hd]
    exact due_foldl (fun g : Game => g)
      (fun (g : Game) (w : SocketId) => g.modPlayer w (addKills (acc.defeated.length : Int)))
      ws (fun _ => True) (fun _ _ => trivial)
      (fun b a _ hb => due_modP b.players a _ (fun _ => ⟨rfl, rfl, rfl⟩) hb) _ h2

theorem combatLosers_subset (g : Game) (ids : List SocketId) (l : SocketId)
    (h : l ∈ combatLosers g ids) : l ∈ ids := by
  unfold combatLosers combatVals at h
  obtain ⟨v, hv, e⟩ := List.mem_map.mp h
  have hv' := (List.mem_filter.mp hv).1
  obtain ⟨id, hid, e2⟩ := List.mem_filterMap.mp hv'
  cases hf : findP g.players id with
  | none => rw [hf] at e2; cases e2
  | some p =>
    rw [hf] at e2
    cases e2
    exact e ▸ hid

theorem keepsDue_consumeEncounterBuff : KeepsDue consumeEncounterBuff := by
  intro p
  unfold consumeEncounterBuff
  split_ifs <;> exact ⟨rfl, rfl, rfl⟩

theorem due_combatTile {i : SocketId} {r : Nat} (g : Game) (ids : List SocketId)
    (hl : i ∉ ids) (h : AscendedDue i r g.players) :
    AscendedDue i r (combatTile g ids).players := by
  unfold combatTile
  split_ifs with h1
  · exact h
  · dsimp only
    have hls : i ∉ combatLosers g ids := fun hm => hl (combatLosers_subset g ids i hm)
    have hb := due_combatBranch g (combatWinners g ids) (combatLosers g ids) hls h
    have hg1 : AscendedDue i r
        (if (combatWinners g ids).length > 1 then
          combatBranch g (combatWinners g ids) (combatLosers g ids)
        else if (combatWinners g ids).length = 1 then
          combatBranch g (combatWinners g ids) (combatLosers g ids)
        else g).players := by
      split_ifs
      · exact hb
      · exact hb
      · exact h
    exact due_foldl (fun g : Game => g)
      (fun (g : Game) (v : SocketId × Int) => g.modPlayer v.1 consumeEncounterBuff)
      (combatVals g ids) (fun _ => True) (fun _ _ => trivial)
      (fun b a _ hb => due_modP b.players a.1 _ keepsDue_consumeEncounterBuff hb) _ hg1

theorem due_resolveCombats {i : SocketId} {r : Nat} (g : Game)
    (byPos : List (Pos × List SocketId)) (hl : ∀ e ∈ byPos, i ∉ e.2)
    (h : AscendedDue i r g.players) :
    AscendedDue i r (resolveCombatsDetailed g byPos).players := by
  unfold resolveCombatsDetailed
  exact due_foldl (fun g : Game => g)
    (fun (g : Game) (e : Pos × List SocketId) => combatTile g e.2) byPos
    (fun e => i ∉ e.2) hl (fun b a ha hb => due_combatTile b a.2 ha hb) g h

theorem due_autoSponsor {i : SocketId} {r : Nat} (o : Oracle) (g : Game)
    (h : AscendedDue i r g.players) : AscendedDue i r (autoSponsor o g).players := by
  unfold autoSponsor
  dsimp only
  split_ifs
  · exact h
  · refine due_foldl (fun g : Game => g) _ _ (fun _ => True) (fun _ _ => trivial) ?_ g h
    intro b a _ hb
    dsimp only
    split
    · exact due_modP b.players a.id _ (fun _ => ⟨rfl, rfl, rfl⟩) hb
    · exact hb

theorem keepsDue_eorFun (g : Game) (pid : SocketId) : KeepsDue (eorFun g pid) := by
  intro p
  have ka := fun v m x => keepsDue_awardFun pid v m x
  unfold eorFun
  cases findP g.players pid with
  | none => exact ⟨rfl, rfl, rfl⟩
  | some q =>
    dsimp only
    cases q.pos <;> dsimp only <;> split_ifs <;>
      simp only [(ka _ _ _).1, (ka _ _ _).2.1, (ka _ _ _).2.2, and_self]

theorem due_awardEndOfRoundVPs {i : SocketId} {r : Nat} (g : Game)
    (h : AscendedDue i r g.players) : AscendedDue i r (awardEndOfRoundVPs g).players := by
  unfold awardEndOfRoundVPs
  refine due_foldl (fun g : Game => g) endOfRoundStep _ (fun _ => True) (fun _ _ => trivial)
    ?_ g h
  intro b a _ hb
  rw [endOfRoundStep_eq]
  exact due_map b.players _ (keepsDue_eorFun b a) hb

theorem keepsDue_revealNumber : KeepsDue revealNumber := by
  intro p
  unfold revealNumber
  cases p.selectedNumber <;> exact ⟨rfl, rfl, rfl⟩

theorem keepsDue_consumeRespawnWarp : KeepsDue consumeRespawnWarp := by
  intro p
  unfold consumeRespawnWarp
  split_ifs <;> exact ⟨rfl, rfl, rfl⟩

theorem keepsDue_startMovementPlayer (o : Oracle) : KeepsDue (startMovementPlayer o) := by
  intro p
  unfold startMovementPlayer
  split_ifs <;> exact ⟨rfl, rfl, rfl⟩

theorem not_mem_byPos {i : SocketId} {r : Nat} (ps : List Player)
    (hnd : (ps.map (fun p => p.id)).Nodup) (h : AscendedDue i r ps) :
    ∀ e ∈ buildByPos ps, i ∉ e.2 := by
  intro e he hi
  obtain ⟨p, hp, hid, hs⟩ := buildByPos_sound ps e i he hi
  obtain ⟨q, hq, hqs, _⟩ := h
  have hf := findP_of_mem_nodup ps p hnd hp
  rw [hid, hq] at hf
  rw [Option.some.inj hf, hs] at hqs
  exact Bool.noConfusion hqs

theorem due_resolutionUpToLoot {i : SocketId} {r : Nat} (g : Game) (now : Int) (o : Oracle)
    (hnd : (g.players.map (fun p => p.id)).Nodup) (h : AscendedDue i r g.players) :
    AscendedDue i r (resolutionUpToLoot g now o).g.players ∧
    ∀ e ∈ (resolutionUpToLoot g now o).byPos, i ∉ e.2 := by
  have e : resolutionUpToLoot g now o =
      (fun g1 : Game => g1.board.buffs.foldl lootStep { g := g1, byPos := buildByPos g1.players })
        ((fun g0 : Game => (g0.players.map (fun p => p.id)).foldl (moveStep o) g0)
          ({ g with
            timerEnd := now + g.durations.resolution, phase := Phase.resolution,
            players := g.players.map revealNumber } : Game)) := rfl
  rw [e]
  have h0 : AscendedDue i r (g.players.map revealNumber) :=
    due_map g.players revealNumber keepsDue_revealNumber h
  have hid0 : (g.players.map revealNumber).map (fun p => p.id) = g.players.map (fun p => p.id) :=
    map_ids g.players revealNumber (fun p => (keepsDue_revealNumber p).1)
  generalize hg0 : ({ g with
    timerEnd := now + g.durations.resolution, phase := Phase.resolution,
    players := g.players.map revealNumber } : Game) = g0
  have h0' : AscendedDue i r g0.players := by rw [← hg0]; exact h0
  dsimp only
  have hnd0 : (g0.players.map (fun p => p.id)).Nodup := by
    rw [← hg0]
    show ((g.players.map revealNumber).map (fun p => p.id)).Nodup
    rw [hid0]; exact hnd
  have h1 : AscendedDue i r ((g0.players.map (fun p => p.id)).foldl (moveStep o) g0).players :=
    due_foldl (fun g : Game => g) (moveStep o) _ (fun _ => True) (fun _ _ => trivial)
      (fun b a _ hb => due_moveStep o b a hb) g0 h0'
  have hs1 := sameRound_foldl (moveStep o) (sameRound_moveStep o)
    (g0.players.map (fun p => p.id)) g0
  generalize (g0.players.map (fun p => p.id)).foldl (moveStep o) g0 = g1 at h1 hs1 ⊢
  have hnd1 : (g1.players.map (fun p => p.id)).Nodup := by rw [hs1.2]; exact hnd0
  exact foldl_inv
    (fun acc : LootAcc => AscendedDue i r acc.g.players ∧ ∀ e ∈ acc.byPos, i ∉ e.2) lootStep
    (fun b a hb => ⟨due_lootStep b a hb.1, fun e he hi => by
      obtain ⟨e0, he0, hi0⟩ := lootStep_byPos b a i e he hi
      exact hb.2 e0 he0 hi0⟩) _ _ ⟨h1, not_mem_byPos g1.players hnd1 h1⟩

theorem due_resolutionCore {i : SocketId} {r : Nat} (g : Game) (now : Int) (o : Oracle)
    (hnd : (g.players.map (fun p => p.id)).Nodup) (h : AscendedDue i r g.players) :
    AscendedDue i r (resolutionCore g now o).players := by
  have h2 := due_resolutionUpToLoot g now o hnd h
  unfold resolutionCore
  dsimp only
  generalize resolutionUpToLoot g now o = acc at h2 ⊢
  have h3 := due_resolveCombats acc.g acc.byPos h2.2 h2.1
  generalize resolveCombatsDetailed acc.g acc.byPos = g3 at h3 ⊢
  have h4 : AscendedDue i r ((g3.players.map (fun p => p.id)).foldl fireStep g3).players :=
    due_foldl (fun g : Game => g) fireStep _ (fun _ => True) (fun _ _ => trivial)
      (fun b a _ hb => due_fireStep b a hb) g3 h3
  generalize (g3.players.map (fun p => p.id)).foldl fireStep g3 = g4 at h4 ⊢
  have h5 := due_autoSponsor o g4 h4
  generalize autoSponsor o g4 = g5 at h5 ⊢
  have h6 : AscendedDue i r (g5.players.map consumeRespawnWarp) :=
    due_map g5.players consumeRespawnWarp keepsDue_consumeRespawnWarp h5
  exact due_awardEndOfRoundVPs _ h6

theorem starved_advancePhase {i : SocketId} {r : Nat} (g : Game) (now : Int) (o : Oracle)
    (hnd : (g.players.map (fun p => p.id)).Nodup) (h : Starved i r g) :
    Starved i r (advancePhase g now o) := by
  unfold advancePhase
  cases hph : g.phase
  · exact h
  · exact ⟨due_map g.players _ (keepsDue_startMovementPlayer o) h.1, h.2⟩
  · dsimp only
    rw [startResolution_core]
    refine ⟨due_resolutionCore g now o hnd h.1, ?_⟩
    have := (sameRound_resolutionCore g now o).round
    show r ≤ (resolutionCore g now o).round
    rw [this]; exact h.2
  · dsimp only
    split_ifs
    · refine ⟨?_, by rw [(startRefresh_phase g now o).1]; exact h.2⟩
      have h0 : AscendedDue i r (g.players.map (fun p =>
          if p.isAlive && !p.isSponsor then { p with usedNumbers := [] } else p)) := by
        refine due_map g.players _ ?_ h.1
        intro p
        dsimp only
        split_ifs <;> exact ⟨rfl, rfl, rfl⟩
      unfold startRefresh
      dsimp only
      split_ifs
      · rw [endGame_players]; exact h0
      · rw [refreshBuffs_players]; exact h0
      · rw [endGame_players]; exact h0
      · rw [refreshBuffs_players]; exact h0
    · obtain ⟨p, hp, hs, hd⟩ := h.1
      have hr := h.2
      have := advanceToNumber_starved g now o i p r hp hd hr
      exact ⟨⟨clearRoundFlags p, this.1, hs, hd⟩, by rw [this.2]; omega⟩
  · dsimp only
    obtain ⟨p, hp, hs, hd⟩ := h.1
    have hr := h.2
    have := advanceToNumber_starved g now o i p r hp hd hr
    exact ⟨⟨clearRoundFlags p, this.1, hs, hd⟩, by rw [this.2]; omega⟩
  · exact h

theorem hostPaint_round (g : Game) (x y : Int) (m : PaintMode) (v : Option Item) :
    (hostPaint g x y m v).round = g.round := by
  unfold hostPaint
  cases m <;> dsimp only <;> split_ifs <;> rfl

theorem starved_modPlayer {i : SocketId} {r : Nat} (g : Game) (id : SocketId)
    (f : Player → Player) (hf : KeepsDue f) (h : Starved i r g) :
    Starved i r (g.modPlayer id f) :=
  ⟨due_modP g.players id f hf h.1, h.2⟩

theorem starved_step {i : SocketId} {r : Nat} (g g' : Game) (c : Cmd)
    (hc : c.inRound = true) (hs : step g c = some g') (hro : RosterOK g.players)
    (h : Starved i r g) : Starved i r g' := by
  cases c with
  | hostJoin sid => cases hs; exact h
  | hostConfig size durations =>
    simp only [step, Option.some.injEq] at hs
    subst hs
    cases durations <;> cases size <;> dsimp only <;> try split_ifs
    all_goals exact h
  | hostStart size now => exact Bool.noConfusion hc
  | hostReset => exact Bool.noConfusion hc
  | hostEndPhase now => cases hs; exact h
  | hostEndRound now o => cases hs; exact starved_advancePhase g now o hro.1 h
  | hostEndGame now => cases hs; exact h
  | hostPaint x y mode value =>
    cases hs
    refine ⟨?_, ?_⟩
    · rw [hostPaint_players]; exact h.1
    · rw [hostPaint_round]; exact h.2
  | hostClearGhosts => exact Bool.noConfusion hc
  | hostTogglePause now =>
    cases hs
    unfold togglePause
    split_ifs
    · exact h
    · exact h
  | hostSetColor pid color =>
    cases hs
    exact starved_modPlayer g pid _ (fun _ => ⟨rfl, rfl, rfl⟩) h
  | hostKick pid => exact Bool.noConfusion hc
  | hostUpdateSettings d => cases hs; exact h
  | hostBoardSize size =>
    simp only [step, Option.some.injEq] at hs
    subst hs
    split_ifs
    · exact h
    · exact h
  | join sid name color clientId pin a newPin lower => exact Bool.noConfusion hc
  | pickNumber sid n =>
    cases hs
    unfold pickNumber
    cases findP g.players sid with
    | none => exact h
    | some p =>
      dsimp only
      split_ifs
      · exact h
      · exact h
      · exact h
      · exact starved_modPlayer g sid _ (fun _ => ⟨rfl, rfl, rfl⟩) h
  | moveTo sid x y =>
    cases hs
    unfold moveTo
    cases findP g.players sid with
    | none => exact h
    | some p =>
      dsimp only
      split_ifs
      · exact h
      · exact h
      · exact starved_modPlayer g sid _ (fun _ => ⟨rfl, rfl, rfl⟩) h
      · exact h
      · exact starved_modPlayer g sid _ (fun _ => ⟨rfl, rfl, rfl⟩) h
  | sponsorPick sid t =>
    cases hs
    unfold sponsorPick
    cases findP g.players sid with
    | none => exact h
    | some p =>
      dsimp only
      by_cases hsp : (!p.isSponsor) = true
      · rw [if_pos hsp]; exact h
      · rw [if_neg hsp]
        exact starved_modPlayer g sid _ (fun _ => ⟨rfl, rfl, rfl⟩) h
  | disconnect sid =>
    cases hs
    exact starved_modPlayer g sid _ (fun _ => ⟨rfl, rfl, rfl⟩) h
  | tick now o =>
    simp only [step, Option.some.injEq] at hs
    subst hs
    split_ifs
    · unfold tick
      split_ifs
      · exact h
      · exact starved_advancePhase g now o hro.1 h
      · exact h
    · exact h

theorem starved_run {i : SocketId} {r : Nat} (cmds : List Cmd) : ∀ (g g' : Game),
    (∀ c ∈ cmds, c.inRound = true) → run g cmds = some g' → RosterOK g.players →
    Starved i r g → Starved i r g' := by
  induction cmds with
  | nil =>
    intro g g' _ hr _ h
    cases hr
    exact h
  | cons c cs ih =>
    intro g g' hc hr hro h
    unfold run at hr
    cases hs : step g c with
    | none => rw [hs] at hr; cases hr
    | some g1 =>
      rw [hs] at hr
      dsimp only at hr
      exact ih g1 g' (fun c' hc' => hc c' (List.mem_cons_of_mem _ hc')) hr
        (inv_step g g1 c hs hro)
        (starved_step g g1 c (hc c (List.mem_cons_self _ _)) hs hro h)

/-- C21. Respawn starvation. Let `p` be the record of an Ascended participant with due-round
`r`. After `tryRespawnsForRound(r)` the record is either respawned or exactly `p`: a participant
the call fails to place stays Ascended with the due-round `r`; with no free edge tile the call
changes nothing at all. A call `tryRespawnsForRound(r')` for any other round, in particular any
later one, leaves the record exactly `p`, whatever the free edge tiles and the shuffle, and so
does every sequence of calls for later rounds. Once the round counter has reached `r`, every
`advanceToNumber` leaves the participant Ascended with due-round `r`, below the new round; and
from a reachable state every run of commands other than start-game, reset, kick,
clear-disconnected and join leaves the participant Ascended with due-round `r`. -/
theorem C21_respawn_starvation (g : Game) (o : Oracle) (id : SocketId) (p : Player) (r : Nat)
    (hp : findP g.players id = some p) (hs : p.isSponsor = true)
    (hd : p.ascendedReturnRound = some r) :
    (findP (tryRespawnsForRound g r o).players id = some p ∨
      ∃ spot, findP (tryRespawnsForRound g r o).players id = some (respawnPlayer spot p)) ∧
    (∀ p', findP (tryRespawnsForRound g r o).players id = some p' → p'.isSponsor = true →
      p' = p) ∧
    ((edgeTilesOfBoard g.size).filter (fun t =>
        !decide (t ∈ g.board.fire) && !decide (t ∈ occupiedTiles g.players)) = [] →
      tryRespawnsForRound g r o = g) ∧
    (∀ r' o', r' ≠ r → findP (tryRespawnsForRound g r' o').players id = some p) ∧
    (∀ calls : List (Nat × Oracle), (∀ c ∈ calls, r < c.1) →
      findP (calls.foldl (fun g c => tryRespawnsForRound g c.1 c.2) g).players id = some p) ∧
    (r ≤ g.round → ∀ now o',
      findP (advanceToNumber g now o').players id = some (clearRoundFlags p) ∧
      (clearRoundFlags p).isSponsor = true ∧ (clearRoundFlags p).ascendedReturnRound = some r ∧
      r < (advanceToNumber g now o').round) ∧
    (Reachable g → r ≤ g.round → ∀ cmds g', (∀ c ∈ cmds, c.inRound = true) →
      run g cmds = some g' →
      ∃ p', findP g'.players id = some p' ∧ p'.isSponsor = true ∧
        p'.ascendedReturnRound = some r ∧ r ≤ g'.round) := by
  have hout : findP (tryRespawnsForRound g r o).players id = some p ∨
      ∃ spot, findP (tryRespawnsForRound g r o).players id = some (respawnPlayer spot p) := by
    rcases respawnOutcome_tryRespawns g r o id p hp with h | ⟨_, _, spot, h⟩
    · exact Or.inl h
    · exact Or.inr ⟨spot, h⟩
  refine ⟨hout, ?_, tryRespawns_no_free_tile g r o, ?_, ?_, ?_, ?_⟩
  · intro p' hp' hsp
    rcases hout with h | ⟨spot, h⟩
    · rw [h] at hp'
      exact (Option.some.inj hp').symm
    · rw [h] at hp'
      have : p' = respawnPlayer spot p := (Option.some.inj hp').symm
      rw [this] at hsp
      exact absurd hsp (by simp [respawnPlayer])
  · intro r' o' hne
    exact tryRespawns_other_round g r r' o' id p hp hd hne
  · exact fun calls hc => tryRespawns_later_calls id p r hd calls g hp hc
  · intro hr now o'
    have h := advanceToNumber_starved g now o' id p r hp hd hr
    exact ⟨h.1, hs, hd, by rw [h.2]; omega⟩
  · intro hreach hr cmds g' hc hrun
    obtain ⟨room, cmds0, hrun0⟩ := hreach
    have hro : RosterOK g.players :=
      inv_run cmds0 _ g hrun0 ⟨List.nodup_nil, fun p hp => by cases hp⟩
    obtain ⟨⟨p', h1, h2, h3⟩, h4⟩ :=
      starved_run cmds g g' hc hrun hro ⟨⟨p, hp, hs, hd⟩, hr⟩
    exact ⟨p', h1, h2, h3, h4⟩

set_option maxRecDepth 1000000 in
theorem C21_respawn_starvation_witness :
    Reachable exampleStarvedRun ∧
    findP exampleStarvedRun.players "a" = some starvedRecord ∧
    starvedRecord.isSponsor = true ∧ starvedRecord.ascendedReturnRound = some 3 ∧
    exampleStarvedRun.round = 3 ∧
    run exampleStarvedRun laterTicks = some exampleLaterGame ∧
    exampleLaterGame.round = 5 ∧
    ∃ p', findP exampleLaterGame.players "a" = some p' ∧ p'.isSponsor = true ∧
      p'.ascendedReturnRound = some 3 ∧ 3 ≤ exampleLaterGame.round :=
  ⟨⟨"room", starvationCommands, rfl⟩, by decide!, rfl, rfl, by decide!, by decide!, by decide!,
    (C21_respawn_starvation exampleStarvedRun zeroOracle "a" starvedRecord 3 (by decide!) rfl
      rfl).2.2.2.2.2.2
      ⟨"room", starvationCommands, rfl⟩ (by decide!) laterTicks exampleLaterGame
      (by decide) (by decide!)⟩

theorem lootStep_winner (acc : LootAcc) (e : Pos × Item) :
    (lootStep acc e).g =
      match lootWinner acc e.1 with
      | none => acc.g
      | some w => lootPickup acc.g e.1 (normalizeLoot e.2) w := by
  unfold lootStep lootWinner
  dsimp only
  cases h : byPosGet acc.byPos e.1 with
  | nil => rfl
  | cons c cs =>
    cases cs with
    | nil => rfl
    | cons c2 cs2 =>
      dsimp only
      cases hs : sortStable
          (fun a b => indexOfJS acc.g.joinOrder a - indexOfJS acc.g.joinOrder b)
          (c :: c2 :: cs2) with
      | nil => rfl
      | cons w rest => rfl

/-- C31. Seal lockout. If the participant `w` selected for the pickup on a loot tile holds the
Seal and the item is Sword, Shield, Speed or Warp, `lootPickup` returns the state unchanged, and
so does the whole loop iteration for that tile: the consumable, shield-save flag and budget of
`w` are as before, the item is still on the tile, and no other participant has received
anything. For Renown (also when stored as `COIN`) a Seal holder is awarded the chip amount,
unmirrored, and the tile is cleared. -/
theorem C31_seal_lockout (g : Game) (k2 : Pos) (code : Item) (w : SocketId) (W : Player)
    (hw : findP g.players w = some W) (hseal : W.cornucopia = true) :
    (code ∈ [Item.SWORD, Item.SHIELD, Item.SPEED, Item.WARP] →
      lootPickup g k2 code w = g ∧
      findP (lootPickup g k2 code w).players w = some W ∧
      (lootPickup g k2 code w).board.buffs = g.board.buffs ∧
      ∀ (acc : LootAcc) (raw : Item), acc.g = g → lootWinner acc k2 = some w →
        normalizeLoot raw = code → (lootStep acc (k2, raw)).g = g) ∧
    (lootPickup g k2 Item.RENOWN_CHIP w =
      { awardVP g w (max 0 g.settings.renownChipVP) false with
        board := { fire := g.board.fire, buffs := mapDelete g.board.buffs k2 } }) ∧
    normalizeLoot Item.COIN = Item.RENOWN_CHIP := by
  refine ⟨?_, ?_, rfl⟩
  · intro hc
    have hb : isCombatBuff code = true := by
      simp only [List.mem_cons, List.mem_singleton, List.not_mem_nil, or_false] at hc
      rcases hc with h | h | h | h <;> rw [h] <;> rfl
    have e : lootPickup g k2 code w = g := by
      unfold lootPickup
      rw [hw]
      simp [hseal, hb]
    refine ⟨e, by rw [e]; exact hw, by rw [e], ?_⟩
    intro acc raw hg hwin hn
    rw [lootStep_winner, hwin]
    dsimp only
    rw [hn, hg]
    exact e
  · unfold lootPickup
    rw [hw]
    have hb : isCombatBuff Item.RENOWN_CHIP = false := rfl
    simp only [hseal, hb, Bool.and_false, Bool.false_eq_true, if_false]
    have e2 : (applyLoot g w Item.RENOWN_CHIP) = awardVP g w (max 0 g.settings.renownChipVP) false :=
      rfl
    rw [e2, awardVP_eq]

set_option maxRecDepth 100000 in
/-- Witness for C31: in `exampleBurningGame` the Seal holder `a` is selected for a Sword on
(2,2), and the pickup leaves the state as it was. -/
theorem C31_seal_lockout_witness :
    (findP exampleBurningGame.players "a").map (fun p => p.cornucopia) = some true ∧
    Item.SWORD ∈ [Item.SWORD, Item.SHIELD, Item.SPEED, Item.WARP] ∧
    lootPickup exampleBurningGame (Pos.mk 2 2) Item.SWORD "a" = exampleBurningGame :=
  ⟨by decide, by decide,
    ((C31_seal_lockout exampleBurningGame (Pos.mk 2 2) Item.SWORD "a"
      { Player.new "a" (utf16 "Ann") "" "" "1111" with
        pos := some (Pos.mk 2 2), buff := some Item.SHIELD, hasShield := true,
        cornucopia := true } (by decide) rfl).1 (by decide)).1⟩

theorem strSlice_append_left (base rest : JSString) (n : Nat) (h : base.length = n) :
    strSlice (base ++ rest) n = base := by
  unfold strSlice
  rw [← h, List.take_left']
  rfl

theorem dedupeName_diverges (lower : JSString → JSString) (taken : List JSString)
    (base : JSString) (h24 : base.length = 24) (htaken : lower base ∈ taken) :
    ∀ (fuel idx : Nat), dedupeName lower taken base fuel base idx = none := by
  intro fuel
  induction fuel with
  | zero => intro idx; rfl
  | succ k ih =>
    intro idx
    unfold dedupeName
    rw [if_pos htaken]
    dsimp only
    have hlen : (base ++ utf16 " " ++ utf16 (toString idx)).length > 24 := by
      rw [List.length_append, List.length_append, h24]
      have : (utf16 " ").length = 1 := rfl
      omega
    rw [if_pos hlen]
    have e : strSlice (base ++ utf16 " " ++ utf16 (toString idx)) 24 = base := by
      rw [List.append_assoc]
      exact strSlice_append_left base _ 24 h24
    rw [e]
    exact ih (idx + 1)

/-- C39 (the code at the failing input). Two joins ask for the same display name of 24
characters. The first returns. In the second the name is taken, every candidate
`base + " " + idx` is cut back to the 24 characters of `base`, which is taken again: the
de-duplication loop never leaves, whatever the number of iterations allowed, and the call does
not return. -/
theorem C39_join_loops_on_long_taken_name :
    name24.length = 24 ∧
    (run (Game.new "room") (longNameJoins.take 1)).map (fun g => g.players.map (fun p => p.name))
      = some [name24] ∧
    (∀ (lower : JSString → JSString) (fuel idx : Nat),
      dedupeName lower [lower name24] name24 fuel name24 idx = none) ∧
    run (Game.new "room") longNameJoins = none := by
  refine ⟨by decide, by decide, ?_, by decide⟩
  exact fun lower =>
    dedupeName_diverges lower [lower name24] name24 (by decide) (List.mem_singleton.mpr rfl)

/-- C40 (the code at the failing input). Ann and Bob join on the 10x10 board and are placed on
the corners (0,0) and (9,9); the host then sets the board size to 8. `setSize` filters the
hazard set and the loot map to the new bounds and leaves the participants where they are: Bob
stands on (9,9) of a board whose coordinates end at 7. -/
theorem C40_resize_leaves_participant_off_board :
    posView twoJoins = some (10, [("s1", some (Pos.mk 0 0)), ("s2", some (Pos.mk 9 9))]) ∧
    posView (twoJoins ++ [Cmd.hostBoardSize 8])
      = some (8, [("s1", some (Pos.mk 0 0)), ("s2", some (Pos.mk 9 9))]) ∧
    posView (twoJoins ++ [Cmd.hostConfig (some 8) none])
      = some (8, [("s1", some (Pos.mk 0 0)), ("s2", some (Pos.mk 9 9))]) := by
  refine ⟨?_, ?_, ?_⟩ <;> rfl

theorem minOf_foldl_le (t : List Int) : ∀ (a : Int), t.foldl min a ≤ a ∧
    (∀ x ∈ t, t.foldl min a ≤ x) ∧ (t.foldl min a = a ∨ t.foldl min a ∈ t) := by
  induction t with
  | nil => intro a; simp
  | cons b t ih =>
    intro a
    obtain ⟨h1, h2, h3⟩ := ih (min a b)
    simp only [List.foldl_cons, List.mem_cons]
    refine ⟨le_trans h1 (min_le_left a b), ?_, ?_⟩
    · intro x hx
      rcases hx with hx | hx
      · subst hx; exact le_trans h1 (min_le_right a x)
      · exact h2 x hx
    · rcases h3 with h3 | h3
      · rcases min_choice a b with hm | hm
        · left; rw [h3, hm]
        · right; left; rw [h3, hm]
      · right; right; exact h3

theorem minOf_spec (l : List Int) (hl : l ≠ []) :
    minOf l ∈ l ∧ ∀ x ∈ l, minOf l ≤ x := by
  cases l with
  | nil => exact absurd rfl hl
  | cons a t =>
    obtain ⟨h1, h2, h3⟩ := minOf_foldl_le t a
    show t.foldl min a ∈ a :: t ∧ ∀ x ∈ a :: t, t.foldl min a ≤ x
    refine ⟨?_, ?_⟩
    · rcases h3 with h3 | h3
      · rw [h3]; exact List.mem_cons_self _ _
      · exact List.mem_cons_of_mem _ h3
    · intro x hx
      rcases List.mem_cons.mp hx with hx | hx
      · subst hx; exact h1
      · exact h2 x hx

theorem mem_spawnCandidates (g : Game) (c : Pos) :
    c ∈ spawnCandidates g ↔
      (0 ≤ c.x ∧ c.x ≤ g.size - 1 ∧ 0 ≤ c.y ∧ c.y ≤ g.size - 1) ∧
      (c.x = 0 ∨ c.x = g.size - 1 ∨ c.y = 0 ∨ c.y = g.size - 1) := by
  unfold spawnCandidates
  simp only [List.mem_append, List.mem_flatMap, mem_intsFromTo, List.mem_cons,
    List.mem_singleton, List.not_mem_nil, or_false]
  constructor
  · rintro (⟨x, ⟨h1, h2⟩, rfl | rfl⟩ | ⟨y, ⟨h1, h2⟩, rfl | rfl⟩) <;> dsimp only <;> omega
  · rintro ⟨⟨h1, h2, h3, h4⟩, h5⟩
    obtain ⟨cx, cy⟩ := c
    dsimp only at h1 h2 h3 h4 h5
    by_cases hy0 : cy = 0
    · exact Or.inl ⟨cx, ⟨h1, h2⟩, Or.inl (by rw [hy0])⟩
    · by_cases hy1 : cy = g.size - 1
      · exact Or.inl ⟨cx, ⟨h1, h2⟩, Or.inr (by rw [hy1])⟩
      · have hx : cx = 0 ∨ cx = g.size - 1 := by omega
        refine Or.inr ⟨cy, ⟨by omega, by omega⟩, ?_⟩
        rcases hx with hx | hx
        · exact Or.inl (by rw [hx])
        · exact Or.inr (by rw [hx])

theorem mem_spawnOpen (g : Game) (c : Pos) :
    c ∈ spawnOpen g ↔
      ((0 ≤ c.x ∧ c.x ≤ g.size - 1 ∧ 0 ≤ c.y ∧ c.y ≤ g.size - 1) ∧
        (c.x = 0 ∨ c.x = g.size - 1 ∨ c.y = 0 ∨ c.y = g.size - 1)) ∧
      inCornucore c.x c.y g.cc = false ∧ c ∉ g.board.fire ∧ c ∉ occupiedTiles g.players := by
  unfold spawnOpen
  rw [List.mem_filter, mem_spawnCandidates]
  simp [and_assoc]

theorem spawnPosition_eq (g : Game) :
    spawnPosition g =
      match spawnOpen g with
      | [] => Pos.mk 0 0
      | _ :: _ =>
        match sortStable (fun (a b : Pos × Int) => b.2 - a.2)
            ((spawnOpen g).map (fun c => (c, spawnScore g c))) with
        | [] => Pos.mk 0 0
        | top :: _ => top.1 := by
  rfl

theorem sortStable_head_max (l : List (Pos × Int)) (top : Pos × Int) (rest : List (Pos × Int))
    (h : sortStable (fun (a b : Pos × Int) => b.2 - a.2) l = top :: rest) :
    top ∈ l ∧ ∀ x ∈ l, x.2 ≤ top.2 := by
  have hp := perm_sortStable (fun (a b : Pos × Int) => b.2 - a.2) l
  have hs := pairwise_sortStable (fun (a b : Pos × Int) => b.2 - a.2)
    (fun a b => by dsimp only; omega) (fun a b c h1 h2 => by dsimp only at h1 h2 ⊢; omega) l
  rw [h] at hp hs
  refine ⟨hp.subset (List.mem_cons_self _ _), ?_⟩
  intro x hx
  have hx' : x ∈ top :: rest := hp.symm.subset hx
  rcases List.mem_cons.mp hx' with e | e
  · rw [e]
  · have := (List.pairwise_cons.mp hs).1 x e
    omega

theorem spawnPosition_open (g : Game) (h : spawnOpen g ≠ []) :
    spawnPosition g ∈ spawnOpen g ∧
    ∀ c ∈ spawnOpen g, spawnScore g c ≤ spawnScore g (spawnPosition g) := by
  rw [spawnPosition_eq]
  cases ho : spawnOpen g with
  | nil => exact absurd ho h
  | cons c0 cs =>
    dsimp only
    rw [← ho]
    cases hs : sortStable (fun (a b : Pos × Int) => b.2 - a.2)
        ((spawnOpen g).map (fun c => (c, spawnScore g c))) with
    | nil =>
      have hp := (perm_sortStable (fun (a b : Pos × Int) => b.2 - a.2)
        ((spawnOpen g).map (fun c => (c, spawnScore g c)))).length_eq
      rw [hs, List.length_map, ho] at hp
      cases hp
    | cons top rest =>
      dsimp only
      obtain ⟨hm, hmax⟩ := sortStable_head_max _ top rest hs
      obtain ⟨c1, hc1, e⟩ := List.mem_map.mp hm
      have e1 : top.1 = c1 := by rw [← e]
      have e2 : top.2 = spawnScore g c1 := by rw [← e]
      rw [e1]
      refine ⟨hc1, ?_⟩
      intro c hc
      have := hmax (c, spawnScore g c) (List.mem_map.mpr ⟨c, hc, rfl⟩)
      rw [e2] at this
      exact this

set_option maxRecDepth 1000000 in
/-- C36, counterexample. With a hazard on every edge tile no candidate is open and
`spawnPosition` returns (0,0), a hazard tile, on which the next participant is placed. After
Bob (on the corner (9,9)) has reconnected on a new connection his position is no longer among
the positions `spawnPosition` measures against: the third participant is placed on (8,9), at
distance 1 from Bob, although the open tile (0,9) is at distance 9 from both Ann and Bob. -/
theorem C36_spawn_fallback_and_uncounted_participant :
    spawnOpen exampleEdgeHazardGame = [] ∧
    spawnPosition exampleEdgeHazardGame = Pos.mk 0 0 ∧
    Pos.mk 0 0 ∈ exampleEdgeHazardGame.board.fire ∧
    posView (edgeHazardCommands ++ [Cmd.join "s1" (utf16 "Ann") "" "" "" false "1111" asciiLower])
      = some (10, [("s1", some (Pos.mk 0 0))]) ∧
    posView (twoJoins ++ [bobReconnects])
      = some (10, [("s1", some (Pos.mk 0 0)), ("s3", some (Pos.mk 9 9))]) ∧
    spawnPosition exampleReconnectedGame = Pos.mk 8 9 ∧
    Pos.mk 0 9 ∈ spawnOpen exampleReconnectedGame ∧
    manhattan (Pos.mk 9 9) (Pos.mk 8 9) = 1 ∧
    manhattan (Pos.mk 0 0) (Pos.mk 0 9) = 9 ∧ manhattan (Pos.mk 9 9) (Pos.mk 0 9) = 9 := by
  refine ⟨by decide!, by decide!, by decide!, rfl, rfl, by decide!, by decide!, by decide,
    by decide, by decide⟩

/-- What `spawnPosition` returns: an open tile when there is one, among the open tiles one that
maximises the minimum Manhattan distance to the positions of the participants stored under the
ids of the join sequence (any open tile when none of them has a position), and (0,0) when no
tile is open. -/
theorem spawnPosition_maxmin (g : Game) :
    (∀ c, c ∈ spawnOpen g ↔
      ((0 ≤ c.x ∧ c.x ≤ g.size - 1 ∧ 0 ≤ c.y ∧ c.y ≤ g.size - 1) ∧
        (c.x = 0 ∨ c.x = g.size - 1 ∨ c.y = 0 ∨ c.y = g.size - 1)) ∧
      inCornucore c.x c.y g.cc = false ∧ c ∉ g.board.fire ∧ c ∉ occupiedTiles g.players) ∧
    (spawnOpen g = [] → spawnPosition g = Pos.mk 0 0) ∧
    (spawnOpen g ≠ [] →
      spawnPosition g ∈ spawnOpen g ∧
      (spawnAssigned g ≠ [] → ∀ c ∈ spawnOpen g, ∃ a ∈ spawnAssigned g,
        ∀ a' ∈ spawnAssigned g, manhattan a c ≤ manhattan a' (spawnPosition g))) ∧
    spawnAssigned g
      = (g.joinOrder.filterMap (fun id => findP g.players id)).filterMap (fun p => p.pos) := by
  refine ⟨mem_spawnOpen g, ?_, ?_, rfl⟩
  · intro h
    rw [spawnPosition_eq, h]
  · intro h
    obtain ⟨h1, h2⟩ := spawnPosition_open g h
    refine ⟨h1, ?_⟩
    intro ha c hc
    have hne : ∀ t : Pos, (spawnAssigned g).map (fun a => manhattan a t) ≠ [] := by
      intro t e
      exact ha (List.map_eq_nil_iff.mp e)
    have hemp : (spawnAssigned g).isEmpty = false := by
      cases hl : spawnAssigned g with
      | nil => exact absurd hl ha
      | cons _ _ => rfl
    have hsc : ∀ t : Pos, spawnScore g t = minOf ((spawnAssigned g).map (fun a => manhattan a t)) := by
      intro t
      unfold spawnScore
      rw [hemp]
      rfl
    have hle := h2 c hc
    rw [hsc, hsc] at hle
    obtain ⟨a, ha1, ha2⟩ := List.mem_map.mp (minOf_spec _ (hne c)).1
    refine ⟨a, ha1, ?_⟩
    intro a' ha'
    have h3 := (minOf_spec _ (hne (spawnPosition g))).2 (manhattan a' (spawnPosition g))
      (List.mem_map.mpr ⟨a', ha', rfl⟩)
    rw [ha2]
    exact le_trans hle h3

theorem mem_spawnAssigned_placed (g : Game) (a : Pos) (h : a ∈ spawnAssigned g) :
    a ∈ placedPositions g := by
  unfold spawnAssigned at h
  obtain ⟨p, hp, hpos⟩ := List.mem_filterMap.mp h
  obtain ⟨id, _, hf⟩ := List.mem_filterMap.mp hp
  exact List.mem_filterMap.mpr ⟨p, findP_mem _ _ _ hf, hpos⟩

theorem mem_placed_spawnAssigned (g : Game)
    (hnd : (g.players.map (fun p => p.id)).Nodup) (hjo : ∀ p ∈ g.players, p.id ∈ g.joinOrder)
    (a : Pos) (h : a ∈ placedPositions g) : a ∈ spawnAssigned g := by
  unfold placedPositions at h
  obtain ⟨p, hp, hpos⟩ := List.mem_filterMap.mp h
  unfold spawnAssigned
  exact List.mem_filterMap.mpr ⟨p,
    List.mem_filterMap.mpr ⟨p.id, hjo p hp, findP_of_mem_nodup g.players p hnd hp⟩, hpos⟩

/-- C36, amended. Let the roster hold one entry per connection id and the join sequence hold the
id of every participant. When at least one board-edge tile is outside the safe zone, not a
hazard tile and not occupied by a positioned Alive participant, `spawnPosition` returns such a
tile, and among all such tiles one that maximises the minimum Manhattan distance to the
positions of the participants that have one (any such tile when none has); when there is no
such tile it returns (0,0). -/
theorem C36_spawn_placement (g : Game)
    (hnd : (g.players.map (fun p => p.id)).Nodup)
    (hjo : ∀ p ∈ g.players, p.id ∈ g.joinOrder) :
    (∀ c, c ∈ spawnOpen g ↔
      ((0 ≤ c.x ∧ c.x ≤ g.size - 1 ∧ 0 ≤ c.y ∧ c.y ≤ g.size - 1) ∧
        (c.x = 0 ∨ c.x = g.size - 1 ∨ c.y = 0 ∨ c.y = g.size - 1)) ∧
      inCornucore c.x c.y g.cc = false ∧ c ∉ g.board.fire ∧ c ∉ occupiedTiles g.players) ∧
    (spawnOpen g = [] → spawnPosition g = Pos.mk 0 0) ∧
    (spawnOpen g ≠ [] →
      spawnPosition g ∈ spawnOpen g ∧
      (placedPositions g ≠ [] → ∀ c ∈ spawnOpen g, ∃ a ∈ placedPositions g,
        ∀ a' ∈ placedPositions g, manhattan a c ≤ manhattan a' (spawnPosition g))) := by
  obtain ⟨h1, h2, h3, _⟩ := spawnPosition_maxmin g
  refine ⟨h1, h2, ?_⟩
  intro hne
  obtain ⟨h4, h5⟩ := h3 hne
  refine ⟨h4, ?_⟩
  intro hpl c hc
  have hass : spawnAssigned g ≠ [] := by
    intro e
    cases hl : placedPositions g with
    | nil => exact hpl hl
    | cons a t =>
      have : a ∈ spawnAssigned g :=
        mem_placed_spawnAssigned g hnd hjo a (by rw [hl]; exact List.mem_cons_self _ _)
      rw [e] at this
      cases this
  obtain ⟨a, ha, hmin⟩ := h5 hass c hc
  exact ⟨a, mem_spawnAssigned_placed g a ha,
    fun a' ha' => hmin a' (mem_placed_spawnAssigned g hnd hjo a' ha')⟩

set_option maxRecDepth 1000000 in
/-- Witness for C36: with Ann on (0,0) and Bob on (9,9) of the 10x10 board, `spawnPosition`
returns the open corner (0,9), at distance 9 from both, and no open tile has a larger minimum
distance to the two. -/
theorem C36_spawn_placement_witness :
    (exampleTwoJoinedGame.players.map (fun p => p.id)).Nodup ∧
    (∀ p ∈ exampleTwoJoinedGame.players, p.id ∈ exampleTwoJoinedGame.joinOrder) ∧
    placedPositions exampleTwoJoinedGame = [Pos.mk 0 0, Pos.mk 9 9] ∧
    spawnOpen exampleTwoJoinedGame ≠ [] ∧
    spawnPosition exampleTwoJoinedGame = Pos.mk 0 9 ∧
    spawnPosition exampleTwoJoinedGame ∈ spawnOpen exampleTwoJoinedGame ∧
    (placedPositions exampleTwoJoinedGame ≠ [] →
      ∀ c ∈ spawnOpen exampleTwoJoinedGame, ∃ a ∈ placedPositions exampleTwoJoinedGame,
        ∀ a' ∈ placedPositions exampleTwoJoinedGame,
          manhattan a c ≤ manhattan a' (spawnPosition exampleTwoJoinedGame)) :=
  ⟨by decide!, by decide!, by decide!, by decide!, by decide!,
   ((C36_spawn_placement exampleTwoJoinedGame (by decide!) (by decide!)).2.2 (by decide!)).1,
   ((C36_spawn_placement exampleTwoJoinedGame (by decide!) (by decide!)).2.2 (by decide!)).2⟩

theorem foldl_setAdd_append (l : List Pos) : ∀ (s : List Pos),
    ∃ extra, l.foldl setAdd s = s ++ extra ∧ extra.length ≤ l.length ∧
      extra.Nodup ∧ ∀ x ∈ extra, x ∈ l ∧ x ∉ s := by
  induction l with
  | nil => intro s; exact ⟨[], by simp, le_refl _, List.nodup_nil, fun _ h => absurd h (List.not_mem_nil _)⟩
  | cons a t ih =>
    intro s
    rw [List.foldl_cons]
    by_cases ha : a ∈ s
    · have e : setAdd s a = s := by unfold setAdd; rw [if_pos ha]
      rw [e]
      obtain ⟨extra, h1, h2, h3, h4⟩ := ih s
      exact ⟨extra, h1, Nat.le_succ_of_le h2, h3,
        fun x hx => ⟨List.mem_cons_of_mem _ (h4 x hx).1, (h4 x hx).2⟩⟩
    · have e : setAdd s a = s ++ [a] := by unfold setAdd; rw [if_neg ha]
      rw [e]
      obtain ⟨extra, h1, h2, h3, h4⟩ := ih (s ++ [a])
      refine ⟨a :: extra, ?_, ?_, ?_, ?_⟩
      · rw [h1, List.append_assoc]; rfl
      · simp only [List.length_cons]; omega
      · refine List.nodup_cons.mpr ⟨?_, h3⟩
        intro hmem
        exact (h4 a hmem).2 (List.mem_append_right _ (List.mem_singleton_self a))
      · intro x hx
        rcases List.mem_cons.mp hx with hx | hx
        · rw [hx]; exact ⟨List.mem_cons_self _ _, ha⟩
        · exact ⟨List.mem_cons_of_mem _ (h4 x hx).1,
            fun hs => (h4 x hx).2 (List.mem_append_left _ hs)⟩

theorem startRefresh_expand_fire (g : Game) (now : Int) (o : Oracle) (hf : g.board.fire ≠ []) :
    (startRefresh g now o).board.fire = (refreshToAdd g o).foldl setAdd g.board.fire := by
  rw [startRefresh_expand g now o hf]
  split_ifs <;> rfl

theorem mem_fireNbrs_manhattan (f t : Pos) (h : t ∈ fireNbrs f) : manhattan f t = 1 := by
  unfold fireNbrs at h
  simp only [List.mem_cons, List.mem_singleton, List.not_mem_nil, or_false] at h
  unfold manhattan
  rcases h with h | h | h | h <;> rw [h] <;> dsimp only <;> omega

theorem mem_refreshToAdd (g : Game) (o : Oracle) (t : Pos) (h : t ∈ refreshToAdd g o) :
    t ∉ g.board.fire ∧ (0 ≤ t.x ∧ t.x < g.size ∧ 0 ≤ t.y ∧ t.y < g.size) ∧
    inCornucore t.x t.y g.cc = false ∧ t ∉ occupiedTiles g.players ∧
    ∃ f ∈ g.board.fire, manhattan f t = 1 := by
  unfold refreshToAdd at h
  have h1 := mem_shuffle _ _ _ (List.mem_of_mem_take h)
  rw [mem_fireFrontier] at h1
  obtain ⟨⟨f, hf, hn⟩, hok⟩ := h1
  rw [if_pos rfl, refresh_occupied] at hok
  have hf' : f ∈ g.board.fire := hf
  unfold frontierOK inBoard at hok
  have hs : (refreshStart g).size = g.size := rfl
  have hc : (refreshStart g).cc = g.cc := rfl
  have hb : (refreshStart g).board = g.board := rfl
  rw [hs, hc, hb] at hok
  simp only [Bool.and_eq_true, decide_eq_true_eq, Bool.not_eq_true', decide_eq_false_iff_not] at hok
  obtain ⟨⟨⟨⟨⟨⟨hx0, hy0⟩, hx1⟩, hy1⟩, hcc⟩, hfire⟩, hocc⟩ := hok
  exact ⟨hfire, ⟨hx0, hx1, hy0, hy1⟩, hcc, hocc, f, hf', mem_fireNbrs_manhattan f t hn⟩

/-- C33. Hazard expansion. When `startRefresh` runs with a non-empty hazard set, the hazard set
it leaves is the old one followed by the tiles added: no hazard tile is removed, at most
`clamp(firesPerRefresh, 0, 100)` tiles are added, and every added tile was not a hazard tile, is
in bounds, lies outside the safe zone, is not occupied by a positioned Alive participant, and
is at Manhattan distance 1 from a tile that was a hazard tile before the call. -/
theorem C33_hazard_expansion (g : Game) (now : Int) (o : Oracle) (hf : g.board.fire ≠ []) :
    ∃ added : List Pos,
      (startRefresh g now o).board.fire = g.board.fire ++ added ∧ added.Nodup ∧
      (added.length : Int) ≤ clamp g.settings.firesPerRefresh 0 100 ∧
      ∀ t ∈ added,
        t ∉ g.board.fire ∧ (0 ≤ t.x ∧ t.x < g.size ∧ 0 ≤ t.y ∧ t.y < g.size) ∧
        inCornucore t.x t.y g.cc = false ∧ t ∉ occupiedTiles g.players ∧
        ∃ f ∈ g.board.fire, manhattan f t = 1 := by
  obtain ⟨extra, h1, h2, h3, h4⟩ := foldl_setAdd_append (refreshToAdd g o) g.board.fire
  refine ⟨extra, ?_, h3, ?_, fun t ht => mem_refreshToAdd g o t (h4 t ht).1⟩
  · rw [startRefresh_expand_fire g now o hf, h1]
  · have hlen : (refreshToAdd g o).length ≤ (max 0 (min 100 g.settings.firesPerRefresh)).toNat := by
      unfold refreshToAdd
      rw [List.length_take]
      exact Nat.min_le_left _ _
    have hnn : (0 : Int) ≤ max 0 (min 100 g.settings.firesPerRefresh) := le_max_left _ _
    have hcast : (((max 0 (min 100 g.settings.firesPerRefresh)).toNat : Nat) : Int)
        = max 0 (min 100 g.settings.firesPerRefresh) := Int.toNat_of_nonneg hnn
    unfold clamp
    have : (extra.length : Int) ≤ (((max 0 (min 100 g.settings.firesPerRefresh)).toNat : Nat) : Int) := by
      exact_mod_cast le_trans h2 hlen
    rw [hcast] at this
    exact this

set_option maxRecDepth 100000 in
/-- Witness for C33: in `exampleHazardGame` the hazard set grows to (0,0), (0,1), (1,0). -/
theorem C33_hazard_expansion_witness :
    exampleHazardGame.board.fire ≠ [] ∧
    (startRefresh exampleHazardGame 0 zeroOracle).board.fire
      = [Pos.mk 0 0, Pos.mk 0 1, Pos.mk 1 0] ∧
    ∃ added : List Pos,
      (startRefresh exampleHazardGame 0 zeroOracle).board.fire
        = exampleHazardGame.board.fire ++ added ∧ added.Nodup ∧
      (added.length : Int) ≤ clamp exampleHazardGame.settings.firesPerRefresh 0 100 ∧
      ∀ t ∈ added,
        t ∉ exampleHazardGame.board.fire ∧
        (0 ≤ t.x ∧ t.x < exampleHazardGame.size ∧ 0 ≤ t.y ∧ t.y < exampleHazardGame.size) ∧
        inCornucore t.x t.y exampleHazardGame.cc = false ∧
        t ∉ occupiedTiles exampleHazardGame.players ∧
        ∃ f ∈ exampleHazardGame.board.fire, manhattan f t = 1 :=
  ⟨by decide, by decide!, C33_hazard_expansion exampleHazardGame 0 zeroOracle (by decide)⟩

theorem mem_seedCandidates (g : Game) (t : Pos) :
    t ∈ seedCandidates g ↔
      (0 ≤ t.x ∧ t.x < g.size ∧ 0 ≤ t.y ∧ t.y < g.size) ∧
      inCornucore t.x t.y g.cc = false ∧ t ∉ occupiedTiles g.players := by
  unfold seedCandidates
  rw [refresh_occupied]
  simp only [List.mem_flatMap, List.mem_filterMap, mem_intsFromTo]
  constructor
  · rintro ⟨y, ⟨hy0, hy1⟩, x, ⟨hx0, hx1⟩, h⟩
    split_ifs at h with h1 h2
    · cases h
      simp only [Bool.not_eq_true', decide_eq_false_iff_not] at h2
      refine ⟨⟨hx0, by dsimp only; omega, hy0, by dsimp only; omega⟩, ?_, h2⟩
      simpa using h1
  · rintro ⟨⟨hx0, hx1, hy0, hy1⟩, hc, ho⟩
    refine ⟨t.y, ⟨hy0, by omega⟩, t.x, ⟨hx0, by omega⟩, ?_⟩
    rw [if_neg (by rw [hc]; exact Bool.false_ne_true)]
    rw [if_pos (by simpa using ho)]

theorem pickSeeds_inv (n : Int) (rnd : List Pos) : ∀ seeds0 : List Pos,
    (seeds0.length : Int) ≤ max 0 n → seeds0.Pairwise (fun a b => isAdj a b = false) →
    ((rnd.foldl (fun seeds kk =>
        if (seeds.length : Int) ≥ n then seeds
        else if !(seeds.any (fun s => isAdj s kk)) then seeds ++ [kk]
        else seeds) seeds0).length : Int) ≤ max 0 n ∧
    (rnd.foldl (fun seeds kk =>
        if (seeds.length : Int) ≥ n then seeds
        else if !(seeds.any (fun s => isAdj s kk)) then seeds ++ [kk]
        else seeds) seeds0).Pairwise (fun a b => isAdj a b = false) ∧
    ∀ s ∈ rnd.foldl (fun seeds kk =>
        if (seeds.length : Int) ≥ n then seeds
        else if !(seeds.any (fun s => isAdj s kk)) then seeds ++ [kk]
        else seeds) seeds0, s ∈ seeds0 ∨ s ∈ rnd := by
  induction rnd with
  | nil => intro s0 h1 h2; exact ⟨h1, h2, fun s hs => Or.inl hs⟩
  | cons a t ih =>
    intro s0 h1 h2
    rw [List.foldl_cons]
    by_cases hge : (s0.length : Int) ≥ n
    · rw [if_pos hge]
      obtain ⟨r1, r2, r3⟩ := ih s0 h1 h2
      refine ⟨r1, r2, fun s hs => ?_⟩
      rcases r3 s hs with h | h
      · exact Or.inl h
      · exact Or.inr (List.mem_cons_of_mem _ h)
    · rw [if_neg hge]
      by_cases hadj : (!(s0.any (fun s => isAdj s a))) = true
      · rw [if_pos hadj]
        have hl : ((s0 ++ [a]).length : Int) ≤ max 0 n := by
          rw [List.length_append, List.length_singleton]
          push_cast
          have : n ≤ max 0 n := le_max_right _ _
          omega
        have hp : (s0 ++ [a]).Pairwise (fun x y => isAdj x y = false) := by
          rw [List.pairwise_append]
          refine ⟨h2, List.pairwise_singleton _ _, ?_⟩
          intro x hx y hy
          rw [List.mem_singleton.mp hy]
          simp only [Bool.not_eq_true', List.any_eq_false] at hadj
          have := hadj x hx
          simpa using this
        obtain ⟨r1, r2, r3⟩ := ih (s0 ++ [a]) hl hp
        refine ⟨r1, r2, fun s hs => ?_⟩
        rcases r3 s hs with h | h
        · rcases List.mem_append.mp h with h | h
          · exact Or.inl h
          · rw [List.mem_singleton.mp h]; exact Or.inr (List.mem_cons_self _ _)
        · exact Or.inr (List.mem_cons_of_mem _ h)
      · rw [if_neg hadj]
        obtain ⟨r1, r2, r3⟩ := ih s0 h1 h2
        refine ⟨r1, r2, fun s hs => ?_⟩
        rcases r3 s hs with h | h
        · exact Or.inl h
        · exact Or.inr (List.mem_cons_of_mem _ h)

theorem pickSeeds_zero (n : Int) (hn : n ≤ 0) (rnd : List Pos) : pickSeeds n rnd = [] := by
  unfold pickSeeds
  induction rnd with
  | nil => rfl
  | cons a t ih =>
    rw [List.foldl_cons]
    have : (([] : List Pos).length : Int) ≥ n := by simpa using hn
    rw [if_pos this]
    exact ih

theorem refreshSeeds_spec (g : Game) (o : Oracle) :
    ((refreshSeeds g o).length : Int) ≤ clamp g.settings.firesPerRefresh 0 100 ∧
    (refreshSeeds g o).Pairwise (fun a b => isAdj a b = false) ∧
    (∀ s ∈ refreshSeeds g o, s ∈ seedCandidates g) ∧
    (refreshSeeds g o = [] ↔
      clamp g.settings.firesPerRefresh 0 100 = 0 ∨ seedCandidates g = []) := by
  unfold clamp
  have hF : (0 : Int) ≤ max 0 (min 100 g.settings.firesPerRefresh) := le_max_left _ _
  obtain ⟨h1, h2, h3⟩ := pickSeeds_inv (max 0 (min 100 g.settings.firesPerRefresh))
    (shuffle o.shuffleA (seedCandidates g)) [] (by simp) List.Pairwise.nil
  have e : refreshSeeds g o = (shuffle o.shuffleA (seedCandidates g)).foldl (fun seeds kk =>
        if (seeds.length : Int) ≥ max 0 (min 100 g.settings.firesPerRefresh) then seeds
        else if !(seeds.any (fun s => isAdj s kk)) then seeds ++ [kk]
        else seeds) [] := rfl
  rw [← e] at h1 h2 h3
  refine ⟨?_, h2, ?_, ?_⟩
  · rw [max_eq_right hF] at h1; exact h1
  · intro s hs
    rcases h3 s hs with h | h
    · cases h
    · exact mem_shuffle _ _ _ h
  · constructor
    · intro hnil
      by_contra hcon
      rw [not_or] at hcon
      have hn1 : 1 ≤ max 0 (min 100 g.settings.firesPerRefresh) := by
        have := hcon.1
        omega
      have hr : shuffle o.shuffleA (seedCandidates g) ≠ [] := by
        intro he
        have := congrArg List.length he
        rw [length_shuffle] at this
        exact hcon.2 (List.length_eq_zero.mp this)
      have := pickSeeds_ne_nil _ _ hn1 hr
      apply this
      show (refreshSeeds g o).length = 0
      rw [hnil]; rfl
    · rintro (h | h)
      · exact pickSeeds_zero _ (le_of_eq h) _
      · unfold refreshSeeds
        rw [h]
        rfl

set_option maxRecDepth 1000000 in
/-- C34 (the code at the failing input). The host sets `firesPerRefresh` to 0 and starts the
game on an empty 10x10 board. At the refresh after round 6 the hazard set is empty and every tile outside the
safe zone is placeable, yet no seed is placed and the game ends with the exhaustion reason; with
the default setting the same run places seeds and enters the refresh phase. -/
theorem C34_zero_fires_ends_game :
    (hazardView (Cmd.hostUpdateSettings noFiresPayload :: forcedAdvances 17)).map
        (fun v => (v.1, v.2.1, v.2.2.2)) = some (Phase.resolution, 6, []) ∧
    hazardView (Cmd.hostUpdateSettings noFiresPayload :: forcedAdvances 18)
      = some (Phase.gameover, 6, some EndReason.fire_exhausted, []) ∧
    (hazardView (forcedAdvances 18)).map (fun v => (v.1, v.2.1, v.2.2.1, v.2.2.2.length))
      = some (Phase.refresh, 6, none, 5) := by
  refine ⟨by decide!, by decide!, by decide!⟩

/-- Seeding as coded. When `startRefresh` runs with an empty hazard set, the seeds it places
number at most `F = clamp(firesPerRefresh, 0, 100)`, all lie in bounds outside the safe zone on
tiles not occupied by a positioned Alive participant, and no two seeds are 4-adjacent; the hazard
set left consists of the seeds. The game ends, with the exhaustion reason, exactly when no seed is
placed, which happens exactly when `F = 0` or no tile outside the safe zone is placeable. -/
theorem hazardSeeding_as_coded (g : Game) (now : Int) (o : Oracle) (hf : g.board.fire = []) :
    ((refreshSeeds g o).length : Int) ≤ clamp g.settings.firesPerRefresh 0 100 ∧
    (∀ s ∈ refreshSeeds g o,
      (0 ≤ s.x ∧ s.x < g.size ∧ 0 ≤ s.y ∧ s.y < g.size) ∧
      inCornucore s.x s.y g.cc = false ∧ s ∉ occupiedTiles g.players) ∧
    (refreshSeeds g o).Pairwise (fun a b => isAdj a b = false) ∧
    (∀ t, t ∈ (startRefresh g now o).board.fire ↔ t ∈ refreshSeeds g o) ∧
    ((startRefresh g now o).phase = Phase.gameover ↔ refreshSeeds g o = []) ∧
    (refreshSeeds g o = [] →
      (startRefresh g now o).endReason = some EndReason.fire_exhausted) ∧
    (refreshSeeds g o ≠ [] → (startRefresh g now o).phase = Phase.refresh) ∧
    (refreshSeeds g o = [] ↔
      clamp g.settings.firesPerRefresh 0 100 = 0 ∨
      ∀ t : Pos, (0 ≤ t.x ∧ t.x < g.size ∧ 0 ≤ t.y ∧ t.y < g.size) →
        inCornucore t.x t.y g.cc = false → t ∈ occupiedTiles g.players) := by
  obtain ⟨h1, h2, h3, h4⟩ := refreshSeeds_spec g o
  have hfire : (startRefresh g now o).board.fire = (refreshSeeds g o).foldl setAdd [] := by
    rw [startRefresh_seeding g now o hf]
    split_ifs <;> (show (refreshSeeds g o).foldl setAdd g.board.fire = _; rw [hf])
  have hlen : (refreshSeeds g o).length = 0 ↔ refreshSeeds g o = [] := List.length_eq_zero
  refine ⟨h1, fun s hs => (mem_seedCandidates g s).mp (h3 s hs), h2, ?_, ?_, ?_, ?_, ?_⟩
  · intro t
    rw [hfire]
    obtain ⟨extra, e1, _, _, e4⟩ := foldl_setAdd_append (refreshSeeds g o) []
    constructor
    · intro ht
      rw [e1] at ht
      rcases List.mem_append.mp ht with h | h
      · cases h
      · exact (e4 t h).1
    · intro ht
      have : ∀ (l s : List Pos), t ∈ s ∨ t ∈ l → t ∈ l.foldl setAdd s := by
        intro l
        induction l with
        | nil => intro s h; rcases h with h | h; exact h; cases h
        | cons a r ih =>
          intro s h
          rw [List.foldl_cons]
          apply ih
          rcases h with h | h
          · exact Or.inl ((mem_setAdd s a t).mpr (Or.inl h))
          · rcases List.mem_cons.mp h with h | h
            · exact Or.inl ((mem_setAdd s a t).mpr (Or.inr h))
            · exact Or.inr h
      exact this _ _ (Or.inr ht)
  · rw [startRefresh_seeding g now o hf]
    constructor
    · intro hph
      by_contra hne
      rw [if_neg (fun h => hne (hlen.mp h))] at hph
      cases hph
    · intro hnil
      rw [if_pos (hlen.mpr hnil)]
      rfl
  · intro hnil
    rw [startRefresh_seeding g now o hf, if_pos (hlen.mpr hnil)]
    rfl
  · intro hne
    rw [startRefresh_seeding g now o hf, if_neg (fun h => hne (hlen.mp h))]
    rfl
  · rw [h4]
    constructor
    · rintro (h | h)
      · exact Or.inl h
      · right
        intro t hb hc
        by_contra ho
        have : t ∈ seedCandidates g := (mem_seedCandidates g t).mpr ⟨hb, hc, ho⟩
        rw [h] at this
        cases this
    · rintro (h | h)
      · exact Or.inl h
      · right
        cases hc : seedCandidates g with
        | nil => rfl
        | cons a r =>
          have ha : a ∈ seedCandidates g := by rw [hc]; exact List.mem_cons_self _ _
          obtain ⟨hb, hcc, ho⟩ := (mem_seedCandidates g a).mp ha
          exact absurd (h a hb hcc) ho

set_option maxRecDepth 1000000 in
/-- Seeding on a new 10x10 board with the default settings. -/
theorem hazardSeeding_as_coded_example :
    (Game.new "room").board.fire = [] ∧
    ((refreshSeeds (Game.new "room") zeroOracle).length : Int)
      ≤ clamp (Game.new "room").settings.firesPerRefresh 0 100 ∧
    (refreshSeeds (Game.new "room") zeroOracle).Pairwise (fun a b => isAdj a b = false) :=
  have h := hazardSeeding_as_coded (Game.new "room") 0 zeroOracle rfl
  ⟨rfl, h.1, h.2.2.1⟩

theorem nodup_iff_index_unique {α : Type} (a : List α) :
    a.Nodup ↔ ∀ (u v : Nat) (w : α), a[u]? = some w → a[v]? = some w → u = v := by
  rw [List.nodup_iff_getElem?_ne_getElem?]
  constructor
  · intro h u v w hu hv
    rcases Nat.lt_trichotomy u v with hlt | heq | hgt
    · have hv' : v < a.length := (List.getElem?_eq_some.mp hv).1
      exact absurd (hu.trans hv.symm) (h u v hlt hv')
    · exact heq
    · have hu' : u < a.length := (List.getElem?_eq_some.mp hu).1
      exact absurd (hv.trans hu.symm) (h v u hgt hu')
  · intro h i j hij hj e
    obtain ⟨w, hw⟩ : ∃ w, a[j]? = some w := ⟨a[j], List.getElem?_eq_getElem hj⟩
    have := h i j w (e.trans hw) hw
    omega

theorem nodup_swapAt {α : Type} (a : List α) (i j : Nat) (h : a.Nodup) :
    (swapAt a i j).Nodup := by
  unfold swapAt
  split
  · rename_i x y hx hy
    rw [List.get?_eq_getElem?] at hx hy
    have hi : i < a.length := (List.getElem?_eq_some.mp hx).1
    have hj : j < a.length := (List.getElem?_eq_some.mp hy).1
    have hinj := (nodup_iff_index_unique a).mp h
    rw [nodup_iff_index_unique]
    have val : ∀ k, ((a.set i y).set j x)[k]? =
        if j = k then some x else if i = k then some y else a[k]? := by
      intro k
      rw [List.getElem?_set, List.getElem?_set, List.length_set]
      simp only [hi, hj, if_true]
    intro u v w hu hv
    rw [val] at hu hv
    by_cases hju : j = u
    · rw [if_pos hju] at hu
      have hwx : x = w := Option.some.inj hu
      by_cases hjv : j = v
      · omega
      · rw [if_neg hjv] at hv
        by_cases hiv : i = v
        · rw [if_pos hiv] at hv
          have hwy : y = w := Option.some.inj hv
          have := hinj i j w (by rw [hx, hwx]) (by rw [hy, hwy])
          omega
        · rw [if_neg hiv] at hv
          have := hinj v i w hv (by rw [hx, hwx])
          omega
    · rw [if_neg hju] at hu
      by_cases hiu : i = u
      · rw [if_pos hiu] at hu
        have hwy : y = w := Option.some.inj hu
        by_cases hjv : j = v
        · rw [if_pos hjv] at hv
          have hwx : x = w := Option.some.inj hv
          have := hinj i j w (by rw [hx, hwx]) (by rw [hy, hwy])
          omega
        · rw [if_neg hjv] at hv
          by_cases hiv : i = v
          · omega
          · rw [if_neg hiv] at hv
            have := hinj v j w hv (by rw [hy, hwy])
            omega
      · rw [if_neg hiu] at hu
        by_cases hjv : j = v
        · rw [if_pos hjv] at hv
          have hwx : x = w := Option.some.inj hv
          have := hinj u i w hu (by rw [hx, hwx])
          omega
        · rw [if_neg hjv] at hv
          by_cases hiv : i = v
          · rw [if_pos hiv] at hv
            have hwy : y = w := Option.some.inj hv
            have := hinj u j w hu (by rw [hy, hwy])
            omega
          · rw [if_neg hiv] at hv
            exact hinj u v w hu hv
  · exact h

theorem nodup_shuffle {α : Type} (r : Nat → Nat) (a : List α) (h : a.Nodup) :
    (shuffle r a).Nodup := by
  unfold shuffle
  have : ∀ (n : Nat) (b : List α), b.Nodup → (shuffleLoop r n b).Nodup := by
    intro n
    induction n with
    | zero => intro b hb; exact hb
    | succ k ih => intro b hb; exact ih _ (nodup_swapAt b _ _ hb)
  exact this _ a h

theorem mem_edgeTilesOfBoard (size : Int) (h : 1 ≤ size) (c : Pos) :
    c ∈ edgeTilesOfBoard size ↔
      (0 ≤ c.x ∧ c.x ≤ size - 1 ∧ 0 ≤ c.y ∧ c.y ≤ size - 1) ∧
      (c.x = 0 ∨ c.x = size - 1 ∨ c.y = 0 ∨ c.y = size - 1) := by
  unfold edgeTilesOfBoard
  have hl : max 0 (size - 1) = size - 1 := max_eq_right (by omega)
  simp only [hl, List.mem_append, List.mem_flatMap, mem_intsFromTo, List.mem_cons,
    List.mem_singleton, List.not_mem_nil, or_false]
  constructor
  · rintro (⟨x, ⟨h1, h2⟩, rfl | rfl⟩ | ⟨y, ⟨h1, h2⟩, rfl | rfl⟩) <;> dsimp only <;> omega
  · rintro ⟨⟨h1, h2, h3, h4⟩, h5⟩
    obtain ⟨cx, cy⟩ := c
    dsimp only at h1 h2 h3 h4 h5
    by_cases hy0 : cy = 0
    · exact Or.inl ⟨cx, ⟨h1, h2⟩, Or.inl (by rw [hy0])⟩
    · by_cases hy1 : cy = size - 1
      · exact Or.inl ⟨cx, ⟨h1, h2⟩, Or.inr (by rw [hy1])⟩
      · have hx : cx = 0 ∨ cx = size - 1 := by omega
        refine Or.inr ⟨cy, ⟨by omega, by omega⟩, ?_⟩
        rcases hx with hx | hx
        · exact Or.inl (by rw [hx])
        · exact Or.inr (by rw [hx])

theorem nodup_edgeTilesOfBoard (size : Int) (h : 2 ≤ size) : (edgeTilesOfBoard size).Nodup := by
  unfold edgeTilesOfBoard
  have hl : max 0 (size - 1) = size - 1 := max_eq_right (by omega)
  simp only [hl]
  rw [List.nodup_append]
  refine ⟨?_, ?_, ?_⟩
  · rw [List.nodup_flatMap]
    refine ⟨fun x _ => ?_, ?_⟩
    · simp only [List.nodup_cons, List.mem_singleton, Pos.mk.injEq, true_and,
        List.not_mem_nil, not_false_eq_true, List.nodup_nil, and_true]
      omega
    · refine List.Pairwise.imp ?_ (nodup_intsFromTo _ _)
      intro a b hab t h1 h2
      simp only [List.mem_cons, List.mem_singleton, List.not_mem_nil, or_false] at h1 h2
      rcases h1 with h1 | h1 <;> rcases h2 with h2 | h2 <;> rw [h1] at h2 <;>
        simp only [Pos.mk.injEq] at h2 <;> exact hab h2.1
  · rw [List.nodup_flatMap]
    refine ⟨fun y _ => ?_, ?_⟩
    · simp only [List.nodup_cons, List.mem_singleton, Pos.mk.injEq, and_true,
        List.not_mem_nil, not_false_eq_true, List.nodup_nil]
      omega
    · refine List.Pairwise.imp ?_ (nodup_intsFromTo _ _)
      intro a b hab t h1 h2
      simp only [List.mem_cons, List.mem_singleton, List.not_mem_nil, or_false] at h1 h2
      rcases h1 with h1 | h1 <;> rcases h2 with h2 | h2 <;> rw [h1] at h2 <;>
        simp only [Pos.mk.injEq] at h2 <;> exact hab h2.2
  · intro t h1 h2
    simp only [List.mem_flatMap, mem_intsFromTo, List.mem_cons, List.mem_singleton,
      List.not_mem_nil, or_false] at h1 h2
    obtain ⟨x, _, hx⟩ := h1
    obtain ⟨y, ⟨hy1, hy2⟩, hy⟩ := h2
    rcases hx with hx | hx <;> rcases hy with hy | hy <;> rw [hx] at hy <;>
      simp only [Pos.mk.injEq] at hy <;> omega

theorem respawnTrace_step (r : Nat) (g0 : Game) (sh0 : List Pos) (acc : RespawnAcc)
    (a : SocketId) (h : RespawnTrace r g0 sh0 acc) :
    RespawnTrace r g0 sh0 (respawnStep r acc a) := by
  unfold respawnStep
  cases hq : findP acc.g.players a with
  | none => exact h
  | some q =>
    dsimp only
    by_cases hsp : (!q.isSponsor) = true
    · rw [if_pos hsp]; exact h
    · rw [if_neg hsp]
      by_cases hdue : q.ascendedReturnRound = some r
      · rw [if_pos hdue]
        cases hl : acc.shuffled.getLast? with
        | none => exact h
        | some spot =>
          dsimp only
          obtain ⟨used, hsh, hrec⟩ := h
          refine ⟨(a, spot) :: used, ?_, ?_⟩
          · have hd : acc.shuffled.dropLast ++ [spot] = acc.shuffled :=
              List.dropLast_append_getLast? spot (by rw [hl]; rfl)
            show sh0 = acc.shuffled.dropLast ++ (spot :: used.map (fun u => u.2))
            rw [hsh, ← hd]
            simp
          · intro id p hp
            by_cases hid : id = a
            · subst hid
              have hfind : findP (acc.g.modPlayer id (respawnPlayer spot)).players id
                  = (findP acc.g.players id).map (respawnPlayer spot) :=
                findP_modP_self acc.g.players id (respawnPlayer spot) (fun _ => rfl)
              rcases hrec id p hp with h1 | ⟨_, _, spot', _, h2⟩
              · rw [hq] at h1
                have hqp : q = p := Option.some.inj h1
                subst hqp
                refine Or.inr ⟨by simpa using hsp, hdue, spot, List.mem_cons_self _ _, ?_⟩
                rw [hfind, hq]
                rfl
              · rw [hq] at h2
                have hqp : q = respawnPlayer spot' p := Option.some.inj h2
                rw [hqp] at hsp
                exact absurd rfl hsp
            · have hfind : findP (acc.g.modPlayer a (respawnPlayer spot)).players id
                  = findP acc.g.players id :=
                findP_modP_ne acc.g.players a id (respawnPlayer spot) (fun _ => rfl) hid
              rcases hrec id p hp with h1 | ⟨e1, e2, spot', hu, h2⟩
              · exact Or.inl (hfind.trans h1)
              · exact Or.inr ⟨e1, e2, spot', List.mem_cons_of_mem _ hu, hfind.trans h2⟩
      · rw [if_neg hdue]; exact h

theorem respawnTrace_tryRespawns (g : Game) (r : Nat) (o : Oracle) :
    ∃ used : List (SocketId × Pos),
      (used.map (fun u => u.2)).Sublist (shuffle o.shuffleA ((edgeTilesOfBoard g.size).filter
        (fun t => !decide (t ∈ g.board.fire) && !decide (t ∈ occupiedTiles g.players)))) ∧
      ∀ id p, findP g.players id = some p →
        findP (tryRespawnsForRound g r o).players id = some p ∨
        (p.isSponsor = true ∧ p.ascendedReturnRound = some r ∧
          ∃ spot, (id, spot) ∈ used ∧
            findP (tryRespawnsForRound g r o).players id = some (respawnPlayer spot p)) := by
  unfold tryRespawnsForRound
  dsimp only
  have h := foldl_inv (fun acc : RespawnAcc => RespawnTrace r g (shuffle o.shuffleA
      ((edgeTilesOfBoard g.size).filter
        (fun t => !decide (t ∈ g.board.fire) && !decide (t ∈ occupiedTiles g.players)))) acc)
    (respawnStep r) (fun b a hb => respawnTrace_step r g _ b a hb)
    (g.players.map (fun p => p.id))
    { g := g, shuffled := shuffle o.shuffleA ((edgeTilesOfBoard g.size).filter
        (fun t => !decide (t ∈ g.board.fire) && !decide (t ∈ occupiedTiles g.players))) }
    ⟨[], by simp, fun _ _ hp => Or.inl hp⟩
  obtain ⟨used, hsh, hrec⟩ := h
  refine ⟨used, ?_, hrec⟩
  rw [hsh]
  exact List.sublist_append_right _ _

/-- C38. Respawn placement. After `tryRespawnsForRound(r)` on a board of size at least 2, every
record found before the call is either untouched or belonged to an Ascended participant with
due-round exactly `r` who has been respawned: placed on a board-edge tile that was neither a
hazard tile nor occupied by a positioned Alive participant when the call began, Alive, with
consumable Warp and the just-respawned flag set. Two participants respawned by the same call
stand on different tiles, and a participant whose due-round is not `r` is unchanged. -/
theorem C38_respawn_placement (g : Game) (r : Nat) (o : Oracle) (hsize : 2 ≤ g.size) :
    (∀ id p, findP g.players id = some p →
      findP (tryRespawnsForRound g r o).players id = some p ∨
      (p.isSponsor = true ∧ p.ascendedReturnRound = some r ∧
        ∃ spot, findP (tryRespawnsForRound g r o).players id = some (respawnPlayer spot p) ∧
          ((0 ≤ spot.x ∧ spot.x ≤ g.size - 1 ∧ 0 ≤ spot.y ∧ spot.y ≤ g.size - 1) ∧
            (spot.x = 0 ∨ spot.x = g.size - 1 ∨ spot.y = 0 ∨ spot.y = g.size - 1)) ∧
          spot ∉ g.board.fire ∧ spot ∉ occupiedTiles g.players)) ∧
    (∀ id1 id2 p1 p2 s1 s2, id1 ≠ id2 →
      findP g.players id1 = some p1 → findP g.players id2 = some p2 →
      p1.isSponsor = true → p2.isSponsor = true →
      findP (tryRespawnsForRound g r o).players id1 = some (respawnPlayer s1 p1) →
      findP (tryRespawnsForRound g r o).players id2 = some (respawnPlayer s2 p2) → s1 ≠ s2) ∧
    (∀ spot p, (respawnPlayer spot p).isAlive = true ∧ (respawnPlayer spot p).isSponsor = false ∧
      (respawnPlayer spot p).pos = some spot ∧ (respawnPlayer spot p).buff = some Item.WARP ∧
      (respawnPlayer spot p).justRespawned = true ∧ (respawnPlayer spot p).id = p.id ∧
      (respawnPlayer spot p).vp = p.vp) ∧
    (∀ id p, findP g.players id = some p → p.ascendedReturnRound ≠ some r →
      findP (tryRespawnsForRound g r o).players id = some p) := by
  obtain ⟨used, hsub, hrec⟩ := respawnTrace_tryRespawns g r o
  have hnd : (used.map (fun u => u.2)).Nodup :=
    hsub.nodup (nodup_shuffle _ _ ((nodup_edgeTilesOfBoard g.size hsize).filter _))
  have hspot : ∀ id spot, (id, spot) ∈ used →
      ((0 ≤ spot.x ∧ spot.x ≤ g.size - 1 ∧ 0 ≤ spot.y ∧ spot.y ≤ g.size - 1) ∧
        (spot.x = 0 ∨ spot.x = g.size - 1 ∨ spot.y = 0 ∨ spot.y = g.size - 1)) ∧
      spot ∉ g.board.fire ∧ spot ∉ occupiedTiles g.players := by
    intro id spot hu
    have h1 : spot ∈ used.map (fun u => u.2) := List.mem_map.mpr ⟨(id, spot), hu, rfl⟩
    have h2 := mem_shuffle _ _ _ (hsub.subset h1)
    rw [List.mem_filter] at h2
    obtain ⟨he, hf⟩ := h2
    simp only [Bool.and_eq_true, Bool.not_eq_true', decide_eq_false_iff_not] at hf
    exact ⟨(mem_edgeTilesOfBoard g.size (by omega) spot).mp he, hf.1, hf.2⟩
  have hplaced : ∀ id p s, findP g.players id = some p → p.isSponsor = true →
      findP (tryRespawnsForRound g r o).players id = some (respawnPlayer s p) →
      (id, s) ∈ used := by
    intro id p s hp hs hf
    rcases hrec id p hp with h | ⟨_, _, spot, hu, h⟩
    · rw [h] at hf
      have e : p = respawnPlayer s p := Option.some.inj hf
      have : p.isSponsor = false := by rw [e]; rfl
      rw [hs] at this
      exact Bool.noConfusion this
    · rw [h] at hf
      have e : respawnPlayer spot p = respawnPlayer s p := Option.some.inj hf
      have e2 : (respawnPlayer spot p).pos = (respawnPlayer s p).pos := by rw [e]
      have e3 : spot = s := Option.some.inj e2
      rw [← e3]
      exact hu
  refine ⟨?_, ?_, fun _ _ => ⟨rfl, rfl, rfl, rfl, rfl, rfl, rfl⟩, ?_⟩
  · intro id p hp
    rcases hrec id p hp with h | ⟨h1, h2, spot, hu, h⟩
    · exact Or.inl h
    · exact Or.inr ⟨h1, h2, spot, h, hspot id spot hu⟩
  · intro id1 id2 p1 p2 s1 s2 hne hp1 hp2 hs1 hs2 hf1 hf2 hss
    have hu1 := hplaced id1 p1 s1 hp1 hs1 hf1
    have hu2 := hplaced id2 p2 s2 hp2 hs2 hf2
    have := List.inj_on_of_nodup_map hnd hu1 hu2 hss
    exact hne (congrArg Prod.fst this)
  · intro id p hp hd
    rcases hrec id p hp with h | ⟨_, h2, _⟩
    · exact h
    · exact absurd h2 hd

set_option maxRecDepth 1000000 in
/-- Witness for C38: in `exampleDueGame` the Ascended participant `s`, due back in round 2, is
respawned on the corner (0,0) with Warp, and the Alive participant `p` is unchanged. -/
theorem C38_respawn_placement_witness :
    (2 : Int) ≤ exampleDueGame.size ∧
    (findP (tryRespawnsForRound exampleDueGame 2 zeroOracle).players "s").map
        (fun p => (p.isAlive, p.pos, p.buff, p.justRespawned))
      = some (true, some (Pos.mk 0 0), some Item.WARP, true) ∧
    findP (tryRespawnsForRound exampleDueGame 2 zeroOracle).players "p" = some exampleTarget :=
  ⟨by decide, by decide!,
    (C38_respawn_placement exampleDueGame 2 zeroOracle (by decide)).2.2.2 "p" exampleTarget
      (by decide) (by decide)⟩

theorem validMovesFor_congr (g g' : Game) (p p' : Player) (hs : g'.size = g.size)
    (hf : g'.board.fire = g.board.fire) (hc : g'.cc = g.cc) (h1 : p'.pos = p.pos)
    (h2 : p'.buff = p.buff) (h3 : p'.justRespawned = p.justRespawned)
    (h4 : p'.hadWarpThisRound = p.hadWarpThisRound) (h5 : p'.movementTarget = p.movementTarget)
    (h6 : p'.speedSteps = p.speedSteps) : validMovesFor g' p' = validMovesFor g p := by
  unfold validMovesFor
  rw [hs, hf, hc, h1, h2, h3, h4, h5, h6]

theorem validMovesFor_revealNumber (g : Game) (p : Player) :
    validMovesFor g (revealNumber p) = validMovesFor g p := by
  unfold revealNumber
  cases p.selectedNumber <;> rfl

theorem moveStep_other (o : Oracle) (g : Game) (id j : SocketId) (hne : j ≠ id) :
    findP (moveStep o g id).players j = findP g.players j := by
  have hm : ∀ (g0 : Game) (f : Player → Player), (∀ p, (f p).id = p.id) →
      findP (g0.modPlayer id f).players j = findP g0.players j :=
    fun g0 f hf => findP_modP_ne g0.players id j f hf hne
  have hr : ∀ g0 : Game, findP (returnSeal g0 id).players j = findP g0.players j := by
    intro g0
    unfold returnSeal
    cases findP g0.players id with
    | none => rfl
    | some L =>
      dsimp only
      split_ifs
      · exact hm g0 clearSeal (fun _ => rfl)
      · rfl
  unfold moveStep
  cases findP g.players id with
  | none => rfl
  | some p =>
    dsimp only
    split_ifs
    · rfl
    · unfold eliminateNoMoves
      exact (hm _ (fun p => { p with vpDelta := 0 }) (fun _ => rfl)).trans
        ((hr _).trans (hm g (ascend g.round) (fun _ => rfl)))
    · split
      · exact hm g _ (fun _ => rfl)
      · rfl
    · split
      · exact hm g _ (fun _ => rfl)
      · rfl

theorem any_pos_eq (legal : List Pos) (dst : Pos) :
    legal.any (fun m => decide (m.x = dst.x) && decide (m.y = dst.y)) = true ↔ dst ∈ legal := by
  rw [List.any_eq_true]
  constructor
  · rintro ⟨m, hm, h⟩
    simp only [Bool.and_eq_true, decide_eq_true_eq] at h
    have : m = dst := by
      cases m; cases dst
      simp only [Pos.mk.injEq]
      exact h
    rw [← this]; exact hm
  · intro h
    exact ⟨dst, h, by simp⟩

theorem moveStep_commit (o : Oracle) (g : Game) (id : SocketId) (q : Player) (k : Pos)
    (hq : findP g.players id = some q) (ha : q.isAlive = true) (hs : q.isSponsor = false)
    (hk : q.pos = some k) (hl : validMovesFor g q ≠ []) :
    ∃ d, d ∈ validMovesFor g q ∧
      moveStep o g id = g.modPlayer id (fun x => { x with pos := some (Pos.mk d.x d.y) }) ∧
      (∀ t, q.movementTarget = some t → t ∈ validMovesFor g q → d = t) := by
  have hne : (validMovesFor g q).isEmpty = false := by
    cases hv : validMovesFor g q with
    | nil => exact absurd hv hl
    | cons _ _ => rfl
  have hlen : 0 < (validMovesFor g q).length := List.length_pos.mpr hl
  have hlt : o.move id % (validMovesFor g q).length < (validMovesFor g q).length :=
    Nat.mod_lt _ hlen
  have hget : (validMovesFor g q).get? (o.move id % (validMovesFor g q).length)
      = some ((validMovesFor g q).get ⟨_, hlt⟩) := List.get?_eq_get hlt
  generalize hL : validMovesFor g q = L at hne hlen hlt hget ⊢
  have hguard : (!q.isAlive || q.isSponsor || q.pos.isNone) = false := by
    rw [ha, hs, hk]; rfl
  unfold moveStep
  rw [hq]
  dsimp only
  rw [hguard, hL, hne]
  simp only [Bool.false_eq_true, if_false]
  cases ht : q.movementTarget with
  | none =>
    dsimp only
    simp only [Bool.false_eq_true, if_false]
    rw [hget]
    exact ⟨_, List.get_mem _ _ _, rfl, fun t h => by cases h⟩
  | some t =>
    dsimp only
    by_cases hok : t ∈ L
    · rw [if_pos ((any_pos_eq _ t).mpr hok)]
      exact ⟨t, hok, rfl, fun t' h _ => (Option.some.inj h)⟩
    · rw [if_neg (fun h => hok ((any_pos_eq _ t).mp h))]
      rw [hget]
      exact ⟨_, List.get_mem _ _ _, rfl,
        fun t' h ht' => absurd ((Option.some.inj h) ▸ ht') hok⟩

theorem moveStep_self (o : Oracle) (g : Game) (id : SocketId) (q : Player) (k : Pos)
    (hq : findP g.players id = some q) (ha : q.isAlive = true) (hs : q.isSponsor = false)
    (hk : q.pos = some k) (hl : validMovesFor g q ≠ []) :
    ∃ d, d ∈ validMovesFor g q ∧
      findP (moveStep o g id).players id = some { q with pos := some d } ∧
      (∀ t, q.movementTarget = some t → t ∈ validMovesFor g q → d = t) := by
  obtain ⟨d, h1, h2, h3⟩ := moveStep_commit o g id q k hq ha hs hk hl
  refine ⟨d, h1, ?_, h3⟩
  rw [h2]
  have := findP_modP_self g.players id
    (fun x => { x with pos := some (Pos.mk d.x d.y) }) (fun _ => rfl)
  exact this.trans (by rw [hq]; rfl)

theorem moveFold_other (o : Oracle) (j : SocketId) (l : List SocketId) (hj : j ∉ l) :
    ∀ g : Game, findP (l.foldl (moveStep o) g).players j = findP g.players j := by
  induction l with
  | nil => intro g; rfl
  | cons a t ih =>
    intro g
    rw [List.foldl_cons, ih (fun h => hj (List.mem_cons_of_mem _ h))]
    exact moveStep_other o g a j (fun h => hj (h ▸ List.mem_cons_self _ _))

theorem moveFold_self (o : Oracle) (j : SocketId) (l : List SocketId) (hnd : l.Nodup) :
    ∀ g : Game, j ∈ l →
    ∃ g', SameRound g g' ∧ findP g'.players j = findP g.players j ∧
      findP (l.foldl (moveStep o) g).players j = findP (moveStep o g' j).players j := by
  induction l with
  | nil => intro g hj; cases hj
  | cons a t ih =>
    intro g hj
    have hnd' := List.nodup_cons.mp hnd
    rw [List.foldl_cons]
    by_cases ha : a = j
    · subst ha
      exact ⟨g, SameRound.same g, rfl, moveFold_other o a t hnd'.1 _⟩
    · have hjt : j ∈ t := by
        rcases List.mem_cons.mp hj with h | h
        · exact absurd h.symm ha
        · exact h
      obtain ⟨g', h1, h2, h3⟩ := ih hnd'.2 (moveStep o g a) hjt
      exact ⟨g', (sameRound_moveStep o g a).andThen h1,
        h2.trans (moveStep_other o g a j (fun h => ha h.symm)), h3⟩

/-- C35. Movement commit. In a roster with one entry per connection id, every Alive positioned
participant `p` whose legal set `validMovesFor(p)` at the start of `startResolution` is not
empty ends the "Apply movement" loop on a member `d` of that legal set, the declared destination
when it is in the set; the record is the revealed record with the new position. For a
participant not holding the respawn Warp, `d` is in bounds, is not a hazard tile, and is at
Manhattan distance at least 1 and at most the budget from the old position. -/
theorem C35_movement_commit (g : Game) (now : Int) (o : Oracle) (p : Player) (k : Pos)
    (hnd : (g.players.map (fun q => q.id)).Nodup) (hp : p ∈ g.players)
    (ha : p.isAlive = true) (hs : p.isSponsor = false) (hk : p.pos = some k)
    (hl : validMovesFor g p ≠ []) :
    ∃ d, d ∈ validMovesFor g p ∧
      findP (afterMovement g now o).players p.id = some { revealNumber p with pos := some d } ∧
      (∀ t, p.movementTarget = some t → t ∈ validMovesFor g p → d = t) ∧
      (¬ (p.buff = some Item.WARP ∧ p.justRespawned = true) →
        (0 ≤ d.x ∧ d.x < g.size ∧ 0 ≤ d.y ∧ d.y < g.size) ∧ d ∉ g.board.fire ∧
        1 ≤ manhattan k d ∧ manhattan k d ≤ moveBudget p) := by
  have hfind : findP g.players p.id = some p := findP_of_mem_nodup g.players p hnd hp
  have hrid : ∀ q : Player, (revealNumber q).id = q.id := by
    intro q; unfold revealNumber; cases q.selectedNumber <;> rfl
  generalize hg0 : ({ g with
    timerEnd := now + g.durations.resolution, phase := Phase.resolution,
    players := g.players.map revealNumber } : Game) = g0
  have hf0 : findP g0.players p.id = some (revealNumber p) := by
    rw [← hg0]
    show findP (g.players.map revealNumber) p.id = _
    rw [findP_map_of_id g.players revealNumber hrid p.id, hfind]
    rfl
  have hids : g0.players.map (fun q => q.id) = g.players.map (fun q => q.id) := by
    rw [← hg0]
    exact map_ids g.players revealNumber hrid
  have hmem : p.id ∈ g0.players.map (fun q => q.id) := by
    rw [hids]; exact List.mem_map.mpr ⟨p, hp, rfl⟩
  obtain ⟨g', h1, h2, h3⟩ := moveFold_self o p.id (g0.players.map (fun q => q.id))
    (by rw [hids]; exact hnd) g0 hmem
  have hsz : g'.size = g.size := by rw [h1.size, ← hg0]
  have hfi : g'.board.fire = g.board.fire := by rw [h1.fire, ← hg0]
  have hcc : g'.cc = g.cc := by rw [h1.cc, ← hg0]
  have hv : validMovesFor g' (revealNumber p) = validMovesFor g p :=
    (validMovesFor_congr g g' (revealNumber p) (revealNumber p) hsz hfi hcc rfl rfl rfl rfl rfl
      rfl).trans (validMovesFor_revealNumber g p)
  have hrp : ∀ q : Player, (revealNumber q).isAlive = q.isAlive ∧
      (revealNumber q).isSponsor = q.isSponsor ∧ (revealNumber q).pos = q.pos ∧
      (revealNumber q).movementTarget = q.movementTarget := by
    intro q; unfold revealNumber; cases q.selectedNumber <;> exact ⟨rfl, rfl, rfl, rfl⟩
  obtain ⟨d, hd1, hd2, hd3⟩ := moveStep_self o g' p.id (revealNumber p) k (h2.trans hf0)
    ((hrp p).1.trans ha) ((hrp p).2.1.trans hs) ((hrp p).2.2.1.trans hk) (by rw [hv]; exact hl)
  rw [hv] at hd1 hd3
  refine ⟨d, hd1, ?_, ?_, ?_⟩
  · have e : afterMovement g now o = (g0.players.map (fun q => q.id)).foldl (moveStep o) g0 := by
      rw [← hg0]; rfl
    rw [e, h3]
    exact hd2
  · intro t ht
    exact hd3 t ((hrp p).2.2.2.trans ht)
  · intro hw
    exact (mem_validMovesFor g p k hk hw d).mp hd1

theorem resolutionUpToLoot_afterMovement (g : Game) (now : Int) (o : Oracle) :
    resolutionUpToLoot g now o =
      (afterMovement g now o).board.buffs.foldl lootStep
        { g := afterMovement g now o, byPos := buildByPos (afterMovement g now o).players } := rfl

set_option maxRecDepth 100000 in
/-- Witness for C35: `exampleTarget` on (5,5) of `exampleSanctumGame` has legal moves and ends
the movement loop on one of them. -/
theorem C35_movement_commit_witness :
    (exampleSanctumGame.players.map (fun q => q.id)).Nodup ∧
    exampleTarget ∈ exampleSanctumGame.players ∧
    validMovesFor exampleSanctumGame exampleTarget ≠ [] ∧
    ∃ d, d ∈ validMovesFor exampleSanctumGame exampleTarget ∧
      findP (afterMovement exampleSanctumGame 0 zeroOracle).players exampleTarget.id
        = some { revealNumber exampleTarget with pos := some d } ∧
      (∀ t, exampleTarget.movementTarget = some t →
        t ∈ validMovesFor exampleSanctumGame exampleTarget → d = t) ∧
      (¬ (exampleTarget.buff = some Item.WARP ∧ exampleTarget.justRespawned = true) →
        (0 ≤ d.x ∧ d.x < exampleSanctumGame.size ∧ 0 ≤ d.y ∧ d.y < exampleSanctumGame.size) ∧
        d ∉ exampleSanctumGame.board.fire ∧
        1 ≤ manhattan (Pos.mk 5 5) d ∧ manhattan (Pos.mk 5 5) d ≤ moveBudget exampleTarget) :=
  ⟨by decide, by decide, by decide,
    C35_movement_commit exampleSanctumGame 0 zeroOracle exampleTarget (Pos.mk 5 5)
      (by decide) (by decide) rfl rfl rfl (by decide)⟩

theorem combatEffect_buff (g : Game) (ids : List SocketId) (j : SocketId) (c : Int) (p : Player) :
    (j ∈ ids → (combatEffect g ids j c p).buff ≠ some Item.SWORD ∧
      (combatEffect g ids j c p).buff ≠ some Item.WARP ∧
      (combatEffect g ids j c p).buff ≠ some Item.SPEED) ∧
    (p.buff = some Item.SHIELD →
      ((combatEffect g ids j c p).buff = some Item.SHIELD ↔
        ¬ (j ∈ combatLosers g ids ∧
          shieldSaved g (swordInPlay g (combatWinners g ids)) j = true))) ∧
    (j ∉ ids → (combatEffect g ids j c p).buff = p.buff ∧
      (combatEffect g ids j c p).hasShield = p.hasShield) ∧
    ((combatEffect g ids j c p).buff = p.buff ∨ (combatEffect g ids j c p).buff = none) := by
  have hsub : j ∉ ids → j ∉ combatLosers g ids := fun h hl => h (combatLosers_subset g ids j hl)
  unfold combatEffect loserEffect consumeEncounterBuff addKills addVP consumeShield elimFun ascend
  dsimp only
  refine ⟨?_, ?_, ?_, ?_⟩
  · intro hj
    rw [if_pos hj]
    split_ifs <;> simp_all
  · intro hb
    by_cases hj : j ∈ ids
    · rw [if_pos hj]
      split_ifs <;> simp_all
    · rw [if_neg hj, if_neg (hsub hj)]
      split_ifs <;> simp_all
  · intro hj
    rw [if_neg hj, if_neg (hsub hj)]
    split_ifs <;> exact ⟨rfl, rfl⟩
  · split_ifs <;> simp_all

theorem combatTile_any (g : Game) (ids : List SocketId) (hs : CombatSetup g ids) (j : SocketId)
    (p : Player) (hp : findP g.players j = some p) :
    ∃ p', findP (combatTile g ids).players j = some p' ∧
      (j ∈ ids → 2 ≤ ids.length → p'.buff ≠ some Item.SWORD ∧ p'.buff ≠ some Item.WARP ∧
        p'.buff ≠ some Item.SPEED) ∧
      ((j ∉ ids ∨ ids.length ≤ 1) → p'.buff = p.buff ∧ p'.hasShield = p.hasShield) := by
  by_cases hlen : ids.length ≤ 1
  · rw [combatTile_few g ids hlen]
    exact ⟨p, hp, fun _ h => absurd h (by omega), fun _ => ⟨rfl, rfl⟩⟩
  · have h2 : 2 ≤ ids.length := by omega
    obtain ⟨c, hc⟩ := combatTile_find g ids hs h2 j
    rw [hp] at hc
    obtain ⟨e1, _, e3, _⟩ := combatEffect_buff g ids j c p
    refine ⟨_, hc, fun hj _ => e1 hj, ?_⟩
    rintro (h | h)
    · exact e3 h
    · exact absurd h hlen

theorem resolveCombats_buffs (byPos : List (Pos × List SocketId)) :
    ∀ (g : Game), (byPos.flatMap (fun e => e.2)).Nodup →
    (∀ e ∈ byPos, ∀ id ∈ e.2, ∃ p, findP g.players id = some p) →
    ∀ (j : SocketId) (p : Player), findP g.players j = some p →
    ∃ p', findP (resolveCombatsDetailed g byPos).players j = some p' ∧
      ((∃ e ∈ byPos, j ∈ e.2 ∧ 2 ≤ e.2.length) →
        p'.buff ≠ some Item.SWORD ∧ p'.buff ≠ some Item.WARP ∧ p'.buff ≠ some Item.SPEED) ∧
      ((∀ e ∈ byPos, j ∈ e.2 → e.2.length ≤ 1) →
        p'.buff = p.buff ∧ p'.hasShield = p.hasShield) := by
  induction byPos with
  | nil =>
    intro g _ _ j p hp
    refine ⟨p, hp, ?_, fun _ => ⟨rfl, rfl⟩⟩
    rintro ⟨e, he, _⟩
    cases he
  | cons e t ih =>
    intro g hnd hfound j p hp
    rw [List.flatMap_cons, List.nodup_append] at hnd
    obtain ⟨hnd1, hnd2, hdis⟩ := hnd
    have hs : CombatSetup g e.2 := ⟨hnd1, hfound e (List.mem_cons_self _ _)⟩
    have hstep : ∀ (i : SocketId) (q : Player), findP g.players i = some q →
        ∃ q', findP (combatTile g e.2).players i = some q' :=
      fun i q hq => (combatTile_any g e.2 hs i q hq).imp (fun _ h => h.1)
    have hfound' : ∀ e' ∈ t, ∀ id ∈ e'.2, ∃ q, findP (combatTile g e.2).players id = some q := by
      intro e' he' id hid
      obtain ⟨q, hq⟩ := hfound e' (List.mem_cons_of_mem _ he') id hid
      exact hstep id q hq
    obtain ⟨p1, hp1, ha, hb⟩ := combatTile_any g e.2 hs j p hp
    obtain ⟨p', hp', hc, hd⟩ := ih (combatTile g e.2) hnd2 hfound' j p1 hp1
    have hres : resolveCombatsDetailed g (e :: t)
        = resolveCombatsDetailed (combatTile g e.2) t := rfl
    rw [hres]
    have hnotin : j ∈ e.2 → ∀ e' ∈ t, j ∉ e'.2 := by
      intro hj e' he' hj'
      exact hdis hj (List.mem_flatMap.mpr ⟨e', he', hj'⟩)
    refine ⟨p', hp', ?_, ?_⟩
    · rintro ⟨e0, he0, hj0, hl0⟩
      rcases List.mem_cons.mp he0 with h | h
      · subst h
        have h1 := ha hj0 hl0
        have h2 := hd (fun e' he' hj' => absurd hj' (hnotin hj0 e' he'))
        rw [h2.1]
        exact h1
      · exact hc ⟨e0, h, hj0, hl0⟩
    · intro hall
      have h1 : p1.buff = p.buff ∧ p1.hasShield = p.hasShield := by
        apply hb
        by_cases hj : j ∈ e.2
        · exact Or.inr (hall e (List.mem_cons_self _ _) hj)
        · exact Or.inl hj
      have h2 := hd (fun e' he' hj' => hall e' (List.mem_cons_of_mem _ he') hj')
      exact ⟨h2.1.trans h1.1, h2.2.trans h1.2⟩

theorem findP_isSome_of_mem_ids (ps : List Player) (id : SocketId)
    (h : id ∈ ps.map (fun p => p.id)) : (findP ps id).isSome = true := by
  obtain ⟨p, hp, e⟩ := List.mem_map.mp h
  cases hf : findP ps id with
  | some q => rfl
  | none =>
    unfold findP at hf
    have := List.find?_eq_none.mp hf p hp
    simp [e] at this

theorem flat_map_entries (m : List (Pos × List SocketId))
    (F : Pos × List SocketId → Pos × List SocketId)
    (hF : ∀ en ∈ m, ((F en).2).Perm en.2) :
    ((m.map F).flatMap (fun e => e.2)).Perm (m.flatMap (fun e => e.2)) := by
  induction m with
  | nil => exact List.Perm.refl _
  | cons a t ih =>
    simp only [List.map_cons, List.flatMap_cons]
    exact List.Perm.append (hF a (List.mem_cons_self _ _))
      (ih (fun en hen => hF en (List.mem_cons_of_mem _ hen)))

theorem byPosPush_map_flat (k : Pos) (id : SocketId) (m : List (Pos × List SocketId))
    (hk : (m.map (fun e => e.1)).Nodup) (hmem : k ∈ m.map (fun e => e.1)) :
    ((m.map (fun e => if e.1 = k then (e.1, e.2 ++ [id]) else e)).flatMap (fun e => e.2)).Perm
      (id :: m.flatMap (fun e => e.2)) := by
  induction m with
  | nil => cases hmem
  | cons a t ih =>
    simp only [List.map_cons, List.nodup_cons] at hk
    simp only [List.map_cons, List.flatMap_cons]
    by_cases ha : a.1 = k
    · rw [if_pos ha]
      have hid : t.map (fun e => if e.1 = k then (e.1, e.2 ++ [id]) else e) = t := by
        conv_rhs => rw [← List.map_id t]
        apply List.map_congr_left
        intro e he
        have : e.1 ≠ k := by
          intro h
          apply hk.1
          rw [ha, ← h]
          exact List.mem_map.mpr ⟨e, he, rfl⟩
        rw [if_neg this]
        rfl
      rw [hid]
      show ((a.2 ++ [id]) ++ t.flatMap (fun e => e.2)).Perm _
      have h1 : ((a.2 ++ [id]) ++ t.flatMap (fun e => e.2)).Perm
          (([id] ++ a.2) ++ t.flatMap (fun e => e.2)) :=
        List.Perm.append_right _ List.perm_append_comm
      exact h1
    · rw [if_neg ha]
      have hmem' : k ∈ t.map (fun e => e.1) := by
        simp only [List.map_cons, List.mem_cons] at hmem
        rcases hmem with h | h
        · exact absurd h.symm ha
        · exact h
      have h1 := ih hk.2 hmem'
      have h2 : (a.2 ++ (t.map (fun e => if e.1 = k then (e.1, e.2 ++ [id]) else e)).flatMap
          (fun e => e.2)).Perm (a.2 ++ id :: t.flatMap (fun e => e.2)) :=
        List.Perm.append_left _ h1
      exact h2.trans List.perm_middle

theorem byPosPush_keys_flat (m : List (Pos × List SocketId)) (k : Pos) (id : SocketId)
    (hk : (m.map (fun e => e.1)).Nodup) :
    ((byPosPush m k id).map (fun e => e.1)).Nodup ∧
    ((byPosPush m k id).flatMap (fun e => e.2)).Perm (id :: m.flatMap (fun e => e.2)) := by
  unfold byPosPush
  by_cases hany : m.any (fun e => e.1 == k) = true
  · rw [if_pos hany]
    have hmem : k ∈ m.map (fun e => e.1) := by
      obtain ⟨e, he, hek⟩ := List.any_eq_true.mp hany
      have : e.1 = k := by simpa using hek
      exact List.mem_map.mpr ⟨e, he, this⟩
    refine ⟨?_, byPosPush_map_flat k id m hk hmem⟩
    rw [List.map_map]
    have : ((fun e : Pos × List SocketId => e.1) ∘
        fun e => if e.1 = k then (e.1, e.2 ++ [id]) else e) = fun e => e.1 := by
      funext e
      show (if e.1 = k then (e.1, e.2 ++ [id]) else e).1 = e.1
      split_ifs <;> rfl
    rw [this]
    exact hk
  · rw [if_neg hany]
    constructor
    · rw [List.map_append]
      refine List.Nodup.append hk (List.nodup_singleton _) ?_
      intro x hx hx2
      rw [List.map_singleton, List.mem_singleton] at hx2
      subst hx2
      obtain ⟨e, he, hek⟩ := List.mem_map.mp hx
      apply hany
      exact List.any_eq_true.mpr ⟨e, he, by simp [hek]⟩
    · rw [List.flatMap_append]
      show (m.flatMap (fun e => e.2) ++ ([id] ++ [])).Perm _
      rw [List.append_nil]
      exact List.perm_append_comm

theorem buildByPos_nodup (ps : List Player) (hnd : (ps.map (fun p => p.id)).Nodup) :
    ((buildByPos ps).map (fun e => e.1)).Nodup ∧
    ((buildByPos ps).flatMap (fun e => e.2)).Nodup := by
  unfold buildByPos
  have key : ∀ (l : List Player) (m0 : List (Pos × List SocketId)),
      (l.map (fun p => p.id)).Nodup →
      (m0.map (fun e => e.1)).Nodup → (m0.flatMap (fun e => e.2)).Nodup →
      (∀ x ∈ m0.flatMap (fun e => e.2), x ∉ l.map (fun p => p.id)) →
      ((l.foldl (fun m p =>
        if !p.isAlive || p.isSponsor then m
        else match p.pos with
          | none => m
          | some k => byPosPush m k p.id) m0).map (fun e => e.1)).Nodup ∧
      ((l.foldl (fun m p =>
        if !p.isAlive || p.isSponsor then m
        else match p.pos with
          | none => m
          | some k => byPosPush m k p.id) m0).flatMap (fun e => e.2)).Nodup := by
    intro l
    induction l with
    | nil => intro m0 _ h1 h2 _; exact ⟨h1, h2⟩
    | cons a t ih =>
      intro m0 hl h1 h2 h3
      rw [List.foldl_cons]
      simp only [List.map_cons, List.nodup_cons] at hl
      have h3' : ∀ x ∈ m0.flatMap (fun e => e.2), x ∉ t.map (fun p => p.id) := by
        intro x hx hx2
        exact h3 x hx (List.mem_cons_of_mem _ hx2)
      by_cases hg : (!a.isAlive || a.isSponsor) = true
      · rw [if_pos hg]; exact ih m0 hl.2 h1 h2 h3'
      · rw [if_neg hg]
        cases hpos : a.pos with
        | none => exact ih m0 hl.2 h1 h2 h3'
        | some k =>
          dsimp only
          obtain ⟨hk, hperm⟩ := byPosPush_keys_flat m0 k a.id h1
          refine ih _ hl.2 hk ?_ ?_
          · rw [hperm.nodup_iff, List.nodup_cons]
            refine ⟨?_, h2⟩
            intro hin
            exact h3 a.id hin (List.mem_cons_self _ _)
          · intro x hx hx2
            have := hperm.subset hx
            rcases List.mem_cons.mp this with e | e
            · rw [e] at hx2; exact hl.1 hx2
            · exact h3' x e hx2
  exact key ps [] hnd List.nodup_nil List.nodup_nil (fun x hx => by cases hx)

theorem byPosGet_entry (m : List (Pos × List SocketId)) (k : Pos)
    (hk : (m.map (fun e => e.1)).Nodup) (en : Pos × List SocketId) (hen : en ∈ m)
    (hkey : en.1 = k) : byPosGet m k = en.2 := by
  induction m with
  | nil => cases hen
  | cons a t ih =>
    simp only [List.map_cons, List.nodup_cons] at hk
    unfold byPosGet
    rw [List.find?_cons]
    by_cases ha : a.1 = k
    · have hb : (a.1 == k) = true := by simp [ha]
      rw [hb]
      dsimp only
      rcases List.mem_cons.mp hen with e | e
      · rw [e]
      · exfalso
        apply hk.1
        rw [ha, ← hkey]
        exact List.mem_map.mpr ⟨en, e, rfl⟩
    · have hb : (a.1 == k) = false := by simp [ha]
      rw [hb]
      dsimp only
      rcases List.mem_cons.mp hen with e | e
      · rw [e] at hkey; exact absurd hkey ha
      · have := ih hk.2 e
        unfold byPosGet at this
        exact this

theorem lootStep_nodup (acc : LootAcc) (e : Pos × Item)
    (hk : (acc.byPos.map (fun e => e.1)).Nodup)
    (hf : (acc.byPos.flatMap (fun e => e.2)).Nodup) :
    ((lootStep acc e).byPos.map (fun e => e.1)).Nodup ∧
    ((lootStep acc e).byPos.flatMap (fun e => e.2)).Nodup := by
  have key : ∀ (l : List SocketId), l.Perm (byPosGet acc.byPos e.1) →
      ((acc.byPos.map (fun en => if en.1 = e.1 then (en.1, l) else en)).map
        (fun e => e.1)).Nodup ∧
      ((acc.byPos.map (fun en => if en.1 = e.1 then (en.1, l) else en)).flatMap
        (fun e => e.2)).Nodup := by
    intro l hl
    constructor
    · rw [List.map_map]
      have : ((fun e : Pos × List SocketId => e.1) ∘
          fun en => if en.1 = e.1 then (en.1, l) else en) = fun e => e.1 := by
        funext en
        show (if en.1 = e.1 then (en.1, l) else en).1 = en.1
        split_ifs <;> rfl
      rw [this]
      exact hk
    · refine (flat_map_entries acc.byPos _ ?_).nodup_iff.mpr hf
      intro en hen
      by_cases hkey : en.1 = e.1
      · rw [if_pos hkey]
        show l.Perm en.2
        rw [← byPosGet_entry acc.byPos e.1 hk en hen hkey]
        exact hl
      · rw [if_neg hkey]
  unfold lootStep
  dsimp only
  split
  · exact ⟨hk, hf⟩
  · exact ⟨hk, hf⟩
  · rename_i xl c cs hne hget
    have hl : (sortStable (fun a b => indexOfJS acc.g.joinOrder a - indexOfJS acc.g.joinOrder b)
        (c :: cs)).Perm (byPosGet acc.byPos e.1) := by
      rw [hget]
      exact perm_sortStable _ _
    split
    · exact key _ hl
    · exact key _ hl

theorem resolution_byPos_wellformed (g : Game) (now : Int) (o : Oracle)
    (hnd : (g.players.map (fun p => p.id)).Nodup) :
    ((resolutionUpToLoot g now o).byPos.flatMap (fun e => e.2)).Nodup ∧
    ∀ e ∈ (resolutionUpToLoot g now o).byPos, ∀ id ∈ e.2,
      (findP (resolutionUpToLoot g now o).g.players id).isSome = true := by
  have hids : (resolutionUpToLoot g now o).g.players.map (fun p => p.id)
      = g.players.map (fun p => p.id) := (sameRound_resolutionUpToLoot g now o).2
  have e : resolutionUpToLoot g now o =
      (fun g1 : Game => g1.board.buffs.foldl lootStep { g := g1, byPos := buildByPos g1.players })
        ((fun g0 : Game => (g0.players.map (fun p => p.id)).foldl (moveStep o) g0)
          ({ g with
            timerEnd := now + g.durations.resolution, phase := Phase.resolution,
            players := g.players.map revealNumber } : Game)) := rfl
  have hid1 : ((fun g0 : Game => (g0.players.map (fun p => p.id)).foldl (moveStep o) g0)
      ({ g with
        timerEnd := now + g.durations.resolution, phase := Phase.resolution,
        players := g.players.map revealNumber } : Game)).players.map (fun p => p.id)
      = g.players.map (fun p => p.id) := by
    have h1 := sameRound_foldl (moveStep o) (sameRound_moveStep o)
      (({ g with timerEnd := now + g.durations.resolution, phase := Phase.resolution,
                 players := g.players.map revealNumber } : Game).players.map (fun p => p.id))
      ({ g with timerEnd := now + g.durations.resolution, phase := Phase.resolution,
                players := g.players.map revealNumber } : Game)
    exact h1.2.trans (map_ids g.players revealNumber revealNumber_id)
  rw [e] at hids ⊢
  generalize ((fun g0 : Game => (g0.players.map (fun p => p.id)).foldl (moveStep o) g0)
      ({ g with
        timerEnd := now + g.durations.resolution, phase := Phase.resolution,
        players := g.players.map revealNumber } : Game)) = g1 at hid1 hids ⊢
  dsimp only at hids ⊢
  have hnd1 : (g1.players.map (fun p => p.id)).Nodup := by rw [hid1]; exact hnd
  obtain ⟨hk0, hf0⟩ := buildByPos_nodup g1.players hnd1
  have hinv := foldl_inv
    (fun acc : LootAcc => ((acc.byPos.map (fun e => e.1)).Nodup ∧
      (acc.byPos.flatMap (fun e => e.2)).Nodup) ∧
      ∀ en ∈ acc.byPos, ∀ id ∈ en.2, id ∈ g1.players.map (fun p => p.id))
    lootStep
    (fun b a hb => ⟨lootStep_nodup b a hb.1.1 hb.1.2, fun en hen id hid => by
      obtain ⟨e0, he0, hj⟩ := lootStep_byPos b a id en hen hid
      exact hb.2 e0 he0 id hj⟩)
    g1.board.buffs { g := g1, byPos := buildByPos g1.players }
    ⟨⟨hk0, hf0⟩, fun en hen id hid => by
      obtain ⟨p, hp, hpid, _⟩ := buildByPos_sound g1.players en id hen hid
      exact List.mem_map.mpr ⟨p, hp, hpid⟩⟩
  refine ⟨hinv.1.2, ?_⟩
  intro en hen id hid
  apply findP_isSome_of_mem_ids
  rw [hids, ← hid1]
  exact hinv.2 en hen id hid

/-- C37. Single-use consumables. Let `byPos` hold distinct ids, each in one occupant list and
each stored in the roster. After `resolveCombatsDetailed` a participant on a tile with at least
two occupants (a winner, a shield-saved loser or an eliminated loser) holds neither Sword nor
Warp nor Speed, and a participant on no such tile has the consumable and the shield-save flag
they had. In one combat a Shield consumable is still held afterwards exactly by those who are
not losers saved by their shield: winners and pierced or unshielded losers keep it. The `byPos`
that `startResolution` passes to `resolveCombatsDetailed` is of this kind whenever the roster
has one entry per connection id. -/
theorem C37_single_use_consumables (g : Game) (byPos : List (Pos × List SocketId))
    (hnd : (byPos.flatMap (fun e => e.2)).Nodup)
    (hstored : ∀ e ∈ byPos, ∀ id ∈ e.2, (findP g.players id).isSome = true)
    (j : SocketId) (p : Player) (hp : findP g.players j = some p) :
    (∃ p', findP (resolveCombatsDetailed g byPos).players j = some p' ∧
      ((∃ e ∈ byPos, j ∈ e.2 ∧ 2 ≤ e.2.length) →
        p'.buff ≠ some Item.SWORD ∧ p'.buff ≠ some Item.WARP ∧ p'.buff ≠ some Item.SPEED) ∧
      ((∀ e ∈ byPos, j ∈ e.2 → e.2.length ≤ 1) →
        p'.buff = p.buff ∧ p'.hasShield = p.hasShield)) ∧
    (∀ e ∈ byPos, 2 ≤ e.2.length →
      ∃ p1, findP (combatTile g e.2).players j = some p1 ∧
        (p1.buff = p.buff ∨ p1.buff = none) ∧
        (p.buff = some Item.SHIELD →
          (p1.buff = some Item.SHIELD ↔ j ∉ savedLosers g e.2))) ∧
    (∀ (s : Game) (now : Int) (o : Oracle), (s.players.map (fun q => q.id)).Nodup →
      ((resolutionUpToLoot s now o).byPos.flatMap (fun e => e.2)).Nodup ∧
      ∀ e ∈ (resolutionUpToLoot s now o).byPos, ∀ id ∈ e.2,
        (findP (resolutionUpToLoot s now o).g.players id).isSome = true) := by
  have hfound : ∀ e ∈ byPos, ∀ id ∈ e.2, ∃ p, findP g.players id = some p :=
    fun e he id hid => Option.isSome_iff_exists.mp (hstored e he id hid)
  refine ⟨resolveCombats_buffs byPos g hnd hfound j p hp, ?_,
    fun s now o h => resolution_byPos_wellformed s now o h⟩
  intro e he hlen
  have hs : CombatSetup g e.2 := by
    refine ⟨?_, hfound e he⟩
    have hsub : e.2.Sublist (byPos.flatMap (fun e => e.2)) :=
      List.sublist_flatten_of_mem (List.mem_map.mpr ⟨e, he, rfl⟩)
    exact hsub.nodup hnd
  obtain ⟨c, hc⟩ := combatTile_find g e.2 hs hlen j
  rw [hp] at hc
  obtain ⟨_, e2, _, e4⟩ := combatEffect_buff g e.2 j c p
  refine ⟨_, hc, e4, ?_⟩
  intro hb
  rw [e2 hb]
  unfold savedLosers
  rw [List.mem_filter]

set_option maxRecDepth 1000000 in
/-- Witness for C37: participant `a` of `exampleShieldGame` enters the combat on (1,1) with a
Sword and holds no Sword, Warp or Speed afterwards. -/
theorem C37_single_use_consumables_witness :
    ([(Pos.mk 1 1, ["a", "b", "d"])].flatMap (fun e => e.2)).Nodup ∧
    (findP exampleShieldGame.players "a").map (fun p => p.buff) = some (some Item.SWORD) ∧
    ∃ p', findP (resolveCombatsDetailed exampleShieldGame
        [(Pos.mk 1 1, ["a", "b", "d"])]).players "a" = some p' ∧
      ((∃ e ∈ [(Pos.mk 1 1, ["a", "b", "d"])], "a" ∈ e.2 ∧ 2 ≤ e.2.length) →
        p'.buff ≠ some Item.SWORD ∧ p'.buff ≠ some Item.WARP ∧ p'.buff ≠ some Item.SPEED) ∧
      ((∀ e ∈ [(Pos.mk 1 1, ["a", "b", "d"])], "a" ∈ e.2 → e.2.length ≤ 1) →
        p'.buff = ({ fighter "a" 4 with buff := some Item.SWORD } : Player).buff ∧
        p'.hasShield = ({ fighter "a" 4 with buff := some Item.SWORD } : Player).hasShield) :=
  ⟨by decide, by decide,
    (C37_single_use_consumables exampleShieldGame [(Pos.mk 1 1, ["a", "b", "d"])] (by decide)
      (by decide) "a" { fighter "a" 4 with buff := some Item.SWORD } (by decide)).1⟩

theorem allSix_of_find_none (used : List Int) (l : List Int)
    (hl : ∀ m : Int, 1 ≤ m → m ≤ 6 → m ∈ l)
    (h : l.find? (fun n => !decide (n ∈ used)) = none) : allSix used := by
  intro m h1 h2
  have := List.find?_eq_none.mp h m (hl m h1 h2)
  simpa using this

theorem numOK_startMovementPlayer (o : Oracle) (p : Player) (h : NumOK p) :
    NumOK (startMovementPlayer o p) := by
  have hdesc : ∀ m : Int, 1 ≤ m → m ≤ 6 → m ∈ ([6, 5, 4, 3, 2, 1] : List Int) := by
    intro m h1 h2
    have : m = 1 ∨ m = 2 ∨ m = 3 ∨ m = 4 ∨ m = 5 ∨ m = 6 := by omega
    rcases this with e | e | e | e | e | e <;> rw [e] <;> decide
  have hasc : ∀ m : Int, 1 ≤ m → m ≤ 6 → m ∈ ([1, 2, 3, 4, 5, 6] : List Int) := by
    intro m h1 h2
    have : m = 1 ∨ m = 2 ∨ m = 3 ∨ m = 4 ∨ m = 5 ∨ m = 6 := by omega
    rcases this with e | e | e | e | e | e <;> rw [e] <;> decide
  have hrange : ∀ (l : List Int), (∀ x ∈ l, 1 ≤ x ∧ x ≤ 6) → ∀ n,
      l.find? (fun n => !decide (n ∈ p.usedNumbers)) = some n →
      (1 ≤ n ∧ n ≤ 6) ∧ (n ∉ p.usedNumbers ∨ allSix p.usedNumbers) := by
    intro l hl n hn
    have h1 := List.find?_some hn
    have h2 := List.mem_of_find?_eq_some hn
    exact ⟨hl n h2, Or.inl (by simpa using h1)⟩
  have hd6 : ∀ x ∈ ([6, 5, 4, 3, 2, 1] : List Int), 1 ≤ x ∧ x ≤ 6 := by decide
  have ha6 : ∀ x ∈ ([1, 2, 3, 4, 5, 6] : List Int), 1 ≤ x ∧ x ≤ 6 := by decide
  unfold startMovementPlayer
  by_cases hsp : p.isSponsor = true
  · rw [if_pos hsp]
    intro n hn
    dsimp only at hn ⊢
    by_cases hno : noNumber p.selectedNumber = true
    · rw [if_pos hno] at hn
      cases hf : ([6, 5, 4, 3, 2, 1] : List Int).find? (fun n => !decide (n ∈ p.usedNumbers)) with
      | none =>
        rw [hf] at hn
        have e : n = MAX_NUMBER := (Option.some.inj hn).symm
        rw [e]
        exact ⟨by decide, Or.inr (allSix_of_find_none _ _ hdesc hf)⟩
      | some v =>
        rw [hf] at hn
        have e : v = n := Option.some.inj hn
        rw [← e]
        exact hrange _ hd6 v hf
    · rw [if_neg hno] at hn
      exact h n hn
  · rw [if_neg hsp]
    by_cases hal : (!p.isAlive) = true
    · rw [if_pos hal]; exact h
    · rw [if_neg hal]
      intro n hn
      dsimp only at hn ⊢
      by_cases hno : noNumber p.selectedNumber = true
      · rw [if_pos hno] at hn
        cases hf : ([1, 2, 3, 4, 5, 6] : List Int).find? (fun n => !decide (n ∈ p.usedNumbers)) with
        | none =>
          rw [hf] at hn
          have e : n = 1 + ((o.num p.id % 6 : Nat) : Int) := (Option.some.inj hn).symm
          have hlt : o.num p.id % 6 < 6 := Nat.mod_lt _ (by decide)
          refine ⟨by omega, Or.inr (allSix_of_find_none _ _ hasc hf)⟩
        | some v =>
          rw [hf] at hn
          have e : v = n := Option.some.inj hn
          rw [← e]
          exact hrange _ ha6 v hf
      · rw [if_neg hno] at hn
        exact h n hn

theorem numOK_of_same (p q : Player) (h1 : q.selectedNumber = p.selectedNumber)
    (h2 : q.usedNumbers = p.usedNumbers) (h : NumOK p) : NumOK q := by
  intro n hn
  rw [h2]
  exact h n (h1 ▸ hn)

theorem numOK_of_none (p : Player) (h : p.selectedNumber = none) : NumOK p := by
  intro n hn
  rw [h] at hn
  cases hn

theorem all_modP (Q : Player → Prop) (ps : List Player) (id : SocketId) (f : Player → Player)
    (h : ∀ p ∈ ps, Q p) (hf : ∀ p ∈ ps, Q (f p)) : ∀ p ∈ modP ps id f, Q p := by
  intro p hp
  unfold modP at hp
  obtain ⟨q, hq, e⟩ := List.mem_map.mp hp
  subst e
  split_ifs
  · exact hf q hq
  · exact h q hq

theorem all_rosterSet (Q : Player → Prop) (ps : List Player) (p : Player) (hp : Q p)
    (h : ∀ q ∈ ps, Q q) : ∀ q ∈ rosterSet ps p, Q q := by
  intro q hq
  rcases mem_rosterSet ps p q hq with e | e
  · rw [e]; exact hp
  · exact h q e

theorem numbersOK_frame (g g' : Game) (hph : g'.phase = g.phase)
    (hpl : (∀ q ∈ g.players, NumOK q) → ∀ p ∈ g'.players, NumOK p) (h : NumbersOK g) :
    NumbersOK g' := fun hp => hpl (h (hph ▸ hp))

theorem numbersOK_modPlayer (g : Game) (id : SocketId) (f : Player → Player)
    (h1 : ∀ p, (f p).selectedNumber = p.selectedNumber)
    (h2 : ∀ p, (f p).usedNumbers = p.usedNumbers) (h : NumbersOK g) :
    NumbersOK (g.modPlayer id f) :=
  numbersOK_frame g _ rfl
    (fun hq => all_modP NumOK g.players id f hq
      (fun p hp => numOK_of_same p (f p) (h1 p) (h2 p) (hq p hp))) h

theorem numbersOK_of_phase (g : Game)
    (h : g.phase = Phase.resolution ∨ g.phase = Phase.refresh ∨ g.phase = Phase.gameover) :
    NumbersOK g := by
  intro hp
  rcases h with h | h | h <;> rw [h] at hp <;> rcases hp with e | e | e <;> cases e

theorem foldl_modPlayer_all (T : Player → Prop) (F : Game → Player → Player)
    (hT : ∀ g p, T (F g p)) (ids : List SocketId) : ∀ (g : Game),
    ∀ p ∈ (ids.foldl (fun g id => g.modPlayer id (F g)) g).players,
      T p ∨ (p.id ∉ ids ∧ p ∈ g.players) := by
  induction ids with
  | nil => intro g p hp; exact Or.inr ⟨List.not_mem_nil _, hp⟩
  | cons id rest ih =>
    intro g p hp
    rw [List.foldl_cons] at hp
    rcases ih _ p hp with h | ⟨h1, h2⟩
    · exact Or.inl h
    · change p ∈ modP g.players id (F g) at h2
      unfold modP at h2
      obtain ⟨q, hq, e⟩ := List.mem_map.mp h2
      by_cases hid : q.id = id
      · rw [if_pos hid] at e
        rw [← e]
        exact Or.inl (hT g q)
      · rw [if_neg hid] at e
        subst e
        refine Or.inr ⟨?_, hq⟩
        intro hm
        rcases List.mem_cons.mp hm with e | e
        · exact hid e
        · exact h1 e

theorem reset_selected (g : Game) : ∀ p ∈ (reset g).players, p.selectedNumber = none := by
  intro p hp
  unfold reset at hp
  dsimp only at hp
  have h := foldl_modPlayer_all (fun p => p.selectedNumber = none)
    (fun g => resetPlayer (spawnPosition g)) (fun _ _ => rfl)
    (g.players.map (fun p => p.id)) { g with interval := false } p hp
  rcases h with h | ⟨h1, h2⟩
  · exact h
  · exact absurd (List.mem_map.mpr ⟨p, h2, rfl⟩) h1

theorem numbersOK_reset (g : Game) : NumbersOK (reset g) :=
  fun _ p hp => numOK_of_none p (reset_selected g p hp)

theorem respawnStep_selected (r : Nat) (acc : RespawnAcc) (id : SocketId)
    (h : ∀ p ∈ acc.g.players, p.selectedNumber = none) :
    ∀ p ∈ (respawnStep r acc id).g.players, p.selectedNumber = none := by
  unfold respawnStep
  cases findP acc.g.players id with
  | none => exact h
  | some p =>
    dsimp only
    split_ifs
    · exact h
    · cases acc.shuffled.getLast? with
      | none => exact h
      | some spot =>
        exact all_modP (fun p => p.selectedNumber = none) acc.g.players id (respawnPlayer spot) h
          (fun q hq => h q hq)
    · exact h

theorem advanceToNumber_selected (g : Game) (now : Int) (o : Oracle) :
    ∀ p ∈ (advanceToNumber g now o).players, p.selectedNumber = none := by
  unfold advanceToNumber tryRespawnsForRound
  dsimp only
  refine foldl_inv (fun acc : RespawnAcc => ∀ p ∈ acc.g.players, p.selectedNumber = none) _
    (fun b a hb => respawnStep_selected _ b a hb) _ _ ?_
  intro p hp
  obtain ⟨q, _, e⟩ := List.mem_map.mp hp
  rw [← e]
  rfl

theorem numbersOK_advanceToNumber (g : Game) (now : Int) (o : Oracle) :
    NumbersOK (advanceToNumber g now o) :=
  fun _ p hp => numOK_of_none p (advanceToNumber_selected g now o p hp)

theorem numbersOK_startMovement (g : Game) (now : Int) (o : Oracle)
    (hph : g.phase = Phase.number) (h : NumbersOK g) : NumbersOK (startMovement g now o) := by
  intro _ p hp
  obtain ⟨q, hq, e⟩ := List.mem_map.mp hp
  rw [← e]
  exact numOK_startMovementPlayer o q (h (Or.inr (Or.inl hph)) q hq)

theorem numbersOK_advancePhase (g : Game) (now : Int) (o : Oracle) (h : NumbersOK g) :
    NumbersOK (advancePhase g now o) := by
  unfold advancePhase
  cases hph : g.phase
  · exact h
  · exact numbersOK_startMovement g now o hph h
  · exact numbersOK_of_phase _ (Or.inl (sameRound_startResolution g now o).phase)
  · dsimp only
    split_ifs
    · rcases (startRefresh_phase g now o).2 with e | e
      · exact numbersOK_of_phase _ (Or.inr (Or.inl e))
      · exact numbersOK_of_phase _ (Or.inr (Or.inr e.1))
    · exact numbersOK_advanceToNumber g now o
  · exact numbersOK_advanceToNumber g now o
  · exact h

theorem numbersOK_tick (g : Game) (now : Int) (o : Oracle) (h : NumbersOK g) :
    NumbersOK (tick g now o) := by
  unfold tick
  split_ifs
  · exact h
  · exact numbersOK_advancePhase g now o h
  · exact h

theorem clamp_range (n lo hi : Int) (h : lo ≤ hi) : lo ≤ clamp n lo hi ∧ clamp n lo hi ≤ hi := by
  unfold clamp
  omega

theorem numbersOK_pickNumber (g : Game) (sid : SocketId) (n : Int)
    (hnd : (g.players.map (fun x => x.id)).Nodup) (h : NumbersOK g) :
    NumbersOK (pickNumber g sid n) := by
  unfold pickNumber
  cases hf : findP g.players sid with
  | none => exact h
  | some p =>
    dsimp only
    split_ifs with h1 h2 h3
    · exact h
    · exact h
    · exact h
    · refine numbersOK_frame g _ rfl (fun hq => ?_) h
      intro q hq2
      change q ∈ modP g.players sid _ at hq2
      unfold modP at hq2
      obtain ⟨r, hr, e⟩ := List.mem_map.mp hq2
      by_cases hid : r.id = sid
      · rw [if_pos hid] at e
        rw [← e]
        intro m hm
        have em : clamp n 1 MAX_NUMBER = m := Option.some.inj hm
        rw [← em]
        have hfr := findP_of_mem_nodup g.players r hnd hr
        rw [hid, hf] at hfr
        have hrp : p = r := Option.some.inj hfr
        refine ⟨clamp_range n 1 MAX_NUMBER (by decide), Or.inl ?_⟩
        rw [← hrp]
        exact h3
      · rw [if_neg hid] at e
        rw [← e]
        exact hq r hr

theorem numbersOK_moveTo (g : Game) (sid : SocketId) (x y : Int) (h : NumbersOK g) :
    NumbersOK (moveTo g sid x y) := by
  unfold moveTo
  cases findP g.players sid with
  | none => exact h
  | some p =>
    dsimp only
    split_ifs
    all_goals first
      | exact h
      | exact numbersOK_modPlayer g sid _ (fun _ => rfl) (fun _ => rfl) h

theorem numbersOK_sponsorPick (g : Game) (sid : SocketId) (t : Option SocketId)
    (h : NumbersOK g) : NumbersOK (sponsorPick g sid t) := by
  unfold sponsorPick
  cases findP g.players sid with
  | none => exact h
  | some p =>
    dsimp only
    split_ifs
    all_goals first
      | exact h
      | exact numbersOK_modPlayer g sid _ (fun _ => rfl) (fun _ => rfl) h

theorem numbersOK_join (g g' : Game) (p' : Player) (sid : SocketId)
    (name : JSString) (color clientId pin : String) (a : Bool) (newPin : String)
    (lower : JSString → JSString)
    (hj : joinOrReconnect g sid name color clientId pin a newPin lower = some (g', p'))
    (h : NumbersOK g) : NumbersOK g' := by
  refine numbersOK_frame g g' (joinOrReconnect_phase g g' p' sid name color clientId pin a newPin lower hj)
    (fun hq => ?_) h
  unfold joinOrReconnect at hj
  cases hf : findPlayerByClientOrPin g clientId pin a with
  | none =>
    rw [hf] at hj
    dsimp only at hj
    split at hj
    · cases hj
    · cases hj
      exact all_rosterSet NumOK _ _ (numOK_of_none _ rfl) hq
  | some p =>
    rw [hf] at hj
    dsimp only at hj
    cases hj
    have hp : NumOK p := hq p (findByClientOrPin_mem g clientId pin a p hf)
    exact all_rosterSet NumOK _ _ (numOK_of_same p _ rfl rfl hp)
      (fun q hq2 => hq q (List.mem_of_mem_filter hq2))

theorem numbersOK_step (g g' : Game) (c : Cmd) (hs : step g c = some g')
    (hst : c.isStart = true →
      g.phase = Phase.pregame ∨ g.phase = Phase.number ∨ g.phase = Phase.movement)
    (hnd : (g.players.map (fun x => x.id)).Nodup) (h : NumbersOK g) : NumbersOK g' := by
  cases c with
  | hostJoin sid => cases hs; exact h
  | hostConfig size durations =>
    simp only [step, Option.some.injEq] at hs
    subst hs
    cases durations <;> cases size <;> dsimp only <;> try split_ifs
    all_goals exact h
  | hostStart size now =>
    cases hs
    have hall := h (hst rfl)
    intro _
    unfold startGame
    cases size with
    | none => exact hall
    | some n =>
      dsimp only
      split_ifs
      · exact hall
      · exact hall
  | hostReset => cases hs; exact numbersOK_reset g
  | hostEndPhase now => cases hs; exact h
  | hostEndRound now o => cases hs; exact numbersOK_advancePhase g now o h
  | hostEndGame now => cases hs; exact numbersOK_of_phase _ (Or.inr (Or.inr rfl))
  | hostPaint x y mode value =>
    cases hs
    exact numbersOK_frame g _ (hostPaint_phase g x y mode value)
      (fun hq => by rw [hostPaint_players]; exact hq) h
  | hostClearGhosts =>
    cases hs
    exact numbersOK_frame g _ rfl (fun hq p hp => hq p (List.mem_of_mem_filter hp)) h
  | hostTogglePause now =>
    cases hs
    unfold togglePause
    split_ifs
    · exact h
    · exact h
  | hostSetColor pid color =>
    cases hs
    exact numbersOK_modPlayer g pid _ (fun _ => rfl) (fun _ => rfl) h
  | hostKick pid =>
    cases hs
    refine numbersOK_frame g _ (kick_phase g pid) (fun hq => ?_) h
    unfold kick
    cases findP g.players pid with
    | none => exact hq
    | some p => exact fun q hq2 => hq q (List.mem_of_mem_filter hq2)
  | hostUpdateSettings d => cases hs; exact h
  | hostBoardSize size =>
    simp only [step, Option.some.injEq] at hs
    subst hs
    split_ifs
    · exact h
    · exact h
  | join sid name color clientId pin a newPin lower =>
    simp only [step, Option.map_eq_some'] at hs
    obtain ⟨r, hr, rfl⟩ := hs
    exact numbersOK_join g r.1 r.2 sid name color clientId pin a newPin lower hr h
  | pickNumber sid n => cases hs; exact numbersOK_pickNumber g sid n hnd h
  | moveTo sid x y => cases hs; exact numbersOK_moveTo g sid x y h
  | sponsorPick sid t => cases hs; exact numbersOK_sponsorPick g sid t h
  | disconnect sid =>
    cases hs
    exact numbersOK_modPlayer g sid _ (fun _ => rfl) (fun _ => rfl) h
  | tick now o =>
    simp only [step, Option.some.injEq] at hs
    subst hs
    split_ifs
    · exact numbersOK_tick g now o h
    · exact h

theorem numbersOK_run (cmds : List Cmd) : ∀ (g g' : Game), run g cmds = some g' →
    startsInPlay g cmds = true → RosterOK g.players → NumbersOK g → NumbersOK g' := by
  induction cmds with
  | nil =>
    intro g g' hr _ _ h
    simp only [run, Option.some.injEq] at hr
    subst hr
    exact h
  | cons c cs ih =>
    intro g g' hr hst hro h
    unfold run at hr
    unfold startsInPlay at hst
    cases hstep : step g c with
    | none => rw [hstep] at hr; cases hr
    | some g1 =>
      rw [hstep] at hr hst
      rw [Bool.and_eq_true] at hst
      refine ih g1 g' hr hst.2 (inv_step g g1 c hstep hro)
        (numbersOK_step g g1 c hstep (fun hc => ?_) hro.1 h)
      have h1 := hst.1
      rw [hc] at h1
      simpa using h1

theorem sameNumbers_refl (g : Game) : SameNumbers g g := rfl

theorem sameNumbers_trans {g g' g'' : Game} (h1 : SameNumbers g g') (h2 : SameNumbers g' g'') :
    SameNumbers g g'' := Eq.trans h2 h1

theorem map_numKey (ps : List Player) (F : Player → Player) (hF : ∀ p, numKey (F p) = numKey p) :
    (ps.map F).map numKey = ps.map numKey := by
  rw [List.map_map]
  apply List.map_congr_left
  intro p _
  exact hF p

theorem sameNumbers_map (g : Game) (F : Player → Player) (hF : ∀ p, numKey (F p) = numKey p) :
    SameNumbers g { g with players := g.players.map F } :=
  map_numKey g.players F hF

theorem sameNumbers_modPlayer (g : Game) (id : SocketId) (f : Player → Player)
    (hf : ∀ p, numKey (f p) = numKey p) : SameNumbers g (g.modPlayer id f) := by
  show (modP g.players id f).map numKey = g.players.map numKey
  unfold modP
  rw [List.map_map]
  apply List.map_congr_left
  intro p _
  simp only [Function.comp]
  split_ifs
  · exact hf p
  · rfl

theorem awardFun_numKey (pid : SocketId) (a : Int) (m : Bool) (x : Player) :
    numKey (awardFun pid a m x) = numKey x := by
  unfold awardFun
  cases m <;> dsimp only <;> split_ifs <;> rfl

theorem eorFun_numKey (g : Game) (pid : SocketId) (x : Player) :
    numKey (eorFun g pid x) = numKey x := by
  unfold eorFun
  cases findP g.players pid with
  | none => rfl
  | some p =>
    dsimp only
    cases p.pos <;> dsimp only <;> split_ifs <;> simp [awardFun_numKey]

theorem sameNumbers_awardVP (g : Game) (pid : SocketId) (a : Int) (m : Bool) :
    SameNumbers g (awardVP g pid a m) := by
  rw [awardVP_eq]
  exact sameNumbers_map g _ (awardFun_numKey pid a m)

theorem sameNumbers_foldl {α : Type} (f : Game → α → Game) (h : ∀ g a, SameNumbers g (f g a))
    (l : List α) (g : Game) : SameNumbers g (l.foldl f g) :=
  foldl_inv (fun g' : Game => SameNumbers g g') f (fun b a hb => sameNumbers_trans hb (h b a)) l g
    (sameNumbers_refl g)

theorem sameNumbers_returnSeal (g : Game) (id : SocketId) :
    SameNumbers g (returnSeal g id) := by
  unfold returnSeal
  cases findP g.players id with
  | none => exact sameNumbers_refl g
  | some L =>
    dsimp only
    split_ifs
    · exact sameNumbers_modPlayer g id clearSeal (fun _ => rfl)
    · exact sameNumbers_refl g

theorem sameNumbers_eliminate (g : Game) (id : SocketId) : SameNumbers g (eliminate g id) :=
  sameNumbers_trans (sameNumbers_modPlayer g id (ascend g.round) (fun _ => rfl))
    (sameNumbers_returnSeal _ id)

theorem sameNumbers_eliminateNoMoves (g : Game) (id : SocketId) :
    SameNumbers g (eliminateNoMoves g id) :=
  sameNumbers_trans
    (sameNumbers_trans (sameNumbers_modPlayer g id (ascend g.round) (fun _ => rfl))
      (sameNumbers_returnSeal _ id))
    (sameNumbers_modPlayer _ id (fun p => { p with vpDelta := 0 }) (fun _ => rfl))

theorem sameNumbers_loserStep (sw : Bool) (acc : LoserAcc) (l : SocketId) :
    SameNumbers acc.g (loserStep sw acc l).g := by
  unfold loserStep
  cases findP acc.g.players l with
  | none => exact sameNumbers_refl _
  | some L =>
    dsimp only
    split_ifs
    · exact sameNumbers_modPlayer _ l consumeShield (fun _ => rfl)
    · exact sameNumbers_eliminate _ l

theorem sameNumbers_awardElimination (g : Game) (ws vs : List SocketId) :
    SameNumbers g (awardEliminationRenownFlat g ws vs) := by
  unfold awardEliminationRenownFlat
  dsimp only
  split_ifs
  · exact sameNumbers_refl g
  · apply sameNumbers_foldl
    intro b w
    cases findP b.players w with
    | none => exact sameNumbers_refl b
    | some _ => exact sameNumbers_awardVP b w _ true

theorem sameNumbers_combatBranch (g : Game) (ws ls : List SocketId) :
    SameNumbers g (combatBranch g ws ls) := by
  unfold combatBranch
  dsimp only
  have h1 : SameNumbers g (ls.foldl (loserStep (swordInPlay g ws))
      { g := g, victimsForVP := [], defeated := [] }).g :=
    foldl_inv (fun acc : LoserAcc => SameNumbers g acc.g) _
      (fun b a hb => sameNumbers_trans hb (sameNumbers_loserStep _ b a)) ls _ (sameNumbers_refl g)
  generalize ls.foldl (loserStep (swordInPlay g ws))
      { g := g, victimsForVP := [], defeated := [] } = acc at h1 ⊢
  generalize (if acc.victimsForVP.isEmpty then acc.defeated else acc.victimsForVP) = vs
  have h2 := sameNumbers_trans h1 (sameNumbers_awardElimination acc.g ws vs)
  by_cases hd : acc.defeated.isEmpty = true
  · rw [if_pos hd]; exact h2
  · rw [if_neg hd]
    exact sameNumbers_trans h2 (sameNumbers_foldl _
      (fun b w => sameNumbers_modPlayer b w (addKills _) (fun _ => rfl)) ws _)

theorem consumeEncounterBuff_numKey (p : Player) :
    numKey (consumeEncounterBuff p) = numKey p := by
  unfold consumeEncounterBuff
  split_ifs <;> rfl

theorem sameNumbers_combatTile (g : Game) (ids : List SocketId) :
    SameNumbers g (combatTile g ids) := by
  unfold combatTile
  split_ifs
  · exact sameNumbers_refl g
  · dsimp only
    have h1 : SameNumbers g (if (combatWinners g ids).length > 1 then
        combatBranch g (combatWinners g ids) (combatLosers g ids)
        else if (combatWinners g ids).length = 1 then
          combatBranch g (combatWinners g ids) (combatLosers g ids) else g) := by
      split_ifs
      · exact sameNumbers_combatBranch g _ _
      · exact sameNumbers_combatBranch g _ _
      · exact sameNumbers_refl g
    exact sameNumbers_trans h1 (sameNumbers_foldl
      (fun (b : Game) (v : SocketId × Int) => b.modPlayer v.1 consumeEncounterBuff)
      (fun b v => sameNumbers_modPlayer b v.1 _ consumeEncounterBuff_numKey) _ _)

theorem sameNumbers_resolveCombats (g : Game) (byPos : List (Pos × List SocketId)) :
    SameNumbers g (resolveCombatsDetailed g byPos) :=
  sameNumbers_foldl (fun (b : Game) (e : Pos × List SocketId) => combatTile b e.2)
    (fun b e => sameNumbers_combatTile b e.2) byPos g

theorem sameNumbers_moveStep (o : Oracle) (g : Game) (id : SocketId) :
    SameNumbers g (moveStep o g id) := by
  unfold moveStep
  cases findP g.players id with
  | none => exact sameNumbers_refl g
  | some p =>
    dsimp only
    by_cases h1 : (!p.isAlive || p.isSponsor || p.pos.isNone) = true
    · rw [if_pos h1]; exact sameNumbers_refl g
    · rw [if_neg h1]
      by_cases h2 : (validMovesFor g p).isEmpty = true
      · rw [if_pos h2]; exact sameNumbers_eliminateNoMoves g id
      · rw [if_neg h2]
        split
        · exact sameNumbers_modPlayer g id _ (fun _ => rfl)
        · exact sameNumbers_refl g

theorem sameNumbers_applyLoot (g : Game) (w : SocketId) (code : Item) :
    SameNumbers g (applyLoot g w code) := by
  unfold applyLoot
  cases code
  all_goals first
    | exact sameNumbers_refl g
    | exact sameNumbers_awardVP g w _ false
    | exact sameNumbers_modPlayer g w _ (fun _ => rfl)

theorem sameNumbers_lootPickup (g : Game) (k2 : Pos) (code : Item) (w : SocketId) :
    SameNumbers g (lootPickup g k2 code w) := by
  unfold lootPickup
  cases findP g.players w with
  | none => exact sameNumbers_refl g
  | some p =>
    dsimp only
    split_ifs
    · exact sameNumbers_refl g
    · exact sameNumbers_applyLoot g w code

theorem sameNumbers_lootStep (acc : LootAcc) (e : Pos × Item) :
    SameNumbers acc.g (lootStep acc e).g := by
  unfold lootStep
  dsimp only
  split
  · exact sameNumbers_refl _
  · exact sameNumbers_lootPickup _ _ _ _
  · split
    · exact sameNumbers_refl _
    · exact sameNumbers_lootPickup _ _ _ _

theorem sameNumbers_fireStep (g : Game) (id : SocketId) : SameNumbers g (fireStep g id) := by
  unfold fireStep
  cases findP g.players id with
  | none => exact sameNumbers_refl g
  | some p =>
    dsimp only
    split_ifs
    · exact sameNumbers_refl g
    · cases p.pos with
      | none => exact sameNumbers_refl g
      | some k =>
        dsimp only
        split_ifs
        · exact sameNumbers_eliminate g id
        · exact sameNumbers_refl g

theorem sameNumbers_autoSponsor (o : Oracle) (g : Game) : SameNumbers g (autoSponsor o g) := by
  unfold autoSponsor
  dsimp only
  split_ifs
  · exact sameNumbers_refl g
  · apply sameNumbers_foldl
    intro b s
    split
    · exact sameNumbers_modPlayer b s.id _ (fun _ => rfl)
    · exact sameNumbers_refl b

theorem sameNumbers_endOfRoundStep (g : Game) (pid : SocketId) :
    SameNumbers g (endOfRoundStep g pid) := by
  rw [endOfRoundStep_eq]
  exact sameNumbers_map g _ (eorFun_numKey g pid)

theorem sameNumbers_awardEndOfRoundVPs (g : Game) : SameNumbers g (awardEndOfRoundVPs g) :=
  sameNumbers_foldl endOfRoundStep sameNumbers_endOfRoundStep _ g

theorem consumeRespawnWarp_numKey (p : Player) : numKey (consumeRespawnWarp p) = numKey p := by
  unfold consumeRespawnWarp
  split_ifs <;> rfl

theorem sameNumbers_resolutionUpToLoot (g : Game) (now : Int) (o : Oracle) :
    SameNumbers
      { g with timerEnd := now + g.durations.resolution, phase := Phase.resolution,
               players := g.players.map revealNumber }
      (resolutionUpToLoot g now o).g := by
  unfold resolutionUpToLoot
  dsimp only
  have h1 := sameNumbers_foldl (moveStep o) (sameNumbers_moveStep o)
    (({ g with timerEnd := now + g.durations.resolution, phase := Phase.resolution,
               players := g.players.map revealNumber } : Game).players.map (fun p => p.id))
    ({ g with timerEnd := now + g.durations.resolution, phase := Phase.resolution,
              players := g.players.map revealNumber } : Game)
  exact foldl_inv
    (fun acc : LootAcc => SameNumbers
      { g with timerEnd := now + g.durations.resolution, phase := Phase.resolution,
               players := g.players.map revealNumber } acc.g)
    lootStep (fun b a hb => sameNumbers_trans hb (sameNumbers_lootStep b a)) _ _ h1

theorem sameNumbers_resolutionCore (g : Game) (now : Int) (o : Oracle) :
    SameNumbers
      { g with timerEnd := now + g.durations.resolution, phase := Phase.resolution,
               players := g.players.map revealNumber }
      (resolutionCore g now o) := by
  have h2 := sameNumbers_resolutionUpToLoot g now o
  have h3 := sameNumbers_trans h2
    (sameNumbers_resolveCombats _ (resolutionUpToLoot g now o).byPos)
  have h4 := sameNumbers_trans h3 (sameNumbers_foldl fireStep sameNumbers_fireStep
    ((resolveCombatsDetailed (resolutionUpToLoot g now o).g
      (resolutionUpToLoot g now o).byPos).players.map (fun p => p.id)) _)
  have h5 := sameNumbers_trans h4 (sameNumbers_autoSponsor o _)
  have h6 := sameNumbers_trans h5 (sameNumbers_map _ consumeRespawnWarp consumeRespawnWarp_numKey)
  exact sameNumbers_trans h6 (sameNumbers_awardEndOfRoundVPs _)

theorem startResolution_numbers (g : Game) (now : Int) (o : Oracle) :
    (startResolution g now o).players.map numKey
      = g.players.map (fun p => numKey (revealNumber p)) := by
  rw [startResolution_core]
  have h := sameNumbers_resolutionCore g now o
  have h0 : (g.players.map revealNumber).map numKey
      = g.players.map (fun p => numKey (revealNumber p)) := by
    rw [List.map_map]
    rfl
  exact Eq.trans h h0

theorem startRefresh_players (g : Game) (now : Int) (o : Oracle) :
    (startRefresh g now o).players = (refreshStart g).players := by
  by_cases hf : g.board.fire = []
  · rw [startRefresh_seeding g now o hf]
    split_ifs <;> rfl
  · rw [startRefresh_expand g now o hf]
    split_ifs <;> rfl

theorem findP_of_map_numKey (F : Player → Player) : ∀ (ps ps' : List Player),
    ps'.map numKey = ps.map (fun p => numKey (F p)) →
    ∀ (id : SocketId) (p p' : Player), (∀ q, (F q).id = q.id) →
      findP ps id = some p → findP ps' id = some p' → numKey p' = numKey (F p) := by
  intro ps
  induction ps with
  | nil => intro ps' _ id p p' _ hp; cases hp
  | cons a t ih =>
    intro ps' h id p p' hF hp hp'
    cases ps' with
    | nil => cases hp'
    | cons b u =>
      simp only [List.map_cons, List.cons.injEq] at h
      obtain ⟨hab, htu⟩ := h
      have hid : b.id = a.id := by
        have := congrArg (fun k => k.1) hab
        exact this.trans (hF a)
      unfold findP at hp hp'
      rw [List.find?_cons] at hp hp'
      by_cases ha : a.id = id
      · have h1 : (a.id == id) = true := by simp [ha]
        have h2 : (b.id == id) = true := by simp [hid, ha]
        rw [h1] at hp
        rw [h2] at hp'
        cases hp
        cases hp'
        exact hab
      · have h1 : (a.id == id) = false := by simp [ha]
        have h2 : (b.id == id) = false := by simp [hid, ha]
        rw [h1] at hp
        rw [h2] at hp'
        exact ih u htu id p p' hF hp hp'

theorem startMovementPlayer_used (o : Oracle) (p : Player) :
    (startMovementPlayer o p).id = p.id ∧
    (startMovementPlayer o p).usedNumbers = p.usedNumbers := by
  unfold startMovementPlayer
  split_ifs <;> exact ⟨rfl, rfl⟩

theorem sameNumbers_respawnStep (r : Nat) (acc : RespawnAcc) (id : SocketId) :
    SameNumbers acc.g (respawnStep r acc id).g := by
  unfold respawnStep
  cases findP acc.g.players id with
  | none => exact sameNumbers_refl _
  | some p =>
    dsimp only
    split_ifs
    · exact sameNumbers_refl _
    · cases acc.shuffled.getLast? with
      | none => exact sameNumbers_refl _
      | some spot => exact sameNumbers_modPlayer acc.g id (respawnPlayer spot) (fun _ => rfl)
    · exact sameNumbers_refl _

theorem advanceToNumber_numbers (g : Game) (now : Int) (o : Oracle) :
    (advanceToNumber g now o).players.map numKey
      = g.players.map (fun p => numKey (clearRoundFlags p)) := by
  unfold advanceToNumber tryRespawnsForRound
  dsimp only
  have h := foldl_inv
    (fun acc : RespawnAcc => SameNumbers
      { g with phase := Phase.number, round := g.round + 1,
               players := g.players.map clearRoundFlags } acc.g)
    (respawnStep (g.round + 1))
    (fun b a hb => sameNumbers_trans hb (sameNumbers_respawnStep _ b a))
    (({ g with phase := Phase.number, round := g.round + 1,
               players := g.players.map clearRoundFlags } : Game).players.map (fun p => p.id))
    { g := { g with phase := Phase.number, round := g.round + 1,
                    players := g.players.map clearRoundFlags },
      shuffled := shuffle o.shuffleA ((edgeTilesOfBoard g.size).filter (fun t =>
        !decide (t ∈ g.board.fire) &&
          !decide (t ∈ occupiedTiles (g.players.map clearRoundFlags)))) }
    (sameNumbers_refl _)
  have h0 : (g.players.map clearRoundFlags).map numKey
      = g.players.map (fun p => numKey (clearRoundFlags p)) := by
    rw [List.map_map]
    rfl
  exact Eq.trans h h0

theorem history_advancePhase (g : Game) (now : Int) (o : Oracle)
    (id : SocketId) (p p' : Player) (hp : findP g.players id = some p)
    (hp' : findP (advancePhase g now o).players id = some p') :
    p'.usedNumbers = p.usedNumbers ∨
    (g.phase = Phase.movement ∧ p'.usedNumbers = (revealNumber p).usedNumbers) ∨
    (g.phase = Phase.resolution ∧ (g.round : Int) % g.settings.refreshEvery = 0 ∧
      (p.isAlive && !p.isSponsor) = true ∧ p'.usedNumbers = []) := by
  have hnum : findP (advanceToNumber g now o).players id = some p' →
      p'.usedNumbers = p.usedNumbers := by
    intro h
    have := findP_of_map_numKey clearRoundFlags g.players _ (advanceToNumber_numbers g now o)
      id p p' (fun _ => rfl) hp h
    exact congrArg (fun k => k.2.1) this
  unfold advancePhase at hp'
  cases hph : g.phase
  all_goals rw [hph] at hp'
  all_goals dsimp only at hp'
  · rw [hp] at hp'; cases hp'; exact Or.inl rfl
  · have e : findP (startMovement g now o).players id
        = (findP g.players id).map (startMovementPlayer o) :=
      findP_map_of_id g.players _ (fun q => (startMovementPlayer_used o q).1) id
    rw [e, hp] at hp'
    cases hp'
    exact Or.inl (startMovementPlayer_used o p).2
  · have := findP_of_map_numKey revealNumber g.players _ (startResolution_numbers g now o)
      id p p' revealNumber_id hp hp'
    exact Or.inr (Or.inl ⟨rfl, congrArg (fun k => k.2.1) this⟩)
  · split_ifs at hp' with hr
    · rw [startRefresh_players] at hp'
      have e : findP (refreshStart g).players id
          = (findP g.players id).map (fun p =>
              if p.isAlive && !p.isSponsor then { p with usedNumbers := [] } else p) :=
        findP_map_of_id g.players _ (fun q => by split_ifs <;> rfl) id
      rw [e, hp] at hp'
      simp only [Option.map_some', Option.some.injEq] at hp'
      by_cases ha : (p.isAlive && !p.isSponsor) = true
      · rw [if_pos ha] at hp'
        rw [← hp']
        exact Or.inr (Or.inr ⟨rfl, hr, ha, rfl⟩)
      · rw [if_neg ha] at hp'
        rw [← hp']
        exact Or.inl rfl
    · exact Or.inl (hnum hp')
  · exact Or.inl (hnum hp')
  · rw [hp] at hp'; cases hp'; exact Or.inl rfl

theorem history_modPlayer (g : Game) (sid : SocketId) (f : Player → Player)
    (id : SocketId) (p p' : Player) (hp : findP g.players id = some p)
    (hp' : findP (g.modPlayer sid f).players id = some p')
    (hid : ∀ q, (f q).id = q.id) (hu : ∀ q, (f q).usedNumbers = q.usedNumbers) :
    p'.usedNumbers = p.usedNumbers := by
  have e : findP (g.modPlayer sid f).players id
      = (findP g.players id).map (fun p => if id = sid then f p else p) :=
    findP_modP g.players sid id f hid
  rw [e, hp] at hp'
  simp only [Option.map_some', Option.some.injEq] at hp'
  rw [← hp']
  split_ifs
  · exact hu p
  · rfl

theorem findP_filter (ps : List Player) (c : Player → Bool) (id : SocketId) (p p' : Player)
    (hnd : (ps.map (fun x => x.id)).Nodup) (hp : findP ps id = some p)
    (hp' : findP (ps.filter c) id = some p') : p' = p := by
  have hm : p' ∈ ps := List.mem_of_mem_filter (findP_mem _ _ _ hp')
  have hid : p'.id = id := findP_id _ _ _ hp'
  have := findP_of_mem_nodup ps p' hnd hm
  rw [hid, hp] at this
  exact (Option.some.inj this).symm

theorem history_step (g g' : Game) (c : Cmd) (hs : step g c = some g')
    (hj : c.isJoin = false) (hr : c.isReset = false)
    (hnd : (g.players.map (fun x => x.id)).Nodup)
    (id : SocketId) (p p' : Player) (hp : findP g.players id = some p)
    (hp' : findP g'.players id = some p') :
    p'.usedNumbers = p.usedNumbers ∨
    (g.phase = Phase.movement ∧ p'.usedNumbers = (revealNumber p).usedNumbers) ∨
    (g.phase = Phase.resolution ∧ (g.round : Int) % g.settings.refreshEvery = 0 ∧
      (p.isAlive && !p.isSponsor) = true ∧ p'.usedNumbers = []) := by
  have same : g'.players = g.players → p'.usedNumbers = p.usedNumbers := by
    intro e
    rw [e, hp] at hp'
    cases hp'
    rfl
  have same2 : findP g.players id = some p' → p'.usedNumbers = p.usedNumbers := by
    intro e
    rw [hp] at e
    cases e
    rfl
  cases c with
  | hostJoin sid => cases hs; exact Or.inl (same rfl)
  | hostConfig size durations =>
    simp only [step, Option.some.injEq] at hs
    subst hs
    refine Or.inl (same ?_)
    cases durations <;> cases size <;> dsimp only <;> try split_ifs
    all_goals rfl
  | hostStart size now =>
    cases hs
    refine Or.inl (same ?_)
    unfold startGame
    cases size with
    | none => rfl
    | some n =>
      dsimp only
      split_ifs <;> rfl
  | hostReset => cases hr
  | hostEndPhase now => cases hs; exact Or.inl (same rfl)
  | hostEndRound now o => cases hs; exact history_advancePhase g now o id p p' hp hp'
  | hostEndGame now => cases hs; exact Or.inl (same rfl)
  | hostPaint x y mode value => cases hs; exact Or.inl (same (hostPaint_players g x y mode value))
  | hostClearGhosts =>
    cases hs
    have := findP_filter g.players _ id p p' hnd hp hp'
    rw [this]
    exact Or.inl rfl
  | hostTogglePause now =>
    cases hs
    refine Or.inl (same ?_)
    unfold togglePause
    split_ifs <;> rfl
  | hostSetColor pid color =>
    cases hs
    exact Or.inl (history_modPlayer g pid _ id p p' hp hp' (fun _ => rfl) (fun _ => rfl))
  | hostKick pid =>
    cases hs
    unfold kick at hp'
    cases hf : findP g.players pid with
    | none => rw [hf] at hp'; exact Or.inl (same2 hp')
    | some q =>
      rw [hf] at hp'
      have := findP_filter g.players _ id p p' hnd hp hp'
      rw [this]
      exact Or.inl rfl
  | hostUpdateSettings d => cases hs; exact Or.inl (same rfl)
  | hostBoardSize size =>
    simp only [step, Option.some.injEq] at hs
    subst hs
    refine Or.inl (same ?_)
    split_ifs <;> rfl
  | join sid name color clientId pin a newPin lower => cases hj
  | pickNumber sid n =>
    cases hs
    unfold pickNumber at hp'
    cases hf : findP g.players sid with
    | none => rw [hf] at hp'; exact Or.inl (same2 hp')
    | some q =>
      rw [hf] at hp'
      dsimp only at hp'
      split_ifs at hp'
      all_goals first
        | exact Or.inl (same2 hp')
        | exact Or.inl (history_modPlayer g sid _ id p p' hp hp' (fun _ => rfl) (fun _ => rfl))
  | moveTo sid x y =>
    cases hs
    unfold moveTo at hp'
    cases hf : findP g.players sid with
    | none => rw [hf] at hp'; exact Or.inl (same2 hp')
    | some q =>
      rw [hf] at hp'
      dsimp only at hp'
      split_ifs at hp'
      all_goals first
        | exact Or.inl (same2 hp')
        | exact Or.inl (history_modPlayer g sid _ id p p' hp hp' (fun _ => rfl) (fun _ => rfl))
  | sponsorPick sid t =>
    cases hs
    unfold sponsorPick at hp'
    cases hf : findP g.players sid with
    | none => rw [hf] at hp'; exact Or.inl (same2 hp')
    | some q =>
      rw [hf] at hp'
      dsimp only at hp'
      split_ifs at hp'
      all_goals first
        | exact Or.inl (same2 hp')
        | exact Or.inl (history_modPlayer g sid _ id p p' hp hp' (fun _ => rfl) (fun _ => rfl))
  | disconnect sid =>
    cases hs
    exact Or.inl (history_modPlayer g sid _ id p p' hp hp' (fun _ => rfl) (fun _ => rfl))
  | tick now o =>
    simp only [step, Option.some.injEq] at hs
    subst hs
    split_ifs at hp'
    · unfold tick at hp'
      split_ifs at hp'
      · exact Or.inl (same2 hp')
      · exact history_advancePhase g now o id p p' hp hp'
      · exact Or.inl (same2 hp')
    · exact Or.inl (same2 hp')

theorem history_join (g g' : Game) (r : Player) (sid : SocketId)
    (name : JSString) (color clientId pin : String) (a : Bool) (newPin : String)
    (lower : JSString → JSString)
    (hj : joinOrReconnect g sid name color clientId pin a newPin lower = some (g', r)) :
    ∀ q ∈ g'.players, q ∈ g.players ∨
      (∃ p ∈ g.players, q.usedNumbers = p.usedNumbers ∧ q.pin = p.pin ∧ q.name = p.name) ∨
      (∃ nm spot, q = { Player.new sid name color clientId newPin with
          name := nm, pos := some spot, connected := true }) := by
  unfold joinOrReconnect at hj
  cases hf : findPlayerByClientOrPin g clientId pin a with
  | none =>
    rw [hf] at hj
    dsimp only at hj
    split at hj
    · cases hj
    · rename_i nm hnm
      cases hj
      intro q hq
      rcases mem_rosterSet _ _ q hq with e | e
      · exact Or.inr (Or.inr ⟨nm, spawnPosition g, e⟩)
      · exact Or.inl e
  | some p =>
    rw [hf] at hj
    dsimp only at hj
    cases hj
    intro q hq
    rcases mem_rosterSet _ _ q hq with e | e
    · refine Or.inr (Or.inl ⟨p, findByClientOrPin_mem g clientId pin a p hf, ?_⟩)
      rw [e]
      exact ⟨rfl, rfl, rfl⟩
    · exact Or.inl (List.mem_of_mem_filter e)

set_option maxRecDepth 1000000 in
/-- C32, counterexample: a revealed number can already be in the history. With `refreshEvery`
set to 7 by the host and Ann never picking, the numbers 1..6 are filled in and revealed in
rounds 1..6; in round 7 the history holds all six, `startMovement` falls back to a random
number (1 with the zero oracle), and the reveal of round 7 shows 1 again; every start-game of
that run is issued in pregame. When the host issues start-game during the resolution of
round 1, the number 1 revealed there stays selected and is revealed a second time although the
history is `[1]`. And the host's reset in that resolution empties the history. -/
theorem C32_number_revealed_twice :
    numberView (sevenRoundCommands 18) =
      some (Phase.number, 7, [(true, none, some 6, [1, 2, 3, 4, 5, 6])]) ∧
    numberView (sevenRoundCommands 19) =
      some (Phase.movement, 7, [(true, some 1, some 6, [1, 2, 3, 4, 5, 6])]) ∧
    numberView (sevenRoundCommands 20) =
      some (Phase.resolution, 7, [(true, some 1, some 1, [1, 2, 3, 4, 5, 6])]) ∧
    startsInPlay (Game.new "room") (sevenRoundCommands 20) = true ∧
    numberView ((restartCommands 0).take 4) =
      some (Phase.resolution, 1, [(true, some 1, some 1, [1])]) ∧
    numberView (restartCommands 0) = some (Phase.number, 1, [(true, some 1, some 1, [1])]) ∧
    numberView (restartCommands 1) = some (Phase.movement, 1, [(true, some 1, some 1, [1])]) ∧
    numberView (restartCommands 2) =
      some (Phase.resolution, 1, [(true, some 1, some 1, [1])]) ∧
    startsInPlay (Game.new "room") (restartCommands 2) = false ∧
    numberView ((restartCommands 0).take 4 ++ [Cmd.hostReset]) =
      some (Phase.pregame, 0, [(true, none, some 1, [])]) :=
  ⟨rfl, rfl, rfl, by decide!, rfl, rfl, rfl, rfl, by decide!, rfl⟩

/-- C32 (amended). Let `g` be reached from a new Game by a run in which start-game is never
issued during resolution, refresh or gameover. If `g` is in phase movement (the phase from
which `startResolution` is entered), every participant with a number `n` selected has `n` in
[1,6], `n` is not in their history unless the history already holds all six numbers, and after
`startResolution` their last revealed number is `n` and their history is the old one with `n`
added. For every state, `pickNumber` stores `clamp(n,1,6)` when the caller is Alive, the phase
is number and that value is not in the caller's history, and otherwise changes nothing. A
command other than join and reset leaves the history of a participant as it is, except that
`startResolution` adds the revealed number and `startRefresh` empties the history of an Alive
participant; a join leaves every other record as it is, and the record it returns has the
history of a stored participant or is newly constructed. -/
theorem C32_numbers_not_repeated (room : String) (cmds : List Cmd) (g : Game)
    (hrun : run (Game.new room) cmds = some g)
    (hstart : startsInPlay (Game.new room) cmds = true) :
    (g.phase = Phase.movement → ∀ p ∈ g.players, ∀ n, p.selectedNumber = some n →
      (1 ≤ n ∧ n ≤ 6) ∧ (n ∉ p.usedNumbers ∨ allSix p.usedNumbers) ∧
      ∀ (now : Int) (o : Oracle), ∃ p',
        findP (startResolution g now o).players p.id = some p' ∧
        p'.lastRevealedNumber = some n ∧
        p'.usedNumbers = (if n ∈ p.usedNumbers then p.usedNumbers else p.usedNumbers ++ [n])) ∧
    (∀ (s : Game) (sid : SocketId) (k : Int),
      (∀ p, findP s.players sid = some p → p.isAlive = true → p.isSponsor = false →
        s.phase = Phase.number → clamp k 1 6 ∉ p.usedNumbers →
        pickNumber s sid k =
          s.modPlayer sid (fun q => { q with selectedNumber := some (clamp k 1 6) })) ∧
      (pickNumber s sid k ≠ s →
        ∃ p, findP s.players sid = some p ∧ p.isAlive = true ∧ p.isSponsor = false ∧
          s.phase = Phase.number ∧ clamp k 1 6 ∉ p.usedNumbers)) ∧
    (∀ (c : Cmd) (g' : Game), step g c = some g' → c.isJoin = false → c.isReset = false →
      ∀ (id : SocketId) (p p' : Player),
        findP g.players id = some p → findP g'.players id = some p' →
        p'.usedNumbers = p.usedNumbers ∨
        (g.phase = Phase.movement ∧ p'.usedNumbers = (revealNumber p).usedNumbers) ∨
        (g.phase = Phase.resolution ∧ (g.round : Int) % g.settings.refreshEvery = 0 ∧
          (p.isAlive && !p.isSponsor) = true ∧ p'.usedNumbers = [])) ∧
    (∀ (sid : SocketId) (name : JSString) (color clientId pin : String) (a : Bool) (newPin : String)
    (lower : JSString → JSString)
      (g' : Game) (r : Player),
      joinOrReconnect g sid name color clientId pin a newPin lower = some (g', r) →
      ∀ q ∈ g'.players, q ∈ g.players ∨
        (∃ p ∈ g.players, q.usedNumbers = p.usedNumbers ∧ q.pin = p.pin ∧ q.name = p.name) ∨
        (∃ nm spot, q = { Player.new sid name color clientId newPin with
            name := nm, pos := some spot, connected := true })) := by
  have h0 : RosterOK (Game.new room).players := ⟨List.nodup_nil, fun p hp => by cases hp⟩
  have hn0 : NumbersOK (Game.new room) := fun _ p hp => by cases hp
  have hinv := numbersOK_run cmds _ g hrun hstart h0 hn0
  have hro := inv_run cmds _ g hrun h0
  refine ⟨?_, ?_, ?_, ?_⟩
  · intro hph p hp n hn
    obtain ⟨h12, h3⟩ := hinv (Or.inr (Or.inr hph)) p hp n hn
    refine ⟨h12, h3, ?_⟩
    intro now o
    have hfind : findP g.players p.id = some p := findP_of_mem_nodup g.players p hro.1 hp
    have hsome : (findP (startResolution g now o).players p.id).isSome = true := by
      apply findP_isSome_of_mem_ids
      rw [(sameRound_startResolution g now o).2]
      exact List.mem_map.mpr ⟨p, hp, rfl⟩
    obtain ⟨p', hp'⟩ := Option.isSome_iff_exists.mp hsome
    have hk := findP_of_map_numKey revealNumber g.players _ (startResolution_numbers g now o)
      p.id p p' revealNumber_id hfind hp'
    have hu : p'.usedNumbers = (revealNumber p).usedNumbers := congrArg (fun k => k.2.1) hk
    have hl : p'.lastRevealedNumber = (revealNumber p).lastRevealedNumber :=
      congrArg (fun k => k.2.2.2) hk
    refine ⟨p', hp', ?_, ?_⟩
    · rw [hl]; unfold revealNumber; rw [hn]
    · rw [hu]; unfold revealNumber; rw [hn]
  · intro s sid k
    constructor
    · intro p hf ha hs hp hu
      unfold pickNumber
      rw [hf]
      dsimp only
      rw [ha, hs]
      rw [if_neg (by decide), if_neg (fun h => h hp)]
      exact if_neg hu
    · intro hne
      unfold pickNumber at hne
      cases hf : findP s.players sid with
      | none => rw [hf] at hne; exact absurd rfl hne
      | some p =>
        rw [hf] at hne
        dsimp only at hne
        split_ifs at hne with h1 h2 h3
        · exact absurd rfl hne
        · exact absurd rfl hne
        · exact absurd rfl hne
        · refine ⟨p, rfl, ?_, ?_, not_not.mp h2, h3⟩
          · cases ha : p.isAlive
            · rw [ha] at h1; exact absurd rfl h1
            · rfl
          · cases hs : p.isSponsor
            · rfl
            · rw [hs] at h1; simp at h1
  · intro c g' hs hj hr id p p' hp hp'
    exact history_step g g' c hs hj hr hro.1 id p p' hp hp'
  · intro sid name color clientId pin a newPin lower g' r hj
    exact history_join g g' r sid name color clientId pin a newPin lower hj

set_option maxRecDepth 1000000 in
/-- Witness for C32: after Ann joins, the game starts, Ann picks 4 and the phase is forced to
movement, Ann has 4 selected with an empty history, and `startResolution` reveals 4. -/
theorem C32_numbers_not_repeated_witness :
    run (Game.new "room") pickedCommands = some pickedGame ∧
    startsInPlay (Game.new "room") pickedCommands = true ∧
    pickedGame.phase = Phase.movement ∧
    numberView pickedCommands = some (Phase.movement, 1, [(true, some 4, none, [])]) ∧
    numberView (pickedCommands ++ [Cmd.hostEndRound 0 zeroOracle])
      = some (Phase.resolution, 1, [(true, some 4, some 4, [4])]) ∧
    ∀ p ∈ pickedGame.players, ∀ n, p.selectedNumber = some n →
      (1 ≤ n ∧ n ≤ 6) ∧ (n ∉ p.usedNumbers ∨ allSix p.usedNumbers) ∧
      ∀ (now : Int) (o : Oracle), ∃ p',
        findP (startResolution pickedGame now o).players p.id = some p' ∧
        p'.lastRevealedNumber = some n ∧
        p'.usedNumbers = (if n ∈ p.usedNumbers then p.usedNumbers else p.usedNumbers ++ [n]) :=
  ⟨rfl, by decide!, by decide!, rfl, rfl,
   (C32_numbers_not_repeated "room" pickedCommands pickedGame rfl (by decide!)).1 (by decide!)⟩

end Intersplice
